import Mathlib

/-!
# Virtual-terminal text console: a shallow embedding of `vt.c`

The definitions below transcribe the console core of the linuxconsole ("ruby")
tree: `ruby-2.6/drivers/char/vt.c` (namespace `VT`) and, where a claim is about
it, the older `ruby/linux/drivers/char/vt.c` (namespace `VT.Old`).

Conventions of the embedding

* C `unsigned int` / `int` values are `Nat` / `Int`; where the C code relies on
  32-bit wrap-around (`t + nr` in the region scrolls) the conversion is written
  out with `u32` / `s32`.
* Memory is a map from the byte address of a 16-bit cell to its value;
  `scr_writew` truncates to 16 bits.  Cell pointers (`u16 *`) advance by two
  bytes per cell.
* The display driver (`struct consw`) and the other collaborators that live
  outside the console core are parameters (`consw`, `Env`).  A driver call is
  recorded in the `trace` of the state together with its arguments.
-/

namespace VT

/-! ## Machine integers -/

/-- Conversion of a C integer expression to `unsigned int` (32 bits). -/
def u32 (n : Int) : Nat := (n % 4294967296).toNat

/-- Conversion of an `unsigned int` value to `int` (32 bits, two's complement). -/
def s32 (n : Nat) : Int :=
  if n % 4294967296 < 2147483648 then ((n % 4294967296 : Nat) : Int)
  else ((n % 4294967296 : Nat) : Int) - 4294967296

/-! ## Constants -/

/-- Bitmap of the codes below 32 that invoke a control action. -/
def CTRL_ACTION : Nat := 0x0d00ff81

/-- Bitmap of the control codes that `disp_ctrl` cannot override. -/
def CTRL_ALWAYS : Nat := 0x0800f501

/-- Upper limit of the column count accepted by `vc_resize`. -/
def VC_RESIZE_MAXCOL : Nat := 32767

/-- Upper limit of the row count accepted by `vc_resize`. -/
def VC_RESIZE_MAXROW : Nat := 32767

/-- Modelled from the spec: console mode `Text` (`KD_TEXT`) of `vc_mode`.  The
header with the C value is not among the sources; the value is the one of the
Linux headers and only tells the modes apart. -/
def KD_TEXT : Nat := 0

/-- Modelled from the spec: console mode `Graphics` (`KD_GRAPHICS`) of
`vc_mode`; header not among the sources, value as in the Linux headers. -/
def KD_GRAPHICS : Nat := 1

/-- Modelled from the spec: scroll direction up (`SM_UP`) handed to
`con_scroll_region`; header not among the sources, value as in the Linux
headers. -/
def SM_UP : Nat := 1

/-- Modelled from the spec: scroll direction down (`SM_DOWN`) handed to
`con_scroll_region`; header not among the sources, value as in the Linux
headers. -/
def SM_DOWN : Nat := 2

/-- Modelled from the spec: cursor mode `Draw` (`CM_DRAW`) handed to
`con_cursor`; header not among the sources, value as in the Linux headers. -/
def CM_DRAW : Nat := 1

/-- Modelled from the spec: cursor mode `Erase` (`CM_ERASE`) handed to
`con_cursor`; header not among the sources, value as in the Linux headers. -/
def CM_ERASE : Nat := 2

/-- Modelled from the spec: error number of `InvalidDimensions` (`EINVAL`);
header not among the sources, value as in the Linux headers. -/
def EINVAL : Int := 22

/-- Modelled from the spec: error number of `OutOfMemory` (`ENOMEM`); header
not among the sources, value as in the Linux headers. -/
def ENOMEM : Int := 12

/-! ## State -/

/-- One observable step of the console core: a call through the driver table
`sw` with its arguments, a call of a collaborator outside `vt.c`
(`console_blank_hook`, `clear_selection`, `change_console`), an operation on
the blank timer of the VT (`del_timer`, also for `del_timer_sync`, and
`mod_timer` with the interval added to `jiffies`), or (`glyph`) the store of
one character cell by the glyph placement of `do_con_write`.  The `glyph`
entries are an observation record; they correspond to no field of the C
structures.  A `terminal_emulation` entry is written by an environment that
records the codes handed to the escape-sequence interpreter. -/
inductive Event where
  | con_putcs (src count y x : Nat)
  | con_putc (c y x : Nat)
  | con_cursor (mode : Nat)
  | con_scroll_region (t b dir : Nat) (nr : Int)
  | con_bmove (sy sx dy dx h w : Nat)
  | con_resize (width height : Nat)
  | con_switch
  | con_set_origin
  | con_set_palette
  | glyph (pos val : Nat)
  | con_invert_region (p : Nat) (count : Int)
  | con_blank (blank : Int) (mode_switch : Nat)
  | con_scroll (lines : Int)
  | con_save_screen
  | console_blank_hook (arg : Nat)
  | clear_selection
  | change_console (new_vc old_vc : Nat)
  | del_timer
  | mod_timer (interval : Nat)
  | terminal_emulation (c : Int)
  deriving DecidableEq

/-- The console `struct vc_data`, restricted to the fields the modelled
functions read or write, together with the fields of its display
(`vc->display_fg`: `cursor_original`, `vt_blanked`, `kmalloced`), the value of
`IS_VISIBLE`, `tty->stopped`, the memory holding the cell buffers and the trace
of driver calls. -/
structure vc_data where
  vc_cols : Nat
  vc_rows : Nat
  vc_size_row : Nat
  vc_screenbuf : Nat
  vc_screenbuf_size : Nat
  vc_origin : Nat
  vc_visible_origin : Nat
  vc_scr_end : Nat
  vc_pos : Nat
  vc_x : Nat
  vc_y : Nat
  vc_top : Nat
  vc_bottom : Nat
  vc_state : Nat
  vc_mode : Nat
  vc_decom : Bool
  vc_decawm : Bool
  vc_irm : Bool
  vc_dectcem : Bool
  vc_decscnm : Bool
  vc_need_wrap : Bool
  vc_disp_ctrl : Bool
  vc_toggle_meta : Bool
  vc_utf : Bool
  vc_utf_count : Nat
  vc_utf_char : Nat
  vc_translate : Nat → Nat
  vc_attr : Nat
  vc_video_erase_char : Nat
  vc_color : Nat
  vc_ulcolor : Nat
  vc_halfcolor : Nat
  vc_intensity : Nat
  vc_blink : Bool
  vc_underline : Bool
  vc_reverse : Bool
  vc_can_do_color : Bool
  vc_hi_font_mask : Nat
  vc_cursor_type : Nat
  cursor_original : Int
  vt_blanked : Bool
  kmalloced : Bool
  is_visible : Bool
  tty_stopped : Bool
  mem : Nat → Nat
  trace : List Event

/-- Modelled from the spec: the capability table `struct consw` is declared in
a header that is not among the sources.  Following the driver contract of the
spec (section 4.6) an operation hands back its documented result only:
`con_scroll_region` whether it handled the scroll, `con_resize` an error or
zero, `con_switch` whether a full redraw is needed, `con_set_origin` the origin
it installed when it accepts, `con_build_attr` the attribute byte,
`con_screen_pos` the address of an offset, `con_blank` whether the origin has
to be reset, `con_invert_region` the memory with the region inverted.  Optional
operations (tested against NULL in `vt.c`) are `Option`s or, when only their
presence matters, `Bool`s. -/
structure consw where
  con_putcs : Bool
  con_scroll_region : vc_data → Nat → Nat → Nat → Int → Int
  con_build_attr : Option (vc_data → Nat → Nat → Bool → Bool → Bool → Nat)
  con_resize : Option (vc_data → Nat → Nat → Int)
  con_set_origin : Option (vc_data → Option Nat)
  con_switch : vc_data → Int
  con_set_palette : Bool
  con_getxy : Option (vc_data → Nat → Nat × Nat × Nat)
  con_screen_pos : Option (vc_data → Int → Nat)
  con_invert_region : Option (vc_data → Nat → Int → (Nat → Nat))
  con_blank : vc_data → Int → Nat → Int
  con_save_screen : Bool

/-- Collaborators of the console core that are defined outside `vt.c`: the
driver table `sw`, the Unicode to glyph lookup `conv_uni_to_pc` (consolemap.c)
through the lookup table of the console being written, the escape-sequence
interpreter `terminal_emulation` (vte.c) and the allocator `kmalloc` (`none`
is a NULL result). -/
structure Env where
  sw : consw
  conv_uni_to_pc : Nat → Int
  terminal_emulation : vc_data → Int → vc_data
  kmalloc : Nat → Option Nat

/-- Appends one event to the trace. -/
def emit (vc : vc_data) (e : Event) : vc_data :=
  { vc with trace := vc.trace ++ [e] }

/-- Appends the events `es` to the trace when `b` holds: the driver calls of a
block guarded by `b` (such as `if (DO_UPDATE) ...`). -/
def emit_if (b : Bool) (vc : vc_data) (es : List Event) : vc_data :=
  { vc with trace := if b then vc.trace ++ es else vc.trace }

/-! ## Cell memory -/

/-- Read of one 16-bit cell (`scr_readw`). -/
def scr_readw (mem : Nat → Nat) (addr : Nat) : Nat := mem addr % 65536

/-- Store of one 16-bit cell (`scr_writew`): the value is truncated to 16
bits. -/
def scr_writew (mem : Nat → Nat) (val addr : Nat) : Nat → Nat :=
  fun a => if a = addr then val % 65536 else mem a

/-- The loop `while (count--) scr_writew(c, s++)` over `n` cells. -/
def memsetw_loop (c : Nat) : (Nat → Nat) → Nat → Nat → (Nat → Nat)
  | mem, _, 0 => mem
  | mem, s, n + 1 => memsetw_loop c (scr_writew mem c s) (s + 2) n

/-- Modelled from the spec: `scr_memsetw` comes from the header vt_buffer.h,
which is not among the sources; it is the fill the spec describes ("fill the
newly exposed rows with eraseChar"), written as the usual cell loop over
`count / 2` cells (`count` is a byte count). -/
def scr_memsetw (mem : Nat → Nat) (s c count : Nat) : Nat → Nat :=
  memsetw_loop c mem s (count / 2)

/-- The loop `while (count--) scr_writew(scr_readw(s++), d++)` over `n`
cells. -/
def memcpyw_loop : (Nat → Nat) → Nat → Nat → Nat → (Nat → Nat)
  | mem, _, _, 0 => mem
  | mem, d, s, n + 1 => memcpyw_loop (scr_writew mem (scr_readw mem s) d) (d + 2) (s + 2) n

/-- Modelled from the spec: `scr_memcpyw` (vt_buffer.h, not among the sources)
is the ascending cell copy of `count / 2` cells. -/
def scr_memcpyw (mem : Nat → Nat) (d s count : Nat) : Nat → Nat :=
  memcpyw_loop mem d s (count / 2)

/-- The loop `while (count--) scr_writew(scr_readw(--s), --d)` over `n` cells;
`d` and `s` point one cell past the last cell still to be copied. -/
def memmovew_back : (Nat → Nat) → Nat → Nat → Nat → (Nat → Nat)
  | mem, _, _, 0 => mem
  | mem, d, s, n + 1 =>
      memmovew_back (scr_writew mem (scr_readw mem (s - 2)) (d - 2)) (d - 2) (s - 2) n

/-- Modelled from the spec: `scr_memmovew` (vt_buffer.h, not among the
sources) is the overlap-safe block move of the spec ("copy must not corrupt
source before it is read"): an ascending copy when the destination lies below
the source, a descending copy otherwise. -/
def scr_memmovew (mem : Nat → Nat) (d s count : Nat) : Nat → Nat :=
  if d < s then scr_memcpyw mem d s count
  else memmovew_back mem (d + 2 * (count / 2)) (s + 2 * (count / 2)) (count / 2)

/-! ## Region scrolling -/

/-- The in-buffer part of `scroll_region_up`: block move of `b - t - nr` rows
to row `t` and fill of the `nr` rows below them with the erase character. -/
def scroll_region_up_soft (vc : vc_data) (t b : Nat) (nr : Int) : vc_data :=
  let d := vc.vc_origin + u32 ((vc.vc_size_row : Int) * t)
  let s := vc.vc_origin + u32 ((vc.vc_size_row : Int) * ((t : Int) + nr))
  let m := scr_memmovew vc.mem d s (u32 (((b : Int) - t - nr) * vc.vc_size_row))
  { vc with
    mem := scr_memsetw m (d + 2 * u32 (((b : Int) - t - nr) * vc.vc_cols))
      vc.vc_video_erase_char (u32 ((vc.vc_size_row : Int) * nr)) }

/-- Transcription of `scroll_region_up`.  `t` and `b` are `unsigned int`, `nr`
is `int`: the sum `t + nr` of the clamp is computed in `unsigned int`. -/
def scroll_region_up (env : Env) (vc : vc_data) (t b : Nat) (nr : Int) : vc_data :=
  let nr : Int := if u32 ((t : Int) + nr) ≥ b then s32 (u32 ((b : Int) - t - 1)) else nr
  if b > vc.vc_rows ∨ t ≥ b ∨ nr < 1 then vc
  else if vc.is_visible then
    if env.sw.con_scroll_region vc t b SM_UP nr ≠ 0 then
      emit vc (Event.con_scroll_region t b SM_UP nr)
    else scroll_region_up_soft (emit vc (Event.con_scroll_region t b SM_UP nr)) t b nr
  else scroll_region_up_soft vc t b nr

/-- The in-buffer part of `scroll_region_down`: block move of `b - t - nr` rows
from row `t` down by `nr` rows and fill of the `nr` rows at `t` with the erase
character. -/
def scroll_region_down_soft (vc : vc_data) (t b : Nat) (nr : Int) : vc_data :=
  let s := vc.vc_origin + u32 ((vc.vc_size_row : Int) * t)
  let step := u32 ((vc.vc_cols : Int) * nr)
  let m := scr_memmovew vc.mem (s + 2 * step) s (u32 (((b : Int) - t - nr) * vc.vc_size_row))
  { vc with mem := scr_memsetw m s vc.vc_video_erase_char (u32 (2 * (step : Int))) }

/-- Transcription of `scroll_region_down`. -/
def scroll_region_down (env : Env) (vc : vc_data) (t b : Nat) (nr : Int) : vc_data :=
  let nr : Int := if u32 ((t : Int) + nr) ≥ b then s32 (u32 ((b : Int) - t - 1)) else nr
  if b > vc.vc_rows ∨ t ≥ b ∨ nr < 1 then vc
  else if vc.is_visible then
    if env.sw.con_scroll_region vc t b SM_DOWN nr ≠ 0 then
      emit vc (Event.con_scroll_region t b SM_DOWN nr)
    else scroll_region_down_soft (emit vc (Event.con_scroll_region t b SM_DOWN nr)) t b nr
  else scroll_region_down_soft vc t b nr

/-- The cell of the viewport at `(row, col)`, read at
`vc_origin + vc_size_row * row + 2 * col`. -/
def cell (vc : vc_data) (row col : Nat) : Nat :=
  scr_readw vc.mem (vc.vc_origin + vc.vc_size_row * row + 2 * col)

/-! ## Cursor positioning -/

/-- Transcription of `gotoxy`: both coordinates are checked against the
boundaries (the arguments may be negative) and the cursor is placed at the
nearest margin. -/
def gotoxy (vc : vc_data) (new_x new_y : Int) : vc_data :=
  let x : Nat :=
    if new_x < 0 then 0
    else if new_x ≥ (vc.vc_cols : Int) then vc.vc_cols - 1
    else new_x.toNat
  let min_y : Int := if vc.vc_decom then (vc.vc_top : Int) else 0
  let max_y : Int := if vc.vc_decom then (vc.vc_bottom : Int) else (vc.vc_rows : Int)
  let y : Nat :=
    if new_y < min_y then min_y.toNat
    else if new_y ≥ max_y then (max_y - 1).toNat
    else new_y.toNat
  { vc with
    vc_x := x
    vc_y := y
    vc_pos := vc.vc_origin + y * vc.vc_size_row + (x <<< 1)
    vc_need_wrap := false }

/-- The value `v` clamped to the closed interval `[lo, hi]`. -/
def clamp (v lo hi : Int) : Int := max lo (min v hi)

/-! ## Sample consoles -/

/-- A console of the given size in its initial state: buffer at address 4096,
cursor at the top left corner, full-screen scroll region, normal state, white
on black, not visible, over the given memory. -/
def sample_console (cols rows : Nat) (mem : Nat → Nat) : vc_data where
  vc_cols := cols
  vc_rows := rows
  vc_size_row := 2 * cols
  vc_screenbuf := 4096
  vc_screenbuf_size := 2 * cols * rows
  vc_origin := 4096
  vc_visible_origin := 4096
  vc_scr_end := 4096 + 2 * cols * rows
  vc_pos := 4096
  vc_x := 0
  vc_y := 0
  vc_top := 0
  vc_bottom := rows
  vc_state := 0
  vc_mode := KD_TEXT
  vc_decom := false
  vc_decawm := true
  vc_irm := false
  vc_dectcem := true
  vc_decscnm := false
  vc_need_wrap := false
  vc_disp_ctrl := false
  vc_toggle_meta := false
  vc_utf := false
  vc_utf_count := 0
  vc_utf_char := 0
  vc_translate := fun c => c
  vc_attr := 7
  vc_video_erase_char := 0x0720
  vc_color := 7
  vc_ulcolor := 15
  vc_halfcolor := 8
  vc_intensity := 1
  vc_blink := false
  vc_underline := false
  vc_reverse := false
  vc_can_do_color := true
  vc_hi_font_mask := 0
  vc_cursor_type := 2
  cursor_original := -1
  vt_blanked := false
  kmalloced := true
  is_visible := false
  tty_stopped := false
  mem := mem
  trace := []

/-- A driver that provides `con_putcs`, declines every region scroll and none
of the optional operations, asks for a redraw on a switch. -/
def sample_sw : consw where
  con_putcs := true
  con_scroll_region := fun _ _ _ _ _ => 0
  con_build_attr := none
  con_resize := none
  con_set_origin := none
  con_switch := fun _ => 1
  con_set_palette := false
  con_getxy := none
  con_screen_pos := none
  con_invert_region := none
  con_blank := fun _ _ _ => 0
  con_save_screen := false

/-- An environment around `sample_sw`: codes below 256 are their own glyph,
everything else is not found (-4); the escape interpreter ignores its input;
allocations succeed at address 65536. -/
def sample_env : Env where
  sw := sample_sw
  conv_uni_to_pc := fun tc => if tc < 256 then (tc : Int) else -4
  terminal_emulation := fun vc _ => vc
  kmalloc := fun _ => some 65536

/-- Memory in which every cell holds a value derived from its own address. -/
def sample_mem : Nat → Nat := fun a => 0x0700 + a % 256

/-! ## Cursor overlay -/

/-- Transcription of `add_softcursor`: saves the cell under the cursor in
`cursor_original` and stores the cell with the cursor pattern applied. -/
def add_softcursor (vc : vc_data) : vc_data :=
  let i := scr_readw vc.mem vc.vc_pos
  let type := vc.vc_cursor_type
  if type &&& 0x10 = 0 then vc
  else if vc.cursor_original ≠ -1 then vc
  else
    let i1 := i ||| ((type >>> 8) &&& 0xff00)
    let i2 := i1 ^^^ (type &&& 0xff00)
    let i3 := if type &&& 0x20 ≠ 0 ∧ (i &&& 0x7000) = (i2 &&& 0x7000) then i2 ^^^ 0x7000 else i2
    let i4 := if type &&& 0x40 ≠ 0 ∧ (i3 &&& 0x700) = ((i3 &&& 0x7000) >>> 4)
      then i3 ^^^ 0x0700 else i3
    let vc1 := { vc with cursor_original := (i : Int), mem := scr_writew vc.mem i4 vc.vc_pos }
    emit_if vc.is_visible vc1 [Event.con_putc i4 vc.vc_y vc.vc_x]

/-- Transcription of `hide_softcursor`: stores the saved cell back under the
cursor. -/
def hide_softcursor (vc : vc_data) : vc_data :=
  if vc.cursor_original ≠ -1 then
    let v := (vc.cursor_original % 65536).toNat
    let vc1 := { vc with mem := scr_writew vc.mem v vc.vc_pos }
    let vc2 := emit_if vc.is_visible vc1 [Event.con_putc v vc.vc_y vc.vc_x]
    { vc2 with cursor_original := -1 }
  else vc

/-- Transcription of `hide_cursor` for a console that does not hold the mouse
selection (`vc != sel_cons`; the selection code is outside the console core). -/
def hide_cursor (vc : vc_data) : vc_data :=
  hide_softcursor (emit vc (Event.con_cursor CM_ERASE))

/-- Transcription of `set_cursor` for a console that does not hold the mouse
selection. -/
def set_cursor (vc : vc_data) : vc_data :=
  if !vc.is_visible || vc.vt_blanked || vc.vc_mode == KD_GRAPHICS then vc
  else if vc.vc_dectcem then
    let vc1 := add_softcursor vc
    if vc1.vc_cursor_type &&& 0x0f ≠ 1 then emit vc1 (Event.con_cursor CM_DRAW) else vc1
  else hide_cursor vc

/-! ## Character insertion and line motion -/

/-- The loop `while (--p >= q) scr_writew(scr_readw(p), p + nr)` of
`insert_char`, `k` cells above `q` still to be moved. -/
def insert_char_loop (q nr : Nat) : (Nat → Nat) → Nat → (Nat → Nat)
  | mem, 0 => mem
  | mem, k + 1 =>
      insert_char_loop q nr (scr_writew mem (scr_readw mem (q + 2 * k)) (q + 2 * k + 2 * nr)) k

/-- Transcription of `insert_char`: the cells from the cursor to the end of the
row move right by `nr`, the `nr` cells at the cursor are erased. -/
def insert_char (vc : vc_data) (nr : Nat) : vc_data :=
  let q := vc.vc_pos
  let m := insert_char_loop q nr vc.mem (vc.vc_cols - nr - vc.vc_x)
  let vc1 := { vc with mem := scr_memsetw m q vc.vc_video_erase_char (nr * 2),
                       vc_need_wrap := false }
  emit_if vc.is_visible vc1
    (Event.con_bmove vc.vc_y vc.vc_x vc.vc_y (vc.vc_x + nr) 1
        (u32 ((vc.vc_cols : Int) - vc.vc_x - nr)) ::
      (List.range nr).reverse.map
        (fun k => Event.con_putc vc.vc_video_erase_char vc.vc_y (vc.vc_x + k)))

/-- Modelled from the spec: `vte_cr` is defined in vte.c, which is not among
the sources.  Carriage return of the deferred wrap ("perform pending
line-feed+carriage-return"): the cursor goes to column 0 of its row, the cursor
offset follows, `need_wrap` is cleared. -/
def vte_cr (vc : vc_data) : vc_data :=
  { vc with vc_pos := vc.vc_pos - (vc.vc_x <<< 1), vc_x := 0, vc_need_wrap := false }

/-- Modelled from the spec: `vte_lf` is defined in vte.c, which is not among
the sources.  Line feed of the deferred wrap: on the last row of the scroll
region the region scrolls up by one row (`scroll_region_up`), otherwise the
cursor moves down one row unless it is on the last row of the screen;
`need_wrap` is cleared. -/
def vte_lf (env : Env) (vc : vc_data) : vc_data :=
  let vc1 :=
    if vc.vc_y + 1 = vc.vc_bottom then scroll_region_up env vc vc.vc_top vc.vc_bottom 1
    else if vc.vc_y + 1 < vc.vc_rows then
      { vc with vc_y := vc.vc_y + 1, vc_pos := vc.vc_pos + vc.vc_size_row }
    else vc
  { vc1 with vc_need_wrap := false }

/-! ## The screen writer `do_con_write` -/

/-- Local variables of `do_con_write` that live across loop iterations: the
pending run (`draw_x`, `draw_from`, `draw_to`), the count `n` of consumed
bytes, and `himask` / `charmask`, computed once before the loop. -/
structure Locals where
  draw_from : Nat
  draw_to : Nat
  draw_x : Int
  n : Nat
  himask : Nat
  charmask : Nat

/-- The `FLUSH` step of `do_con_write`: hands the pending run to `con_putcs` and resets
`draw_x`. -/
def FLUSH (env : Env) (vc : vc_data) (l : Locals) : vc_data × Locals :=
  let b : Bool := decide (l.draw_x ≥ 0) && env.sw.con_putcs
  (emit_if b vc
    [Event.con_putcs l.draw_from ((l.draw_to - l.draw_from) / 2) vc.vc_y l.draw_x.toNat],
   { l with draw_x := if b then -1 else l.draw_x })

/-- The displayability test `ok` of `do_con_write` for the input code `c` and
its translation `tc`. -/
def displayable (vc : vc_data) (c tc : Nat) : Bool :=
  decide (tc ≠ 0) &&
  (decide (c ≥ 32) ||
    (!vc.vc_utf &&
      decide (((if vc.vc_disp_ctrl then CTRL_ALWAYS else CTRL_ACTION) >>> c) &&& 1 = 0))) &&
  (decide (c ≠ 127) || vc.vc_disp_ctrl) &&
  decide (c ≠ 128 + 27)

/-- Glyph resolution of `do_con_write`: the lookup of `tc`, on -4 (not found)
the lookup of U+FFFD and then the raw code `c`, on -3 (bad table) the raw
code. -/
def resolve_glyph (env : Env) (c tc : Nat) : Int :=
  let r := env.conv_uni_to_pc tc
  if r = -4 then
    let r2 := env.conv_uni_to_pc 0xfffd
    if r2 = -4 then (c : Int) else r2
  else if r = -3 then (c : Int)
  else r

/-- The test `tc & ~charmask` of `do_con_write`, for `charmask` 0xff or 0x1ff
(all low bits set): some bit outside the mask is set exactly when the signed
value is negative or exceeds the mask. -/
def conversion_failed (tc : Int) (charmask : Nat) : Bool :=
  decide (tc < 0 ∨ (charmask : Int) < tc)

/-- The cell word stored for glyph index `tc` under attribute `attr`: with a
512-glyph font (`himask` non-zero) bit 8 of the glyph index takes the place of
the attribute bit `himask`. -/
def glyph_word (attr himask tc : Nat) : Nat :=
  if himask ≠ 0 then
    ((attr <<< 8) &&& (0xffffffff ^^^ himask)) + (if tc &&& 0x100 ≠ 0 then himask else 0)
      + (tc &&& 0xff)
  else (attr <<< 8) + tc

/-- First half of the glyph placement of `do_con_write`: flush of the pending
run before a wrap or an insert-mode shift, the deferred wrap (`vte_cr`,
`vte_lf`) and the insert-mode shift. -/
def prepare_cell (env : Env) (vc : vc_data) (l : Locals) : vc_data × Locals :=
  let p1 := if vc.vc_need_wrap || vc.vc_irm then FLUSH env vc l else (vc, l)
  let vc2 := if p1.1.vc_need_wrap then vte_lf env (vte_cr p1.1) else p1.1
  (if vc2.vc_irm then insert_char vc2 1 else vc2, p1.2)

/-- Second half of the glyph placement of `do_con_write` for a resolved glyph
index `tc` within the font: the store of the cell at the cursor, the start or
extension of the pending run, and the cursor advance, which sets `need_wrap`
from `vc_decawm` instead of moving past the last column. -/
def store_glyph (vc : vc_data) (l : Locals) (tc : Nat) : vc_data × Locals :=
  let val := glyph_word vc.vc_attr l.himask tc
  let vc4 := emit { vc with mem := scr_writew vc.mem val vc.vc_pos }
    (Event.glyph vc.vc_pos (val % 65536))
  let l2 := if vc4.is_visible = true ∧ l.draw_x < 0
    then { l with draw_x := (vc4.vc_x : Int), draw_from := vc4.vc_pos } else l
  if vc4.vc_x = vc4.vc_cols - 1 then
    ({ vc4 with vc_need_wrap := vc4.vc_decawm }, { l2 with draw_to := vc4.vc_pos + 2 })
  else
    ({ vc4 with vc_x := vc4.vc_x + 1, vc_pos := vc4.vc_pos + 2 },
     { l2 with draw_to := vc4.vc_pos + 2 })

/-- Glyph placement of `do_con_write`: `prepare_cell` followed by
`store_glyph`. -/
def put_glyph (env : Env) (vc : vc_data) (l : Locals) (tc : Nat) : vc_data × Locals :=
  store_glyph (prepare_cell env vc l).1 (prepare_cell env vc l).2 tc

/-- The part of one loop iteration of `do_con_write` that follows the
translation of the input: displayability test, then either glyph resolution
and placement or `FLUSH` and `terminal_emulation`. -/
def write_code (env : Env) (vc : vc_data) (l : Locals) (c tc : Nat) : vc_data × Locals :=
  if vc.vc_state = 0 ∧ displayable vc c tc = true then
    let g := resolve_glyph env c tc
    if conversion_failed g l.charmask then (vc, l)
    else put_glyph env vc l g.toNat
  else
    let p := FLUSH env vc l
    (env.terminal_emulation p.1 (c : Int), p.2)

/-- The UTF-8 assembly of `do_con_write` for a byte `c` above 0x7f, on the two
decoder fields `vc_utf_count` and `vc_utf_char`: their new values and, when a
character is complete, its code. -/
def utf8_step (count char c : Nat) : Nat × Nat × Option Nat :=
  if count > 0 ∧ c &&& 0xc0 = 0x80 then
    if count - 1 = 0 then (count - 1, (char <<< 6) ||| (c &&& 0x3f), some ((char <<< 6) ||| (c &&& 0x3f)))
    else (count - 1, (char <<< 6) ||| (c &&& 0x3f), none)
  else if c &&& 0xe0 = 0xc0 then (1, c &&& 0x1f, none)
  else if c &&& 0xf0 = 0xe0 then (2, c &&& 0x0f, none)
  else if c &&& 0xf8 = 0xf0 then (3, c &&& 0x07, none)
  else if c &&& 0xfc = 0xf8 then (4, c &&& 0x03, none)
  else if c &&& 0xfe = 0xfc then (5, c &&& 0x01, none)
  else (0, char, none)

/-- The UTF-8 assembly of `do_con_write` for a byte above 0x7f: the console
with its decoder fields updated by `utf8_step` and, when a character is
complete, its code. -/
def utf8_byte (vc : vc_data) (c : Nat) : vc_data × Option Nat :=
  ({ vc with vc_utf_count := (utf8_step vc.vc_utf_count vc.vc_utf_char c).1,
             vc_utf_char := (utf8_step vc.vc_utf_count vc.vc_utf_char c).2.1 },
   (utf8_step vc.vc_utf_count vc.vc_utf_char c).2.2)

/-- One iteration of the `while` loop of `do_con_write`
(ruby-2.6/drivers/char/vt.c) for the input byte `c`.  As in the source, the
test that selects the untranslated path is `!vc->vc_state`. -/
def do_con_write_byte (env : Env) (vc : vc_data) (l : Locals) (c : Nat) : vc_data × Locals :=
  let l := { l with n := l.n + 1 }
  if vc.vc_state = 0 then write_code env vc l c c
  else if vc.vc_utf then
    if c > 0x7f then
      match utf8_byte vc c with
      | (vc1, some ch) => write_code env vc1 l ch ch
      | (vc1, none) => (vc1, l)
    else write_code env { vc with vc_utf_count := 0 } l c c
  else
    write_code env vc l c (vc.vc_translate (if vc.vc_toggle_meta then c ||| 0x80 else c))

/-- The loop `while (!tty->stopped && count)` of `do_con_write` over the bytes
of the buffer. -/
def do_con_write_loop (env : Env) : vc_data → Locals → List Nat → vc_data × Locals
  | vc, l, [] => (vc, l)
  | vc, l, c :: rest =>
      if vc.tty_stopped then (vc, l)
      else do_con_write_loop env (do_con_write_byte env vc l c).1 (do_con_write_byte env vc l c).2 rest

/-- The locals of `do_con_write` on entry to the loop. -/
def initial_locals (vc : vc_data) : Locals where
  draw_from := 0
  draw_to := 0
  draw_x := -1
  n := 0
  himask := vc.vc_hi_font_mask
  charmask := if vc.vc_hi_font_mask ≠ 0 then 0x1ff else 0xff

/-- Transcription of `do_con_write` (ruby-2.6/drivers/char/vt.c) outside
interrupt context and for an allocated console: the cursor is undrawn when the
console is visible, the bytes are consumed by the loop, the pending run is
flushed.  The result is the returned byte count and the final state. -/
def do_con_write (env : Env) (vc : vc_data) (buf : List Nat) : Nat × vc_data :=
  let vc1 := if vc.is_visible then hide_cursor vc else vc
  let p := do_con_write_loop env vc1 (initial_locals vc) buf
  let q := FLUSH env p.1 p.2
  (q.2.n, q.1)

namespace Old

/-- Transcription of `hide_cursor` of the older `vt.c` for a console that does
not hold the mouse selection: the saved cell is restored first, then the
driver erases its cursor. -/
def hide_cursor (vc : vc_data) : vc_data :=
  emit (hide_softcursor vc) (Event.con_cursor CM_ERASE)

/-- One iteration of the `while` loop of `do_con_write` of the older
`ruby/linux/drivers/char/vt.c`: UTF-8 assembly or character-set translation,
then the common tail. -/
def do_con_write_byte (env : Env) (vc : vc_data) (l : Locals) (c : Nat) : vc_data × Locals :=
  let l := { l with n := l.n + 1 }
  if vc.vc_utf then
    if c > 0x7f then
      match utf8_byte vc c with
      | (vc1, some ch) => write_code env vc1 l ch ch
      | (vc1, none) => (vc1, l)
    else write_code env { vc with vc_utf_count := 0 } l c c
  else
    write_code env vc l c (vc.vc_translate (if vc.vc_toggle_meta then c ||| 0x80 else c))

/-- The loop `while (!tty->stopped && count)` of the older `do_con_write`. -/
def do_con_write_loop (env : Env) : vc_data → Locals → List Nat → vc_data × Locals
  | vc, l, [] => (vc, l)
  | vc, l, c :: rest =>
      if vc.tty_stopped then (vc, l)
      else do_con_write_loop env (do_con_write_byte env vc l c).1 (do_con_write_byte env vc l c).2 rest

/-- Transcription of the older `do_con_write` for a kernel buffer
(`from_user == 0`), outside interrupt context and for an allocated console. -/
def do_con_write (env : Env) (vc : vc_data) (buf : List Nat) : Nat × vc_data :=
  let vc1 := if vc.is_visible then hide_cursor vc else vc
  let p := do_con_write_loop env vc1 (initial_locals vc) buf
  let q := FLUSH env p.1 p.2
  (q.2.n, q.1)

end Old

/-- The sample 80x25 console in UTF-8 mode, normal state. -/
def sample_utf_console : vc_data :=
  { sample_console 80 25 sample_mem with vc_utf := true }

/-! ## Observation helpers -/

/-- Whether a trace entry is a glyph store. -/
def Event.is_glyph : Event → Bool
  | Event.glyph _ _ => true
  | _ => false

/-- Whether a trace entry is a `con_putcs` call. -/
def Event.is_putcs : Event → Bool
  | Event.con_putcs _ _ _ _ => true
  | _ => false

/-- Number of glyph stores recorded in a trace. -/
def glyph_writes (tr : List Event) : Nat := tr.countP Event.is_glyph

/-- Number of `con_putcs` calls recorded in a trace. -/
def putcs_calls (tr : List Event) : Nat := tr.countP Event.is_putcs

/-- Byte strings made only of truncated UTF-8 sequences and stray bytes, read
with `pending` continuation bytes still announced: a continuation byte
(0x80..0xBF) is stray when nothing is pending, must not be the last announced
one otherwise; a lead byte (0xC0..0xFD, announcing 1 to 5 continuation bytes)
cuts short whatever was pending; 0xFE and 0xFF are stray; no byte below 0x80
occurs. -/
def utf8_unfinished : Nat → List Nat → Bool
  | _, [] => true
  | pending, b :: rest =>
    if 0x80 ≤ b ∧ b ≤ 0xbf then
      if pending = 0 then utf8_unfinished 0 rest
      else if pending = 1 then false
      else utf8_unfinished (pending - 1) rest
    else if 0xc0 ≤ b ∧ b ≤ 0xdf then utf8_unfinished 1 rest
    else if 0xe0 ≤ b ∧ b ≤ 0xef then utf8_unfinished 2 rest
    else if 0xf0 ≤ b ∧ b ≤ 0xf7 then utf8_unfinished 3 rest
    else if 0xf8 ≤ b ∧ b ≤ 0xfb then utf8_unfinished 4 rest
    else if 0xfc ≤ b ∧ b ≤ 0xfd then utf8_unfinished 5 rest
    else if b = 0xfe ∨ b = 0xff then utf8_unfinished 0 rest
    else false

/-- The trace of `r` continues the trace of `vc` without a further glyph
store. -/
def no_glyph_since (vc r : vc_data) : Prop :=
  ∃ es, r.trace = vc.trace ++ es ∧ glyph_writes es = 0

/-- A visible monochrome 80x25 console with a 512-glyph font: attribute byte 1
(normal intensity, as `build_attr` gives it without colour) and
`vc_hi_font_mask = 0x100`. -/
def sample_mono512_console : vc_data :=
  { sample_console 80 25 sample_mem with
    is_visible := true, vc_can_do_color := false, vc_hi_font_mask := 0x100, vc_attr := 1,
    vc_video_erase_char := 0x0120 }

/-! ## Attributes -/

/-- Transcription of `build_attr`: the driver's builder when it has one,
otherwise the bit vector of the monochrome format or the colour byte with
underline, half-bright, reverse, blink and bold applied, shifted left by one
bit (in 8 bits) for a 512-glyph font. -/
def build_attr (env : Env) (vc : vc_data) (_color _intensity : Nat)
    (_blink _underline _reverse : Bool) : Nat :=
  match env.sw.con_build_attr with
  | some f => f vc _color _intensity _blink _underline _reverse
  | none =>
    if !vc.vc_can_do_color then
      _intensity ||| (if _underline then 4 else 0) ||| (if _reverse then 8 else 0) |||
        (if _blink then 0x80 else 0)
    else
      let a := vc.vc_color
      let a := if _underline then (a &&& 0xf0) ||| vc.vc_ulcolor
        else if _intensity = 0 then (a &&& 0xf0) ||| vc.vc_halfcolor else a
      let a := if _reverse then (a &&& 0x88) ||| ((((a >>> 4) ||| (a <<< 4)) &&& 0x77)) else a
      let a := if _blink then a ^^^ 0x80 else a
      let a := if _intensity = 2 then a ^^^ 0x08 else a
      if vc.vc_hi_font_mask = 0x100 then (a <<< 1) % 256 else a

/-- Transcription of `update_attr`: recomputes the current attribute and the
erase character (space with the attribute of the current colour and intensity,
reverse video under DECSCNM). -/
def update_attr (env : Env) (vc : vc_data) : vc_data :=
  { vc with
    vc_attr := build_attr env vc vc.vc_color vc.vc_intensity vc.vc_blink vc.vc_underline
      (xor vc.vc_reverse vc.vc_decscnm)
    vc_video_erase_char :=
      ((build_attr env vc vc.vc_color vc.vc_intensity false false vc.vc_decscnm) <<< 8) ||| 0x20 }

/-- The loop of `clear_buffer_attributes` over `n` cells from `p`. -/
def clear_attr_loop (mask erase : Nat) : (Nat → Nat) → Nat → Nat → (Nat → Nat)
  | mem, _, 0 => mem
  | mem, p, n + 1 =>
      clear_attr_loop mask erase
        (scr_writew mem ((scr_readw mem p &&& mask) ||| (erase &&& (0xffffffff ^^^ mask))) p)
        (p + 2) n

/-- Transcription of `clear_buffer_attributes`: every cell keeps its character
bits and takes the attribute bits of the erase character. -/
def clear_buffer_attributes (vc : vc_data) : vc_data :=
  { vc with
    mem := clear_attr_loop (vc.vc_hi_font_mask ||| 0xff) vc.vc_video_erase_char vc.mem
      vc.vc_origin (vc.vc_screenbuf_size / 2) }

/-! ## Display of the buffer -/

/-- The origin `set_origin` establishes: the start of the console's own buffer
unless the console is visible and the driver has a `con_set_origin` that
accepts and installs another one. -/
def chosen_origin (env : Env) (vc : vc_data) : Nat :=
  if vc.is_visible then
    match env.sw.con_set_origin with
    | some f =>
      match f vc with
      | some o => o
      | none => vc.vc_screenbuf
    | none => vc.vc_screenbuf
  else vc.vc_screenbuf

/-- Transcription of `set_origin`: the driver is asked when the console is
visible and the driver has a `con_set_origin`; the visible origin, the end of
the screen and the cursor offset follow the origin. -/
def set_origin (env : Env) (vc : vc_data) : vc_data :=
  let vc1 := { emit_if (vc.is_visible && env.sw.con_set_origin.isSome) vc [Event.con_set_origin]
    with vc_origin := chosen_origin env vc }
  { vc1 with
    vc_visible_origin := vc1.vc_origin
    vc_scr_end := vc1.vc_origin + vc1.vc_screenbuf_size
    vc_pos := vc1.vc_origin + vc1.vc_size_row * vc1.vc_y + 2 * vc1.vc_x }

/-- Transcription of `set_palette`. -/
def set_palette (env : Env) (vc : vc_data) : vc_data :=
  emit_if (vc.is_visible && env.sw.con_set_palette && decide (vc.vc_mode ≠ KD_GRAPHICS)) vc
    [Event.con_set_palette]

/-- State of the scan of `do_update_region`: the cell pointer `p`, the column
`xx`, the remaining `count`, the start `q` / `startx` of the current run, its
attribute `attrib`, and the calls issued so far. -/
structure RowScan where
  p : Nat
  xx : Nat
  count : Int
  q : Nat
  startx : Nat
  attrib : Nat
  calls : List Event

/-- The inner loop `while (xx < vc->vc_cols && count)` of `do_update_region`
on row `yy`; `fuel` bounds the iterations and `vc_cols - xx` is enough. -/
def update_row_loop (vc : vc_data) (yy : Nat) : Nat → RowScan → RowScan
  | 0, s => s
  | fuel + 1, s =>
    if s.xx < vc.vc_cols ∧ s.count ≠ 0 then
      if s.attrib ≠ scr_readw vc.mem s.p &&& 0xff00 then
        update_row_loop vc yy fuel
          { p := s.p + 2, xx := s.xx + 1, count := s.count - 1, q := s.p, startx := s.xx,
            attrib := scr_readw vc.mem s.p &&& 0xff00,
            calls := if s.p > s.q
              then s.calls ++ [Event.con_putcs s.q ((s.p - s.q) / 2) yy s.startx] else s.calls }
      else
        update_row_loop vc yy fuel { s with p := s.p + 2, xx := s.xx + 1, count := s.count - 1 }
    else s

/-- The outer loop `for (;;)` of `do_update_region`, one row per iteration;
`none` when `fuel` iterations do not reach `count == 0`. -/
def update_region_loop (env : Env) (vc : vc_data) :
    Nat → (p xx yy start : Nat) → (count : Int) → List Event → Option (List Event)
  | 0, _, _, _, _, _, _ => none
  | fuel + 1, p, xx, yy, start, count, calls =>
    let s := update_row_loop vc yy (vc.vc_cols - xx)
      { p := p, xx := xx, count := count, q := p, startx := xx,
        attrib := scr_readw vc.mem p &&& 0xff00, calls := calls }
    let calls1 := if s.p > s.q
      then s.calls ++ [Event.con_putcs s.q ((s.p - s.q) / 2) yy s.startx] else s.calls
    if s.count = 0 then some calls1
    else
      match env.sw.con_getxy with
      | some f => update_region_loop env vc fuel start 0 (yy + 1) (f vc start).1 s.count calls1
      | none => update_region_loop env vc fuel s.p 0 (yy + 1) start s.count calls1

/-- Transcription of `do_update_region`: the cells from `start` on are handed
to `con_putcs` in runs of equal attribute that do not cross a row.  The outer
loop runs at most `count + 2` times when it terminates at all. -/
def do_update_region (env : Env) (vc : vc_data) (start : Nat) (count : Int) : Option vc_data :=
  let r :=
    match env.sw.con_getxy with
    | none =>
      update_region_loop env vc (count.toNat + 2) start
        (((start - vc.vc_origin) / 2) % vc.vc_cols) (((start - vc.vc_origin) / 2) / vc.vc_cols)
        start count []
    | some f =>
      update_region_loop env vc (count.toNat + 2) start (f vc start).2.1 (f vc start).2.2
        (f vc start).1 count []
  match r with
  | some calls => some { vc with trace := vc.trace ++ calls }
  | none => none

/-- Transcription of `update_screen` for an allocated console: cursor undrawn,
origin set, driver switch, palette, redraw of the whole buffer when the driver
asks for it, cursor drawn. -/
def update_screen (env : Env) (vc : vc_data) : Option vc_data :=
  let old_was_color := vc.vc_can_do_color
  let vc1 := set_origin env (hide_cursor vc)
  let update := env.sw.con_switch vc1
  let vc2 := set_palette env (emit vc1 Event.con_switch)
  let vc3 := if old_was_color ≠ vc2.vc_can_do_color
    then clear_buffer_attributes (update_attr env vc2) else vc2
  if update ≠ 0 ∧ vc3.vc_mode ≠ KD_GRAPHICS then
    match do_update_region env vc3 vc3.vc_origin ((vc3.vc_screenbuf_size / 2 : Nat) : Int) with
    | some vc4 => some (set_cursor vc4)
    | none => none
  else some (set_cursor vc3)

/-! ## Resizing -/

/-- Transcription of `resize_screen`: the driver is asked for the new
resolution when the console is visible, in text mode, and the driver has a
`con_resize`; the result is the error code and the state with the call
recorded. -/
def resize_screen (env : Env) (vc : vc_data) (width height : Nat) : Int × vc_data :=
  if vc.is_visible ∧ vc.vc_mode ≠ KD_GRAPHICS then
    match env.sw.con_resize with
    | some f => (f vc width height, emit vc (Event.con_resize width height))
    | none => (0, vc)
  else (0, vc)

/-- Modelled from the spec: `vte_decsc` is defined in vte.c, which is not
among the sources.  It belongs to the terminal-emulation collaborator that the
spec keeps outside the core; it saves the cursor state in slots this embedding
does not carry and leaves every modelled field as it is. -/
def vte_decsc (vc : vc_data) : vc_data := vc

/-- The loop `while (ol < vc->vc_scr_end)` of `vc_resize`: each iteration
copies `rlth` bytes of one old row to the new buffer and pads the `rrem`
remaining bytes of the new row with the erase character.  The result is the
memory and the final `nl`; `none` when `fuel` iterations do not end the
loop. -/
def resize_copy_loop (scr_end old_row_size new_row_size rlth rrem erase : Nat) :
    Nat → (Nat → Nat) → (ol nl : Nat) → Option ((Nat → Nat) × Nat)
  | 0, mem, ol, nl => if ol < scr_end then none else some (mem, nl)
  | fuel + 1, mem, ol, nl =>
    if ol < scr_end then
      resize_copy_loop scr_end old_row_size new_row_size rlth rrem erase fuel
        (if rrem ≠ 0 then scr_memsetw (scr_memcpyw mem nl ol rlth) (nl + rlth) erase rrem
          else scr_memcpyw mem nl ol rlth)
        (ol + old_row_size) (nl + new_row_size)
    else some (mem, nl)

/-- The part of `vc_resize` that follows the copy loop, which left the memory
`m` and the pointer `nl`: the rest of the new buffer `newscreen` is set to the
erase character, the console takes the new buffer, the origin, the scroll
region and the cursor are re-established, and a visible console is redrawn. -/
def vc_resize_finish (env : Env) (vc2 : vc_data) (ss newscreen : Nat) (m : Nat → Nat)
    (nl : Nat) : Option (Int × vc_data) :=
  let nlend := newscreen + ss
  let m1 := if nlend > nl
    then scr_memsetw m nl vc2.vc_video_erase_char (nlend - nl) else m
  let vc3 := set_origin env
    { vc2 with mem := m1, vc_screenbuf := newscreen, kmalloced := true,
               vc_screenbuf_size := ss }
  let vc4 := { vc3 with vc_top := 0, vc_bottom := vc3.vc_rows }
  let vc5 := vte_decsc (gotoxy vc4 vc4.vc_x vc4.vc_y)
  if vc5.is_visible then
    match update_screen env vc5 with
    | some vc6 => some (0, vc6)
    | none => none
  else some (0, vc5)

/-- The part of `vc_resize` that follows the driver's acceptance of the new
geometry: the console takes the new dimensions, the attributes are
recomputed, the old rows are copied into the new buffer `newscreen` (the last
`new_rows` rows when the console shrinks), and `vc_resize_finish` does the
rest.  The copy loop gets `vc_scr_end - ol` iterations, which it needs at most
when it terminates. -/
def vc_resize_apply (env : Env) (vc : vc_data)
    (old_rows old_row_size new_cols new_rows new_row_size ss newscreen : Nat) :
    Option (Int × vc_data) :=
  let vc1 := { vc with vc_rows := new_rows, vc_cols := new_cols,
                       vc_size_row := new_row_size, vc_screenbuf_size := ss }
  let rlth := min old_row_size new_row_size
  let rrem := new_row_size - rlth
  let ol := if new_rows < old_rows
    then vc1.vc_origin + ((old_rows - new_rows) * old_row_size) % 4294967296
    else vc1.vc_origin
  let vc2 := update_attr env vc1
  match resize_copy_loop vc2.vc_scr_end old_row_size new_row_size rlth rrem
      vc2.vc_video_erase_char (vc2.vc_scr_end - ol) vc2.mem ol newscreen with
  | none => none
  | some r => vc_resize_finish env vc2 ss newscreen r.1 r.2

/-- Transcription of `vc_resize` for an allocated console (`vc != NULL`); the
notification of the tty (`winsize`, `SIGWINCH`) is not part of the console
state.  The result is the returned value (0 or a negated error number) and the
state; `none` when the copy loop or the redraw does not terminate. -/
def vc_resize (env : Env) (vc : vc_data) (cols lines : Nat) : Option (Int × vc_data) :=
  if cols > VC_RESIZE_MAXCOL ∨ lines > VC_RESIZE_MAXROW then some (-EINVAL, vc)
  else
    let new_cols := if cols ≠ 0 then cols else vc.vc_cols
    let new_rows := if lines ≠ 0 then lines else vc.vc_rows
    let new_row_size := (new_cols <<< 1) % 4294967296
    let ss := (new_row_size * new_rows) % 4294967296
    if new_cols = vc.vc_cols ∧ new_rows = vc.vc_rows then some (0, vc)
    else
      match env.kmalloc ss with
      | none => some (-ENOMEM, vc)
      | some newscreen =>
        let old_rows := vc.vc_rows
        let old_cols := vc.vc_cols
        let old_row_size := vc.vc_size_row
        let r1 := resize_screen env vc new_cols new_rows
        if r1.1 ≠ 0 then some (r1.1, (resize_screen env r1.2 old_cols old_rows).2)
        else vc_resize_apply env r1.2 old_rows old_row_size new_cols new_rows new_row_size ss
          newscreen

/-- A visible 2x2 console with a software cursor (cursor type 0x4010: bit 0x10
selects the software cursor, the byte 0x40 is xor-ed into the attribute of the
cell under the cursor). -/
def sample_softcursor_console : vc_data :=
  { sample_console 2 2 sample_mem with is_visible := true, vc_cursor_type := 0x4010 }

/-- An 80x25 console with the cursor in the last column of row 0 and
`need_wrap` clear. -/
def sample_lastcol_console : vc_data :=
  { sample_console 80 25 sample_mem with vc_x := 79, vc_pos := 4096 + 2 * 79 }

/-- The console `sample_lastcol_console` with the wrap pending (`need_wrap`
set). -/
def sample_wrap_console : vc_data :=
  { sample_lastcol_console with vc_need_wrap := true }

/-- The console `sample_lastcol_console` with auto-wrap switched off
(DECAWM reset). -/
def sample_nowrap_console : vc_data :=
  { sample_lastcol_console with vc_decawm := false }

/-- An 80x25 console in origin mode with the scroll region `[5, 20)`. -/
def sample_origin_console : vc_data :=
  { sample_console 80 25 sample_mem with vc_decom := true, vc_top := 5, vc_bottom := 20 }

/-- A visible 80x25 console in its initial state. -/
def sample_visible_console : vc_data :=
  { sample_console 80 25 sample_mem with is_visible := true }

/-! ## Screen inversion -/

/-- Transcription of `screenpos`: the address of the byte offset `offset` in
the buffer, in the visible part, or where the driver locates it. -/
def screenpos (env : Env) (vc : vc_data) (offset : Int) (viewed : Bool) : Nat :=
  if !viewed then ((vc.vc_origin : Int) + offset).toNat
  else
    match env.sw.con_screen_pos with
    | none => ((vc.vc_visible_origin : Int) + offset).toNat
    | some f => f vc offset

/-- The cell inversion of a monochrome console: `a ^= 0x0800`. -/
def invert_mono (a : Nat) : Nat := a ^^^ 0x0800

/-- The cell inversion of a colour console with a 512-glyph font:
`(a & 0x11ff) | ((a & 0xe000) >> 4) | ((a & 0x0e00) << 4)`. -/
def invert_color512 (a : Nat) : Nat :=
  (a &&& 0x11ff) ||| ((a &&& 0xe000) >>> 4) ||| ((a &&& 0x0e00) <<< 4)

/-- The cell inversion of a colour console with a 256-glyph font:
`(a & 0x88ff) | ((a & 0x7000) >> 4) | ((a & 0x0700) << 4)`. -/
def invert_color256 (a : Nat) : Nat :=
  (a &&& 0x88ff) ||| ((a &&& 0x7000) >>> 4) ||| ((a &&& 0x0700) <<< 4)

/-- One of the three loops `while (cnt--) { a = scr_readw(q); a = f(a);
scr_writew(a, q); q++; }` of `invert_screen`, over `n` cells. -/
def invert_loop (f : Nat → Nat) : (Nat → Nat) → Nat → Nat → (Nat → Nat)
  | mem, _, 0 => mem
  | mem, q, n + 1 => invert_loop f (scr_writew mem (f (scr_readw mem q)) q) (q + 2) n

/-- Transcription of `invert_screen`: `count` is halved (C division, towards
zero), the region starts at `screenpos`; the driver inverts it when it has a
`con_invert_region`, otherwise one of the three loops runs according to the
mode of the console; a visible console is redrawn over the region.  The loop
counter `cnt` is an `int` decremented until it is zero: a negative count,
which no caller passes, is carried through the 32-bit range (`u32`
iterations).  The result is `none` when the redraw does not terminate. -/
def invert_screen (env : Env) (vc : vc_data) (offset count : Int) (viewed : Bool) :
    Option vc_data :=
  let count := Int.tdiv count 2
  let p := screenpos env vc offset viewed
  let vc1 :=
    match env.sw.con_invert_region with
    | some f => emit { vc with mem := f vc p count } (Event.con_invert_region p count)
    | none =>
      if !vc.vc_can_do_color then
        { vc with mem := invert_loop invert_mono vc.mem p (u32 count) }
      else if vc.vc_hi_font_mask = 0x100 then
        { vc with mem := invert_loop invert_color512 vc.mem p (u32 count) }
      else { vc with mem := invert_loop invert_color256 vc.mem p (u32 count) }
  if vc1.is_visible then do_update_region env vc1 p count else some vc1

/-- The part of `struct fbvt_data` (the private data of the frame-buffer
console, `vc->display_fg->data_hook`) that `fbcon_invert_region` reads: the
start of the software scrollback buffer, its insertion point and its end. -/
structure fbvt_data where
  softback_buf : Nat
  softback_in : Nat
  softback_end : Nat

/-- The loop of `fbcon_invert_region` (fbcon.c) over `n` cells: the cell at `p`
is inverted according to the mode of the console, then `p` advances by one
cell, wraps from the end of the scrollback buffer to its start and jumps from
the insertion point of the scrollback to the origin of the console. -/
def fbcon_invert_loop (par : fbvt_data) (vc : vc_data) :
    (Nat → Nat) → Nat → Nat → (Nat → Nat)
  | mem, _, 0 => mem
  | mem, p, n + 1 =>
    let mem1 :=
      if !vc.vc_can_do_color then scr_writew mem (invert_mono (scr_readw mem p)) p
      else if vc.vc_hi_font_mask = 0x100 then
        scr_writew mem (invert_color512 (scr_readw mem p)) p
      else scr_writew mem (invert_color256 (scr_readw mem p)) p
    let p1 := p + 2
    let p2 := if p1 = par.softback_end then par.softback_buf else p1
    let p3 := if p2 = par.softback_in then vc.vc_origin else p2
    fbcon_invert_loop par vc mem1 p3 n

/-- Transcription of `fbcon_invert_region` (fbcon.c): the memory after the
inversion of `cnt` cells from `p`.  As in `invert_screen`, the `int` counter is
decremented until it is zero (`u32` iterations). -/
def fbcon_invert_region (par : fbvt_data) (vc : vc_data) (p : Nat) (cnt : Int) : Nat → Nat :=
  fbcon_invert_loop par vc vc.mem p (u32 cnt)

/-- The character bits of a cell: the low byte and, with a 512-glyph font, the
bit `vc_hi_font_mask` (the mask `vc_hi_font_mask | 0xff` of
`clear_buffer_attributes`). -/
def char_bits (vc : vc_data) (a : Nat) : Nat := a &&& (vc.vc_hi_font_mask ||| 0xff)

/-! ## Screen blanking and the work handler of the VT -/

/-- State `blank_off` of the blank timer. -/
def blank_off : Nat := 0

/-- State `blank_normal_wait` of the blank timer. -/
def blank_normal_wait : Nat := 1

/-- State `blank_vesa_wait` of the blank timer. -/
def blank_vesa_wait : Nat := 2

/-- Modelled from the spec: VESA blanking mode "no blanking"
(`VESA_NO_BLANKING`); the header is not among the sources, the value is the
one of the Linux headers. -/
def VESA_NO_BLANKING : Nat := 0

/-- Modelled from the spec: VESA blanking mode `VESA_VSYNC_SUSPEND`; header not
among the sources, value as in the Linux headers. -/
def VESA_VSYNC_SUSPEND : Nat := 1

/-- Modelled from the spec: VESA blanking mode `VESA_HSYNC_SUSPEND`; header not
among the sources, value as in the Linux headers. -/
def VESA_HSYNC_SUSPEND : Nat := 2

/-- Modelled from the spec: VESA blanking mode `VESA_POWERDOWN`; header not
among the sources, value as in the Linux headers. -/
def VESA_POWERDOWN : Nat := 3

/-- The display unit `struct vt_struct`, restricted to what the blanking code
and the work handler use, for a VT with an allocated foreground console.
`fg_console` is the state of the console `vt->fg_console`; it carries
`vt_blanked` and the trace, which from here on also logs the timer operations
and the calls of the collaborators.  Console pointers are compared through
console numbers: `fg_vc` is the number of the foreground console, `want_vc`
the number of the wanted console (`none` for NULL), `want_vc_tty` whether the
wanted console has a tty.  `timer` is the pending blank timer with the interval
it was armed for.  The file-scope variables `ignore_poke` and
`do_poke_blanked_console` are kept in the same record. -/
structure vt_struct where
  fg_console : vc_data
  fg_vc : Nat
  want_vc : Option Nat
  want_vc_tty : Bool
  vt_dont_switch : Bool
  scrollback_delta : Int
  blank_state : Nat
  blank_mode : Nat
  blank_interval : Nat
  off_interval : Nat
  blank_timer_expired : Bool
  timer : Option Nat
  ignore_poke : Bool
  do_poke_blanked_console : Bool

/-- Collaborators of the blanking code and of the work handler: the
environment of the console core, the power-management hook
`console_blank_hook` (`none` for NULL) and `change_console` (vt_ioctl.c, not
among the sources), which is taken as a parameter. -/
structure VtEnv where
  env : Env
  console_blank_hook : Option (Int → Int)
  change_console : vt_struct → vt_struct

/-- Appends one event to the trace carried by the foreground console. -/
def vt_emit (vt : vt_struct) (e : Event) : vt_struct :=
  { vt with fg_console := emit vt.fg_console e }

/-- Transcription of `save_screen`. -/
def save_screen (env : Env) (vc : vc_data) : vc_data :=
  emit_if env.sw.con_save_screen vc [Event.con_save_screen]

/-- Transcription of `powerdown_screen`: suspend when the display is only
blanked, power down when it is suspended, nothing otherwise. -/
def powerdown_screen (vt : vt_struct) : vt_struct :=
  if vt.blank_mode = VESA_NO_BLANKING then
    vt_emit vt (Event.con_blank ((VESA_VSYNC_SUSPEND : Int) + 1) 0)
  else if vt.blank_mode = VESA_VSYNC_SUSPEND ∨ vt.blank_mode = VESA_HSYNC_SUSPEND then
    vt_emit vt (Event.con_blank ((VESA_POWERDOWN : Int) + 1) 0)
  else vt

/-- Transcription of `do_blank_screen`. -/
def do_blank_screen (venv : VtEnv) (vt : vt_struct) (entering_gfx : Int) : vt_struct :=
  if vt.fg_console.vt_blanked then
    if vt.blank_state = blank_vesa_wait then
      powerdown_screen { vt with blank_state := blank_off }
    else vt
  else if vt.blank_state ≠ blank_normal_wait then vt
  else if entering_gfx ≠ 0 then
    { vt with
      blank_state := blank_off
      fg_console := set_origin venv.env
        { emit (save_screen venv.env (hide_cursor vt.fg_console)) (Event.con_blank (-1) 1) with
          vt_blanked := true } }
  else if vt.fg_console.vc_mode ≠ KD_TEXT then
    { vt with blank_state := blank_off, fg_console := { vt.fg_console with vt_blanked := true } }
  else
    let vc1 := save_screen venv.env (emit (hide_cursor vt.fg_console) Event.del_timer)
    let i := venv.env.sw.con_blank vc1 1 0
    let vc2 := { emit vc1 (Event.con_blank 1 0) with vt_blanked := true }
    let vc3 := if i ≠ 0 then set_origin venv.env vc2 else vc2
    let vt1 := { vt with blank_state := blank_off, timer := none, blank_timer_expired := false,
                         fg_console := vc3 }
    match venv.console_blank_hook with
    | some hook =>
      if hook 1 ≠ 0 then vt_emit vt1 (Event.console_blank_hook 1)
      else
        let vt2 := vt_emit vt1 (Event.console_blank_hook 1)
        let vt3 := if vt2.off_interval ≠ 0 then
            { vt_emit vt2 (Event.mod_timer vt2.off_interval) with
              blank_state := blank_vesa_wait, timer := some vt2.off_interval }
          else vt2
        if vt3.blank_mode ≠ 0 then vt_emit vt3 (Event.con_blank ((vt3.blank_mode : Int) + 1) 0)
        else vt3
    | none =>
      let vt3 := if vt1.off_interval ≠ 0 then
          { vt_emit vt1 (Event.mod_timer vt1.off_interval) with
            blank_state := blank_vesa_wait, timer := some vt1.off_interval }
        else vt1
      if vt3.blank_mode ≠ 0 then vt_emit vt3 (Event.con_blank ((vt3.blank_mode : Int) + 1) 0)
      else vt3

/-- Transcription of `unblank_vt`; `none` when the redraw does not
terminate. -/
def unblank_vt (venv : VtEnv) (vt : vt_struct) : Option vt_struct :=
  let vt0 := { vt with ignore_poke := false }
  if !vt0.fg_console.vt_blanked then some vt0
  else if vt0.fg_console.vc_mode ≠ KD_TEXT then some vt0
  else
    let vt1 := if vt0.blank_interval ≠ 0 then
        { vt_emit vt0 (Event.mod_timer vt0.blank_interval) with
          timer := some vt0.blank_interval, blank_state := blank_normal_wait }
      else vt0
    let vc1 := { vt1.fg_console with vt_blanked := false }
    let vc2 := emit vc1 (Event.con_blank 0 1)
    match (if venv.env.sw.con_blank vc1 0 1 ≠ 0 then update_screen venv.env vc2 else some vc2) with
    | none => none
    | some vc3 =>
      let vc4 := emit_if venv.console_blank_hook.isSome vc3 [Event.console_blank_hook 0]
      some { vt1 with fg_console := set_cursor (set_palette venv.env vc4) }

/-- Transcription of `poke_blanked_console`; `none` when the redraw of the
unblanking does not terminate. -/
def poke_blanked_console (venv : VtEnv) (vt : vt_struct) : Option vt_struct :=
  let vt1 := { vt_emit vt Event.del_timer with timer := none, blank_timer_expired := false }
  if vt1.ignore_poke = true ∨ vt1.fg_console.vc_mode = KD_GRAPHICS then some vt1
  else if vt1.fg_console.vt_blanked then unblank_vt venv vt1
  else if vt1.blank_interval ≠ 0 then
    some { vt_emit vt1 (Event.mod_timer vt1.blank_interval) with
           timer := some vt1.blank_interval, blank_state := blank_normal_wait }
  else some vt1

/-- Transcription of `vt_callback` for an allocated VT: nothing happens without
a wanted console that has a tty; otherwise the pending switch, the pending
poke, the accumulated scrollback delta and the expiry of the blank timer are
handled in this order. -/
def vt_callback (venv : VtEnv) (vt : vt_struct) : Option vt_struct :=
  match vt.want_vc with
  | none => some vt
  | some w =>
    if !vt.want_vc_tty then some vt
    else
      let vt1 :=
        if w ≠ vt.fg_vc ∧ vt.vt_dont_switch = false then
          venv.change_console
            (vt_emit { vt with fg_console := hide_cursor vt.fg_console }
              (Event.change_console w vt.fg_vc))
        else vt
      let r2 :=
        if vt1.do_poke_blanked_console then
          poke_blanked_console venv { vt1 with do_poke_blanked_console := false }
        else some vt1
      match r2 with
      | none => none
      | some vt2 =>
        let vt3 :=
          if vt2.scrollback_delta ≠ 0 then
            { vt2 with
              fg_console :=
                emit_if (vt2.fg_console.vc_mode == KD_TEXT)
                  (emit vt2.fg_console Event.clear_selection)
                  [Event.con_scroll vt2.scrollback_delta]
              scrollback_delta := 0 }
          else vt2
        some (if vt3.blank_timer_expired then
            { do_blank_screen venv vt3 0 with blank_timer_expired := false }
          else vt3)

/-- An environment like `sample_env` whose allocator hands out an address that
depends on the size asked for (65536 + 4096 * size). -/
def sample_alloc_env : Env :=
  { sample_env with kmalloc := fun n => some (65536 + 4096 * n) }

/-- A VT as `vt_map_display` sets it up, with a visible 80x25 console in text
mode in the foreground: unblanked, blank timer armed for the blank interval
(60000 ticks), no power-down interval, nothing pending. -/
def sample_vt : vt_struct where
  fg_console := sample_visible_console
  fg_vc := 0
  want_vc := some 0
  want_vc_tty := true
  vt_dont_switch := false
  scrollback_delta := 0
  blank_state := blank_normal_wait
  blank_mode := 0
  blank_interval := 60000
  off_interval := 0
  blank_timer_expired := false
  timer := some 60000
  ignore_poke := false
  do_poke_blanked_console := false

/-- Collaborators for `sample_vt`: no blank hook; `change_console` makes the
wanted console the foreground console. -/
def sample_venv : VtEnv where
  env := sample_env
  console_blank_hook := none
  change_console := fun vt =>
    match vt.want_vc with
    | some w => { vt with fg_vc := w }
    | none => vt

/-- The state `r` comes from `vc` by display operations: it differs from `vc`
at most in the origin fields, the cursor offset, the memory, the saved cell of
the software cursor and the trace, and its trace continues the trace of
`vc`. -/
def display_frame (vc r : vc_data) : Prop :=
  r = { vc with vc_origin := r.vc_origin, vc_visible_origin := r.vc_visible_origin,
                vc_scr_end := r.vc_scr_end, vc_pos := r.vc_pos, mem := r.mem,
                cursor_original := r.cursor_original, trace := r.trace } ∧
  ∃ es, r.trace = vc.trace ++ es

/-- The state `r` comes from `vc` by cursor and redraw operations: it differs
from `vc` at most in the memory, the saved cell of the software cursor and the
trace, and its trace continues the trace of `vc`. -/
def cursor_frame (vc r : vc_data) : Prop :=
  r = { vc with mem := r.mem, cursor_original := r.cursor_original, trace := r.trace } ∧
  ∃ es, r.trace = vc.trace ++ es

/-- A driver table whose `con_resize` hook refuses every geometry with
`-EINVAL`, over the sample environment. -/
def sample_refusing_env : Env :=
  { sample_env with sw := { sample_sw with con_resize := some (fun _ _ _ => -22) } }

/-- The cell inversion that the mode of the console selects, in `invert_screen`
and in `fbcon_invert_region` alike: monochrome, colour with a 512-glyph font,
colour with a 256-glyph font. -/
def invert_cell (vc : vc_data) (a : Nat) : Nat :=
  if !vc.vc_can_do_color then invert_mono a
  else if vc.vc_hi_font_mask = 0x100 then invert_color512 a
  else invert_color256 a

/-- Reference, in the words of the specification: the byte `a` with its low
nibble replaced by the colour `x`. -/
def replace_low_nibble (a x : Nat) : Nat := 16 * (a / 16) + x

/-- Reference, in the words of the specification: the byte `a` with bit `k`
toggled. -/
def toggle_bit (a k : Nat) : Nat := if a.testBit k then a - 2 ^ k else a + 2 ^ k

/-- Reference for `build_attr` without reverse, in the words of the
specification: on monochrome hardware the independent bits intensity,
underline (4) and blink (0x80); on colour hardware the current colour byte,
its low nibble replaced by the underline colour when underline is set,
otherwise by the half-bright colour when the intensity is 0, then bit 7
toggled for blink and bit 3 toggled for intensity 2, and with a 512-glyph
font the byte shifted left by one bit modulo 256. -/
def build_attr_reference (vc : vc_data) (intensity : Nat) (blink underline : Bool) : Nat :=
  if vc.vc_can_do_color = false then
    intensity ||| (if underline then 4 else 0) ||| (if blink then 0x80 else 0)
  else
    let a := vc.vc_color
    let a := if underline then replace_low_nibble a vc.vc_ulcolor
      else if intensity = 0 then replace_low_nibble a vc.vc_halfcolor else a
    let a := if blink then toggle_bit a 7 else a
    let a := if intensity = 2 then toggle_bit a 3 else a
    if vc.vc_hi_font_mask = 0x100 then (2 * a) % 256 else a

/-- Reference, in the words of the specification: the colour byte `a` with its
foreground (low) nibble and background (high) nibble exchanged. -/
def swap_nibbles (a : Nat) : Nat := 16 * (a % 16) + a / 16

/-- The colour byte `a` with its 3-bit foreground colour (bits 0-2) and 3-bit
background colour (bits 4-6) exchanged, bit 3 (bright) and bit 7 (blink) kept
in place. -/
def swap_colours (a : Nat) : Nat :=
  128 * (a / 128) + 16 * (a % 8) + 8 * (a / 8 % 2) + a / 16 % 8

/-- The frame of the blanking code on the display unit: only the foreground
console, the state of the blank timer, the timer, the expiry flag and
`ignore_poke` change, and the trace of the foreground console is extended. -/
def vt_frame (vt r : vt_struct) : Prop :=
  r = { vt with fg_console := r.fg_console, blank_state := r.blank_state, timer := r.timer,
                blank_timer_expired := r.blank_timer_expired, ignore_poke := r.ignore_poke } ∧
  ∃ es, r.fg_console.trace = vt.fg_console.trace ++ es

/-- The sample VT with every kind of work pending: console 1 is wanted while
console 0 is in the foreground, a poke is pending, the scrollback delta is 3
and the blank timer has expired. -/
def sample_busy_vt : vt_struct :=
  { sample_vt with want_vc := some 1, do_poke_blanked_console := true, scrollback_delta := 3,
                   blank_timer_expired := true }

/-- The sample VT after its blank timer has fired: the expiry flag is set, the
console is not blanked. -/
def sample_expired_vt : vt_struct :=
  { sample_vt with blank_timer_expired := true }

/-- An environment like `sample_env` whose `terminal_emulation` records the
code it is handed in the trace. -/
def sample_tracing_env : Env :=
  { sample_env with terminal_emulation := fun vc c => emit vc (Event.terminal_emulation c) }

/-- The recording environment with a symbol table that maps every code to the
glyph index 300, which a 256-glyph font does not have. -/
def sample_wide_table_env : Env :=
  { sample_tracing_env with conv_uni_to_pc := fun _ => 300 }

/-- The sample 80x25 console in UTF-8 mode and in a control state
(`vc_state` 1: inside an escape sequence). -/
def sample_control_utf_console : vc_data :=
  { sample_console 80 25 sample_mem with vc_utf := true, vc_state := 1 }

/-- The test `tc & ~charmask` of `do_con_write`, read on the 32-bit
two's-complement representation of the `int` value `tc`. -/
def outside_font_range (tc : Int) (charmask : Nat) : Bool :=
  decide (u32 tc &&& (0xffffffff ^^^ charmask) ≠ 0)

/-- Reference, in the words of the specification: the geometry invariant of a
console.  The cursor lies inside the screen, a row takes two bytes per column,
the buffer takes two bytes per cell, the scroll region is a non-empty range of
rows of the screen, and the cursor offset is the address of the cell under the
cursor. -/
def geometry_ok (vc : vc_data) : Prop :=
  vc.vc_x < vc.vc_cols ∧ vc.vc_y < vc.vc_rows ∧ vc.vc_size_row = 2 * vc.vc_cols ∧
  vc.vc_screenbuf_size = vc.vc_rows * vc.vc_cols * 2 ∧
  vc.vc_top < vc.vc_bottom ∧ vc.vc_bottom ≤ vc.vc_rows ∧
  vc.vc_pos = vc.vc_origin + vc.vc_y * vc.vc_size_row + 2 * vc.vc_x

instance (vc : vc_data) : Decidable (geometry_ok vc) := by
  unfold geometry_ok
  infer_instance

/-- The attribute byte of the cell at address `a`, as `do_update_region`
reads it: `scr_readw(a) & 0xff00`. -/
def attr_of (vc : vc_data) (a : Nat) : Nat := scr_readw vc.mem a &&& 0xff00

/-- Reference, in the words of the specification: whether the call
`con_putcs(src, n, y, x)` is a proper next run when the run before ended at the
address `pos` and had the row and attribute byte `prev` (none for the first
run).  The call has to start at `pos`, cover at least one cell, lie within the
row it is reported at and start at the column it is reported at, cover cells
of one attribute byte, and differ in its attribute byte from the run before
when that one is in the same row. -/
def run_ok (vc : vc_data) (pos : Nat) (prev : Option (Nat × Nat)) (src n y x : Nat) : Bool :=
  decide (src = pos) && decide (1 ≤ n) && decide (x + n ≤ vc.vc_cols) &&
  decide (src = vc.vc_origin + 2 * (vc.vc_cols * y + x)) &&
  (List.range n).all (fun k => decide (attr_of vc (src + 2 * k) = attr_of vc src)) &&
  (match prev with
    | some q => decide (q.1 = y → q.2 ≠ attr_of vc src)
    | none => true)

/-- Reference, in the words of the specification: the walk along a list of
`con_putcs` calls from the address `pos` on, every call being a proper next
run (`run_ok`).  The result is the address behind the last call together with
the row and attribute byte of the last call, `none` when a call is not a
proper next run. -/
def runs_end (vc : vc_data) :
    Nat → Option (Nat × Nat) → List Event → Option (Nat × Option (Nat × Nat))
  | pos, prev, [] => some (pos, prev)
  | pos, prev, Event.con_putcs src n y x :: rest =>
    if run_ok vc pos prev src n y x then
      runs_end vc (src + 2 * n) (some (y, attr_of vc src)) rest
    else none
  | _, _, _ :: _ => none

/-- Reference, in the words of the specification: the calls `calls`, taken in
order, partition exactly the `count` cells from the address `pos` on into runs
(`runs_end`), so that the run lengths sum to `count`. -/
def runs_partition (vc : vc_data) (pos count : Nat) (calls : List Event) : Bool :=
  match runs_end vc pos none calls with
  | some r => decide (r.1 = pos + 2 * count)
  | none => false

/-- Reference: whether the cell with index `i` (counted from the origin)
differs in its attribute byte from the cell before it. -/
def attr_change (vc : vc_data) (i : Nat) : Bool :=
  decide (attr_of vc (vc.vc_origin + 2 * i) ≠ attr_of vc (vc.vc_origin + 2 * (i - 1)))

/-- Reference: the number of attribute changes inside the `count` cells from
the cell with index `off` on: the cells of the region other than the first
whose attribute byte differs from that of the cell before. -/
def attr_changes (vc : vc_data) (off count : Nat) : Nat :=
  (List.range count).countP (fun j => decide (0 < j) && attr_change vc (off + j))

/-- Reference: the number of rows that the `count` cells from the cell with
index `off` on touch: one for the row of the first cell and one for every
further cell of the region that starts a row. -/
def rows_touched (vc : vc_data) (off count : Nat) : Nat :=
  (List.range count).countP (fun j => decide (j = 0 ∨ (off + j) % vc.vc_cols = 0))

/-- The invariant of the scan of `do_update_region` on row `yy`, for the region
of `n` cells from the cell with index `off` on, after `k` cells: the calls
issued so far are proper runs up to the start `q` of the open run, the open run
lies in row `yy` from column `startx` to column `xx` and has the attribute byte
`attrib`, and the calls issued, the open run included, are at most the
attribute changes plus the rows touched among the first `k` cells. -/
def scan_inv (vc : vc_data) (off n yy : Nat) (s : RowScan) : Prop :=
  ∃ (prev : Option (Nat × Nat)) (k : Nat),
    runs_end vc (vc.vc_origin + 2 * off) none s.calls = some (s.q, prev) ∧
    (∀ r, prev = some r → r.1 < yy ∨ (r.1 = yy ∧ r.2 ≠ s.attrib)) ∧
    s.startx ≤ s.xx ∧ s.xx ≤ vc.vc_cols ∧
    s.q = vc.vc_origin + 2 * (vc.vc_cols * yy + s.startx) ∧
    s.p = vc.vc_origin + 2 * (vc.vc_cols * yy + s.xx) ∧
    (∀ j, j < s.xx - s.startx → attr_of vc (s.q + 2 * j) = s.attrib) ∧
    (s.xx = s.startx → s.attrib = attr_of vc s.p) ∧
    vc.vc_cols * yy + s.xx = off + k ∧ s.count = (n : Int) - k ∧ k ≤ n ∧
    off ≤ vc.vc_cols * yy + s.startx ∧
    (s.xx = s.startx → k = 0 ∨ s.xx = 0) ∧
    s.calls.length + (if s.startx < s.xx then 1 else 0) ≤
      attr_changes vc off k + rows_touched vc off k

/-- Reference: the number of continuation bytes that a UTF-8 lead byte
announces and the payload bits it carries, for the five lead patterns
`110xxxxx`, `1110xxxx`, `11110xxx`, `111110xx`, `1111110x`. -/
def utf8_lead (c : Nat) : Option (Nat × Nat) :=
  if 0xc0 ≤ c ∧ c ≤ 0xdf then some (1, c - 0xc0)
  else if 0xe0 ≤ c ∧ c ≤ 0xef then some (2, c - 0xe0)
  else if 0xf0 ≤ c ∧ c ≤ 0xf7 then some (3, c - 0xf0)
  else if 0xf8 ≤ c ∧ c ≤ 0xfb then some (4, c - 0xf8)
  else if 0xfc ≤ c ∧ c ≤ 0xfd then some (5, c - 0xfc)
  else none

/-- Reference: the standard UTF-8 value of a sequence, the payload bits of the
lead byte followed by the low 6 bits of each continuation byte, most
significant first. -/
def utf8_value (payload : Nat) (conts : List Nat) : Nat :=
  conts.foldl (fun acc b => 64 * acc + b % 64) payload

namespace Old

/-- The font of the console (`vc->vc_font`), of which `vc_resize` of the older
`vt.c` reads the size of a character cell in pixels. -/
structure console_font where
  width : Nat
  height : Nat

/-- Transcription of `set_cursor` of the older `vt.c` for a console that does
not hold the mouse selection. -/
def set_cursor (vc : vc_data) : vc_data :=
  if !vc.is_visible || vc.vt_blanked || vc.vc_mode == KD_GRAPHICS then vc
  else if vc.vc_dectcem then
    let vc1 := add_softcursor vc
    if vc1.vc_cursor_type &&& 0x0f ≠ 1 then emit vc1 (Event.con_cursor CM_DRAW) else vc1
  else hide_cursor vc

/-- Transcription of `update_screen` of the older `vt.c` for an allocated
console. -/
def update_screen (env : Env) (vc : vc_data) : Option vc_data :=
  let vc1 := set_origin env (hide_cursor vc)
  let update := env.sw.con_switch vc1
  let vc2 := set_palette env (emit vc1 Event.con_switch)
  if update ≠ 0 ∧ vc2.vc_mode ≠ KD_GRAPHICS then
    match do_update_region env vc2 vc2.vc_origin ((vc2.vc_screenbuf_size / 2 : Nat) : Int) with
    | some vc4 => some (set_cursor vc4)
    | none => none
  else some (set_cursor vc2)

/-- The part of `vc_resize` of the older `vt.c` that follows the copy loop, as
`VT.vc_resize_finish`, with the older `update_screen`. -/
def vc_resize_finish (env : Env) (vc2 : vc_data) (ss newscreen : Nat) (m : Nat → Nat)
    (nl : Nat) : Option (Int × vc_data) :=
  let nlend := newscreen + ss
  let m1 := if nlend > nl
    then scr_memsetw m nl vc2.vc_video_erase_char (nlend - nl) else m
  let vc3 := set_origin env
    { vc2 with mem := m1, vc_screenbuf := newscreen, kmalloced := true,
               vc_screenbuf_size := ss }
  let vc4 := { vc3 with vc_top := 0, vc_bottom := vc3.vc_rows }
  let vc5 := vte_decsc (gotoxy vc4 vc4.vc_x vc4.vc_y)
  if vc5.is_visible then
    match update_screen env vc5 with
    | some vc6 => some (0, vc6)
    | none => none
  else some (0, vc5)

/-- The part of `vc_resize` of the older `vt.c` that follows the driver's
acceptance of the new geometry; the console already has the new dimensions. -/
def vc_resize_apply (env : Env) (vc1 : vc_data)
    (old_rows old_row_size new_rows new_row_size ss newscreen : Nat) :
    Option (Int × vc_data) :=
  let rlth := min old_row_size new_row_size
  let rrem := new_row_size - rlth
  let ol := if new_rows < old_rows
    then vc1.vc_origin + ((old_rows - new_rows) * old_row_size) % 4294967296
    else vc1.vc_origin
  let vc2 := update_attr env vc1
  match resize_copy_loop vc2.vc_scr_end old_row_size new_row_size rlth rrem
      vc2.vc_video_erase_char (vc2.vc_scr_end - ol) vc2.mem ol newscreen with
  | none => none
  | some r => vc_resize_finish env vc2 ss newscreen r.1 r.2

/-- Transcription of `vc_resize` of the older `ruby/linux/drivers/char/vt.c`
for an allocated console.  The console takes the new dimensions before the
driver is asked (`resize_screen`, with the size in pixels); when the driver
refuses, it is asked again for the old size and the error is returned. -/
def vc_resize (env : Env) (font : console_font) (vc : vc_data) (cols lines : Nat) :
    Option (Int × vc_data) :=
  let new_cols := if cols ≠ 0 then cols else vc.vc_cols
  let new_rows := if lines ≠ 0 then lines else vc.vc_rows
  let new_row_size := (new_cols <<< 1) % 4294967296
  let ss := (new_row_size * new_rows) % 4294967296
  if new_cols = vc.vc_cols ∧ new_rows = vc.vc_rows then some (0, vc)
  else
    match env.kmalloc ss with
    | none => some (-ENOMEM, vc)
    | some newscreen =>
      let old_rows := vc.vc_rows
      let old_cols := vc.vc_cols
      let old_row_size := vc.vc_size_row
      let vc1 := { vc with vc_rows := new_rows, vc_cols := new_cols,
                           vc_size_row := new_row_size, vc_screenbuf_size := ss }
      let r1 := resize_screen env vc1 ((new_cols * font.width) % 4294967296)
        ((new_rows * font.height) % 4294967296)
      if r1.1 ≠ 0 then
        some (r1.1, (resize_screen env r1.2 ((old_cols * font.width) % 4294967296)
          ((old_rows * font.height) % 4294967296)).2)
      else vc_resize_apply env r1.2 old_rows old_row_size new_rows new_row_size ss newscreen

end Old

/-! ## Scrolling by redraw in the frame-buffer console -/

/-- Cursor mode flag `CM_SOFTBACK` of fbcon.c: the cursor is drawn relative to
the scrolled-back view. -/
def CM_SOFTBACK : Nat := 8

/-- The part of the private data of the frame-buffer console
(`struct fbvt_data` and the `struct display` of the console) that
`fbcon_scroll` reads on its redraw path: the software scrollback buffer
`softback` with its oldest row `softback_top`, the row shown at the top of the
view `softback_curr`, the number of rows the view is scrolled back
`softback_lines`, and whether the hardware can blank in software
(`can_soft_blank`). -/
structure fbcon_par where
  softback : fbvt_data
  softback_top : Nat
  softback_curr : Nat
  softback_lines : Int
  can_soft_blank : Bool

/-- A console together with the private data of its frame-buffer driver. -/
structure fbcon_state where
  vc : vc_data
  par : fbcon_par

/-- Transcription of `fbcon_set_origin` (fbcon.c): a view that is scrolled back
is scrolled forward again by `fbcon_scrolldelta` unless the display is blanked.
The handler `scrolldelta` of the scrolled-back view is a parameter. -/
def fbcon_set_origin (scrolldelta : fbcon_state → Int → fbcon_state) (st : fbcon_state) :
    fbcon_state :=
  if st.par.softback_lines ≠ 0 ∧ st.vc.vt_blanked = false
  then scrolldelta st st.par.softback_lines else st

/-- Transcription of `fbcon_cursor` (fbcon.c) as far as the cell buffer and the
scrollback are concerned: without the flag `CM_SOFTBACK` a scrolled-back view
is reset by `fbcon_set_origin`.  The position and blink state of the hardware
or software cursor of the display and the drawing hooks are not part of this
state. -/
def fbcon_cursor (scrolldelta : fbcon_state → Int → fbcon_state) (st : fbcon_state)
    (mode : Nat) : fbcon_state :=
  if mode &&& CM_SOFTBACK ≠ 0 then st
  else if st.par.softback_lines ≠ 0 then fbcon_set_origin scrolldelta st
  else st

/-- The loop `while (count)` of `fbcon_softback_note` over `n` rows: the row at
`p` is copied to the insertion point of the scrollback, which advances by one
row and wraps at the end of the buffer; the oldest row is given up when the
insertion point reaches it. -/
def fbcon_softback_loop (size_row : Nat) :
    Nat → (Nat → Nat) → fbcon_par → Nat → (Nat → Nat) × fbcon_par
  | 0, mem, par, _ => (mem, par)
  | n + 1, mem, par, p =>
    let mem1 := scr_memcpyw mem par.softback.softback_in p size_row
    let in1 := par.softback.softback_in + size_row
    let in2 := if in1 = par.softback.softback_end then par.softback.softback_buf else in1
    let top1 :=
      if in2 = par.softback_top then
        if par.softback_top + size_row = par.softback.softback_end
        then par.softback.softback_buf else par.softback_top + size_row
      else par.softback_top
    fbcon_softback_loop size_row n mem1
      { par with softback := { par.softback with softback_in := in2 }, softback_top := top1 }
      (p + size_row)

/-- Transcription of `fbcon_softback_note` (fbcon.c): on a visible console the
`count` rows from row `t` on are appended to the scrollback, and the view is
put at its insertion point.  The `int` counter is decremented until it is zero
(`u32` iterations); `t * vc_size_row` is computed in `unsigned int`. -/
def fbcon_softback_note (st : fbcon_state) (t count : Int) : fbcon_state :=
  if !st.vc.is_visible then st
  else
    let r := fbcon_softback_loop st.vc.vc_size_row (u32 count) st.vc.mem st.par
      (st.vc.vc_origin + u32 (t * st.vc.vc_size_row))
    { vc := { st.vc with mem := r.1 },
      par := { r.2 with softback_curr := r.2.softback.softback_in } }

/-- The loop `do ... while (s < le)` of `fbcon_redraw` over `k` cells: the cell
at `s` is stored at `d`, both pointers advance by one cell.  The `putcs` calls
of the loop draw on the frame buffer and are not part of this state. -/
def fbcon_redraw_row : Nat → (Nat → Nat) → Nat → Nat → (Nat → Nat)
  | 0, mem, _, _ => mem
  | k + 1, mem, s, d => fbcon_redraw_row k (scr_writew mem (scr_readw mem s) d) (s + 2) (d + 2)

/-- The number of cells that the loop `do ... while (s < le)` of `fbcon_redraw`
handles in one row, `le` being `vc_size_row` bytes behind the start: at least
one, and as many as it takes to reach `le` in steps of two bytes. -/
def fbcon_row_cells (vc : vc_data) : Nat := max 1 ((vc.vc_size_row + 1) / 2)

/-- The loop `while (count--)` of `fbcon_redraw` over `n` rows, with the source
pointer `s` and the destination pointer `d` (byte addresses, as integers):
after each row the pointers stay where they are when `offset` is positive, and
both go back by `vc_size_row` cells, two rows, otherwise. -/
def fbcon_redraw_loop (vc : vc_data) (offset : Int) :
    Nat → (Nat → Nat) → Int → Int → (Nat → Nat)
  | 0, mem, _, _ => mem
  | n + 1, mem, s, d =>
    let mem1 := fbcon_redraw_row (fbcon_row_cells vc) mem s.toNat d.toNat
    let s1 := s + 2 * (fbcon_row_cells vc : Int)
    let d1 := d + 2 * (fbcon_row_cells vc : Int)
    if offset > 0 then fbcon_redraw_loop vc offset n mem1 s1 d1
    else fbcon_redraw_loop vc offset n mem1 (s1 - 2 * (vc.vc_size_row : Int))
      (d1 - 2 * (vc.vc_size_row : Int))

/-- Transcription of `fbcon_redraw` (fbcon.c): the memory after `count` rows
have been copied to the rows from `line` on, upwards for a positive `offset`
(in cells) and downwards otherwise, from the rows `offset` cells away.
`vc_size_row * line` is computed in `unsigned int`; the `int` counter is
decremented until it is zero (`u32` iterations). -/
def fbcon_redraw (vc : vc_data) (line count offset : Int) : Nat → Nat :=
  let d : Int := ((vc.vc_origin + u32 ((vc.vc_size_row : Int) * line) : Nat) : Int)
  fbcon_redraw_loop vc offset (u32 count) vc.mem (d + 2 * offset) d

/-- Transcription of `fbcon_scroll` (fbcon.c) for a display in the scroll mode
`__SCROLL_YREDRAW`, in which the scroll is done by `fbcon_redraw` whether the
boot logo is shown or not: result 0 and no change on a display that is blanked
and cannot blank in software, for the count 0 and outside text mode; otherwise
the cursor is erased, the count is limited to the number of rows (compared in
`unsigned int`), for the direction up the rows scrolled out are noted in the
scrollback when there is one, the surviving rows are redrawn at their new
place, the exposed rows are filled with the erase character, and the result is
1.  The products are computed in `unsigned int`; the offset handed to
`fbcon_redraw` is an `int`.  The drawing hooks of the display are not part of
this state. -/
def fbcon_scroll (scrolldelta : fbcon_state → Int → fbcon_state) (st : fbcon_state)
    (t b : Int) (dir : Nat) (count : Int) : Int × fbcon_state :=
  if !st.par.can_soft_blank && st.vc.vt_blanked then (0, st)
  else if count = 0 ∨ st.vc.vc_mode ≠ KD_TEXT then (0, st)
  else
    let st1 := fbcon_cursor scrolldelta st CM_ERASE
    if dir = SM_UP then
      let count1 : Int := if u32 count > st1.vc.vc_rows then (st1.vc.vc_rows : Int) else count
      let st2 := if st1.par.softback_top ≠ 0 then fbcon_softback_note st1 t count1 else st1
      let m := fbcon_redraw st2.vc t (b - t - count1)
        (s32 (u32 (count1 * (st2.vc.vc_cols : Int))))
      (1, { st2 with vc := { st2.vc with
        mem := scr_memsetw m
          (st2.vc.vc_origin + u32 ((st2.vc.vc_size_row : Int) * (b - count1)))
          st2.vc.vc_video_erase_char (u32 ((st2.vc.vc_size_row : Int) * count1)) } })
    else if dir = SM_DOWN then
      let count1 : Int := if u32 count > st1.vc.vc_rows then (st1.vc.vc_rows : Int) else count
      let m := fbcon_redraw st1.vc (b - 1) (b - t - count1)
        (s32 (u32 (-count1 * (st1.vc.vc_cols : Int))))
      (1, { st1 with vc := { st1.vc with
        mem := scr_memsetw m
          (st1.vc.vc_origin + u32 ((st1.vc.vc_size_row : Int) * t))
          st1.vc.vc_video_erase_char (u32 ((st1.vc.vc_size_row : Int) * count1)) } })
    else (0, st1)

/-- The scrollback buffer is well-formed for the console: there is none
(`softback_top` is 0) or the console is not visible, or the buffer is made of
whole rows, its insertion point is at the start of one of them, and the buffer
lies outside the screen. -/
def softback_ok (st : fbcon_state) : Prop :=
  st.par.softback_top = 0 ∨ st.vc.is_visible = false ∨
  ∃ N K : Nat, K < N ∧
    st.par.softback.softback_in = st.par.softback.softback_buf + st.vc.vc_size_row * K ∧
    st.par.softback.softback_end = st.par.softback.softback_buf + st.vc.vc_size_row * N ∧
    (st.par.softback.softback_end ≤ st.vc.vc_origin ∨
      st.vc.vc_origin + st.vc.vc_size_row * st.vc.vc_rows ≤ st.par.softback.softback_buf)

/-- A frame-buffer console over the visible 80x25 sample console, with a
scrollback of 4 rows at address 65536 whose insertion point is at its start,
not scrolled back. -/
def sample_fbcon : fbcon_state where
  vc := sample_visible_console
  par := { softback := { softback_buf := 65536, softback_in := 65536,
                         softback_end := 65536 + 4 * 160 },
           softback_top := 65536, softback_curr := 65536, softback_lines := 0,
           can_soft_blank := false }

/-! ## Theorems -/

/-! ### Memory lemmas -/

theorem memsetw_loop_apply (c : Nat) (n : Nat) : ∀ (mem : Nat → Nat) (s a : Nat),
    memsetw_loop c mem s n a =
      if s ≤ a ∧ a < s + 2 * n ∧ (a - s) % 2 = 0 then c % 65536 else mem a := by
  induction n with
  | zero => intro mem s a; rw [memsetw_loop, if_neg (by omega)]
  | succ n ih =>
    intro mem s a
    simp only [memsetw_loop, ih, scr_writew]
    split_ifs <;> first | rfl | omega

theorem scr_memsetw_apply (mem : Nat → Nat) (s c count a : Nat) :
    scr_memsetw mem s c count a =
      if s ≤ a ∧ a < s + 2 * (count / 2) ∧ (a - s) % 2 = 0 then c % 65536 else mem a :=
  memsetw_loop_apply c (count / 2) mem s a

theorem memcpyw_loop_apply (n : Nat) : ∀ (mem : Nat → Nat) (d s a : Nat), d ≤ s →
    memcpyw_loop mem d s n a =
      if d ≤ a ∧ a < d + 2 * n ∧ (a - d) % 2 = 0 then mem (s + (a - d)) % 65536 else mem a := by
  induction n with
  | zero => intro mem d s a _; rw [memcpyw_loop, if_neg (by omega)]
  | succ n ih =>
    intro mem d s a hds
    rw [memcpyw_loop, ih _ _ _ _ (by omega)]
    simp only [scr_writew, scr_readw]
    by_cases h1 : d + 2 ≤ a ∧ a < d + 2 + 2 * n ∧ (a - (d + 2)) % 2 = 0
    · have h2 : d ≤ a ∧ a < d + 2 * (n + 1) ∧ (a - d) % 2 = 0 := by omega
      have h3 : s + 2 + (a - (d + 2)) = s + (a - d) := by omega
      have h4 : ¬ (s + (a - d) = d) := by omega
      rw [if_pos h1, if_pos h2, h3, if_neg h4]
    · rw [if_neg h1]
      by_cases h5 : a = d
      · subst h5
        have h2 : a ≤ a ∧ a < a + 2 * (n + 1) ∧ (a - a) % 2 = 0 := by omega
        rw [if_pos rfl, if_pos h2]
        simp
      · have h2 : ¬ (d ≤ a ∧ a < d + 2 * (n + 1) ∧ (a - d) % 2 = 0) := by omega
        rw [if_neg h5, if_neg h2]

theorem memmovew_back_apply (n : Nat) : ∀ (mem : Nat → Nat) (d s a : Nat), s ≤ d →
    memmovew_back mem (d + 2 * n) (s + 2 * n) n a =
      if d ≤ a ∧ a < d + 2 * n ∧ (a - d) % 2 = 0 then mem (s + (a - d)) % 65536 else mem a := by
  induction n with
  | zero => intro mem d s a _; rw [memmovew_back, if_neg (by omega)]
  | succ n ih =>
    intro mem d s a hsd
    have e1 : d + 2 * (n + 1) - 2 = d + 2 * n := by omega
    have e2 : s + 2 * (n + 1) - 2 = s + 2 * n := by omega
    rw [memmovew_back, e1, e2, ih _ _ _ _ hsd]
    simp only [scr_writew, scr_readw]
    by_cases h1 : d ≤ a ∧ a < d + 2 * n ∧ (a - d) % 2 = 0
    · have h2 : d ≤ a ∧ a < d + 2 * (n + 1) ∧ (a - d) % 2 = 0 := by omega
      have h4 : ¬ (s + (a - d) = d + 2 * n) := by omega
      rw [if_pos h1, if_pos h2, if_neg h4]
    · rw [if_neg h1]
      by_cases h5 : a = d + 2 * n
      · subst h5
        have h2 : d ≤ d + 2 * n ∧ d + 2 * n < d + 2 * (n + 1) ∧ (d + 2 * n - d) % 2 = 0 := by
          omega
        have h3 : s + (d + 2 * n - d) = s + 2 * n := by omega
        rw [if_pos rfl, if_pos h2, h3]
        simp
      · have h2 : ¬ (d ≤ a ∧ a < d + 2 * (n + 1) ∧ (a - d) % 2 = 0) := by omega
        rw [if_neg h5, if_neg h2]

/-- Pointwise description of the overlap-safe block move. -/
theorem scr_memmovew_apply (mem : Nat → Nat) (d s count a : Nat) :
    scr_memmovew mem d s count a =
      if d ≤ a ∧ a < d + 2 * (count / 2) ∧ (a - d) % 2 = 0 then mem (s + (a - d)) % 65536
      else mem a := by
  unfold scr_memmovew
  by_cases h : d < s
  · rw [if_pos h]
    exact memcpyw_loop_apply (count / 2) mem d s a (by omega)
  · rw [if_neg h]
    exact memmovew_back_apply (count / 2) mem d s a (by omega)

/-- Pointwise description of the ascending copy when the destination does not
lie above the source. -/
theorem scr_memcpyw_apply (mem : Nat → Nat) (d s count a : Nat) (h : d ≤ s) :
    scr_memcpyw mem d s count a =
      if d ≤ a ∧ a < d + 2 * (count / 2) ∧ (a - d) % 2 = 0 then mem (s + (a - d)) % 65536
      else mem a :=
  memcpyw_loop_apply (count / 2) mem d s a h

theorem u32_of_nat (n : Nat) (h : n < 4294967296) : u32 (n : Int) = n := by
  unfold u32; omega

theorem u32_mul (a b : Nat) (ha : a ≤ 65534) (hb : b ≤ 32767) :
    u32 ((a : Int) * (b : Int)) = a * b := by
  have h : a * b ≤ 65534 * 32767 := Nat.mul_le_mul ha hb
  have e : ((a : Int) * (b : Int)) = ((a * b : Nat) : Int) := by push_cast; rfl
  rw [e]
  exact u32_of_nat _ (by omega)

/-- The clamp at the head of the region scrolls, for a positive count. -/
theorem scroll_clamp_pos (t b : Nat) (nr : Int) (htb : t < b) (hb : b ≤ 32767)
    (hnr : 1 ≤ nr) (hnr2 : nr < 2147483648) :
    (if u32 ((t : Int) + nr) ≥ b then s32 (u32 ((b : Int) - t - 1)) else nr)
      = min nr ((b : Int) - t - 1) := by
  unfold u32 s32
  split_ifs <;> omega

/-- The in-buffer scroll up written with plain natural-number offsets. -/
theorem scroll_region_up_soft_eq (vc : vc_data) (t b n : Nat)
    (hsz : vc.vc_size_row = 2 * vc.vc_cols) (hcols : vc.vc_cols ≤ 32767)
    (hb : b ≤ 32767) (htn : t + n < b) :
    scroll_region_up_soft vc t b (n : Int) =
      { vc with
        mem := scr_memsetw
          (scr_memmovew vc.mem (vc.vc_origin + vc.vc_size_row * t)
            (vc.vc_origin + vc.vc_size_row * (t + n)) ((b - t - n) * vc.vc_size_row))
          (vc.vc_origin + vc.vc_size_row * t + 2 * ((b - t - n) * vc.vc_cols))
          vc.vc_video_erase_char (vc.vc_size_row * n) } := by
  have hR : vc.vc_size_row ≤ 65534 := by omega
  have e1 : u32 ((vc.vc_size_row : Int) * (t : Int)) = vc.vc_size_row * t :=
    u32_mul _ _ hR (by omega)
  have e2 : u32 ((vc.vc_size_row : Int) * ((t : Int) + (n : Int))) = vc.vc_size_row * (t + n) := by
    have := u32_mul vc.vc_size_row (t + n) hR (by omega)
    push_cast at this
    exact this
  have e3 : u32 (((b : Int) - t - n) * vc.vc_size_row) = (b - t - n) * vc.vc_size_row := by
    have := u32_mul vc.vc_size_row (b - t - n) hR (by omega)
    rw [Nat.mul_comm] at this
    rw [← this]
    congr 1
    have : ((b - t - n : Nat) : Int) = (b : Int) - t - n := by omega
    rw [this]; ring
  have e4 : u32 (((b : Int) - t - n) * vc.vc_cols) = (b - t - n) * vc.vc_cols := by
    have := u32_mul vc.vc_cols (b - t - n) (by omega) (by omega)
    rw [Nat.mul_comm] at this
    rw [← this]
    congr 1
    have : ((b - t - n : Nat) : Int) = (b : Int) - t - n := by omega
    rw [this]; ring
  have e5 : u32 ((vc.vc_size_row : Int) * (n : Int)) = vc.vc_size_row * n :=
    u32_mul _ _ hR (by omega)
  simp only [scroll_region_up_soft, e1, e2, e3, e4, e5]

/-- Pointwise contents of the buffer after the in-buffer scroll up by `n` rows
of the region `[t, b)`, `m = b - t - n` rows surviving. -/
theorem scroll_up_mem (mem : Nat → Nat) (O c t n m e a : Nat) :
    scr_memsetw (scr_memmovew mem (O + 2 * c * t) (O + 2 * c * (t + n)) (m * (2 * c)))
        (O + 2 * c * t + 2 * (m * c)) e (2 * c * n) a =
      if O + 2 * c * t + 2 * (m * c) ≤ a ∧ a < O + 2 * c * t + 2 * (m * c) + 2 * (c * n)
          ∧ (a - (O + 2 * c * t + 2 * (m * c))) % 2 = 0 then e % 65536
      else if O + 2 * c * t ≤ a ∧ a < O + 2 * c * t + 2 * (m * c)
          ∧ (a - (O + 2 * c * t)) % 2 = 0 then
        mem (O + 2 * c * (t + n) + (a - (O + 2 * c * t))) % 65536
      else mem a := by
  have h1 : 2 * c * n / 2 = c * n := by
    rw [Nat.mul_assoc]; exact Nat.mul_div_cancel_left _ (by norm_num)
  have h2 : m * (2 * c) / 2 = m * c := by
    rw [Nat.mul_left_comm]; exact Nat.mul_div_cancel_left _ (by norm_num)
  rw [scr_memsetw_apply, scr_memmovew_apply, h1, h2]

theorem row_cell_lt (c i m j : Nat) (hi : i < m) (hj : j < c) : c * i + j < c * m := by
  have h1 : c * (i + 1) ≤ c * m := Nat.mul_le_mul_left c hi
  have h2 : c * (i + 1) = c * i + c := by ring
  omega

theorem row_cell_le (c i m : Nat) (hi : i ≤ m) : c * i ≤ c * m :=
  Nat.mul_le_mul_left c hi

/-- Cells of the region after the in-buffer scroll up: the surviving rows move
up by `n`, the last `n` rows hold the erase character, everything outside the
region is untouched. -/
theorem scroll_region_up_soft_cells (vc : vc_data) (t b n : Nat)
    (hsz : vc.vc_size_row = 2 * vc.vc_cols) (hcols : vc.vc_cols ≤ 32767)
    (hb : b ≤ 32767) (htn : t + n < b) :
    (∀ i j, i < b - t - n → j < vc.vc_cols →
      cell (scroll_region_up_soft vc t b n) (t + i) j = cell vc (t + n + i) j) ∧
    (∀ r j, b - n ≤ r → r < b → j < vc.vc_cols →
      cell (scroll_region_up_soft vc t b n) r j = vc.vc_video_erase_char % 65536) ∧
    (∀ a, (a < vc.vc_origin + vc.vc_size_row * t ∨ vc.vc_origin + vc.vc_size_row * b ≤ a) →
      (scroll_region_up_soft vc t b n).mem a = vc.mem a) := by
  rw [scroll_region_up_soft_eq vc t b n hsz hcols hb htn]
  simp only [cell, scr_readw, hsz]
  obtain ⟨m, hm⟩ : ∃ m, b = t + n + m := ⟨b - t - n, by omega⟩
  have hm' : b - t - n = m := by omega
  rw [hm']
  refine ⟨?_, ?_, ?_⟩
  · intro i j hi hj
    rw [scroll_up_mem]
    have p1 : 2 * vc.vc_cols * (t + i) = 2 * vc.vc_cols * t + 2 * (vc.vc_cols * i) := by ring
    have p2 : 2 * vc.vc_cols * (t + n + i)
        = 2 * vc.vc_cols * (t + n) + 2 * (vc.vc_cols * i) := by ring
    have p3 := row_cell_lt vc.vc_cols i m j hi hj
    have p4 : m * vc.vc_cols = vc.vc_cols * m := Nat.mul_comm _ _
    rw [if_neg (by omega), if_pos (by omega)]
    have e : vc.vc_origin + 2 * vc.vc_cols * (t + n)
        + (vc.vc_origin + 2 * vc.vc_cols * (t + i) + 2 * j - (vc.vc_origin + 2 * vc.vc_cols * t))
        = vc.vc_origin + 2 * vc.vc_cols * (t + n + i) + 2 * j := by omega
    rw [e, Nat.mod_mod]
  · intro r j hr1 hr2 hj
    rw [scroll_up_mem]
    obtain ⟨k, hk⟩ : ∃ k, r = t + m + k := ⟨r - t - m, by omega⟩
    have hkn : k < n := by omega
    subst hk
    have p1 : 2 * vc.vc_cols * (t + m + k)
        = 2 * vc.vc_cols * t + 2 * (vc.vc_cols * m) + 2 * (vc.vc_cols * k) := by ring
    have p3 := row_cell_lt vc.vc_cols k n j hkn hj
    have p4 : m * vc.vc_cols = vc.vc_cols * m := Nat.mul_comm _ _
    rw [if_pos (by omega)]
    exact Nat.mod_mod _ _
  · intro a ha
    rw [scroll_up_mem]
    have p1 : 2 * vc.vc_cols * b
        = 2 * vc.vc_cols * t + 2 * (vc.vc_cols * m) + 2 * (vc.vc_cols * n) := by
      rw [hm]; ring
    have p4 : m * vc.vc_cols = vc.vc_cols * m := Nat.mul_comm _ _
    rw [if_neg (by omega), if_neg (by omega)]

/-- Under the preconditions of the software path the clamped count is `n` and
`scroll_region_up` is the in-buffer scroll, preceded by the declined driver
call when the console is visible. -/
theorem scroll_region_up_eq_soft (env : Env) (vc : vc_data) (t b : Nat) (nr : Int) (n : Nat)
    (hrows : vc.vc_rows ≤ 32767) (htb : t < b) (hbr : b ≤ vc.vc_rows)
    (hnr : 1 ≤ nr) (hnr2 : nr < 2147483648)
    (hn : (n : Int) = min nr ((b : Int) - t - 1)) (hn1 : 1 ≤ n)
    (hsoft : vc.is_visible = false ∨ env.sw.con_scroll_region vc t b SM_UP n = 0) :
    scroll_region_up env vc t b nr =
      scroll_region_up_soft
        (if vc.is_visible then emit vc (Event.con_scroll_region t b SM_UP n) else vc) t b n := by
  unfold scroll_region_up
  simp only [scroll_clamp_pos t b nr htb (by omega) hnr hnr2, ← hn]
  rw [if_neg (by omega)]
  rcases hsoft with h | h
  · simp [h]
  · cases hv : vc.is_visible
    · simp
    · simp [h]

/-- C4: `scroll_region_up` on the software path (console not visible, or
`con_scroll_region` returning 0), for `0 ≤ t < b ≤ rows`, `nr ≥ 1` and
`n = min(nr, b-t-1) ≥ 1`: afterwards row `t+i` holds the former row `t+n+i`
for every `i < b-t-n`, rows `b-n .. b-1` hold the erase character in every
column, and every row outside `[t, b)` (indeed every address outside the
region) is unchanged. -/
theorem scroll_region_up_software (env : Env) (vc : vc_data) (t b : Nat) (nr : Int) (n : Nat)
    (hsz : vc.vc_size_row = 2 * vc.vc_cols)
    (hcols : vc.vc_cols ≤ 32767) (hrows : vc.vc_rows ≤ 32767)
    (htb : t < b) (hbr : b ≤ vc.vc_rows)
    (hnr : 1 ≤ nr) (hnr2 : nr < 2147483648)
    (hn : (n : Int) = min nr ((b : Int) - t - 1)) (hn1 : 1 ≤ n)
    (hsoft : vc.is_visible = false ∨ env.sw.con_scroll_region vc t b SM_UP n = 0) :
    (∀ i j, i < b - t - n → j < vc.vc_cols →
      cell (scroll_region_up env vc t b nr) (t + i) j = cell vc (t + n + i) j) ∧
    (∀ r j, b - n ≤ r → r < b → j < vc.vc_cols →
      cell (scroll_region_up env vc t b nr) r j = vc.vc_video_erase_char % 65536) ∧
    (∀ r j, (r < t ∨ b ≤ r) → j < vc.vc_cols →
      cell (scroll_region_up env vc t b nr) r j = cell vc r j) ∧
    (∀ a, (a < vc.vc_origin + vc.vc_size_row * t ∨ vc.vc_origin + vc.vc_size_row * b ≤ a) →
      (scroll_region_up env vc t b nr).mem a = vc.mem a) := by
  rw [scroll_region_up_eq_soft env vc t b nr n hrows htb hbr hnr hnr2 hn hn1 hsoft]
  have htn : t + n < b := by omega
  obtain ⟨h1, h2, h3⟩ := scroll_region_up_soft_cells
    (if vc.is_visible then emit vc (Event.con_scroll_region t b SM_UP n) else vc) t b n
    (by split_ifs <;> exact hsz) (by split_ifs <;> exact hcols) (by omega) htn
  have eo : (if vc.is_visible then emit vc (Event.con_scroll_region t b SM_UP n) else vc).vc_origin
      = vc.vc_origin := by split_ifs <;> rfl
  have es : (if vc.is_visible then emit vc (Event.con_scroll_region t b SM_UP n)
      else vc).vc_size_row = vc.vc_size_row := by split_ifs <;> rfl
  have ec : (if vc.is_visible then emit vc (Event.con_scroll_region t b SM_UP n)
      else vc).vc_cols = vc.vc_cols := by split_ifs <;> rfl
  have ee : (if vc.is_visible then emit vc (Event.con_scroll_region t b SM_UP n)
      else vc).vc_video_erase_char = vc.vc_video_erase_char := by split_ifs <;> rfl
  have em : (if vc.is_visible then emit vc (Event.con_scroll_region t b SM_UP n) else vc).mem
      = vc.mem := by split_ifs <;> rfl
  have ecell : ∀ r j, cell (if vc.is_visible then emit vc (Event.con_scroll_region t b SM_UP n)
      else vc) r j = cell vc r j := by
    intro r j; simp only [cell, eo, es, em]
  rw [eo, es, em] at h3
  rw [ec] at h1 h2
  rw [ee] at h2
  refine ⟨?_, h2, ?_, h3⟩
  · intro i j hi hj
    rw [h1 i j hi hj, ecell]
  · intro r j hr hj
    have key : (scroll_region_up_soft
        (if vc.is_visible then emit vc (Event.con_scroll_region t b SM_UP n) else vc) t b n).mem
          (vc.vc_origin + vc.vc_size_row * r + 2 * j)
        = vc.mem (vc.vc_origin + vc.vc_size_row * r + 2 * j) := by
      apply h3
      rw [hsz]
      rcases hr with hr | hr
      · left
        have := row_cell_lt vc.vc_cols r t j hr hj
        have p : ∀ x, 2 * vc.vc_cols * x = 2 * (vc.vc_cols * x) := fun x => Nat.mul_assoc _ _ _
        rw [p, p]; omega
      · right
        have := row_cell_le vc.vc_cols b r hr
        have p : ∀ x, 2 * vc.vc_cols * x = 2 * (vc.vc_cols * x) := fun x => Nat.mul_assoc _ _ _
        rw [p, p]; omega
    have eo2 : (scroll_region_up_soft
        (if vc.is_visible then emit vc (Event.con_scroll_region t b SM_UP n) else vc) t b n).vc_origin
        = vc.vc_origin := by simp only [scroll_region_up_soft]; exact eo
    have es2 : (scroll_region_up_soft
        (if vc.is_visible then emit vc (Event.con_scroll_region t b SM_UP n) else vc) t b n).vc_size_row
        = vc.vc_size_row := by simp only [scroll_region_up_soft]; exact es
    simp only [cell, scr_readw, eo2, es2, key]

/-- The in-buffer scroll down written with plain natural-number offsets. -/
theorem scroll_region_down_soft_eq (vc : vc_data) (t b n : Nat)
    (hsz : vc.vc_size_row = 2 * vc.vc_cols) (hcols : vc.vc_cols ≤ 32767)
    (hb : b ≤ 32767) (htn : t + n < b) :
    scroll_region_down_soft vc t b (n : Int) =
      { vc with
        mem := scr_memsetw
          (scr_memmovew vc.mem (vc.vc_origin + vc.vc_size_row * t + 2 * (vc.vc_cols * n))
            (vc.vc_origin + vc.vc_size_row * t) ((b - t - n) * vc.vc_size_row))
          (vc.vc_origin + vc.vc_size_row * t)
          vc.vc_video_erase_char (2 * (vc.vc_cols * n)) } := by
  have hR : vc.vc_size_row ≤ 65534 := by omega
  have e1 : u32 ((vc.vc_size_row : Int) * (t : Int)) = vc.vc_size_row * t :=
    u32_mul _ _ hR (by omega)
  have e2 : u32 ((vc.vc_cols : Int) * (n : Int)) = vc.vc_cols * n :=
    u32_mul _ _ (by omega) (by omega)
  have e3 : u32 (((b : Int) - t - n) * vc.vc_size_row) = (b - t - n) * vc.vc_size_row := by
    have := u32_mul vc.vc_size_row (b - t - n) hR (by omega)
    rw [Nat.mul_comm] at this
    rw [← this]
    congr 1
    have : ((b - t - n : Nat) : Int) = (b : Int) - t - n := by omega
    rw [this]; ring
  have e4 : u32 (2 * ((vc.vc_cols * n : Nat) : Int)) = 2 * (vc.vc_cols * n) := by
    have h : vc.vc_cols * n ≤ 32767 * 32767 := Nat.mul_le_mul hcols (by omega)
    have := u32_of_nat (2 * (vc.vc_cols * n)) (by omega)
    push_cast at this ⊢
    exact this
  simp only [scroll_region_down_soft, e1, e2, e3, e4]

/-- Pointwise contents of the buffer after the in-buffer scroll down by `n`
rows of the region `[t, b)`, `m = b - t - n` rows surviving. -/
theorem scroll_down_mem (mem : Nat → Nat) (O c t n m e a : Nat) :
    scr_memsetw (scr_memmovew mem (O + 2 * c * t + 2 * (c * n)) (O + 2 * c * t) (m * (2 * c)))
        (O + 2 * c * t) e (2 * (c * n)) a =
      if O + 2 * c * t ≤ a ∧ a < O + 2 * c * t + 2 * (c * n)
          ∧ (a - (O + 2 * c * t)) % 2 = 0 then e % 65536
      else if O + 2 * c * t + 2 * (c * n) ≤ a ∧ a < O + 2 * c * t + 2 * (c * n) + 2 * (m * c)
          ∧ (a - (O + 2 * c * t + 2 * (c * n))) % 2 = 0 then
        mem (O + 2 * c * t + (a - (O + 2 * c * t + 2 * (c * n)))) % 65536
      else mem a := by
  have h1 : 2 * (c * n) / 2 = c * n := Nat.mul_div_cancel_left _ (by norm_num)
  have h2 : m * (2 * c) / 2 = m * c := by
    rw [Nat.mul_left_comm]; exact Nat.mul_div_cancel_left _ (by norm_num)
  rw [scr_memsetw_apply, scr_memmovew_apply, h1, h2]

/-- Cells of the region after the in-buffer scroll down: the surviving rows
move down by `n`, the first `n` rows hold the erase character, everything
outside the region is untouched. -/
theorem scroll_region_down_soft_cells (vc : vc_data) (t b n : Nat)
    (hsz : vc.vc_size_row = 2 * vc.vc_cols) (hcols : vc.vc_cols ≤ 32767)
    (hb : b ≤ 32767) (htn : t + n < b) :
    (∀ i j, i < b - t - n → j < vc.vc_cols →
      cell (scroll_region_down_soft vc t b n) (t + n + i) j = cell vc (t + i) j) ∧
    (∀ r j, t ≤ r → r < t + n → j < vc.vc_cols →
      cell (scroll_region_down_soft vc t b n) r j = vc.vc_video_erase_char % 65536) ∧
    (∀ a, (a < vc.vc_origin + vc.vc_size_row * t ∨ vc.vc_origin + vc.vc_size_row * b ≤ a) →
      (scroll_region_down_soft vc t b n).mem a = vc.mem a) := by
  rw [scroll_region_down_soft_eq vc t b n hsz hcols hb htn]
  simp only [cell, scr_readw, hsz]
  obtain ⟨m, hm⟩ : ∃ m, b = t + n + m := ⟨b - t - n, by omega⟩
  have hm' : b - t - n = m := by omega
  rw [hm']
  refine ⟨?_, ?_, ?_⟩
  · intro i j hi hj
    rw [scroll_down_mem]
    have p1 : 2 * vc.vc_cols * (t + i) = 2 * vc.vc_cols * t + 2 * (vc.vc_cols * i) := by ring
    have p2 : 2 * vc.vc_cols * (t + n + i)
        = 2 * vc.vc_cols * t + 2 * (vc.vc_cols * n) + 2 * (vc.vc_cols * i) := by ring
    have p3 := row_cell_lt vc.vc_cols i m j hi hj
    have p4 : m * vc.vc_cols = vc.vc_cols * m := Nat.mul_comm _ _
    rw [if_neg (by omega), if_pos (by omega)]
    have e : vc.vc_origin + 2 * vc.vc_cols * t
        + (vc.vc_origin + 2 * vc.vc_cols * (t + n + i) + 2 * j
            - (vc.vc_origin + 2 * vc.vc_cols * t + 2 * (vc.vc_cols * n)))
        = vc.vc_origin + 2 * vc.vc_cols * (t + i) + 2 * j := by omega
    rw [e, Nat.mod_mod]
  · intro r j hr1 hr2 hj
    rw [scroll_down_mem]
    obtain ⟨k, hk⟩ : ∃ k, r = t + k := ⟨r - t, by omega⟩
    have hkn : k < n := by omega
    subst hk
    have p1 : 2 * vc.vc_cols * (t + k) = 2 * vc.vc_cols * t + 2 * (vc.vc_cols * k) := by ring
    have p3 := row_cell_lt vc.vc_cols k n j hkn hj
    rw [if_pos (by omega)]
    exact Nat.mod_mod _ _
  · intro a ha
    rw [scroll_down_mem]
    have p1 : 2 * vc.vc_cols * b
        = 2 * vc.vc_cols * t + 2 * (vc.vc_cols * n) + 2 * (vc.vc_cols * m) := by
      rw [hm]; ring
    have p4 : m * vc.vc_cols = vc.vc_cols * m := Nat.mul_comm _ _
    rw [if_neg (by omega), if_neg (by omega)]

/-- On the software path `scroll_region_up` differs from the in-buffer scroll
in the trace only. -/
theorem scroll_region_up_soft_path (env : Env) (vc : vc_data) (t b : Nat) (nr : Int) (n : Nat)
    (hrows : vc.vc_rows ≤ 32767) (htb : t < b) (hbr : b ≤ vc.vc_rows)
    (hnr : 1 ≤ nr) (hnr2 : nr < 2147483648)
    (hn : (n : Int) = min nr ((b : Int) - t - 1)) (hn1 : 1 ≤ n)
    (hsoft : vc.is_visible = false ∨ env.sw.con_scroll_region vc t b SM_UP n = 0) :
    ∃ tr, scroll_region_up env vc t b nr = { scroll_region_up_soft vc t b n with trace := tr } := by
  rw [scroll_region_up_eq_soft env vc t b nr n hrows htb hbr hnr hnr2 hn hn1 hsoft]
  cases vc.is_visible
  · exact ⟨vc.trace, rfl⟩
  · exact ⟨vc.trace ++ [Event.con_scroll_region t b SM_UP n], rfl⟩

/-- On the software path `scroll_region_down` differs from the in-buffer scroll
in the trace only. -/
theorem scroll_region_down_soft_path (env : Env) (vc : vc_data) (t b : Nat) (nr : Int) (n : Nat)
    (hrows : vc.vc_rows ≤ 32767) (htb : t < b) (hbr : b ≤ vc.vc_rows)
    (hnr : 1 ≤ nr) (hnr2 : nr < 2147483648)
    (hn : (n : Int) = min nr ((b : Int) - t - 1)) (hn1 : 1 ≤ n)
    (hsoft : vc.is_visible = false ∨ env.sw.con_scroll_region vc t b SM_DOWN n = 0) :
    ∃ tr, scroll_region_down env vc t b nr
      = { scroll_region_down_soft vc t b n with trace := tr } := by
  unfold scroll_region_down
  simp only [scroll_clamp_pos t b nr htb (by omega) hnr hnr2, ← hn]
  rw [if_neg (by omega)]
  cases hv : vc.is_visible
  · refine ⟨vc.trace, ?_⟩
    rw [if_neg (by simp)]
    rfl
  · have h : env.sw.con_scroll_region vc t b SM_DOWN n = 0 := by
      rcases hsoft with h | h
      · rw [hv] at h; exact absurd h (by decide)
      · exact h
    refine ⟨vc.trace ++ [Event.con_scroll_region t b SM_DOWN n], ?_⟩
    rw [if_pos rfl, if_neg (by simp [h])]
    rfl

theorem row_addr_outside (vc : vc_data) (t b r j : Nat)
    (hsz : vc.vc_size_row = 2 * vc.vc_cols) (hr : r < t ∨ b ≤ r) (hj : j < vc.vc_cols) :
    vc.vc_origin + vc.vc_size_row * r + 2 * j < vc.vc_origin + vc.vc_size_row * t ∨
      vc.vc_origin + vc.vc_size_row * b ≤ vc.vc_origin + vc.vc_size_row * r + 2 * j := by
  rw [hsz]
  have p : ∀ x, 2 * vc.vc_cols * x = 2 * (vc.vc_cols * x) := fun x => Nat.mul_assoc _ _ _
  rw [p, p, p]
  rcases hr with hr | hr
  · left
    have := row_cell_lt vc.vc_cols r t j hr hj
    omega
  · right
    have := row_cell_le vc.vc_cols b r hr
    omega

/-- C6: `scroll_region_up(t, b, n)` followed by `scroll_region_down(t, b, n)`
on the software path, `1 ≤ n < b - t`, `b ≤ rows`: rows `t+n .. b-1` hold
their original contents again, rows `t .. t+n-1` hold the erase character in
every column, rows outside `[t, b)` are unchanged; hence a cell of the first
`n` rows that did not hold the erase character is not restored. -/
theorem scroll_up_then_down (env : Env) (vc : vc_data) (t b n : Nat)
    (hsz : vc.vc_size_row = 2 * vc.vc_cols)
    (hcols : vc.vc_cols ≤ 32767) (hrows : vc.vc_rows ≤ 32767)
    (hn1 : 1 ≤ n) (htn : t + n < b) (hbr : b ≤ vc.vc_rows)
    (hsoft : vc.is_visible = false ∨
      (env.sw.con_scroll_region vc t b SM_UP n = 0 ∧
       env.sw.con_scroll_region (scroll_region_up env vc t b n) t b SM_DOWN n = 0)) :
    (∀ r j, t + n ≤ r → r < b → j < vc.vc_cols →
      cell (scroll_region_down env (scroll_region_up env vc t b n) t b n) r j = cell vc r j) ∧
    (∀ r j, t ≤ r → r < t + n → j < vc.vc_cols →
      cell (scroll_region_down env (scroll_region_up env vc t b n) t b n) r j
        = vc.vc_video_erase_char % 65536) ∧
    (∀ r j, (r < t ∨ b ≤ r) → j < vc.vc_cols →
      cell (scroll_region_down env (scroll_region_up env vc t b n) t b n) r j = cell vc r j) ∧
    (∀ r j, t ≤ r → r < t + n → j < vc.vc_cols →
      cell vc r j ≠ vc.vc_video_erase_char % 65536 →
      cell (scroll_region_down env (scroll_region_up env vc t b n) t b n) r j ≠ cell vc r j) := by
  have hmin : ((n : Nat) : Int) = min (n : Int) ((b : Int) - t - 1) := by omega
  have hs1 : vc.is_visible = false ∨ env.sw.con_scroll_region vc t b SM_UP n = 0 := by
    rcases hsoft with h | h
    · exact Or.inl h
    · exact Or.inr h.1
  obtain ⟨tr1, h1⟩ := scroll_region_up_soft_path env vc t b n n hrows (by omega) hbr
    (by omega) (by omega) hmin hn1 hs1
  have hs2 : (scroll_region_up env vc t b n).is_visible = false ∨
      env.sw.con_scroll_region (scroll_region_up env vc t b n) t b SM_DOWN n = 0 := by
    rcases hsoft with h | h
    · left; rw [h1]; exact h
    · exact Or.inr h.2
  obtain ⟨tr2, h2⟩ := scroll_region_down_soft_path env (scroll_region_up env vc t b n) t b n n
    (by rw [h1]; exact hrows) (by omega) (by rw [h1]; exact hbr) (by omega) (by omega) hmin hn1 hs2
  rw [h2, h1]
  obtain ⟨u1, -, u3⟩ := scroll_region_up_soft_cells vc t b n hsz hcols (by omega) htn
  obtain ⟨d1, d2, d3⟩ := scroll_region_down_soft_cells
    { scroll_region_up_soft vc t b n with trace := tr1 } t b n hsz hcols (by omega) htn
  have A : ∀ r j, t + n ≤ r → r < b → j < vc.vc_cols →
      cell (scroll_region_down_soft { scroll_region_up_soft vc t b n with trace := tr1 } t b n) r j
        = cell vc r j := by
    intro r j hr1 hr2 hj
    obtain ⟨i, hi⟩ : ∃ i, r = t + n + i := ⟨r - t - n, by omega⟩
    subst hi
    rw [d1 i j (by omega) hj]
    exact u1 i j (by omega) hj
  have B : ∀ r j, t ≤ r → r < t + n → j < vc.vc_cols →
      cell (scroll_region_down_soft { scroll_region_up_soft vc t b n with trace := tr1 } t b n) r j
        = vc.vc_video_erase_char % 65536 := d2
  refine ⟨A, B, ?_, ?_⟩
  · intro r j hr hj
    have ha := row_addr_outside vc t b r j hsz hr hj
    have e1 := d3 _ ha
    have e2 := u3 _ ha
    show scr_readw (scroll_region_down_soft
        { scroll_region_up_soft vc t b n with trace := tr1 } t b n).mem
        (vc.vc_origin + vc.vc_size_row * r + 2 * j) = _
    unfold scr_readw
    rw [e1]
    show (scroll_region_up_soft vc t b n).mem _ % 65536 = _
    rw [e2]
    rfl
  · intro r j hr1 hr2 hj hne h
    apply hne
    rw [← h]
    exact B r j hr1 hr2 hj

/-- C5 (failing input): on a 3-row console, `scroll_region_up(vc, 0, 3, -1)` and
`scroll_region_down(vc, 0, 3, -1)` are not no-ops.  The unsigned sum
`t + nr = 0xffffffff` passes the clamp test, the count becomes `b - t - 1 = 2`
and the region is scrolled by two rows. -/
theorem scroll_region_negative_count :
    cell (scroll_region_up sample_env (sample_console 2 3 sample_mem) 0 3 (-1)) 0 0
        = cell (sample_console 2 3 sample_mem) 2 0 ∧
    cell (scroll_region_up sample_env (sample_console 2 3 sample_mem) 0 3 (-1)) 0 0
        ≠ cell (sample_console 2 3 sample_mem) 0 0 ∧
    cell (scroll_region_down sample_env (sample_console 2 3 sample_mem) 0 3 (-1)) 2 0
        = cell (sample_console 2 3 sample_mem) 0 0 ∧
    cell (scroll_region_down sample_env (sample_console 2 3 sample_mem) 0 3 (-1)) 2 0
        ≠ cell (sample_console 2 3 sample_mem) 2 0 := by
  decide

/-! ### The screen writer -/

theorem write_code_glyph (env : Env) (vc : vc_data) (l : Locals) (c tc : Nat)
    (hst : vc.vc_state = 0) (hok : displayable vc c tc = true)
    (hfont : conversion_failed (resolve_glyph env c tc) l.charmask = false) :
    write_code env vc l c tc = put_glyph env vc l (resolve_glyph env c tc).toNat := by
  simp [write_code, hst, hok, hfont]

theorem do_con_write_byte_normal (env : Env) (vc : vc_data) (l : Locals) (c : Nat)
    (hst : vc.vc_state = 0) :
    do_con_write_byte env vc l c = write_code env vc { l with n := l.n + 1 } c c := by
  simp [do_con_write_byte, hst]

theorem scr_readw_writew (mem : Nat → Nat) (v a : Nat) :
    scr_readw (scr_writew mem v a) a = v % 65536 := by
  simp [scr_readw, scr_writew]

theorem store_glyph_last (vc : vc_data) (l : Locals) (g : Nat)
    (hx : vc.vc_x = vc.vc_cols - 1) :
    store_glyph vc l g =
      ({ vc with
          mem := scr_writew vc.mem (glyph_word vc.vc_attr l.himask g) vc.vc_pos
          trace := vc.trace ++ [Event.glyph vc.vc_pos (glyph_word vc.vc_attr l.himask g % 65536)]
          vc_need_wrap := vc.vc_decawm },
       { l with
          draw_x := if vc.is_visible = true ∧ l.draw_x < 0 then (vc.vc_x : Int) else l.draw_x
          draw_from := if vc.is_visible = true ∧ l.draw_x < 0 then vc.vc_pos else l.draw_from
          draw_to := vc.vc_pos + 2 }) := by
  unfold store_glyph
  rw [if_pos (by exact hx)]
  by_cases h : vc.is_visible = true ∧ l.draw_x < 0
  · simp only [emit, if_pos h]
  · simp only [emit, if_neg h]

theorem store_glyph_inner (vc : vc_data) (l : Locals) (g : Nat)
    (hx : vc.vc_x ≠ vc.vc_cols - 1) :
    store_glyph vc l g =
      ({ vc with
          mem := scr_writew vc.mem (glyph_word vc.vc_attr l.himask g) vc.vc_pos
          trace := vc.trace ++ [Event.glyph vc.vc_pos (glyph_word vc.vc_attr l.himask g % 65536)]
          vc_x := vc.vc_x + 1
          vc_pos := vc.vc_pos + 2 },
       { l with
          draw_x := if vc.is_visible = true ∧ l.draw_x < 0 then (vc.vc_x : Int) else l.draw_x
          draw_from := if vc.is_visible = true ∧ l.draw_x < 0 then vc.vc_pos else l.draw_from
          draw_to := vc.vc_pos + 2 }) := by
  unfold store_glyph
  rw [if_neg (by exact hx)]
  by_cases h : vc.is_visible = true ∧ l.draw_x < 0
  · simp only [emit, if_pos h]
  · simp only [emit, if_neg h]

theorem prepare_cell_plain (env : Env) (vc : vc_data) (l : Locals)
    (hnw : vc.vc_need_wrap = false) (hirm : vc.vc_irm = false) :
    prepare_cell env vc l = (vc, l) := by
  simp only [prepare_cell, hnw, hirm, Bool.or_self, Bool.false_eq_true, if_false]

theorem prepare_cell_insert (env : Env) (vc : vc_data) (l : Locals)
    (hnw : vc.vc_need_wrap = false) (hirm : vc.vc_irm = true) :
    prepare_cell env vc l = (insert_char (FLUSH env vc l).1 1, (FLUSH env vc l).2) := by
  have h1 : (FLUSH env vc l).1.vc_need_wrap = false := hnw
  have h2 : (FLUSH env vc l).1.vc_irm = true := hirm
  simp only [prepare_cell, hnw, hirm, Bool.or_true, if_true, h1, h2, Bool.false_eq_true, if_false]

theorem put_glyph_last_column (env : Env) (vc : vc_data) (l : Locals) (g : Nat)
    (hnw : vc.vc_need_wrap = false) (hx : vc.vc_x = vc.vc_cols - 1) :
    (put_glyph env vc l g).1.vc_x = vc.vc_cols - 1 ∧
    (put_glyph env vc l g).1.vc_y = vc.vc_y ∧
    (put_glyph env vc l g).1.vc_pos = vc.vc_pos ∧
    (put_glyph env vc l g).1.vc_need_wrap = vc.vc_decawm ∧
    scr_readw (put_glyph env vc l g).1.mem vc.vc_pos = glyph_word vc.vc_attr l.himask g % 65536 := by
  unfold put_glyph
  cases hirm : vc.vc_irm
  · rw [prepare_cell_plain env vc l hnw hirm, store_glyph_last vc l g hx]
    exact ⟨hx, rfl, rfl, rfl, scr_readw_writew _ _ _⟩
  · rw [prepare_cell_insert env vc l hnw hirm, store_glyph_last _ _ g (by exact hx)]
    exact ⟨hx, rfl, rfl, rfl, scr_readw_writew _ _ _⟩

/-- C2 (amended): in the normal state, with the cursor in the last column and
`need_wrap` clear, one loop iteration of `do_con_write` on a printable
character (displayable, glyph within the font) stores the glyph cell at the
cursor position, leaves the cursor where it is (`x = cols - 1`) and sets
`need_wrap` to the auto-wrap flag `vc_decawm`. -/
theorem write_at_last_column (env : Env) (vc : vc_data) (l : Locals) (c : Nat)
    (hst : vc.vc_state = 0) (hok : displayable vc c c = true)
    (hfont : conversion_failed (resolve_glyph env c c) l.charmask = false)
    (hx : vc.vc_x = vc.vc_cols - 1) (hnw : vc.vc_need_wrap = false) :
    (do_con_write_byte env vc l c).1.vc_x = vc.vc_cols - 1 ∧
    (do_con_write_byte env vc l c).1.vc_y = vc.vc_y ∧
    (do_con_write_byte env vc l c).1.vc_pos = vc.vc_pos ∧
    (do_con_write_byte env vc l c).1.vc_need_wrap = vc.vc_decawm ∧
    scr_readw (do_con_write_byte env vc l c).1.mem vc.vc_pos
      = glyph_word vc.vc_attr l.himask (resolve_glyph env c c).toNat % 65536 := by
  rw [do_con_write_byte_normal env vc l c hst,
    write_code_glyph env vc { l with n := l.n + 1 } c c hst hok hfont]
  exact put_glyph_last_column env vc { l with n := l.n + 1 } _ hnw hx

theorem vte_lf_move (env : Env) (vc : vc_data)
    (h1 : vc.vc_y + 1 ≠ vc.vc_bottom) (h2 : vc.vc_y + 1 < vc.vc_rows) :
    vte_lf env vc =
      { vc with vc_y := vc.vc_y + 1, vc_pos := vc.vc_pos + vc.vc_size_row,
                vc_need_wrap := false } := by
  unfold vte_lf
  rw [if_neg h1, if_pos h2]

theorem prepare_cell_wrap (env : Env) (vc : vc_data) (l : Locals)
    (hnw : vc.vc_need_wrap = true) (hirm : vc.vc_irm = false)
    (h1 : vc.vc_y + 1 ≠ vc.vc_bottom) (h2 : vc.vc_y + 1 < vc.vc_rows) :
    prepare_cell env vc l =
      ({ (FLUSH env vc l).1 with
          vc_x := 0
          vc_y := vc.vc_y + 1
          vc_pos := vc.vc_pos - (vc.vc_x <<< 1) + vc.vc_size_row
          vc_need_wrap := false },
       (FLUSH env vc l).2) := by
  have e1 : (FLUSH env vc l).1.vc_need_wrap = true := hnw
  have e2 := vte_lf_move env (vte_cr (FLUSH env vc l).1) h1 h2
  simp only [prepare_cell, hnw, Bool.true_or, if_true, e1, e2]
  rw [if_neg (by simp [vte_cr, FLUSH, emit_if, hirm])]
  rfl

theorem FLUSH_trace (env : Env) (vc : vc_data) (l : Locals) :
    (FLUSH env vc l).1.trace =
      vc.trace ++ (if (decide (l.draw_x ≥ 0) && env.sw.con_putcs) = true then
        [Event.con_putcs l.draw_from ((l.draw_to - l.draw_from) / 2) vc.vc_y l.draw_x.toNat]
        else []) := by
  simp only [FLUSH, emit_if]
  split_ifs <;> simp

/-- C3: in the normal state, outside insert mode, on a console of at least two
columns with `need_wrap` set and the cursor at `(cols-1, y)`, `y+1` inside the
scroll region and the screen: one loop iteration of `do_con_write` on a
printable character first flushes the pending run (reported at the old row
`y`), performs carriage return and line feed, and only then stores the glyph at
column 0 of row `y+1`; it ends with `need_wrap` clear and the cursor at
`(1, y+1)`, and no other cell, in particular not the cell at `(cols-1, y)`, is
written. -/
theorem write_after_deferred_wrap (env : Env) (vc : vc_data) (l : Locals) (c : Nat)
    (hst : vc.vc_state = 0) (hok : displayable vc c c = true)
    (hfont : conversion_failed (resolve_glyph env c c) l.charmask = false)
    (hirm : vc.vc_irm = false) (hcols : 2 ≤ vc.vc_cols) (hnw : vc.vc_need_wrap = true)
    (hx : vc.vc_x = vc.vc_cols - 1)
    (hy : vc.vc_y + 1 < vc.vc_bottom) (hb : vc.vc_bottom ≤ vc.vc_rows)
    (hsz : vc.vc_size_row = 2 * vc.vc_cols)
    (hpos : vc.vc_pos = vc.vc_origin + vc.vc_y * vc.vc_size_row + 2 * vc.vc_x) :
    (do_con_write_byte env vc l c).1.trace =
      vc.trace ++
        (if (decide (l.draw_x ≥ 0) && env.sw.con_putcs) = true then
          [Event.con_putcs l.draw_from ((l.draw_to - l.draw_from) / 2) vc.vc_y l.draw_x.toNat]
          else []) ++
        [Event.glyph (vc.vc_origin + (vc.vc_y + 1) * vc.vc_size_row)
          (glyph_word vc.vc_attr l.himask (resolve_glyph env c c).toNat % 65536)] ∧
    (do_con_write_byte env vc l c).1.vc_x = 1 ∧
    (do_con_write_byte env vc l c).1.vc_y = vc.vc_y + 1 ∧
    (do_con_write_byte env vc l c).1.vc_need_wrap = false ∧
    (do_con_write_byte env vc l c).1.vc_pos
      = vc.vc_origin + (vc.vc_y + 1) * vc.vc_size_row + 2 ∧
    cell (do_con_write_byte env vc l c).1 (vc.vc_y + 1) 0
      = glyph_word vc.vc_attr l.himask (resolve_glyph env c c).toNat % 65536 ∧
    (∀ a, a ≠ vc.vc_origin + (vc.vc_y + 1) * vc.vc_size_row →
      (do_con_write_byte env vc l c).1.mem a = vc.mem a) ∧
    cell (do_con_write_byte env vc l c).1 vc.vc_y (vc.vc_cols - 1)
      = cell vc vc.vc_y (vc.vc_cols - 1) := by
  have hnp : vc.vc_pos - (vc.vc_x <<< 1) + vc.vc_size_row
      = vc.vc_origin + (vc.vc_y + 1) * vc.vc_size_row := by
    rw [hpos, Nat.shiftLeft_eq, Nat.add_mul]
    omega
  rw [do_con_write_byte_normal env vc l c hst,
    write_code_glyph env vc { l with n := l.n + 1 } c c hst hok hfont]
  unfold put_glyph
  rw [prepare_cell_wrap env vc _ hnw hirm (by omega) (by omega),
    store_glyph_inner _ _ _ (by show 0 ≠ vc.vc_cols - 1; omega)]
  have hmem : ∀ a, a ≠ vc.vc_origin + (vc.vc_y + 1) * vc.vc_size_row →
      scr_writew vc.mem (glyph_word vc.vc_attr l.himask (resolve_glyph env c c).toNat)
        (vc.vc_pos - (vc.vc_x <<< 1) + vc.vc_size_row) a = vc.mem a := by
    intro a ha
    rw [hnp]
    simp only [scr_writew, if_neg ha]
  refine ⟨?_, rfl, rfl, rfl, ?_, ?_, hmem, ?_⟩
  · show (FLUSH env vc _).1.trace ++ _ = _
    rw [FLUSH_trace, hnp]
    rfl
  · show vc.vc_pos - (vc.vc_x <<< 1) + vc.vc_size_row + 2 = _
    rw [hnp]
  · show scr_readw (scr_writew vc.mem _ (vc.vc_pos - (vc.vc_x <<< 1) + vc.vc_size_row))
        (vc.vc_origin + vc.vc_size_row * (vc.vc_y + 1) + 2 * 0) = _
    rw [hnp, Nat.mul_comm vc.vc_size_row, Nat.mul_zero, Nat.add_zero]
    exact scr_readw_writew _ _ _
  · have hne : vc.vc_origin + vc.vc_size_row * vc.vc_y + 2 * (vc.vc_cols - 1)
        ≠ vc.vc_origin + (vc.vc_y + 1) * vc.vc_size_row := by
      rw [hsz, Nat.add_mul]
      have : 2 * vc.vc_cols * vc.vc_y = vc.vc_y * (2 * vc.vc_cols) := Nat.mul_comm _ _
      omega
    exact congrArg (fun v => v % 65536) (hmem _ hne)

set_option maxRecDepth 4000 in
theorem utf8_masks : ∀ b, b < 256 →
    ((b &&& 0xc0 = 0x80) ↔ (0x80 ≤ b ∧ b ≤ 0xbf)) ∧
    ((b &&& 0xe0 = 0xc0) ↔ (0xc0 ≤ b ∧ b ≤ 0xdf)) ∧
    ((b &&& 0xf0 = 0xe0) ↔ (0xe0 ≤ b ∧ b ≤ 0xef)) ∧
    ((b &&& 0xf8 = 0xf0) ↔ (0xf0 ≤ b ∧ b ≤ 0xf7)) ∧
    ((b &&& 0xfc = 0xf8) ↔ (0xf8 ≤ b ∧ b ≤ 0xfb)) ∧
    ((b &&& 0xfe = 0xfc) ↔ (0xfc ≤ b ∧ b ≤ 0xfd)) := by
  decide

theorem glyph_writes_append (a b : List Event) :
    glyph_writes (a ++ b) = glyph_writes a + glyph_writes b := by
  simp [glyph_writes]

theorem old_loop_stopped (env : Env) (vc : vc_data) (l : Locals) (buf : List Nat)
    (h : vc.tty_stopped = true) : Old.do_con_write_loop env vc l buf = (vc, l) := by
  cases buf with
  | nil => rfl
  | cons c rest => simp [Old.do_con_write_loop, h]

theorem old_loop_append (env : Env) (xs ys : List Nat) : ∀ (vc : vc_data) (l : Locals),
    Old.do_con_write_loop env vc l (xs ++ ys) =
      Old.do_con_write_loop env (Old.do_con_write_loop env vc l xs).1
        (Old.do_con_write_loop env vc l xs).2 ys := by
  induction xs with
  | nil => intro vc l; rfl
  | cons c rest ih =>
    intro vc l
    cases h : vc.tty_stopped
    · simp only [List.cons_append, Old.do_con_write_loop, h, Bool.false_eq_true, if_false]
      exact ih _ _
    · simp only [List.cons_append, Old.do_con_write_loop, h, if_true]
      exact (old_loop_stopped env vc l ys h).symm

theorem utf8_unfinished_step (count char b : Nat) (rest : List Nat)
    (h : utf8_unfinished count (b :: rest) = true) :
    (utf8_step count char b).2.2 = none ∧
    utf8_unfinished (utf8_step count char b).1 rest = true ∧ 0x7f < b := by
  have hb : b < 256 := by
    by_contra hcon
    have : ¬ b < 256 := hcon
    simp only [utf8_unfinished] at h
    split_ifs at h <;> omega
  obtain ⟨m1, m2, m3, m4, m5, m6⟩ := utf8_masks b hb
  simp only [utf8_unfinished] at h
  simp only [utf8_step, m1, m2, m3, m4, m5, m6]
  split_ifs at h ⊢ <;> first | omega | exact ⟨rfl, h, by omega⟩

theorem no_glyph_since_refl (vc : vc_data) : no_glyph_since vc vc :=
  ⟨[], (List.append_nil _).symm, rfl⟩

theorem no_glyph_since_trans {a b c : vc_data} (h1 : no_glyph_since a b)
    (h2 : no_glyph_since b c) : no_glyph_since a c := by
  obtain ⟨e1, t1, g1⟩ := h1
  obtain ⟨e2, t2, g2⟩ := h2
  refine ⟨e1 ++ e2, ?_, ?_⟩
  · rw [t2, t1, List.append_assoc]
  · rw [glyph_writes_append, g1, g2]

theorem no_glyph_since_emit_if (b : Bool) (vc : vc_data) (es : List Event)
    (h : glyph_writes es = 0) : no_glyph_since vc (emit_if b vc es) := by
  cases b
  · exact ⟨[], (List.append_nil _).symm, rfl⟩
  · exact ⟨es, rfl, h⟩

/-- What a region scroll leaves alone: every field but the memory and the
trace, and the trace gains no glyph store. -/
theorem scroll_region_up_frame (env : Env) (vc : vc_data) (t b : Nat) (nr : Int) :
    scroll_region_up env vc t b nr =
      { vc with mem := (scroll_region_up env vc t b nr).mem,
                trace := (scroll_region_up env vc t b nr).trace } ∧
    no_glyph_since vc (scroll_region_up env vc t b nr) := by
  unfold scroll_region_up
  simp only []
  split_ifs <;> first
    | exact ⟨rfl, no_glyph_since_refl vc⟩
    | exact ⟨rfl, [_], rfl, rfl⟩

theorem FLUSH_frame (env : Env) (vc : vc_data) (l : Locals) :
    (FLUSH env vc l).1 = { vc with trace := (FLUSH env vc l).1.trace } ∧
    no_glyph_since vc (FLUSH env vc l).1 ∧
    (FLUSH env vc l).2 = { l with draw_x := (FLUSH env vc l).2.draw_x } :=
  ⟨rfl, no_glyph_since_emit_if _ _ _ rfl, rfl⟩

theorem glyph_writes_map_putc (f : Nat → Event) (hf : ∀ k, (f k).is_glyph = false)
    (xs : List Nat) : glyph_writes (xs.map f) = 0 := by
  induction xs with
  | nil => rfl
  | cons x xs ih =>
    simp only [glyph_writes, List.map_cons, List.countP_cons, hf x] at ih ⊢
    simpa using ih

theorem insert_char_frame (vc : vc_data) (nr : Nat) :
    insert_char vc nr =
      { vc with mem := (insert_char vc nr).mem, vc_need_wrap := false,
                trace := (insert_char vc nr).trace } ∧
    no_glyph_since vc (insert_char vc nr) := by
  refine ⟨rfl, ?_⟩
  unfold insert_char
  apply no_glyph_since_emit_if
  have := glyph_writes_map_putc
    (fun k => Event.con_putc vc.vc_video_erase_char vc.vc_y (vc.vc_x + k)) (fun _ => rfl)
    (List.range nr).reverse
  simp only [glyph_writes, List.countP_cons] at this ⊢
  rw [this]
  rfl

theorem vte_lf_frame (env : Env) (vc : vc_data) :
    vte_lf env vc =
      { vc with vc_y := (vte_lf env vc).vc_y, vc_pos := (vte_lf env vc).vc_pos,
                vc_need_wrap := false, mem := (vte_lf env vc).mem,
                trace := (vte_lf env vc).trace } ∧
    no_glyph_since vc (vte_lf env vc) := by
  unfold vte_lf
  simp only []
  split_ifs
  · obtain ⟨h1, h2⟩ := scroll_region_up_frame env vc vc.vc_top vc.vc_bottom 1
    refine ⟨?_, h2⟩
    rw [h1]
  · exact ⟨rfl, no_glyph_since_refl vc⟩
  · exact ⟨rfl, no_glyph_since_refl vc⟩

set_option maxRecDepth 4000 in
theorem ascii_bits : ∀ c, c < 128 → c &&& 0x100 = 0 ∧ c &&& 0xff = c := by
  decide

theorem shl8_and_low (a x : Nat) : ((a <<< 8) &&& x) % 256 = 0 := by
  have h := Nat.and_pow_two_sub_one_eq_mod ((a <<< 8) &&& x) 8
  have h2 := Nat.and_pow_two_sub_one_eq_mod (a <<< 8) 8
  have e : (a <<< 8) % 2 ^ 8 = 0 := by
    rw [Nat.shiftLeft_eq]; exact Nat.mul_mod_left _ _
  rw [e] at h2
  have h3 : ((a <<< 8) &&& x) &&& (2 ^ 8 - 1) = 0 := by
    rw [Nat.and_assoc, Nat.and_comm x, ← Nat.and_assoc, h2, Nat.zero_and]
  rw [h3] at h
  exact h.symm

/-- The low byte of the stored cell is the character, for an ASCII glyph
index. -/
theorem glyph_word_low_byte (attr himask c : Nat) (hc : c < 128) :
    glyph_word attr himask c % 65536 % 256 = c := by
  obtain ⟨b1, b2⟩ := ascii_bits c hc
  have s8 := shl8_and_low attr (0xffffffff ^^^ himask)
  have e : attr <<< 8 = attr * 256 := by rw [Nat.shiftLeft_eq]
  unfold glyph_word
  rw [b1, b2]
  split_ifs <;> omega

theorem vte_lf_irm (env : Env) (vc : vc_data) : (vte_lf env vc).vc_irm = vc.vc_irm := by
  rw [(vte_lf_frame env vc).1]

/-- What the first half of the glyph placement leaves alone: it may move the
cursor, clear `need_wrap`, shift cells and call the driver, but stores no
glyph and touches nothing else; of the locals only `draw_x` may change. -/
theorem prepare_cell_frame (env : Env) (vc : vc_data) (l : Locals) :
    (prepare_cell env vc l).1 =
      { vc with vc_x := (prepare_cell env vc l).1.vc_x,
                vc_y := (prepare_cell env vc l).1.vc_y,
                vc_pos := (prepare_cell env vc l).1.vc_pos,
                vc_need_wrap := (prepare_cell env vc l).1.vc_need_wrap,
                mem := (prepare_cell env vc l).1.mem,
                trace := (prepare_cell env vc l).1.trace } ∧
    no_glyph_since vc (prepare_cell env vc l).1 ∧
    (prepare_cell env vc l).2 = { l with draw_x := (prepare_cell env vc l).2.draw_x } := by
  have hF := FLUSH_frame env vc l
  have hL := vte_lf_frame env (vte_cr (FLUSH env vc l).1)
  have hcr : no_glyph_since (FLUSH env vc l).1 (vte_cr (FLUSH env vc l).1) :=
    ⟨[], (List.append_nil _).symm, rfl⟩
  rcases Bool.eq_false_or_eq_true vc.vc_need_wrap with hnw | hnw <;>
    rcases Bool.eq_false_or_eq_true vc.vc_irm with hirm | hirm
  · have e : prepare_cell env vc l =
        (insert_char (vte_lf env (vte_cr (FLUSH env vc l).1)) 1, (FLUSH env vc l).2) := by
      have e1 : (FLUSH env vc l).1.vc_need_wrap = true := hnw
      have e2 : (vte_lf env (vte_cr (FLUSH env vc l).1)).vc_irm = true := by
        rw [vte_lf_irm]; exact hirm
      simp only [prepare_cell, hnw, Bool.true_or, if_true, e1, e2]
    have hI := insert_char_frame (vte_lf env (vte_cr (FLUSH env vc l).1)) 1
    rw [e]
    refine ⟨?_, no_glyph_since_trans hF.2.1
      (no_glyph_since_trans hcr (no_glyph_since_trans hL.2 hI.2)), rfl⟩
    have hZ := hI.1
    have hX := hL.1
    show insert_char (vte_lf env (vte_cr (FLUSH env vc l).1)) 1 = _
    generalize insert_char (vte_lf env (vte_cr (FLUSH env vc l).1)) 1 = Z at hZ ⊢
    generalize vte_lf env (vte_cr (FLUSH env vc l).1) = X at hZ hX ⊢
    rw [hZ, hX]
    rfl
  · have e : prepare_cell env vc l = (vte_lf env (vte_cr (FLUSH env vc l).1), (FLUSH env vc l).2) := by
      have e1 : (FLUSH env vc l).1.vc_need_wrap = true := hnw
      have e2 : (vte_lf env (vte_cr (FLUSH env vc l).1)).vc_irm = false := by
        rw [vte_lf_irm]; exact hirm
      simp only [prepare_cell, hnw, Bool.true_or, if_true, e1, e2, Bool.false_eq_true, if_false]
    rw [e]
    refine ⟨?_, no_glyph_since_trans hF.2.1 (no_glyph_since_trans hcr hL.2), rfl⟩
    have hX := hL.1
    show vte_lf env (vte_cr (FLUSH env vc l).1) = _
    generalize vte_lf env (vte_cr (FLUSH env vc l).1) = X at hX ⊢
    rw [hX]
    rfl
  · rw [prepare_cell_insert env vc l hnw hirm]
    have hI := insert_char_frame (FLUSH env vc l).1 1
    refine ⟨?_, no_glyph_since_trans hF.2.1 hI.2, rfl⟩
    have hZ := hI.1
    show insert_char (FLUSH env vc l).1 1 = _
    generalize insert_char (FLUSH env vc l).1 1 = Z at hZ ⊢
    rw [hZ]
    rfl
  · rw [prepare_cell_plain env vc l hnw hirm]
    exact ⟨rfl, no_glyph_since_refl vc, rfl⟩

/-- What the second half of the glyph placement does whatever the column: one
glyph entry is appended to the trace, the cell at the cursor holds the glyph
word, and only the cursor fields, `need_wrap`, the memory and the trace may
differ afterwards. -/
theorem store_glyph_facts (vc : vc_data) (l : Locals) (g : Nat) :
    (store_glyph vc l g).1 =
      { vc with vc_x := (store_glyph vc l g).1.vc_x,
                vc_pos := (store_glyph vc l g).1.vc_pos,
                vc_need_wrap := (store_glyph vc l g).1.vc_need_wrap,
                mem := (store_glyph vc l g).1.mem,
                trace := (store_glyph vc l g).1.trace } ∧
    (store_glyph vc l g).1.trace
      = vc.trace ++ [Event.glyph vc.vc_pos (glyph_word vc.vc_attr l.himask g % 65536)] ∧
    scr_readw (store_glyph vc l g).1.mem vc.vc_pos = glyph_word vc.vc_attr l.himask g % 65536 ∧
    (store_glyph vc l g).2.n = l.n := by
  by_cases hx : vc.vc_x = vc.vc_cols - 1
  · rw [store_glyph_last vc l g hx]
    exact ⟨rfl, rfl, scr_readw_writew _ _ _, rfl⟩
  · rw [store_glyph_inner vc l g hx]
    exact ⟨rfl, rfl, scr_readw_writew _ _ _, rfl⟩

theorem displayable_ascii (vc : vc_data) (c : Nat) (h1 : 32 ≤ c) (h2 : c ≤ 126) :
    displayable vc c c = true := by
  have a1 : c ≠ 0 := by omega
  have a2 : c ≥ 32 := h1
  have a3 : c ≠ 127 := by omega
  have a4 : c ≠ 128 + 27 := by omega
  simp [displayable, a1, a2, a3, a4]

theorem resolve_glyph_self (env : Env) (c : Nat) (h : env.conv_uni_to_pc c = (c : Int)) :
    resolve_glyph env c c = (c : Int) := by
  have n4 : ¬ ((c : Int) = -4) := by omega
  have n3 : ¬ ((c : Int) = -3) := by omega
  simp only [resolve_glyph, h, if_neg n4, if_neg n3]

theorem conversion_failed_ascii (c charmask : Nat) (h : c ≤ charmask) :
    conversion_failed (c : Int) charmask = false := by
  have : ¬ ((c : Int) < 0 ∨ (charmask : Int) < (c : Int)) := by omega
  exact decide_eq_false this

/-- The older writer on a printable ASCII byte whose glyph is the byte itself:
the pending UTF-8 state is dropped and the glyph is placed. -/
theorem old_byte_ascii (env : Env) (vc : vc_data) (l : Locals) (c : Nat)
    (hutf : vc.vc_utf = true) (hst : vc.vc_state = 0) (h1 : 32 ≤ c) (h2 : c ≤ 126)
    (hid : env.conv_uni_to_pc c = (c : Int)) (hcm : 127 ≤ l.charmask) :
    Old.do_con_write_byte env vc l c =
      put_glyph env { vc with vc_utf_count := 0 } { l with n := l.n + 1 } c := by
  have hc : ¬ (c > 0x7f) := by omega
  have e := write_code_glyph env { vc with vc_utf_count := 0 } { l with n := l.n + 1 } c c hst
    (displayable_ascii _ c h1 h2)
    (by rw [resolve_glyph_self env c hid]; exact conversion_failed_ascii c _ (by show c ≤ l.charmask; omega))
  rw [resolve_glyph_self env c hid, Int.toNat_ofNat] at e
  unfold Old.do_con_write_byte
  simp only []
  rw [if_pos hutf, if_neg hc]
  exact e

/-- The older writer over a string of truncated sequences and stray bytes:
only the decoder fields of the console change and the bytes are counted. -/
theorem old_loop_unfinished (env : Env) : ∀ (inv : List Nat) (vc : vc_data) (l : Locals),
    vc.vc_utf = true → vc.tty_stopped = false →
    utf8_unfinished vc.vc_utf_count inv = true →
    ∃ k ch, Old.do_con_write_loop env vc l inv =
      ({ vc with vc_utf_count := k, vc_utf_char := ch }, { l with n := l.n + inv.length }) := by
  intro inv
  induction inv with
  | nil => intro vc l _ _ _; exact ⟨vc.vc_utf_count, vc.vc_utf_char, rfl⟩
  | cons b rest ih =>
    intro vc l hutf hstop hun
    obtain ⟨s1, s2, s3⟩ := utf8_unfinished_step vc.vc_utf_count vc.vc_utf_char b rest hun
    have hb : Old.do_con_write_byte env vc l b =
        ({ vc with vc_utf_count := (utf8_step vc.vc_utf_count vc.vc_utf_char b).1,
                   vc_utf_char := (utf8_step vc.vc_utf_count vc.vc_utf_char b).2.1 },
         { l with n := l.n + 1 }) := by
      unfold Old.do_con_write_byte
      simp only []
      rw [if_pos hutf, if_pos s3]
      simp only [utf8_byte, s1]
    obtain ⟨k, ch, hk⟩ := ih
      { vc with vc_utf_count := (utf8_step vc.vc_utf_count vc.vc_utf_char b).1,
                vc_utf_char := (utf8_step vc.vc_utf_count vc.vc_utf_char b).2.1 }
      { l with n := l.n + 1 } hutf hstop s2
    refine ⟨k, ch, ?_⟩
    rw [Old.do_con_write_loop, if_neg (by rw [hstop]; decide), hb, hk]
    refine Prod.ext rfl ?_
    show ({ l with n := l.n + 1 + rest.length } : Locals)
      = { l with n := l.n + (rest.length + 1) }
    rw [Nat.add_assoc, Nat.add_comm 1]

theorem hide_softcursor_frame (vc : vc_data) :
    hide_softcursor vc =
      { vc with mem := (hide_softcursor vc).mem,
                cursor_original := (hide_softcursor vc).cursor_original,
                trace := (hide_softcursor vc).trace } ∧
    no_glyph_since vc (hide_softcursor vc) := by
  unfold hide_softcursor
  simp only []
  split_ifs
  · exact ⟨rfl, no_glyph_since_emit_if _ _ _ rfl⟩
  · exact ⟨rfl, no_glyph_since_refl vc⟩

theorem old_hide_cursor_frame (vc : vc_data) :
    Old.hide_cursor vc =
      { vc with mem := (Old.hide_cursor vc).mem,
                cursor_original := (Old.hide_cursor vc).cursor_original,
                trace := (Old.hide_cursor vc).trace } ∧
    no_glyph_since vc (Old.hide_cursor vc) := by
  obtain ⟨h1, h2⟩ := hide_softcursor_frame vc
  refine ⟨?_, no_glyph_since_trans h2 ⟨[_], rfl, rfl⟩⟩
  unfold Old.hide_cursor
  generalize hide_softcursor vc = X at h1
  rw [h1]
  rfl

theorem FLUSH_idle (env : Env) (vc : vc_data) (l : Locals) (h : l.draw_x = -1) :
    FLUSH env vc l = (vc, l) := by
  have hd : decide (l.draw_x ≥ 0) = false := by rw [h]; rfl
  unfold FLUSH emit_if
  simp only [hd, Bool.false_and, Bool.false_eq_true, if_false]

theorem old_prologue_frame (vc : vc_data) :
    (if vc.is_visible then Old.hide_cursor vc else vc) =
      { vc with mem := (if vc.is_visible then Old.hide_cursor vc else vc).mem,
                cursor_original := (if vc.is_visible then Old.hide_cursor vc else vc).cursor_original,
                trace := (if vc.is_visible then Old.hide_cursor vc else vc).trace } ∧
    no_glyph_since vc (if vc.is_visible then Old.hide_cursor vc else vc) := by
  split_ifs
  · exact old_hide_cursor_frame vc
  · exact ⟨rfl, no_glyph_since_refl vc⟩

theorem initial_locals_charmask (vc : vc_data) : 127 ≤ (initial_locals vc).charmask := by
  unfold initial_locals
  simp only []
  split_ifs <;> omega

/-- The older writer, from a state with the decoder possibly pending, on a
printable ASCII byte that is its own glyph: shape of the result. -/
theorem old_ascii_result (env : Env) (s : vc_data) (l : Locals) (c : Nat)
    (hutf : s.vc_utf = true) (hst : s.vc_state = 0) (h1 : 32 ≤ c) (h2 : c ≤ 126)
    (hid : env.conv_uni_to_pc c = (c : Int)) (hcm : 127 ≤ l.charmask) :
    ∃ pre pos,
      (Old.do_con_write_byte env s l c).1.trace
        = s.trace ++ pre ++ [Event.glyph pos (glyph_word s.vc_attr l.himask c % 65536)] ∧
      glyph_writes pre = 0 ∧
      scr_readw (Old.do_con_write_byte env s l c).1.mem pos
        = glyph_word s.vc_attr l.himask c % 65536 ∧
      (Old.do_con_write_byte env s l c).1.vc_utf_count = 0 ∧
      (Old.do_con_write_byte env s l c).2.n = l.n + 1 := by
  rw [old_byte_ascii env s l c hutf hst h1 h2 hid hcm]
  unfold put_glyph
  have hP := prepare_cell_frame env { s with vc_utf_count := 0 } { l with n := l.n + 1 }
  have hS := store_glyph_facts
    (prepare_cell env { s with vc_utf_count := 0 } { l with n := l.n + 1 }).1
    (prepare_cell env { s with vc_utf_count := 0 } { l with n := l.n + 1 }).2 c
  generalize prepare_cell env { s with vc_utf_count := 0 } { l with n := l.n + 1 } = P at hP hS ⊢
  obtain ⟨hP1, ⟨pre, hP2, hP3⟩, hP4⟩ := hP
  obtain ⟨hS1, hS2, hS3, hS4⟩ := hS
  have a1 : P.1.vc_attr = s.vc_attr := by rw [hP1]
  have a2 : P.2.himask = l.himask := by rw [hP4]
  have a3 : P.1.vc_utf_count = 0 := by rw [hP1]
  have a4 : P.2.n = l.n + 1 := by rw [hP4]
  have a5 : (store_glyph P.1 P.2 c).1.vc_utf_count = P.1.vc_utf_count := by
    generalize store_glyph P.1 P.2 c = S at hS1
    rw [hS1]
  refine ⟨pre, P.1.vc_pos, ?_, hP3, ?_, ?_, ?_⟩
  · rw [hS2, hP2, a1, a2]
  · rw [hS3, a1, a2]
  · rw [a5, a3]
  · rw [hS4, a4]

/-- C8 (amended): the older `do_con_write` in UTF-8 mode and the normal state,
no sequence pending, tty not stopped.  For every byte string made of truncated
sequences and stray bytes (`utf8_unfinished`) the call changes nothing but the
decoder fields (and the cursor undraw of the prologue) and returns the number
of bytes; followed by one printable ASCII byte that is its own glyph, the call
performs exactly one glyph store, of a cell whose character byte is that ASCII
byte and which is in the buffer afterwards, returns the byte count, and leaves
no continuation byte pending. -/
theorem old_utf8_unfinished_then_ascii (env : Env) (vc : vc_data) (inv : List Nat) (c : Nat)
    (hutf : vc.vc_utf = true) (hst : vc.vc_state = 0) (hcnt : vc.vc_utf_count = 0)
    (hstop : vc.tty_stopped = false)
    (hinv : utf8_unfinished 0 inv = true)
    (h1 : 32 ≤ c) (h2 : c ≤ 126) (hid : env.conv_uni_to_pc c = (c : Int)) :
    (∃ k ch, Old.do_con_write env vc inv =
      (inv.length,
       { (if vc.is_visible then Old.hide_cursor vc else vc) with
          vc_utf_count := k, vc_utf_char := ch })) ∧
    glyph_writes (Old.do_con_write env vc inv).2.trace = glyph_writes vc.trace ∧
    (∃ pre post pos,
      (Old.do_con_write env vc (inv ++ [c])).2.trace
        = vc.trace ++ pre
            ++ [Event.glyph pos (glyph_word vc.vc_attr vc.vc_hi_font_mask c % 65536)] ++ post ∧
      glyph_writes pre = 0 ∧ glyph_writes post = 0 ∧
      scr_readw (Old.do_con_write env vc (inv ++ [c])).2.mem pos
        = glyph_word vc.vc_attr vc.vc_hi_font_mask c % 65536) ∧
    glyph_writes (Old.do_con_write env vc (inv ++ [c])).2.trace = glyph_writes vc.trace + 1 ∧
    glyph_word vc.vc_attr vc.vc_hi_font_mask c % 65536 % 256 = c ∧
    (Old.do_con_write env vc (inv ++ [c])).1 = inv.length + 1 ∧
    (Old.do_con_write env vc (inv ++ [c])).2.vc_utf_count = 0 := by
  obtain ⟨hv1, pre1, hv2, hv3⟩ := old_prologue_frame vc
  have hcm := initial_locals_charmask vc
  have hloop := old_loop_unfinished env inv (if vc.is_visible then Old.hide_cursor vc else vc)
    (initial_locals vc)
  have hA := fun k ch => old_ascii_result env
    { (if vc.is_visible then Old.hide_cursor vc else vc) with vc_utf_count := k, vc_utf_char := ch }
    { initial_locals vc with n := (initial_locals vc).n + inv.length } c
  have hdef : ∀ buf, Old.do_con_write env vc buf =
      ((FLUSH env
          (Old.do_con_write_loop env (if vc.is_visible then Old.hide_cursor vc else vc)
            (initial_locals vc) buf).1
          (Old.do_con_write_loop env (if vc.is_visible then Old.hide_cursor vc else vc)
            (initial_locals vc) buf).2).2.n,
       (FLUSH env
          (Old.do_con_write_loop env (if vc.is_visible then Old.hide_cursor vc else vc)
            (initial_locals vc) buf).1
          (Old.do_con_write_loop env (if vc.is_visible then Old.hide_cursor vc else vc)
            (initial_locals vc) buf).2).1) := fun _ => rfl
  generalize (if vc.is_visible then Old.hide_cursor vc else vc) = vc1 at hv1 hv2 hloop hA hdef
  have f1 : vc1.vc_utf = true := by rw [hv1]; exact hutf
  have f2 : vc1.tty_stopped = false := by rw [hv1]; exact hstop
  have f3 : vc1.vc_utf_count = 0 := by rw [hv1]; exact hcnt
  have f4 : vc1.vc_state = 0 := by rw [hv1]; exact hst
  have f5 : vc1.vc_attr = vc.vc_attr := by rw [hv1]
  obtain ⟨k, ch, hk⟩ := hloop f1 f2 (by rw [f3]; exact hinv)
  have hinvres : Old.do_con_write env vc inv =
      (inv.length, { vc1 with vc_utf_count := k, vc_utf_char := ch }) := by
    rw [hdef, hk, FLUSH_idle env _ _ rfl]
    refine Prod.ext ?_ rfl
    show 0 + inv.length = inv.length
    omega
  obtain ⟨pre2, pos, t1, t2, t3, t4, t5⟩ := hA k ch f1 f4 h1 h2 hid hcm
  have hstep : Old.do_con_write_loop env vc1 (initial_locals vc) (inv ++ [c]) =
      Old.do_con_write_byte env { vc1 with vc_utf_count := k, vc_utf_char := ch }
        { initial_locals vc with n := (initial_locals vc).n + inv.length } c := by
    rw [old_loop_append, hk]
    simp only [Old.do_con_write_loop]
    rw [if_neg (by rw [f2]; decide)]
  have hF := FLUSH_frame env
    (Old.do_con_write_byte env { vc1 with vc_utf_count := k, vc_utf_char := ch }
        { initial_locals vc with n := (initial_locals vc).n + inv.length } c).1
    (Old.do_con_write_byte env { vc1 with vc_utf_count := k, vc_utf_char := ch }
        { initial_locals vc with n := (initial_locals vc).n + inv.length } c).2
  have hres := hdef (inv ++ [c])
  rw [hstep] at hres
  generalize Old.do_con_write_byte env { vc1 with vc_utf_count := k, vc_utf_char := ch }
        { initial_locals vc with n := (initial_locals vc).n + inv.length } c = B
    at hres hF t1 t3 t4 t5
  obtain ⟨hF1, ⟨post, hF2, hF3⟩, hF4⟩ := hF
  generalize FLUSH env B.1 B.2 = Q at hres hF1 hF2 hF4
  have q1 : Q.1.mem = B.1.mem := by rw [hF1]
  have q2 : Q.1.vc_utf_count = B.1.vc_utf_count := by rw [hF1]
  have q3 : Q.2.n = B.2.n := by rw [hF4]
  have htrace : Q.1.trace = vc.trace ++ (pre1 ++ pre2)
      ++ [Event.glyph pos (glyph_word vc.vc_attr vc.vc_hi_font_mask c % 65536)] ++ post := by
    rw [hF2, t1]
    show vc1.trace ++ pre2 ++ [Event.glyph pos (glyph_word vc1.vc_attr vc.vc_hi_font_mask c % 65536)]
      ++ post = _
    rw [hv2, f5]
    simp only [List.append_assoc]
  have hpre : glyph_writes (pre1 ++ pre2) = 0 := by
    rw [glyph_writes_append, hv3, t2]
  refine ⟨⟨k, ch, hinvres⟩, ?_, ⟨pre1 ++ pre2, post, pos, ?_, hpre, hF3, ?_⟩, ?_,
    glyph_word_low_byte _ _ c (by omega), ?_, ?_⟩
  · rw [hinvres]
    show glyph_writes vc1.trace = _
    rw [hv2, glyph_writes_append, hv3]
    rfl
  · rw [hres]
    exact htrace
  · rw [hres]
    show scr_readw Q.1.mem pos = _
    rw [q1, t3, f5]
    rfl
  · rw [hres]
    show glyph_writes Q.1.trace = _
    rw [htrace]
    simp only [glyph_writes_append, hpre, hF3]
    rfl
  · rw [hres]
    show Q.2.n = _
    rw [q3, t5]
    show 0 + inv.length + 1 = _
    omega
  · rw [hres]
    show Q.1.vc_utf_count = 0
    rw [q2, t4]

/-- C7 (failing input): UTF-8 mode, normal state, the bytes E2 82 AC of U+20AC
fed to `do_con_write`.  The guard `!vc->vc_state` sends every byte of the
normal state down the untranslated path, so the UTF-8 decoder is never run:
the first byte alone is already drawn, and the three bytes give three glyph
stores (cells 0x07e2, 0x0782, 0x07ac) with the cursor advanced by three. -/
theorem utf8_three_bytes_three_glyphs :
    sample_utf_console.vc_utf = true ∧ sample_utf_console.vc_state = 0 ∧
    (do_con_write sample_env sample_utf_console [0xe2]).2.trace = [Event.glyph 4096 0x07e2] ∧
    (do_con_write sample_env sample_utf_console [0xe2, 0x82, 0xac]).2.trace
      = [Event.glyph 4096 0x07e2, Event.glyph 4098 0x0782, Event.glyph 4100 0x07ac] ∧
    (do_con_write sample_env sample_utf_console [0xe2, 0x82, 0xac]).2.vc_x = 3 ∧
    (do_con_write sample_env sample_utf_console [0xe2, 0x82, 0xac]).2.vc_utf_count = 0 := by
  decide

/-- C8 (counterexample): the overlong, hence invalid, sequence C1 81 followed
by the ASCII byte 0x42.  The older `do_con_write` decodes C1 81 to 0x41 and
draws it, so the call stores two glyphs (`A` and `B`), not one. -/
theorem old_overlong_sequence_is_drawn :
    sample_utf_console.vc_utf = true ∧ sample_utf_console.vc_state = 0 ∧
    sample_utf_console.vc_utf_count = 0 ∧ glyph_writes sample_utf_console.trace = 0 ∧
    (Old.do_con_write sample_env sample_utf_console [0xc1, 0x81]).2.trace
      = [Event.glyph 4096 0x0741] ∧
    (Old.do_con_write sample_env sample_utf_console [0xc1, 0x81, 0x42]).2.trace
      = [Event.glyph 4096 0x0741, Event.glyph 4098 0x0742] ∧
    glyph_writes (Old.do_con_write sample_env sample_utf_console [0xc1, 0x81, 0x42]).2.trace
      = 2 := by
  decide

/-! ### Run coalescing in `do_con_write` -/

theorem putcs_calls_append (a b : List Event) :
    putcs_calls (a ++ b) = putcs_calls a + putcs_calls b := by
  simp [putcs_calls]

/-- The 2.6 writer in the normal state on a printable ASCII byte that is its
own glyph: the byte goes straight to the glyph placement. -/
theorem byte_ascii (env : Env) (vc : vc_data) (l : Locals) (c : Nat)
    (hst : vc.vc_state = 0) (h1 : 32 ≤ c) (h2 : c ≤ 126)
    (hid : env.conv_uni_to_pc c = (c : Int)) (hcm : 127 ≤ l.charmask) :
    do_con_write_byte env vc l c = put_glyph env vc { l with n := l.n + 1 } c := by
  have e := write_code_glyph env vc { l with n := l.n + 1 } c c hst
    (displayable_ascii _ c h1 h2)
    (by rw [resolve_glyph_self env c hid]; exact conversion_failed_ascii c _ (by show c ≤ l.charmask; omega))
  rw [resolve_glyph_self env c hid, Int.toNat_ofNat] at e
  rw [do_con_write_byte_normal env vc l c hst]
  exact e

/-- One printable ASCII byte written before the last column, outside insert
mode and without a pending wrap, on a visible console. -/
theorem byte_ascii_inner (env : Env) (vc : vc_data) (l : Locals) (c : Nat)
    (hst : vc.vc_state = 0) (h1 : 32 ≤ c) (h2 : c ≤ 126)
    (hid : env.conv_uni_to_pc c = (c : Int)) (hcm : 127 ≤ l.charmask)
    (hnw : vc.vc_need_wrap = false) (hirm : vc.vc_irm = false)
    (hx : vc.vc_x ≠ vc.vc_cols - 1) (hvis : vc.is_visible = true) :
    do_con_write_byte env vc l c =
      ({ vc with
          mem := scr_writew vc.mem (glyph_word vc.vc_attr l.himask c) vc.vc_pos
          trace := vc.trace ++ [Event.glyph vc.vc_pos (glyph_word vc.vc_attr l.himask c % 65536)]
          vc_x := vc.vc_x + 1
          vc_pos := vc.vc_pos + 2 },
       { l with
          n := l.n + 1
          draw_x := if l.draw_x < 0 then (vc.vc_x : Int) else l.draw_x
          draw_from := if l.draw_x < 0 then vc.vc_pos else l.draw_from
          draw_to := vc.vc_pos + 2 }) := by
  rw [byte_ascii env vc l c hst h1 h2 hid hcm]
  unfold put_glyph
  rw [prepare_cell_plain env vc _ hnw hirm, store_glyph_inner vc _ c hx]
  have e : ∀ p : Prop, (vc.is_visible = true ∧ p) = p := by
    intro p; rw [hvis]; simp
  simp only [e]

/-- A run of printable ASCII bytes that fits before the last column, written
while a run is pending: the cursor advances by the length of the run, the
cells hold the glyph words in order, cells below the starting position are
untouched, no driver call is made, and the pending run is extended. -/
theorem ascii_run (env : Env)
    (hid : ∀ c, 32 ≤ c → c ≤ 126 → env.conv_uni_to_pc c = (c : Int)) :
    ∀ (buf : List Nat) (s : vc_data) (l : Locals),
    s.vc_state = 0 → s.vc_need_wrap = false → s.vc_irm = false → s.is_visible = true →
    s.tty_stopped = false → 127 ≤ l.charmask → 0 ≤ l.draw_x →
    s.vc_x + buf.length < s.vc_cols → (∀ c ∈ buf, 32 ≤ c ∧ c ≤ 126) →
    (do_con_write_loop env s l buf).1 =
      { s with vc_x := s.vc_x + buf.length, vc_pos := s.vc_pos + 2 * buf.length,
               mem := (do_con_write_loop env s l buf).1.mem,
               trace := (do_con_write_loop env s l buf).1.trace } ∧
    (∃ es, (do_con_write_loop env s l buf).1.trace = s.trace ++ es ∧ putcs_calls es = 0) ∧
    (∀ i c, buf[i]? = some c →
      scr_readw (do_con_write_loop env s l buf).1.mem (s.vc_pos + 2 * i)
        = glyph_word s.vc_attr l.himask c % 65536) ∧
    (∀ a, a < s.vc_pos → (do_con_write_loop env s l buf).1.mem a = s.mem a) ∧
    (do_con_write_loop env s l buf).2 =
      { l with n := l.n + buf.length,
               draw_to := if buf = [] then l.draw_to else s.vc_pos + 2 * buf.length } := by
  intro buf
  induction buf with
  | nil =>
    intro s l _ _ _ _ _ _ _ _ _
    refine ⟨rfl, ⟨[], (List.append_nil _).symm, rfl⟩, ?_, fun _ _ => rfl, rfl⟩
    intro i c h
    simp at h
  | cons c rest ih =>
    intro s l hst hnw hirm hvis hstop hcm hdx hlen hall
    have hc := hall c (List.mem_cons_self _ _)
    have hlen' : s.vc_x + (rest.length + 1) < s.vc_cols := hlen
    have hb := byte_ascii_inner env s l c hst hc.1 hc.2 (hid c hc.1 hc.2) hcm hnw hirm
      (by omega) hvis
    have hneg : ¬ (l.draw_x < 0) := by omega
    simp only [if_neg hneg] at hb
    have hloop : do_con_write_loop env s l (c :: rest) =
        do_con_write_loop env (do_con_write_byte env s l c).1 (do_con_write_byte env s l c).2
          rest := by
      rw [do_con_write_loop, if_neg (by rw [hstop]; decide)]
    rw [hloop, hb]
    obtain ⟨i1, ⟨es, i2, i3⟩, i4, i5, i6⟩ := ih
      { s with
          mem := scr_writew s.mem (glyph_word s.vc_attr l.himask c) s.vc_pos
          trace := s.trace ++ [Event.glyph s.vc_pos (glyph_word s.vc_attr l.himask c % 65536)]
          vc_x := s.vc_x + 1
          vc_pos := s.vc_pos + 2 }
      { l with n := l.n + 1, draw_x := l.draw_x, draw_from := l.draw_from,
               draw_to := s.vc_pos + 2 }
      hst hnw hirm hvis hstop hcm hdx (by show s.vc_x + 1 + rest.length < s.vc_cols; omega)
      (fun c' hc' => hall c' (List.mem_cons_of_mem _ hc'))
    generalize do_con_write_loop env
      { s with
          mem := scr_writew s.mem (glyph_word s.vc_attr l.himask c) s.vc_pos
          trace := s.trace ++ [Event.glyph s.vc_pos (glyph_word s.vc_attr l.himask c % 65536)]
          vc_x := s.vc_x + 1
          vc_pos := s.vc_pos + 2 }
      { l with n := l.n + 1, draw_x := l.draw_x, draw_from := l.draw_from,
               draw_to := s.vc_pos + 2 } rest = R at i1 i2 i4 i5 i6 ⊢
    refine ⟨?_, ⟨Event.glyph s.vc_pos (glyph_word s.vc_attr l.himask c % 65536) :: es, ?_, ?_⟩,
      ?_, ?_, ?_⟩
    · rw [i1]
      simp only [List.length_cons]
      have e1 : s.vc_x + 1 + rest.length = s.vc_x + (rest.length + 1) := by omega
      have e2 : s.vc_pos + 2 + 2 * rest.length = s.vc_pos + 2 * (rest.length + 1) := by omega
      rw [e1, e2]
    · rw [i2]
      simp
    · show putcs_calls ([Event.glyph s.vc_pos (glyph_word s.vc_attr l.himask c % 65536)] ++ es) = 0
      rw [putcs_calls_append, i3]
      rfl
    · intro i c' h
      cases i with
      | zero =>
        simp only [List.getElem?_cons_zero, Option.some.injEq] at h
        subst h
        rw [Nat.mul_zero, Nat.add_zero]
        unfold scr_readw
        rw [i5 s.vc_pos (by show s.vc_pos < s.vc_pos + 2; omega)]
        exact scr_readw_writew _ _ _
      | succ j =>
        simp only [List.getElem?_cons_succ] at h
        have := i4 j c' h
        have e : s.vc_pos + 2 * (j + 1) = s.vc_pos + 2 + 2 * j := by omega
        rw [e]
        exact this
    · intro a ha
      rw [i5 a (by show a < s.vc_pos + 2; omega)]
      show scr_writew s.mem _ s.vc_pos a = s.mem a
      unfold scr_writew
      rw [if_neg (by omega)]
    · rw [i6]
      simp only [List.length_cons, if_neg (List.cons_ne_nil c rest)]
      have e1 : l.n + 1 + rest.length = l.n + (rest.length + 1) := by omega
      rw [e1]
      cases rest with
      | nil => simp
      | cons c2 r2 =>
        simp only [if_neg (List.cons_ne_nil c2 r2), List.length_cons]
        have e2 : s.vc_pos + 2 + 2 * (r2.length + 1) = s.vc_pos + 2 * (r2.length + 1 + 1) := by
          omega
        rw [e2]

theorem hide_cursor_frame (vc : vc_data) :
    hide_cursor vc =
      { vc with mem := (hide_cursor vc).mem,
                cursor_original := (hide_cursor vc).cursor_original,
                trace := (hide_cursor vc).trace } ∧
    ∃ es, (hide_cursor vc).trace = vc.trace ++ es ∧ putcs_calls es = 0 := by
  unfold hide_cursor hide_softcursor
  simp only []
  split_ifs with h
  · refine ⟨rfl, ?_⟩
    cases hv : vc.is_visible
    · exact ⟨[Event.con_cursor CM_ERASE], by simp [emit, emit_if, hv], rfl⟩
    · exact ⟨[Event.con_cursor CM_ERASE] ++
        [Event.con_putc ((emit vc (Event.con_cursor CM_ERASE)).cursor_original % 65536).toNat
          vc.vc_y vc.vc_x], by simp [emit, emit_if, hv], rfl⟩
  · exact ⟨rfl, [Event.con_cursor CM_ERASE], rfl, rfl⟩

theorem FLUSH_pending (env : Env) (vc : vc_data) (l : Locals)
    (hx : 0 ≤ l.draw_x) (hp : env.sw.con_putcs = true) :
    FLUSH env vc l =
      ({ vc with trace := vc.trace ++
          [Event.con_putcs l.draw_from ((l.draw_to - l.draw_from) / 2) vc.vc_y l.draw_x.toNat] },
       { l with draw_x := -1 }) := by
  have hd : decide (l.draw_x ≥ 0) = true := decide_eq_true hx
  unfold FLUSH emit_if
  simp only [hd, hp, Bool.and_self, if_true]

/-- C9 (amended): `do_con_write` (ruby-2.6) on a visible console in the normal
state, outside insert mode, `need_wrap` clear, cursor in column 0, tty not
stopped, driver providing `con_putcs`, glyph lookup the identity on printable
ASCII: writing `k` printable ASCII bytes, `1 ≤ k < cols`, consumes the `k`
bytes, issues exactly one `con_putcs` call (the last driver call), covering
`k` cells from the original cursor position at row `y`, column 0, and leaves
in those `k` cells the words `glyph_word attr himask byte`, in order: that is
`(attr << 8) + byte` for a 256-glyph font (`vc_hi_font_mask = 0`) and
`((attr << 8) & ~himask) + byte` for a 512-glyph font. -/
theorem ascii_string_one_putcs (env : Env) (vc : vc_data) (buf : List Nat)
    (hvis : vc.is_visible = true) (hst : vc.vc_state = 0) (hirm : vc.vc_irm = false)
    (hnw : vc.vc_need_wrap = false) (hx : vc.vc_x = 0) (hstop : vc.tty_stopped = false)
    (hputcs : env.sw.con_putcs = true)
    (hid : ∀ c, 32 ≤ c → c ≤ 126 → env.conv_uni_to_pc c = (c : Int))
    (hall : ∀ c ∈ buf, 32 ≤ c ∧ c ≤ 126)
    (hk1 : 1 ≤ buf.length) (hk2 : buf.length < vc.vc_cols) :
    (do_con_write env vc buf).1 = buf.length ∧
    (∃ es, (do_con_write env vc buf).2.trace
        = vc.trace ++ es ++ [Event.con_putcs vc.vc_pos buf.length vc.vc_y 0] ∧
      putcs_calls es = 0) ∧
    putcs_calls (do_con_write env vc buf).2.trace = putcs_calls vc.trace + 1 ∧
    (∀ i c, buf[i]? = some c →
      scr_readw (do_con_write env vc buf).2.mem (vc.vc_pos + 2 * i)
        = glyph_word vc.vc_attr vc.vc_hi_font_mask c % 65536) ∧
    (vc.vc_hi_font_mask = 0 → ∀ i c, buf[i]? = some c →
      scr_readw (do_con_write env vc buf).2.mem (vc.vc_pos + 2 * i)
        = ((vc.vc_attr <<< 8) + c) % 65536) ∧
    (vc.vc_hi_font_mask ≠ 0 → ∀ i c, buf[i]? = some c →
      scr_readw (do_con_write env vc buf).2.mem (vc.vc_pos + 2 * i)
        = (((vc.vc_attr <<< 8) &&& (0xffffffff ^^^ vc.vc_hi_font_mask)) + c) % 65536) ∧
    (do_con_write env vc buf).2.vc_x = buf.length ∧
    (do_con_write env vc buf).2.vc_y = vc.vc_y := by
  obtain ⟨c0, rest, rfl⟩ : ∃ c0 rest, buf = c0 :: rest := by
    cases buf with
    | nil => simp at hk1
    | cons c0 rest => exact ⟨c0, rest, rfl⟩
  have hdef : do_con_write env vc (c0 :: rest) =
      ((FLUSH env (do_con_write_loop env (hide_cursor vc) (initial_locals vc) (c0 :: rest)).1
          (do_con_write_loop env (hide_cursor vc) (initial_locals vc) (c0 :: rest)).2).2.n,
       (FLUSH env (do_con_write_loop env (hide_cursor vc) (initial_locals vc) (c0 :: rest)).1
          (do_con_write_loop env (hide_cursor vc) (initial_locals vc) (c0 :: rest)).2).1) := by
    unfold do_con_write
    simp only [hvis, if_true]
  obtain ⟨hh1, es0, hh2, hh3⟩ := hide_cursor_frame vc
  have hcm := initial_locals_charmask vc
  have hc0 := hall c0 (List.mem_cons_self _ _)
  have hlen : rest.length + 1 < vc.vc_cols := hk2
  have hb := fun (s : vc_data) h1 h2 h3 h4 h5 => byte_ascii_inner env s (initial_locals vc) c0
    h1 hc0.1 hc0.2 (hid c0 hc0.1 hc0.2) hcm h2 h3 h4 h5
  have hrun := fun (s : vc_data) (l : Locals) => ascii_run env hid rest s l
  have hloop : ∀ s : vc_data, s.tty_stopped = false →
      do_con_write_loop env s (initial_locals vc) (c0 :: rest) =
        do_con_write_loop env (do_con_write_byte env s (initial_locals vc) c0).1
          (do_con_write_byte env s (initial_locals vc) c0).2 rest := by
    intro s hs
    rw [do_con_write_loop, if_neg (by rw [hs]; decide)]
  generalize hide_cursor vc = s at hdef hh1 hh2 hb hrun hloop
  have f1 : s.vc_state = 0 := by rw [hh1]; exact hst
  have f2 : s.vc_need_wrap = false := by rw [hh1]; exact hnw
  have f3 : s.vc_irm = false := by rw [hh1]; exact hirm
  have f4 : s.is_visible = true := by rw [hh1]; exact hvis
  have f5 : s.tty_stopped = false := by rw [hh1]; exact hstop
  have f6 : s.vc_x = 0 := by rw [hh1]; exact hx
  have f7 : s.vc_cols = vc.vc_cols := by rw [hh1]
  have f8 : s.vc_pos = vc.vc_pos := by rw [hh1]
  have f9 : s.vc_attr = vc.vc_attr := by rw [hh1]
  have f10 : s.vc_y = vc.vc_y := by rw [hh1]
  have hb' := hb s f1 f2 f3 (by rw [f6, f7]; omega) f4
  have hneg : (initial_locals vc).draw_x < 0 := by show (-1 : Int) < 0; decide
  simp only [if_pos hneg] at hb'
  rw [hloop s f5, hb'] at hdef
  obtain ⟨r1, ⟨es1, r2, r3⟩, r4, r5, r6⟩ := hrun
    { s with
        mem := scr_writew s.mem (glyph_word s.vc_attr (initial_locals vc).himask c0) s.vc_pos
        trace := s.trace ++
          [Event.glyph s.vc_pos (glyph_word s.vc_attr (initial_locals vc).himask c0 % 65536)]
        vc_x := s.vc_x + 1
        vc_pos := s.vc_pos + 2 }
    { initial_locals vc with
        n := (initial_locals vc).n + 1
        draw_x := (s.vc_x : Int)
        draw_from := s.vc_pos
        draw_to := s.vc_pos + 2 }
    f1 f2 f3 f4 f5 hcm (by show (0 : Int) ≤ (s.vc_x : Int); omega)
    (by show s.vc_x + 1 + rest.length < s.vc_cols; rw [f6, f7]; omega)
    (fun c hc => hall c (List.mem_cons_of_mem _ hc))
  generalize do_con_write_loop env
    { s with
        mem := scr_writew s.mem (glyph_word s.vc_attr (initial_locals vc).himask c0) s.vc_pos
        trace := s.trace ++
          [Event.glyph s.vc_pos (glyph_word s.vc_attr (initial_locals vc).himask c0 % 65536)]
        vc_x := s.vc_x + 1
        vc_pos := s.vc_pos + 2 }
    { initial_locals vc with
        n := (initial_locals vc).n + 1
        draw_x := (s.vc_x : Int)
        draw_from := s.vc_pos
        draw_to := s.vc_pos + 2 } rest = R at hdef r1 r2 r4 r5 r6
  have g1 : R.2.draw_x = (s.vc_x : Int) := by rw [r6]
  have g2 : R.2.draw_from = s.vc_pos := by rw [r6]
  have g3 : R.2.draw_to = s.vc_pos + 2 * (rest.length + 1) := by
    rw [r6]
    show (if rest = [] then s.vc_pos + 2 else s.vc_pos + 2 + 2 * rest.length) = _
    cases rest with
    | nil => simp
    | cons a b => simp only [if_neg (List.cons_ne_nil a b), List.length_cons]; omega
  have g4 : R.2.n = rest.length + 1 := by
    rw [r6]
    show 0 + 1 + rest.length = rest.length + 1
    omega
  have g5 : R.1.vc_y = vc.vc_y := by rw [r1]; exact f10
  have g6 : R.1.vc_x = rest.length + 1 := by
    rw [r1]
    show s.vc_x + 1 + rest.length = rest.length + 1
    omega
  rw [FLUSH_pending env R.1 R.2 (by rw [g1]; omega) hputcs] at hdef
  have hcell : ∀ (i c : Nat), (c0 :: rest)[i]? = some c →
      scr_readw (do_con_write env vc (c0 :: rest)).2.mem (vc.vc_pos + 2 * i)
        = glyph_word vc.vc_attr vc.vc_hi_font_mask c % 65536 := by
    intro i c h
    rw [hdef]
    show scr_readw R.1.mem (vc.vc_pos + 2 * i) = _
    cases i with
    | zero =>
      simp only [List.getElem?_cons_zero, Option.some.injEq] at h
      subst h
      rw [Nat.mul_zero, Nat.add_zero, ← f8]
      unfold scr_readw
      rw [r5 s.vc_pos (by show s.vc_pos < s.vc_pos + 2; omega)]
      show scr_readw (scr_writew s.mem _ s.vc_pos) s.vc_pos = _
      rw [scr_readw_writew, f9]
      rfl
    | succ j =>
      simp only [List.getElem?_cons_succ] at h
      have := r4 j c h
      have e : vc.vc_pos + 2 * (j + 1) = s.vc_pos + 2 + 2 * j := by rw [f8]; omega
      rw [e]
      rw [← f9]
      exact this
  have hasc : ∀ (i c : Nat), (c0 :: rest)[i]? = some c → c < 128 := by
    intro i c h
    have := hall c (List.getElem?_mem h)
    omega
  refine ⟨?_, ⟨es0 ++ [Event.glyph s.vc_pos
      (glyph_word s.vc_attr (initial_locals vc).himask c0 % 65536)] ++ es1, ?_, ?_⟩, ?_, hcell,
    ?_, ?_, ?_, ?_⟩
  · rw [hdef]
    show R.2.n = (c0 :: rest).length
    rw [g4]
    rfl
  · rw [hdef]
    show R.1.trace ++ [Event.con_putcs R.2.draw_from ((R.2.draw_to - R.2.draw_from) / 2)
      R.1.vc_y R.2.draw_x.toNat] = _
    have e : (s.vc_pos + 2 * (rest.length + 1) - s.vc_pos) / 2 = (c0 :: rest).length := by
      simp only [List.length_cons]
      omega
    rw [r2, g1, g2, g3, g5, e, f6]
    simp only [hh2, f8, List.append_assoc, Int.toNat_ofNat]
  · rw [putcs_calls_append, putcs_calls_append, hh3, r3]
    rfl
  · rw [hdef]
    show putcs_calls (R.1.trace ++ [_]) = _
    rw [r2]
    show putcs_calls (s.trace ++ _ ++ es1 ++ _) = _
    rw [hh2]
    simp only [putcs_calls_append, hh3, r3]
    rfl
  · intro h0 i c h
    rw [hcell i c h]
    unfold glyph_word
    rw [if_neg (by rw [h0]; decide)]
  · intro h0 i c h
    rw [hcell i c h]
    obtain ⟨b1, b2⟩ := ascii_bits c (hasc i c h)
    unfold glyph_word
    rw [if_pos h0, b1, b2]
    simp
  · rw [hdef]
    show R.1.vc_x = _
    rw [g6]
    rfl
  · rw [hdef]
    exact g5

/-- C9 (counterexample): on a visible monochrome console with a 512-glyph font
(`vc_hi_font_mask = 0x100`, attribute byte 1) the one-byte string `A` leaves
the cell 0x0041 at the cursor, not `(attr << 8) + byte = 0x0141`: bit 8 of the
cell belongs to the glyph index and the attribute bit under it is masked. -/
theorem ascii_cell_with_512_glyph_font :
    sample_mono512_console.is_visible = true ∧ sample_mono512_console.vc_state = 0 ∧
    sample_mono512_console.vc_irm = false ∧ sample_mono512_console.vc_need_wrap = false ∧
    sample_mono512_console.vc_x = 0 ∧ sample_env.conv_uni_to_pc 0x41 = 0x41 ∧
    (do_con_write sample_env sample_mono512_console [0x41]).2.trace
      = [Event.con_cursor CM_ERASE, Event.glyph 4096 0x41, Event.con_putcs 4096 1 0 0] ∧
    scr_readw (do_con_write sample_env sample_mono512_console [0x41]).2.mem
      sample_mono512_console.vc_pos = 0x41 ∧
    scr_readw (do_con_write sample_env sample_mono512_console [0x41]).2.mem
      sample_mono512_console.vc_pos ≠ (sample_mono512_console.vc_attr <<< 8) + 0x41 := by
  decide

/-! ### Resizing -/

theorem memcpyw_loop_apply_disjoint (n : Nat) : ∀ (mem : Nat → Nat) (d s a : Nat),
    (d ≤ s ∨ s + 2 * n ≤ d) →
    memcpyw_loop mem d s n a =
      if d ≤ a ∧ a < d + 2 * n ∧ (a - d) % 2 = 0 then mem (s + (a - d)) % 65536 else mem a := by
  induction n with
  | zero => intro mem d s a _; rw [memcpyw_loop, if_neg (by omega)]
  | succ n ih =>
    intro mem d s a hds
    rw [memcpyw_loop, ih _ _ _ _ (by omega)]
    simp only [scr_writew, scr_readw]
    by_cases h1 : d + 2 ≤ a ∧ a < d + 2 + 2 * n ∧ (a - (d + 2)) % 2 = 0
    · have h2 : d ≤ a ∧ a < d + 2 * (n + 1) ∧ (a - d) % 2 = 0 := by omega
      have h3 : s + 2 + (a - (d + 2)) = s + (a - d) := by omega
      have h4 : ¬ (s + (a - d) = d) := by omega
      rw [if_pos h1, if_pos h2, h3, if_neg h4]
    · rw [if_neg h1]
      by_cases h5 : a = d
      · subst h5
        have h2 : a ≤ a ∧ a < a + 2 * (n + 1) ∧ (a - a) % 2 = 0 := by omega
        rw [if_pos rfl, if_pos h2]
        simp
      · have h2 : ¬ (d ≤ a ∧ a < d + 2 * (n + 1) ∧ (a - d) % 2 = 0) := by omega
        rw [if_neg h5, if_neg h2]

/-- Pointwise description of the ascending copy between regions that do not
overlap harmfully. -/
theorem scr_memcpyw_apply_disjoint (mem : Nat → Nat) (d s count a : Nat)
    (h : d ≤ s ∨ s + 2 * (count / 2) ≤ d) :
    scr_memcpyw mem d s count a =
      if d ≤ a ∧ a < d + 2 * (count / 2) ∧ (a - d) % 2 = 0 then mem (s + (a - d)) % 65536
      else mem a :=
  memcpyw_loop_apply_disjoint (count / 2) mem d s a h

/-- One iteration of the copy loop of `vc_resize`, pointwise: `w` cells are
copied from `ol` to `nl` and the `c2 - w` cells after them are set to the
erase character. -/
theorem resize_row_apply (mem : Nat → Nat) (ol nl w c2 e a : Nat) (hw : w ≤ c2)
    (hd : nl ≤ ol ∨ ol + 2 * w ≤ nl) :
    (if 2 * c2 - 2 * w ≠ 0
      then scr_memsetw (scr_memcpyw mem nl ol (2 * w)) (nl + 2 * w) e (2 * c2 - 2 * w)
      else scr_memcpyw mem nl ol (2 * w)) a =
    if nl ≤ a ∧ a < nl + 2 * w ∧ (a - nl) % 2 = 0 then mem (ol + (a - nl)) % 65536
    else if nl + 2 * w ≤ a ∧ a < nl + 2 * c2 ∧ (a - nl) % 2 = 0 then e % 65536
    else mem a := by
  have h1 : 2 * w / 2 = w := Nat.mul_div_cancel_left _ (by norm_num)
  have h2 : (2 * c2 - 2 * w) / 2 = c2 - w := by omega
  by_cases hr : 2 * c2 - 2 * w ≠ 0
  · rw [if_pos hr, scr_memsetw_apply, scr_memcpyw_apply_disjoint _ _ _ _ _ (by rw [h1]; exact hd),
      h1, h2]
    by_cases c1 : nl ≤ a ∧ a < nl + 2 * w ∧ (a - nl) % 2 = 0
    · rw [if_neg (by omega), if_pos c1, if_pos c1]
    · by_cases c3 : nl + 2 * w ≤ a ∧ a < nl + 2 * c2 ∧ (a - nl) % 2 = 0
      · rw [if_pos (by omega), if_neg c1, if_pos c3]
      · rw [if_neg (by omega), if_neg c1, if_neg c1, if_neg c3]
  · rw [if_neg hr, scr_memcpyw_apply_disjoint _ _ _ _ _ (by rw [h1]; exact hd), h1]
    by_cases c1 : nl ≤ a ∧ a < nl + 2 * w ∧ (a - nl) % 2 = 0
    · rw [if_pos c1, if_pos c1]
    · rw [if_neg c1, if_neg c1, if_neg (by omega)]

/-- The copy loop of `vc_resize` over `k` remaining old rows (row sizes `R1`
old, `2 * c2` new, `w` cells copied per row): the loop terminates within `k`
iterations, leaves `nl` behind the `k` new rows, and in each of them the
first `w` cells hold the cells of the old row and the rest holds the erase
character; nothing outside the `k` new rows is written. -/
theorem resize_copy_loop_spec (scr_end R1 c2 w e : Nat) (hR1 : 1 ≤ R1) (hw1 : 2 * w ≤ R1)
    (hw2 : w ≤ c2) :
    ∀ (k fuel : Nat) (mem : Nat → Nat) (ol nl : Nat),
    scr_end = ol + R1 * k → k ≤ fuel →
    (nl + 2 * c2 * k ≤ ol ∨ scr_end ≤ nl) →
    ∃ mem', resize_copy_loop scr_end R1 (2 * c2) (2 * w) (2 * c2 - 2 * w) e fuel mem ol nl
        = some (mem', nl + 2 * c2 * k) ∧
      (∀ i j, i < k → j < w →
        mem' (nl + 2 * c2 * i + 2 * j) = mem (ol + R1 * i + 2 * j) % 65536) ∧
      (∀ i j, i < k → w ≤ j → j < c2 → mem' (nl + 2 * c2 * i + 2 * j) = e % 65536) ∧
      (∀ a, (a < nl ∨ nl + 2 * c2 * k ≤ a) → mem' a = mem a) := by
  intro k
  induction k with
  | zero =>
    intro fuel mem ol nl hend _ _
    have hno : ¬ (ol < scr_end) := by rw [hend]; omega
    refine ⟨mem, ?_, ?_, ?_, fun _ _ => rfl⟩
    · cases fuel with
      | zero => rw [resize_copy_loop, if_neg hno]; rfl
      | succ f => rw [resize_copy_loop, if_neg hno]; rfl
    · intro i j hi; omega
    · intro i j hi; omega
  | succ k ih =>
    intro fuel mem ol nl hend hfuel hdis
    obtain ⟨f, rfl⟩ : ∃ f, fuel = f + 1 := ⟨fuel - 1, by omega⟩
    have e1 : R1 * (k + 1) = R1 * k + R1 := Nat.mul_succ _ _
    have e2 : 2 * c2 * (k + 1) = 2 * c2 * k + 2 * c2 := Nat.mul_succ _ _
    have hlt : ol < scr_end := by rw [hend]; omega
    have hrow := resize_row_apply mem ol nl w c2 e
    obtain ⟨mem', q1, q2, q3, q4⟩ := ih f
      (if 2 * c2 - 2 * w ≠ 0
        then scr_memsetw (scr_memcpyw mem nl ol (2 * w)) (nl + 2 * w) e (2 * c2 - 2 * w)
        else scr_memcpyw mem nl ol (2 * w))
      (ol + R1) (nl + 2 * c2) (by omega) (by omega) (by omega)
    refine ⟨mem', ?_, ?_, ?_, ?_⟩
    · rw [resize_copy_loop, if_pos hlt, q1]
      congr 2
      omega
    · intro i j hi hj
      cases i with
      | zero =>
        rw [Nat.mul_zero, Nat.mul_zero, Nat.add_zero, Nat.add_zero,
          q4 _ (by omega), hrow _ hw2 (by omega), if_pos (by omega)]
        congr 2
        omega
      | succ i' =>
        have e3 : 2 * c2 * (i' + 1) = 2 * c2 * i' + 2 * c2 := Nat.mul_succ _ _
        have e4 : R1 * (i' + 1) = R1 * i' + R1 := Nat.mul_succ _ _
        have e5 : R1 * (i' + 1) ≤ R1 * k := Nat.mul_le_mul_left _ (by omega)
        have e6 : 2 * c2 * (i' + 1) ≤ 2 * c2 * k := Nat.mul_le_mul_left _ (by omega)
        have a1 : nl + 2 * c2 * (i' + 1) + 2 * j = nl + 2 * c2 + 2 * c2 * i' + 2 * j := by omega
        have a2 : ol + R1 * (i' + 1) + 2 * j = ol + R1 + R1 * i' + 2 * j := by omega
        rw [a1, q2 i' j (by omega) hj, hrow _ hw2 (by omega), ← a2,
          if_neg (by omega), if_neg (by omega)]
    · intro i j hi hj1 hj2
      cases i with
      | zero =>
        rw [Nat.mul_zero, Nat.add_zero, q4 _ (by omega), hrow _ hw2 (by omega),
          if_neg (by omega), if_pos (by omega)]
      | succ i' =>
        have e3 : 2 * c2 * (i' + 1) = 2 * c2 * i' + 2 * c2 := Nat.mul_succ _ _
        have a1 : nl + 2 * c2 * (i' + 1) + 2 * j = nl + 2 * c2 + 2 * c2 * i' + 2 * j := by omega
        rw [a1, q3 i' j (by omega) hj1 hj2]
    · intro a ha
      rw [q4 a (by omega), hrow _ hw2 (by omega), if_neg (by omega), if_neg (by omega)]

theorem update_row_loop_count (vc : vc_data) (yy : Nat) : ∀ (fuel : Nat) (s : RowScan),
    0 ≤ s.count →
    0 ≤ (update_row_loop vc yy fuel s).count ∧
    (update_row_loop vc yy fuel s).count ≤ s.count ∧
    (s.xx < vc.vc_cols → 0 < s.count → 0 < fuel →
      (update_row_loop vc yy fuel s).count < s.count) := by
  intro fuel
  induction fuel with
  | zero => intro s h; exact ⟨h, le_refl _, fun _ _ h0 => absurd h0 (by omega)⟩
  | succ f ih =>
    intro s h
    have key : ∀ s' : RowScan, s'.count = s.count - 1 → 0 < s.count →
        0 ≤ (update_row_loop vc yy f s').count ∧
        (update_row_loop vc yy f s').count ≤ s.count - 1 := by
      intro s' hs' hpos
      obtain ⟨i1, i2, -⟩ := ih s' (by rw [hs']; omega)
      rw [hs'] at i2
      exact ⟨i1, i2⟩
    unfold update_row_loop
    by_cases c1 : s.xx < vc.vc_cols ∧ s.count ≠ 0
    · rw [if_pos c1]
      have hpos : 0 < s.count := by omega
      by_cases c2 : s.attrib ≠ scr_readw vc.mem s.p &&& 0xff00
      · rw [if_pos c2]
        obtain ⟨k1, k2⟩ := key
          { p := s.p + 2, xx := s.xx + 1, count := s.count - 1, q := s.p, startx := s.xx,
            attrib := scr_readw vc.mem s.p &&& 0xff00,
            calls := if s.p > s.q
              then s.calls ++ [Event.con_putcs s.q ((s.p - s.q) / 2) yy s.startx] else s.calls }
          rfl hpos
        exact ⟨k1, by omega, fun _ _ _ => by omega⟩
      · rw [if_neg c2]
        obtain ⟨k1, k2⟩ := key { s with p := s.p + 2, xx := s.xx + 1, count := s.count - 1 }
          rfl hpos
        exact ⟨k1, by omega, fun _ _ _ => by omega⟩
    · rw [if_neg c1]
      exact ⟨h, le_refl _, fun h1 h2 _ => absurd ⟨h1, by omega⟩ c1⟩

/-- The row-by-row scan of `do_update_region` terminates: `count + 2`
iterations of the outer loop are enough on a console with at least one
column. -/
theorem update_region_loop_terminates (env : Env) (vc : vc_data) (hc : 1 ≤ vc.vc_cols) :
    ∀ (fuel p xx yy start : Nat) (count : Int) (calls : List Event),
    0 ≤ count → count.toNat + (if xx < vc.vc_cols then 1 else 2) ≤ fuel →
    ∃ r, update_region_loop env vc fuel p xx yy start count calls = some r := by
  intro fuel
  induction fuel with
  | zero =>
    intro p xx yy start count calls _ h
    split_ifs at h <;> omega
  | succ f ih =>
    intro p xx yy start count calls h0 hf
    obtain ⟨c1, c2, c3⟩ := update_row_loop_count vc yy (vc.vc_cols - xx)
      { p := p, xx := xx, count := count, q := p, startx := xx,
        attrib := scr_readw vc.mem p &&& 0xff00, calls := calls } h0
    have c2' : _ ≤ count := c2
    have c3' : xx < vc.vc_cols → 0 < count → 0 < vc.vc_cols - xx → _ < count := c3
    unfold update_region_loop
    simp only []
    generalize update_row_loop vc yy (vc.vc_cols - xx)
      { p := p, xx := xx, count := count, q := p, startx := xx,
        attrib := scr_readw vc.mem p &&& 0xff00, calls := calls } = s at c1 c2' c3'
    by_cases hz : s.count = 0
    · rw [if_pos hz]
      exact ⟨_, rfl⟩
    · rw [if_neg hz]
      have hfuel : s.count.toNat + (if 0 < vc.vc_cols then 1 else 2) ≤ f := by
        rw [if_pos (by omega)]
        by_cases hx : xx < vc.vc_cols
        · rw [if_pos hx] at hf
          have hpos : 0 < count := by omega
          have := c3' hx hpos (by omega)
          omega
        · rw [if_neg hx] at hf
          omega
      cases hg : env.sw.con_getxy with
      | none => exact ih _ 0 _ _ _ _ c1 hfuel
      | some g => exact ih _ 0 _ _ _ _ c1 hfuel

/-- On a console with at least one column `do_update_region` returns for every
non-negative count, and it changes the trace only. -/
theorem do_update_region_returns (env : Env) (vc : vc_data) (start : Nat) (count : Int)
    (hc : 1 ≤ vc.vc_cols) (h0 : 0 ≤ count) :
    ∃ tr, do_update_region env vc start count = some { vc with trace := tr } := by
  unfold do_update_region
  cases hg : env.sw.con_getxy with
  | none =>
    obtain ⟨r, hr⟩ := update_region_loop_terminates env vc hc (count.toNat + 2) start
      (((start - vc.vc_origin) / 2) % vc.vc_cols) (((start - vc.vc_origin) / 2) / vc.vc_cols)
      start count [] h0 (by split_ifs <;> omega)
    simp only [hr]
    exact ⟨_, rfl⟩
  | some g =>
    obtain ⟨r, hr⟩ := update_region_loop_terminates env vc hc (count.toNat + 2) start
      (g vc start).2.1 (g vc start).2.2 (g vc start).1 count [] h0 (by split_ifs <;> omega)
    simp only [hr]
    exact ⟨_, rfl⟩

theorem hide_cursor_idle (vc : vc_data) (h : vc.cursor_original = -1) :
    hide_cursor vc = emit vc (Event.con_cursor CM_ERASE) := by
  unfold hide_cursor hide_softcursor
  rw [if_neg (by show ¬ (vc.cursor_original ≠ -1); rw [h]; decide)]

theorem set_origin_frame (env : Env) (vc : vc_data) :
    set_origin env vc =
      { vc with vc_origin := (set_origin env vc).vc_origin,
                vc_visible_origin := (set_origin env vc).vc_visible_origin,
                vc_scr_end := (set_origin env vc).vc_scr_end,
                vc_pos := (set_origin env vc).vc_pos,
                trace := (set_origin env vc).trace } := by
  rfl

/-- The origin chosen by `set_origin` is the start of the console's own buffer
when the console is not visible or the driver has no `con_set_origin`. -/
theorem set_origin_own_buffer (env : Env) (vc : vc_data)
    (h : vc.is_visible = false ∨ env.sw.con_set_origin = none) :
    (set_origin env vc).vc_origin = vc.vc_screenbuf := by
  show chosen_origin env vc = vc.vc_screenbuf
  unfold chosen_origin
  rcases h with h | h
  · rw [h]; rfl
  · rw [h]
    cases vc.is_visible <;> rfl

theorem set_cursor_idle (vc : vc_data) (h1 : vc.cursor_original = -1)
    (h2 : vc.vc_cursor_type &&& 0x10 = 0) :
    set_cursor vc = { vc with trace := (set_cursor vc).trace } := by
  have ha : add_softcursor vc = vc := by
    unfold add_softcursor
    simp only []
    rw [if_pos h2]
  unfold set_cursor
  by_cases c1 : (!vc.is_visible || vc.vt_blanked || vc.vc_mode == KD_GRAPHICS) = true
  · rw [if_pos c1]
  · rw [if_neg c1]
    by_cases c2 : vc.vc_dectcem = true
    · rw [if_pos c2]
      simp only [ha]
      split_ifs <;> rfl
    · rw [if_neg c2, hide_cursor_idle vc h1]
      rfl

/-- A redraw of a console on which the soft cursor is not in use (no saved cell
outstanding, cursor type without bit 0x10): `update_screen` returns and leaves
the memory and everything but the origin fields, the cursor offset and the
trace as they were. -/
theorem update_screen_plain (env : Env) (vc : vc_data) (hc : 1 ≤ vc.vc_cols)
    (h1 : vc.cursor_original = -1) (h2 : vc.vc_cursor_type &&& 0x10 = 0) :
    ∃ r, update_screen env vc = some r ∧
      r = { vc with vc_origin := r.vc_origin, vc_visible_origin := r.vc_visible_origin,
                    vc_scr_end := r.vc_scr_end, vc_pos := r.vc_pos, trace := r.trace } ∧
      r.vc_origin = (set_origin env (hide_cursor vc)).vc_origin := by
  have hdef : update_screen env vc =
      (if env.sw.con_switch (set_origin env (emit vc (Event.con_cursor CM_ERASE))) ≠ 0 ∧
          (set_palette env (emit (set_origin env (emit vc (Event.con_cursor CM_ERASE)))
            Event.con_switch)).vc_mode ≠ KD_GRAPHICS then
        match do_update_region env
            (set_palette env (emit (set_origin env (emit vc (Event.con_cursor CM_ERASE)))
              Event.con_switch))
            (set_palette env (emit (set_origin env (emit vc (Event.con_cursor CM_ERASE)))
              Event.con_switch)).vc_origin
            (((set_palette env (emit (set_origin env (emit vc (Event.con_cursor CM_ERASE)))
              Event.con_switch)).vc_screenbuf_size / 2 : Nat) : Int) with
        | some vc4 => some (set_cursor vc4)
        | none => none
      else some (set_cursor
        (set_palette env (emit (set_origin env (emit vc (Event.con_cursor CM_ERASE)))
          Event.con_switch)))) := by
    unfold update_screen
    simp only []
    rw [hide_cursor_idle vc h1]
    rw [if_neg (show ¬ (vc.vc_can_do_color ≠
      (set_palette env (emit (set_origin env (emit vc (Event.con_cursor CM_ERASE)))
        Event.con_switch)).vc_can_do_color) from fun h => h rfl)]
  rw [hdef, hide_cursor_idle vc h1]
  have e1 := set_origin_frame env (emit vc (Event.con_cursor CM_ERASE))
  generalize set_origin env (emit vc (Event.con_cursor CM_ERASE)) = A at e1 ⊢
  have e2 : set_palette env (emit A Event.con_switch) =
      { A with trace := (set_palette env (emit A Event.con_switch)).trace } := rfl
  generalize set_palette env (emit A Event.con_switch) = P at e2 ⊢
  have hP : P = { vc with vc_origin := A.vc_origin, vc_visible_origin := A.vc_visible_origin,
                          vc_scr_end := A.vc_scr_end, vc_pos := A.vc_pos, trace := P.trace } := by
    rw [e2, e1]
    rfl
  have p4 : P.vc_origin = A.vc_origin := by rw [e2]
  have p1 : P.cursor_original = -1 := by rw [hP]; exact h1
  have p2 : P.vc_cursor_type &&& 0x10 = 0 := by rw [hP]; exact h2
  have p3 : 1 ≤ P.vc_cols := by rw [hP]; exact hc
  have hsc := set_cursor_idle P p1 p2
  split_ifs
  · obtain ⟨tr, htr⟩ := do_update_region_returns env P P.vc_origin
      ((P.vc_screenbuf_size / 2 : Nat) : Int) p3 (by omega)
    rw [htr]
    have hsc2 := set_cursor_idle { P with trace := tr } p1 p2
    refine ⟨_, rfl, ?_, ?_⟩
    · generalize set_cursor { P with trace := tr } = S at hsc2 ⊢
      rw [hsc2, hP]
    · generalize set_cursor { P with trace := tr } = S at hsc2 ⊢
      rw [hsc2]
      exact p4
  · refine ⟨_, rfl, ?_, ?_⟩
    · generalize set_cursor P = S at hsc ⊢
      rw [hsc, hP]
    · generalize set_cursor P = S at hsc ⊢
      rw [hsc]
      exact p4

theorem resize_screen_frame (env : Env) (vc : vc_data) (w h : Nat) :
    (resize_screen env vc w h).2 = { vc with trace := (resize_screen env vc w h).2.trace } := by
  unfold resize_screen
  split_ifs
  · cases env.sw.con_resize <;> rfl
  · rfl

theorem resize_fill_apply (m : Nat → Nat) (nl nlend e a : Nat) (hev : (nlend - nl) % 2 = 0) :
    (if nlend > nl then scr_memsetw m nl e (nlend - nl) else m) a =
      if nl ≤ a ∧ a < nlend ∧ (a - nl) % 2 = 0 then e % 65536 else m a := by
  by_cases h : nlend > nl
  · rw [if_pos h, scr_memsetw_apply]
    by_cases c : nl ≤ a ∧ a < nlend ∧ (a - nl) % 2 = 0
    · rw [if_pos c, if_pos (by omega)]
    · rw [if_neg c, if_neg (by omega)]
  · rw [if_neg h, if_neg (by omega)]

/-- The tail of `vc_resize` on a console that is not visible or does not use
the software cursor: it returns 0 and the memory is the one left by the copy
loop with the rest of the new buffer filled. -/
theorem vc_resize_finish_spec (env : Env) (vc2 : vc_data) (ss ns : Nat) (m : Nat → Nat)
    (nl : Nat) (hc : 1 ≤ vc2.vc_cols)
    (hsoft : vc2.is_visible = false ∨
      (vc2.cursor_original = -1 ∧ vc2.vc_cursor_type &&& 0x10 = 0)) :
    ∃ vc', vc_resize_finish env vc2 ss ns m nl = some (0, vc') ∧
      vc'.vc_cols = vc2.vc_cols ∧ vc'.vc_rows = vc2.vc_rows ∧
      vc'.vc_size_row = vc2.vc_size_row ∧ vc'.vc_screenbuf = ns ∧
      vc'.vc_screenbuf_size = ss ∧
      vc'.vc_video_erase_char = vc2.vc_video_erase_char ∧
      vc'.vc_top = 0 ∧ vc'.vc_bottom = vc2.vc_rows ∧
      (vc2.is_visible = false ∨ env.sw.con_set_origin = none → vc'.vc_origin = ns) ∧
      vc'.mem = (if ns + ss > nl
        then scr_memsetw m nl vc2.vc_video_erase_char (ns + ss - nl) else m) := by
  obtain ⟨M, hM⟩ : ∃ M, M = (if ns + ss > nl
      then scr_memsetw m nl vc2.vc_video_erase_char (ns + ss - nl) else m) := ⟨_, rfl⟩
  obtain ⟨V3, hV3⟩ : ∃ V3, V3 = set_origin env
      { vc2 with mem := M, vc_screenbuf := ns, kmalloced := true, vc_screenbuf_size := ss } :=
    ⟨_, rfl⟩
  obtain ⟨V5, hV5⟩ : ∃ V5, V5 = vte_decsc (gotoxy
      { V3 with vc_top := 0, vc_bottom := V3.vc_rows } (V3.vc_x : Int) (V3.vc_y : Int)) :=
    ⟨_, rfl⟩
  have hdef : vc_resize_finish env vc2 ss ns m nl =
      (if V5.is_visible then
        match update_screen env V5 with
        | some vc6 => some ((0 : Int), vc6)
        | none => none
      else some ((0 : Int), V5)) := by
    rw [hV5, hV3, hM]
    rfl
  have f1 : V5.vc_cols = vc2.vc_cols := by rw [hV5, hV3]; rfl
  have f2 : V5.vc_rows = vc2.vc_rows := by rw [hV5, hV3]; rfl
  have f3 : V5.vc_size_row = vc2.vc_size_row := by rw [hV5, hV3]; rfl
  have f4 : V5.vc_screenbuf = ns := by rw [hV5, hV3]; rfl
  have f5 : V5.vc_screenbuf_size = ss := by rw [hV5, hV3]; rfl
  have f6 : V5.vc_video_erase_char = vc2.vc_video_erase_char := by rw [hV5, hV3]; rfl
  have f7 : V5.vc_top = 0 := by rw [hV5]; rfl
  have f8 : V5.vc_bottom = vc2.vc_rows := by rw [hV5, hV3]; rfl
  have f9 : V5.mem = M := by rw [hV5, hV3]; rfl
  have f10 : V5.is_visible = vc2.is_visible := by rw [hV5, hV3]; rfl
  have f11 : V5.cursor_original = vc2.cursor_original := by rw [hV5, hV3]; rfl
  have f12 : V5.vc_cursor_type = vc2.vc_cursor_type := by rw [hV5, hV3]; rfl
  have f13 : vc2.is_visible = false ∨ env.sw.con_set_origin = none → V5.vc_origin = ns := by
    intro h
    have := set_origin_own_buffer env
      { vc2 with mem := M, vc_screenbuf := ns, kmalloced := true, vc_screenbuf_size := ss } h
    rw [hV5]
    show V3.vc_origin = ns
    rw [hV3]
    exact this
  rw [hdef, ← hM]
  clear hdef hV5 hV3 hM
  by_cases hv : V5.is_visible = true
  · rw [if_pos hv]
    have hs : V5.cursor_original = -1 ∧ V5.vc_cursor_type &&& 0x10 = 0 := by
      rw [f11, f12]
      rcases hsoft with h | h
      · rw [f10, h] at hv; exact absurd hv (by decide)
      · exact h
    obtain ⟨r, hr, hfr, hor⟩ := update_screen_plain env V5 (by rw [f1]; exact hc) hs.1 hs.2
    rw [hr]
    refine ⟨r, rfl, ?_⟩
    have g13 : vc2.is_visible = false ∨ env.sw.con_set_origin = none → r.vc_origin = ns := by
      intro h
      rw [hor, set_origin_own_buffer env _ (by
        rcases h with h | h
        · rw [f10, h] at hv; exact absurd hv (by decide)
        · exact Or.inr h), hide_cursor_idle _ hs.1]
      exact f4
    generalize r.vc_origin = o1 at hfr g13
    generalize r.vc_visible_origin = o2 at hfr
    generalize r.vc_scr_end = o3 at hfr
    generalize r.vc_pos = o4 at hfr
    generalize r.trace = o5 at hfr
    subst hfr
    exact ⟨f1, f2, f3, f4, f5, f6, f7, f8, g13, f9⟩
  · rw [if_neg hv]
    exact ⟨V5, rfl, f1, f2, f3, f4, f5, f6, f7, f8, f13, f9⟩

/-- The body of `vc_resize` after the driver accepted the new geometry
`c2 x r2`, on a console with two bytes per cell whose screen ends
`rows` rows behind the origin, with the new buffer `ns` apart from the old
screen: it returns 0, and the new buffer holds the old cells (the last `r2`
rows when the console shrinks) and the erase character elsewhere. -/
theorem vc_resize_apply_spec (env : Env) (V : vc_data) (c2 r2 ns : Nat)
    (hsr : V.vc_size_row = 2 * V.vc_cols)
    (hend : V.vc_scr_end = V.vc_origin + V.vc_size_row * V.vc_rows)
    (hc : 1 ≤ V.vc_cols) (hb : V.vc_rows * V.vc_size_row < 4294967296)
    (hc2 : 1 ≤ c2)
    (hdisj : ns + 2 * c2 * r2 ≤ V.vc_origin ∨ V.vc_scr_end ≤ ns)
    (hsoft : V.is_visible = false ∨
      (V.cursor_original = -1 ∧ V.vc_cursor_type &&& 0x10 = 0)) :
    ∃ vc', vc_resize_apply env V V.vc_rows V.vc_size_row c2 r2 (2 * c2) (2 * c2 * r2) ns
        = some (0, vc') ∧
      vc'.vc_cols = c2 ∧ vc'.vc_rows = r2 ∧ vc'.vc_size_row = 2 * c2 ∧
      vc'.vc_screenbuf = ns ∧ vc'.vc_screenbuf_size = 2 * c2 * r2 ∧
      vc'.vc_top = 0 ∧ vc'.vc_bottom = r2 ∧
      vc'.vc_video_erase_char =
        (update_attr env { V with vc_rows := r2, vc_cols := c2, vc_size_row := 2 * c2,
                                  vc_screenbuf_size := 2 * c2 * r2 }).vc_video_erase_char ∧
      (V.is_visible = false ∨ env.sw.con_set_origin = none → vc'.vc_origin = ns) ∧
      (∀ i j, i < r2 → j < c2 → scr_readw vc'.mem (ns + 2 * c2 * i + 2 * j) =
        if i < min V.vc_rows r2 ∧ j < min V.vc_cols c2
        then cell V (i + (V.vc_rows - r2)) j
        else vc'.vc_video_erase_char % 65536) := by
  obtain ⟨V2, hV2⟩ : ∃ V2, V2 = update_attr env
      { V with vc_rows := r2, vc_cols := c2, vc_size_row := 2 * c2,
               vc_screenbuf_size := 2 * c2 * r2 } := ⟨_, rfl⟩
  have v1 : V2.vc_scr_end = V.vc_scr_end := by rw [hV2]; rfl
  have v2 : V2.mem = V.mem := by rw [hV2]; rfl
  have v3 : V2.vc_cols = c2 := by rw [hV2]; rfl
  have v4 : V2.vc_rows = r2 := by rw [hV2]; rfl
  have v5 : V2.vc_size_row = 2 * c2 := by rw [hV2]; rfl
  have v6 : V2.is_visible = V.is_visible := by rw [hV2]; rfl
  have v7 : V2.cursor_original = V.cursor_original := by rw [hV2]; rfl
  have v8 : V2.vc_cursor_type = V.vc_cursor_type := by rw [hV2]; rfl
  obtain ⟨OL, hOL⟩ : ∃ OL, OL = (if r2 < V.vc_rows
      then V.vc_origin + ((V.vc_rows - r2) * V.vc_size_row) % 4294967296
      else V.vc_origin) := ⟨_, rfl⟩
  have hdef : vc_resize_apply env V V.vc_rows V.vc_size_row c2 r2 (2 * c2) (2 * c2 * r2) ns =
      (match resize_copy_loop V2.vc_scr_end V.vc_size_row (2 * c2)
          (min V.vc_size_row (2 * c2)) (2 * c2 - min V.vc_size_row (2 * c2))
          V2.vc_video_erase_char (V2.vc_scr_end - OL) V2.mem OL ns with
        | none => none
        | some r => vc_resize_finish env V2 (2 * c2 * r2) ns r.1 r.2) := by
    rw [hV2, hOL]
    rfl
  have hOL2 : OL = V.vc_origin + V.vc_size_row * (V.vc_rows - r2) := by
    rw [hOL]
    split_ifs with h
    · have : (V.vc_rows - r2) * V.vc_size_row ≤ V.vc_rows * V.vc_size_row :=
        Nat.mul_le_mul_right _ (by omega)
      rw [Nat.mod_eq_of_lt (by omega), Nat.mul_comm]
    · have : V.vc_rows - r2 = 0 := by omega
      rw [this, Nat.mul_zero, Nat.add_zero]
  obtain ⟨w, hw⟩ : ∃ w, w = min V.vc_cols c2 := ⟨_, rfl⟩
  obtain ⟨k, hk⟩ : ∃ k, k = min V.vc_rows r2 := ⟨_, rfl⟩
  have hmin : min V.vc_size_row (2 * c2) = 2 * w := by omega
  have hrows : V.vc_rows = (V.vc_rows - r2) + k := by omega
  have e1 : V.vc_size_row * V.vc_rows
      = V.vc_size_row * (V.vc_rows - r2) + V.vc_size_row * k := by
    rw [← Nat.mul_add, ← hrows]
  have e2 : k ≤ V.vc_size_row * k := Nat.le_mul_of_pos_left k (by omega)
  have e3 : 2 * c2 * k ≤ 2 * c2 * r2 := Nat.mul_le_mul_left _ (by omega)
  have e4 : 2 * c2 * r2 = 2 * (c2 * r2) := Nat.mul_assoc _ _ _
  have e5 : 2 * c2 * k = 2 * (c2 * k) := Nat.mul_assoc _ _ _
  obtain ⟨m, hm, hm1, hm2, hm3⟩ := resize_copy_loop_spec V.vc_scr_end V.vc_size_row c2 w
    V2.vc_video_erase_char (by omega) (by omega) (by omega) k (V.vc_scr_end - OL) V.mem OL ns
    (by omega) (by omega) (by omega)
  rw [hdef, v1, v2, hmin, hm]
  obtain ⟨vc', q0, q1, q2, q3, q4, q5, q6, q7, q8, q9, q10⟩ :=
    vc_resize_finish_spec env V2 (2 * c2 * r2) ns m (ns + 2 * c2 * k) (by omega)
      (by rw [v6, v7, v8]; exact hsoft)
  refine ⟨vc', q0, by rw [q1, v3], by rw [q2, v4], by rw [q3, v5], q4, q5, q7,
    by rw [q8, v4], by rw [q6, hV2], by rw [← v6]; exact q9, ?_⟩
  intro i j hi hj
  have e6 : 2 * c2 * (i + 1) = 2 * c2 * i + 2 * c2 := Nat.mul_succ _ _
  have e7 : 2 * c2 * i = 2 * (c2 * i) := Nat.mul_assoc _ _ _
  unfold scr_readw
  rw [q10, resize_fill_apply _ _ _ _ _ (by omega), q6]
  by_cases hik : i < k
  · have e8 : 2 * c2 * (i + 1) ≤ 2 * c2 * k := Nat.mul_le_mul_left _ (by omega)
    rw [if_neg (by omega)]
    by_cases hjw : j < w
    · rw [if_pos ⟨by omega, by omega⟩, hm1 i j hik hjw]
      unfold cell scr_readw
      rw [Nat.mod_mod, hOL2, Nat.mul_add]
      congr 2
      omega
    · rw [if_neg (by omega), hm2 i j hik (by omega) hj, Nat.mod_mod]
  · have e8 : 2 * c2 * k ≤ 2 * c2 * i := Nat.mul_le_mul_left _ (by omega)
    have e9 : 2 * c2 * (i + 1) ≤ 2 * c2 * r2 := Nat.mul_le_mul_left _ (by omega)
    rw [if_pos (by omega), if_neg (by omega), Nat.mod_mod]

/-- C10 (amended): `vc_resize` from `c x r` to `c2 x r2` cells (a requested
dimension of 0 keeps the old one) on a console with two bytes per cell whose
screen ends `r` rows behind the origin, when the dimensions are within the
limits and differ from the old ones, the allocation gives a buffer `ns` apart
from the old screen, the driver accepts the new size, and the console is not
visible or does not use the software cursor (no saved cell, cursor type
without bit 0x10).  The call returns 0 with the new geometry and the new
buffer; with `d = r - r2` if `r2 < r` and `d = 0` otherwise, the new cell at
row `i < min r r2`, column `j < min c c2` is the old cell at row `i + d`,
column `j` (all 16 bits, attribute included), and every other cell of the new
buffer is the erase character that `update_attr` recomputed. -/
theorem vc_resize_copies_cells (env : Env) (vc : vc_data) (cols lines c2 r2 ns : Nat)
    (hsr : vc.vc_size_row = 2 * vc.vc_cols)
    (hend : vc.vc_scr_end = vc.vc_origin + vc.vc_size_row * vc.vc_rows)
    (hc : 1 ≤ vc.vc_cols) (hcm : vc.vc_cols ≤ VC_RESIZE_MAXCOL)
    (hrm : vc.vc_rows ≤ VC_RESIZE_MAXROW)
    (hcols : cols ≤ VC_RESIZE_MAXCOL) (hlines : lines ≤ VC_RESIZE_MAXROW)
    (hc2 : c2 = if cols ≠ 0 then cols else vc.vc_cols)
    (hr2 : r2 = if lines ≠ 0 then lines else vc.vc_rows)
    (hne : ¬ (c2 = vc.vc_cols ∧ r2 = vc.vc_rows))
    (hk : env.kmalloc (2 * c2 * r2) = some ns)
    (hdisj : ns + 2 * c2 * r2 ≤ vc.vc_origin ∨ vc.vc_scr_end ≤ ns)
    (hdrv : (resize_screen env vc c2 r2).1 = 0)
    (hsoft : vc.is_visible = false ∨
      (vc.cursor_original = -1 ∧ vc.vc_cursor_type &&& 0x10 = 0)) :
    ∃ vc', vc_resize env vc cols lines = some (0, vc') ∧
      vc'.vc_cols = c2 ∧ vc'.vc_rows = r2 ∧ vc'.vc_size_row = 2 * c2 ∧
      vc'.vc_screenbuf = ns ∧ vc'.vc_screenbuf_size = 2 * c2 * r2 ∧
      vc'.vc_top = 0 ∧ vc'.vc_bottom = r2 ∧
      vc'.vc_video_erase_char =
        (update_attr env { (resize_screen env vc c2 r2).2 with
          vc_rows := r2, vc_cols := c2, vc_size_row := 2 * c2,
          vc_screenbuf_size := 2 * c2 * r2 }).vc_video_erase_char ∧
      (vc.is_visible = false ∨ env.sw.con_set_origin = none → vc'.vc_origin = ns) ∧
      (∀ i j, i < r2 → j < c2 → scr_readw vc'.mem (ns + 2 * c2 * i + 2 * j) =
        if i < min vc.vc_rows r2 ∧ j < min vc.vc_cols c2
        then cell vc (i + (vc.vc_rows - r2)) j
        else vc'.vc_video_erase_char % 65536) := by
  have b1 : c2 ≤ 32767 := by
    rw [hc2]; unfold VC_RESIZE_MAXCOL at hcm hcols; split_ifs <;> omega
  have b2 : r2 ≤ 32767 := by
    rw [hr2]; unfold VC_RESIZE_MAXROW at hrm hlines; split_ifs <;> omega
  have b3 : 1 ≤ c2 := by rw [hc2]; split_ifs <;> omega
  have hs1 : (c2 <<< 1) % 4294967296 = 2 * c2 := by
    rw [Nat.shiftLeft_eq, Nat.pow_one]; omega
  have b4 : 2 * c2 * r2 ≤ 65534 * 32767 := Nat.mul_le_mul (by omega) b2
  have hs2 : (2 * c2 * r2) % 4294967296 = 2 * c2 * r2 := Nat.mod_eq_of_lt (by omega)
  have b5 : vc.vc_rows * vc.vc_size_row ≤ 32767 * 65534 :=
    Nat.mul_le_mul hrm (by unfold VC_RESIZE_MAXCOL at hcm; omega)
  have hfr := resize_screen_frame env vc c2 r2
  have hdef : vc_resize env vc cols lines =
      vc_resize_apply env (resize_screen env vc c2 r2).2 vc.vc_rows vc.vc_size_row c2 r2
        (2 * c2) (2 * c2 * r2) ns := by
    unfold vc_resize
    rw [if_neg (by unfold VC_RESIZE_MAXCOL VC_RESIZE_MAXROW at *; omega)]
    simp only []
    rw [← hc2, ← hr2, hs1, hs2, if_neg hne, hk]
    simp only []
    rw [if_neg (fun h => h hdrv)]
  rw [hdef]
  generalize (resize_screen env vc c2 r2).2 = R at hfr ⊢
  generalize R.trace = T at hfr
  subst hfr
  exact vc_resize_apply_spec env _ c2 r2 ns hsr hend hc (by show vc.vc_rows * vc.vc_size_row < _; omega) b3 hdisj hsoft

/-- C1: for a console with at least one column and one row and a scroll region
`0 ≤ top < bottom ≤ rows`, `gotoxy` leaves the cursor column at `new_x` clamped
to `[0, cols-1]` and the cursor row at `new_y` clamped to `[top, bottom-1]` in
origin mode and to `[0, rows-1]` otherwise, for all signed arguments; the
linear cursor offset is recomputed and `need_wrap` cleared. -/
theorem gotoxy_clamp (vc : vc_data) (new_x new_y : Int)
    (hc : 1 ≤ vc.vc_cols) (hr : 1 ≤ vc.vc_rows) (htb : vc.vc_top < vc.vc_bottom) :
    ((gotoxy vc new_x new_y).vc_x : Int) = clamp new_x 0 ((vc.vc_cols : Int) - 1) ∧
    ((gotoxy vc new_x new_y).vc_y : Int) =
      (if vc.vc_decom then clamp new_y vc.vc_top ((vc.vc_bottom : Int) - 1)
       else clamp new_y 0 ((vc.vc_rows : Int) - 1)) ∧
    (gotoxy vc new_x new_y).vc_pos =
      vc.vc_origin + (gotoxy vc new_x new_y).vc_y * vc.vc_size_row
        + 2 * (gotoxy vc new_x new_y).vc_x ∧
    (gotoxy vc new_x new_y).vc_need_wrap = false := by
  refine ⟨?_, ?_, ?_, rfl⟩
  · simp only [gotoxy, clamp]
    split_ifs <;> omega
  · simp only [gotoxy, clamp]
    cases vc.vc_decom <;> simp <;> split_ifs <;> omega
  · simp only [gotoxy, Nat.shiftLeft_eq]
    omega

/-! ### Error returns and dimension checks of `vc_resize` -/

theorem resize_copy_loop_terminates (scr_end R1 R2 rlth rrem e : Nat) (hR1 : 1 ≤ R1) :
    ∀ (fuel : Nat) (mem : Nat → Nat) (ol nl : Nat), scr_end - ol ≤ fuel →
    ∃ r, resize_copy_loop scr_end R1 R2 rlth rrem e fuel mem ol nl = some r := by
  intro fuel
  induction fuel with
  | zero =>
    intro mem ol nl h
    exact ⟨(mem, nl), by rw [resize_copy_loop, if_neg (by omega)]⟩
  | succ f ih =>
    intro mem ol nl h
    rw [resize_copy_loop]
    by_cases c : ol < scr_end
    · rw [if_pos c]
      exact ih _ _ _ (by omega)
    · rw [if_neg c]
      exact ⟨_, rfl⟩

/-- On a console with at least one column `update_screen` returns. -/
theorem update_screen_returns (env : Env) (vc : vc_data) (hc : 1 ≤ vc.vc_cols) :
    ∃ r, update_screen env vc = some r := by
  obtain ⟨H, hH⟩ : ∃ H, H = hide_cursor vc := ⟨_, rfl⟩
  have c1 : H.vc_cols = vc.vc_cols := by rw [hH, (hide_cursor_frame vc).1]
  obtain ⟨P, hP⟩ : ∃ P, P = set_palette env (emit (set_origin env H) Event.con_switch) :=
    ⟨_, rfl⟩
  have c2 : P.vc_cols = H.vc_cols := by rw [hP]; rfl
  obtain ⟨V3, hV3⟩ : ∃ V3, V3 = (if vc.vc_can_do_color ≠ P.vc_can_do_color
      then clear_buffer_attributes (update_attr env P) else P) := ⟨_, rfl⟩
  have c3 : V3.vc_cols = P.vc_cols := by
    rw [hV3]
    split_ifs <;> rfl
  have hdef : update_screen env vc =
      (if env.sw.con_switch (set_origin env H) ≠ 0 ∧ V3.vc_mode ≠ KD_GRAPHICS then
        match do_update_region env V3 V3.vc_origin ((V3.vc_screenbuf_size / 2 : Nat) : Int) with
        | some vc4 => some (set_cursor vc4)
        | none => none
      else some (set_cursor V3)) := by
    rw [hV3, hP, hH]
    rfl
  rw [hdef]
  split_ifs
  · obtain ⟨tr, htr⟩ := do_update_region_returns env V3 V3.vc_origin
      ((V3.vc_screenbuf_size / 2 : Nat) : Int) (by omega) (by omega)
    rw [htr]
    exact ⟨_, rfl⟩
  · exact ⟨_, rfl⟩

theorem vc_resize_finish_eq (env : Env) (vc2 : vc_data) (ss ns : Nat) (m : Nat → Nat)
    (nl : Nat) :
    ∃ V5 : vc_data, V5.vc_cols = vc2.vc_cols ∧
      vc_resize_finish env vc2 ss ns m nl =
        (if V5.is_visible then
          match update_screen env V5 with
          | some vc6 => some ((0 : Int), vc6)
          | none => none
        else some ((0 : Int), V5)) ∧
      V5.is_visible = vc2.is_visible ∧ V5.cursor_original = vc2.cursor_original ∧
      V5.vc_cursor_type = vc2.vc_cursor_type ∧ V5.vc_screenbuf_size = ss ∧
      V5.vc_scr_end = V5.vc_origin + ss := by
  obtain ⟨M, hM⟩ : ∃ M, M = (if ns + ss > nl
      then scr_memsetw m nl vc2.vc_video_erase_char (ns + ss - nl) else m) := ⟨_, rfl⟩
  obtain ⟨V3, hV3⟩ : ∃ V3, V3 = set_origin env
      { vc2 with mem := M, vc_screenbuf := ns, kmalloced := true, vc_screenbuf_size := ss } :=
    ⟨_, rfl⟩
  obtain ⟨V5, hV5⟩ : ∃ V5, V5 = vte_decsc (gotoxy
      { V3 with vc_top := 0, vc_bottom := V3.vc_rows } (V3.vc_x : Int) (V3.vc_y : Int)) :=
    ⟨_, rfl⟩
  refine ⟨V5, by rw [hV5, hV3]; rfl, ?_, by rw [hV5, hV3]; rfl, by rw [hV5, hV3]; rfl,
    by rw [hV5, hV3]; rfl, by rw [hV5, hV3]; rfl, by rw [hV5, hV3]; rfl⟩
  rw [hV5, hV3, hM]
  rfl

theorem vc_resize_finish_returns (env : Env) (vc2 : vc_data) (ss ns : Nat) (m : Nat → Nat)
    (nl : Nat) (hc : 1 ≤ vc2.vc_cols) :
    ∃ v, vc_resize_finish env vc2 ss ns m nl = some (0, v) := by
  obtain ⟨V5, f1, hdef, -⟩ := vc_resize_finish_eq env vc2 ss ns m nl
  rw [hdef]
  split_ifs
  · obtain ⟨r, hr⟩ := update_screen_returns env V5 (by omega)
    rw [hr]
    exact ⟨_, rfl⟩
  · exact ⟨_, rfl⟩

theorem vc_resize_finish_code (env : Env) (vc2 : vc_data) (ss ns : Nat) (m : Nat → Nat)
    (nl : Nat) (e : Int) (v : vc_data)
    (h : vc_resize_finish env vc2 ss ns m nl = some (e, v)) : e = 0 := by
  obtain ⟨V5, -, hdef, -⟩ := vc_resize_finish_eq env vc2 ss ns m nl
  rw [hdef] at h
  split_ifs at h
  · cases hu : update_screen env V5 with
    | none => rw [hu] at h; exact absurd h (by simp)
    | some r =>
      rw [hu] at h
      exact (Prod.mk.inj (Option.some.inj h)).1.symm
  · exact (Prod.mk.inj (Option.some.inj h)).1.symm

theorem vc_resize_apply_eq (env : Env) (vc : vc_data)
    (old_rows old_row_size new_cols new_rows new_row_size ss ns : Nat) :
    ∃ (V2 : vc_data) (fuel OL : Nat), V2.vc_cols = new_cols ∧
      V2.is_visible = vc.is_visible ∧ V2.cursor_original = vc.cursor_original ∧
      V2.vc_cursor_type = vc.vc_cursor_type ∧ V2.vc_scr_end - OL ≤ fuel ∧
      vc_resize_apply env vc old_rows old_row_size new_cols new_rows new_row_size ss ns =
        (match resize_copy_loop V2.vc_scr_end old_row_size new_row_size
            (min old_row_size new_row_size) (new_row_size - min old_row_size new_row_size)
            V2.vc_video_erase_char fuel V2.mem OL ns with
          | none => none
          | some r => vc_resize_finish env V2 ss ns r.1 r.2) := by
  obtain ⟨V2, hV2⟩ : ∃ V2, V2 = update_attr env
      { vc with vc_rows := new_rows, vc_cols := new_cols, vc_size_row := new_row_size,
                vc_screenbuf_size := ss } := ⟨_, rfl⟩
  obtain ⟨OL, hOL⟩ : ∃ OL, OL = (if new_rows < old_rows
      then vc.vc_origin + ((old_rows - new_rows) * old_row_size) % 4294967296
      else vc.vc_origin) := ⟨_, rfl⟩
  refine ⟨V2, V2.vc_scr_end - OL, OL, by rw [hV2]; rfl, by rw [hV2]; rfl, by rw [hV2]; rfl,
    by rw [hV2]; rfl, le_refl _, ?_⟩
  rw [hV2, hOL]
  rfl

theorem vc_resize_apply_code (env : Env) (vc : vc_data)
    (old_rows old_row_size new_cols new_rows new_row_size ss ns : Nat) (e : Int) (v : vc_data)
    (h : vc_resize_apply env vc old_rows old_row_size new_cols new_rows new_row_size ss ns
      = some (e, v)) : e = 0 := by
  obtain ⟨V2, fuel, OL, -, -, -, -, -, hdef⟩ := vc_resize_apply_eq env vc old_rows old_row_size
    new_cols new_rows new_row_size ss ns
  rw [hdef] at h
  split at h
  · exact absurd h (by simp)
  · exact vc_resize_finish_code _ _ _ _ _ _ _ _ h

theorem vc_resize_apply_returns (env : Env) (vc : vc_data)
    (old_rows old_row_size new_cols new_rows new_row_size ss ns : Nat)
    (h1 : 1 ≤ old_row_size) (h2 : 1 ≤ new_cols) :
    ∃ v, vc_resize_apply env vc old_rows old_row_size new_cols new_rows new_row_size ss ns
      = some (0, v) := by
  obtain ⟨V2, fuel, OL, c1, -, -, -, hf, hdef⟩ := vc_resize_apply_eq env vc old_rows
    old_row_size new_cols new_rows new_row_size ss ns
  obtain ⟨r, hr⟩ := resize_copy_loop_terminates V2.vc_scr_end old_row_size new_row_size
    (min old_row_size new_row_size) (new_row_size - min old_row_size new_row_size)
    V2.vc_video_erase_char h1 fuel V2.mem OL ns hf
  rw [hdef, hr]
  exact vc_resize_finish_returns env V2 ss ns r.1 r.2 (by rw [c1]; exact h2)

theorem resize_screen_refused (env : Env) (vc : vc_data) (w h : Nat)
    (hne : (resize_screen env vc w h).1 ≠ 0) :
    (resize_screen env vc w h).2 = emit vc (Event.con_resize w h) ∧
    ∀ w2 h2, (resize_screen env (emit vc (Event.con_resize w h)) w2 h2).2
      = emit (emit vc (Event.con_resize w h)) (Event.con_resize w2 h2) := by
  unfold resize_screen at hne ⊢
  by_cases c : vc.is_visible = true ∧ vc.vc_mode ≠ KD_GRAPHICS
  · rw [if_pos c] at hne ⊢
    cases hf : env.sw.con_resize with
    | none => rw [hf] at hne; exact absurd rfl hne
    | some f =>
      refine ⟨rfl, fun w2 h2 => ?_⟩
      rw [if_pos (show (emit vc (Event.con_resize w h)).is_visible = true ∧
        (emit vc (Event.con_resize w h)).vc_mode ≠ KD_GRAPHICS from c)]
  · rw [if_neg c] at hne
    exact absurd rfl hne

/-- The shape of `vc_resize` for dimensions within the limits. -/
theorem vc_resize_in_range (env : Env) (vc : vc_data) (cols lines : Nat)
    (hc : cols ≤ VC_RESIZE_MAXCOL) (hl : lines ≤ VC_RESIZE_MAXROW) :
    vc_resize env vc cols lines =
      (if (if cols ≠ 0 then cols else vc.vc_cols) = vc.vc_cols ∧
          (if lines ≠ 0 then lines else vc.vc_rows) = vc.vc_rows then some ((0 : Int), vc)
       else
        match env.kmalloc ((((if cols ≠ 0 then cols else vc.vc_cols) <<< 1) % 4294967296 *
            (if lines ≠ 0 then lines else vc.vc_rows)) % 4294967296) with
        | none => some (-ENOMEM, vc)
        | some newscreen =>
          if (resize_screen env vc (if cols ≠ 0 then cols else vc.vc_cols)
              (if lines ≠ 0 then lines else vc.vc_rows)).1 ≠ 0 then
            some ((resize_screen env vc (if cols ≠ 0 then cols else vc.vc_cols)
                (if lines ≠ 0 then lines else vc.vc_rows)).1,
              (resize_screen env
                (resize_screen env vc (if cols ≠ 0 then cols else vc.vc_cols)
                  (if lines ≠ 0 then lines else vc.vc_rows)).2 vc.vc_cols vc.vc_rows).2)
          else
            vc_resize_apply env
              (resize_screen env vc (if cols ≠ 0 then cols else vc.vc_cols)
                (if lines ≠ 0 then lines else vc.vc_rows)).2
              vc.vc_rows vc.vc_size_row (if cols ≠ 0 then cols else vc.vc_cols)
              (if lines ≠ 0 then lines else vc.vc_rows)
              (((if cols ≠ 0 then cols else vc.vc_cols) <<< 1) % 4294967296)
              ((((if cols ≠ 0 then cols else vc.vc_cols) <<< 1) % 4294967296 *
                (if lines ≠ 0 then lines else vc.vc_rows)) % 4294967296)
              newscreen) := by
  unfold vc_resize
  rw [if_neg (by omega)]
  try rfl

/-- C11: `vc_resize` (ruby-2.6) on its error returns.  Whatever non-zero value
the call returns, the state it leaves differs from the state before the call
in the trace of driver calls only; columns, rows, row size, buffer, buffer
size, memory, cursor and scroll region are as before.  The error returns are:
`-EINVAL` for a dimension over the limit, `-ENOMEM` for a failed allocation,
both without any driver call, and the error of the driver when it refuses the
new geometry, in which case the driver has been asked for the new geometry
and then again for the old columns and rows. -/
theorem vc_resize_error_keeps_state (env : Env) (vc : vc_data) (cols lines : Nat) :
    (∀ e v, vc_resize env vc cols lines = some (e, v) → e ≠ 0 →
      v = { vc with trace := v.trace } ∧
      (v.trace = vc.trace ∨
        v.trace = vc.trace ++
          [Event.con_resize (if cols ≠ 0 then cols else vc.vc_cols)
              (if lines ≠ 0 then lines else vc.vc_rows),
           Event.con_resize vc.vc_cols vc.vc_rows])) ∧
    (cols > VC_RESIZE_MAXCOL ∨ lines > VC_RESIZE_MAXROW →
      vc_resize env vc cols lines = some (-EINVAL, vc)) ∧
    (cols ≤ VC_RESIZE_MAXCOL → lines ≤ VC_RESIZE_MAXROW →
      ¬ ((if cols ≠ 0 then cols else vc.vc_cols) = vc.vc_cols ∧
          (if lines ≠ 0 then lines else vc.vc_rows) = vc.vc_rows) →
      env.kmalloc ((((if cols ≠ 0 then cols else vc.vc_cols) <<< 1) % 4294967296 *
            (if lines ≠ 0 then lines else vc.vc_rows)) % 4294967296) = none →
      vc_resize env vc cols lines = some (-ENOMEM, vc)) ∧
    (cols ≤ VC_RESIZE_MAXCOL → lines ≤ VC_RESIZE_MAXROW →
      ¬ ((if cols ≠ 0 then cols else vc.vc_cols) = vc.vc_cols ∧
          (if lines ≠ 0 then lines else vc.vc_rows) = vc.vc_rows) →
      (∃ ns, env.kmalloc ((((if cols ≠ 0 then cols else vc.vc_cols) <<< 1) % 4294967296 *
            (if lines ≠ 0 then lines else vc.vc_rows)) % 4294967296) = some ns) →
      (resize_screen env vc (if cols ≠ 0 then cols else vc.vc_cols)
        (if lines ≠ 0 then lines else vc.vc_rows)).1 ≠ 0 →
      vc_resize env vc cols lines =
        some ((resize_screen env vc (if cols ≠ 0 then cols else vc.vc_cols)
            (if lines ≠ 0 then lines else vc.vc_rows)).1,
          { vc with trace := vc.trace ++
            [Event.con_resize (if cols ≠ 0 then cols else vc.vc_cols)
                (if lines ≠ 0 then lines else vc.vc_rows),
             Event.con_resize vc.vc_cols vc.vc_rows] })) := by
  have hover : cols > VC_RESIZE_MAXCOL ∨ lines > VC_RESIZE_MAXROW →
      vc_resize env vc cols lines = some (-EINVAL, vc) := by
    intro h
    unfold vc_resize
    rw [if_pos h]
  have hdrv : ∀ c2 r2, (resize_screen env vc c2 r2).1 ≠ 0 →
      (resize_screen env (resize_screen env vc c2 r2).2 vc.vc_cols vc.vc_rows).2 =
        { vc with trace := vc.trace ++ [Event.con_resize c2 r2,
            Event.con_resize vc.vc_cols vc.vc_rows] } := by
    intro c2 r2 h
    obtain ⟨e1, e2⟩ := resize_screen_refused env vc c2 r2 h
    rw [e1, e2]
    show { vc with trace := vc.trace ++ [Event.con_resize c2 r2] ++
      [Event.con_resize vc.vc_cols vc.vc_rows] } = _
    rw [List.append_assoc]
    rfl
  refine ⟨?_, hover, ?_, ?_⟩
  · intro e v h hne
    by_cases hin : cols > VC_RESIZE_MAXCOL ∨ lines > VC_RESIZE_MAXROW
    · rw [hover hin] at h
      obtain ⟨-, rfl⟩ := Prod.mk.inj (Option.some.inj h)
      exact ⟨rfl, Or.inl rfl⟩
    · rw [vc_resize_in_range env vc cols lines (by omega) (by omega)] at h
      by_cases c1 : (if cols ≠ 0 then cols else vc.vc_cols) = vc.vc_cols ∧
          (if lines ≠ 0 then lines else vc.vc_rows) = vc.vc_rows
      · rw [if_pos c1] at h
        obtain ⟨h0, -⟩ := Prod.mk.inj (Option.some.inj h)
        exact absurd h0.symm hne
      · rw [if_neg c1] at h
        cases hk : env.kmalloc ((((if cols ≠ 0 then cols else vc.vc_cols) <<< 1) % 4294967296 *
            (if lines ≠ 0 then lines else vc.vc_rows)) % 4294967296) with
        | none =>
          rw [hk] at h
          obtain ⟨-, rfl⟩ := Prod.mk.inj (Option.some.inj h)
          exact ⟨rfl, Or.inl rfl⟩
        | some ns =>
          rw [hk] at h
          simp only [] at h
          by_cases c2 : (resize_screen env vc (if cols ≠ 0 then cols else vc.vc_cols)
              (if lines ≠ 0 then lines else vc.vc_rows)).1 ≠ 0
          · rw [if_pos c2, hdrv _ _ c2] at h
            obtain ⟨-, hv⟩ := Prod.mk.inj (Option.some.inj h)
            rw [← hv]
            exact ⟨rfl, Or.inr rfl⟩
          · rw [if_neg c2] at h
            exact absurd (vc_resize_apply_code _ _ _ _ _ _ _ _ _ _ _ h) hne
  · intro hc hl hd hk
    rw [vc_resize_in_range env vc cols lines hc hl, if_neg hd, hk]
  · intro hc hl hd hk hr
    obtain ⟨ns, hk⟩ := hk
    rw [vc_resize_in_range env vc cols lines hc hl, if_neg hd, hk]
    simp only []
    rw [if_pos hr, hdrv _ _ hr]

theorem vc_resize_same_size (env : Env) (vc : vc_data) (c l : Nat)
    (hc : c ≤ VC_RESIZE_MAXCOL) (hl : l ≤ VC_RESIZE_MAXROW)
    (h1 : c = 0 ∨ c = vc.vc_cols) (h2 : l = 0 ∨ l = vc.vc_rows) :
    vc_resize env vc c l = some (0, vc) := by
  rw [vc_resize_in_range env vc c l hc hl, if_pos]
  constructor
  · rcases h1 with h | h
    · rw [h]; rfl
    · rw [h]; split_ifs <;> rfl
  · rcases h2 with h | h
    · rw [h]; rfl
    · rw [h]; split_ifs <;> rfl

/-- C13: `vc_resize` (ruby-2.6) on an allocated console.  A dimension over
32767 gives `-EINVAL` and leaves the state alone.  Within the limits a
requested 0 stands for the current value: when the requested size is the
current one (in particular for `(0, 0)`) the result is 0 and the state,
trace of driver calls included, is the state before the call, whatever the
allocator or the driver would answer.  Within the limits the core rejects
nothing else: on a console with a non-empty row size and at least one column
after the call, the call returns, and it returns 0 unless the allocation fails
(`-ENOMEM`) or the driver refuses (the error of the driver). -/
theorem vc_resize_dimension_check (env : Env) (vc : vc_data) (cols lines : Nat) :
    (cols > VC_RESIZE_MAXCOL ∨ lines > VC_RESIZE_MAXROW →
      vc_resize env vc cols lines = some (-EINVAL, vc)) ∧
    (cols ≤ VC_RESIZE_MAXCOL → lines ≤ VC_RESIZE_MAXROW →
      (cols = 0 ∨ cols = vc.vc_cols) → (lines = 0 ∨ lines = vc.vc_rows) →
      vc_resize env vc cols lines = some (0, vc)) ∧
    vc_resize env vc 0 0 = some (0, vc) ∧
    (cols ≤ VC_RESIZE_MAXCOL → lines ≤ VC_RESIZE_MAXROW →
      1 ≤ vc.vc_size_row → 1 ≤ (if cols ≠ 0 then cols else vc.vc_cols) →
      ∃ e v, vc_resize env vc cols lines = some (e, v) ∧
        (e = 0 ∨
         (e = -ENOMEM ∧
          env.kmalloc ((((if cols ≠ 0 then cols else vc.vc_cols) <<< 1) % 4294967296 *
            (if lines ≠ 0 then lines else vc.vc_rows)) % 4294967296) = none) ∨
         (e = (resize_screen env vc (if cols ≠ 0 then cols else vc.vc_cols)
            (if lines ≠ 0 then lines else vc.vc_rows)).1 ∧ e ≠ 0))) := by
  refine ⟨?_, vc_resize_same_size env vc cols lines,
    vc_resize_same_size env vc 0 0 (Nat.zero_le _) (Nat.zero_le _) (Or.inl rfl) (Or.inl rfl), ?_⟩
  · intro h
    unfold vc_resize
    rw [if_pos h]
  · intro hc hl h1 h2
    rw [vc_resize_in_range env vc cols lines hc hl]
    by_cases c1 : (if cols ≠ 0 then cols else vc.vc_cols) = vc.vc_cols ∧
        (if lines ≠ 0 then lines else vc.vc_rows) = vc.vc_rows
    · rw [if_pos c1]
      exact ⟨0, vc, rfl, Or.inl rfl⟩
    · rw [if_neg c1]
      cases hk : env.kmalloc ((((if cols ≠ 0 then cols else vc.vc_cols) <<< 1) % 4294967296 *
          (if lines ≠ 0 then lines else vc.vc_rows)) % 4294967296) with
      | none => exact ⟨-ENOMEM, vc, rfl, Or.inr (Or.inl ⟨rfl, rfl⟩)⟩
      | some ns =>
        simp only []
        by_cases c2 : (resize_screen env vc (if cols ≠ 0 then cols else vc.vc_cols)
            (if lines ≠ 0 then lines else vc.vc_rows)).1 ≠ 0
        · rw [if_pos c2]
          exact ⟨_, _, rfl, Or.inr (Or.inr ⟨rfl, c2⟩)⟩
        · rw [if_neg c2]
          obtain ⟨v, hv⟩ := vc_resize_apply_returns env
            (resize_screen env vc (if cols ≠ 0 then cols else vc.vc_cols)
              (if lines ≠ 0 then lines else vc.vc_rows)).2
            vc.vc_rows vc.vc_size_row (if cols ≠ 0 then cols else vc.vc_cols)
            (if lines ≠ 0 then lines else vc.vc_rows)
            (((if cols ≠ 0 then cols else vc.vc_cols) <<< 1) % 4294967296)
            ((((if cols ≠ 0 then cols else vc.vc_cols) <<< 1) % 4294967296 *
              (if lines ≠ 0 then lines else vc.vc_rows)) % 4294967296) ns h1 h2
          exact ⟨0, v, hv, Or.inl rfl⟩

/-! ### Frames of the display operations -/

theorem cursor_frame_refl (vc : vc_data) : cursor_frame vc vc :=
  ⟨rfl, [], (List.append_nil _).symm⟩

theorem cursor_frame_trans {a b c : vc_data} (h1 : cursor_frame a b) (h2 : cursor_frame b c) :
    cursor_frame a c := by
  obtain ⟨f1, e1, t1⟩ := h1
  obtain ⟨f2, e2, t2⟩ := h2
  refine ⟨?_, e1 ++ e2, by rw [t2, t1, List.append_assoc]⟩
  rw [f2, f1]

theorem display_frame_refl (vc : vc_data) : display_frame vc vc :=
  ⟨rfl, [], (List.append_nil _).symm⟩

theorem display_frame_trans {a b c : vc_data} (h1 : display_frame a b) (h2 : display_frame b c) :
    display_frame a c := by
  obtain ⟨f1, e1, t1⟩ := h1
  obtain ⟨f2, e2, t2⟩ := h2
  refine ⟨?_, e1 ++ e2, by rw [t2, t1, List.append_assoc]⟩
  rw [f2, f1]

theorem cursor_frame_display {a b : vc_data} (h : cursor_frame a b) : display_frame a b := by
  obtain ⟨f1, e1⟩ := h
  refine ⟨?_, e1⟩
  rw [f1]

theorem cursor_frame_emit (vc : vc_data) (e : Event) : cursor_frame vc (emit vc e) :=
  ⟨rfl, [e], rfl⟩

theorem cursor_frame_emit_if (b : Bool) (vc : vc_data) (es : List Event) :
    cursor_frame vc (emit_if b vc es) := by
  refine ⟨rfl, if b then es else [], ?_⟩
  unfold emit_if
  cases b
  · exact (List.append_nil _).symm
  · rfl

theorem hide_softcursor_cursor (vc : vc_data) : cursor_frame vc (hide_softcursor vc) := by
  unfold hide_softcursor
  simp only []
  split_ifs
  · refine ⟨rfl, ?_⟩
    exact (cursor_frame_emit_if vc.is_visible
      { vc with mem := scr_writew vc.mem (vc.cursor_original % 65536).toNat vc.vc_pos } _).2
  · exact cursor_frame_refl vc

theorem hide_cursor_cursor (vc : vc_data) : cursor_frame vc (hide_cursor vc) :=
  cursor_frame_trans (cursor_frame_emit vc _) (hide_softcursor_cursor _)

theorem add_softcursor_cursor (vc : vc_data) : cursor_frame vc (add_softcursor vc) := by
  unfold add_softcursor
  simp only []
  split_ifs
  · exact cursor_frame_refl vc
  · exact cursor_frame_refl vc
  all_goals exact ⟨rfl, (cursor_frame_emit_if vc.is_visible
      { vc with cursor_original := ((scr_readw vc.mem vc.vc_pos : Nat) : Int) } _).2⟩

theorem set_cursor_cursor (vc : vc_data) : cursor_frame vc (set_cursor vc) := by
  unfold set_cursor
  by_cases c1 : (!vc.is_visible || vc.vt_blanked || vc.vc_mode == KD_GRAPHICS) = true
  · rw [if_pos c1]
    exact cursor_frame_refl vc
  · rw [if_neg c1]
    by_cases c2 : vc.vc_dectcem = true
    · rw [if_pos c2]
      simp only []
      split_ifs
      · exact cursor_frame_trans (add_softcursor_cursor vc) (cursor_frame_emit _ _)
      · exact add_softcursor_cursor vc
    · rw [if_neg c2]
      exact hide_cursor_cursor vc

theorem set_origin_display (env : Env) (vc : vc_data) : display_frame vc (set_origin env vc) :=
  ⟨rfl, (cursor_frame_emit_if (vc.is_visible && env.sw.con_set_origin.isSome) vc
    [Event.con_set_origin]).2⟩

theorem set_palette_cursor (env : Env) (vc : vc_data) : cursor_frame vc (set_palette env vc) :=
  cursor_frame_emit_if _ vc _

theorem do_update_region_cursor (env : Env) (vc r : vc_data) (start : Nat) (count : Int)
    (h : do_update_region env vc start count = some r) : cursor_frame vc r := by
  unfold do_update_region at h
  simp only [] at h
  split at h
  · rw [← Option.some.inj h]
    exact ⟨rfl, _, rfl⟩
  · exact absurd h (by simp)

/-- Every redraw by `update_screen` is a display operation, and it leaves the
end of the screen one buffer size behind the origin. -/
theorem update_screen_display (env : Env) (vc r : vc_data) (h : update_screen env vc = some r) :
    display_frame vc r ∧ r.vc_scr_end = r.vc_origin + vc.vc_screenbuf_size := by
  obtain ⟨H, hH⟩ : ∃ H, H = hide_cursor vc := ⟨_, rfl⟩
  have dH : cursor_frame vc H := by rw [hH]; exact hide_cursor_cursor vc
  obtain ⟨P, hP⟩ : ∃ P, P = set_palette env (emit (set_origin env H) Event.con_switch) :=
    ⟨_, rfl⟩
  have dP : display_frame H P := by
    rw [hP]
    exact display_frame_trans (set_origin_display env H)
      (cursor_frame_display (cursor_frame_trans (cursor_frame_emit _ _)
        (set_palette_cursor env _)))
  have sP : P.vc_scr_end = P.vc_origin + H.vc_screenbuf_size := by rw [hP]; rfl
  have dvP := display_frame_trans (cursor_frame_display dH) dP
  have hcol : P.vc_can_do_color = vc.vc_can_do_color := by rw [dvP.1]
  have hsz : H.vc_screenbuf_size = vc.vc_screenbuf_size := by rw [dH.1]
  obtain ⟨V3, hV3⟩ : ∃ V3, V3 = (if vc.vc_can_do_color ≠ P.vc_can_do_color
      then clear_buffer_attributes (update_attr env P) else P) := ⟨_, rfl⟩
  have hdef : update_screen env vc =
      (if env.sw.con_switch (set_origin env H) ≠ 0 ∧ V3.vc_mode ≠ KD_GRAPHICS then
        match do_update_region env V3 V3.vc_origin ((V3.vc_screenbuf_size / 2 : Nat) : Int) with
        | some vc4 => some (set_cursor vc4)
        | none => none
      else some (set_cursor V3)) := by
    rw [hV3, hP, hH]
    rfl
  rw [if_neg (fun hh => hh hcol.symm)] at hV3
  subst hV3
  rw [hdef] at h
  have key : ∀ s : vc_data, cursor_frame V3 s → set_cursor s = r →
      display_frame vc r ∧ r.vc_scr_end = r.vc_origin + vc.vc_screenbuf_size := by
    intro s ds hs
    have dr : cursor_frame s r := by rw [← hs]; exact set_cursor_cursor s
    have d3 := cursor_frame_trans ds dr
    refine ⟨display_frame_trans dvP (cursor_frame_display d3), ?_⟩
    have o1 : r.vc_origin = V3.vc_origin := by rw [d3.1]
    have o2 : r.vc_scr_end = V3.vc_scr_end := by rw [d3.1]
    rw [o1, o2, sP, hsz]
  by_cases c : env.sw.con_switch (set_origin env H) ≠ 0 ∧ V3.vc_mode ≠ KD_GRAPHICS
  · rw [if_pos c] at h
    cases hu : do_update_region env V3 V3.vc_origin ((V3.vc_screenbuf_size / 2 : Nat) : Int) with
    | none => rw [hu] at h; exact absurd h (by simp)
    | some u =>
      rw [hu] at h
      exact key u (do_update_region_cursor env V3 u _ _ hu) (Option.some.inj h)
  · rw [if_neg c] at h
    exact key V3 (cursor_frame_refl V3) (Option.some.inj h)

/-! ### Resize and resize back -/

theorem vc_resize_finish_extra (env : Env) (vc2 : vc_data) (ss ns : Nat) (m : Nat → Nat)
    (nl : Nat) (e : Int) (v : vc_data) (hc : 1 ≤ vc2.vc_cols)
    (hsoft : vc2.is_visible = false ∨
      (vc2.cursor_original = -1 ∧ vc2.vc_cursor_type &&& 0x10 = 0))
    (h : vc_resize_finish env vc2 ss ns m nl = some (e, v)) :
    v.is_visible = vc2.is_visible ∧ v.cursor_original = vc2.cursor_original ∧
    v.vc_cursor_type = vc2.vc_cursor_type ∧ v.vc_scr_end = v.vc_origin + ss := by
  obtain ⟨V5, f1, hdef, g1, g2, g3, g4, g5⟩ := vc_resize_finish_eq env vc2 ss ns m nl
  rw [hdef] at h
  by_cases hv : V5.is_visible = true
  · rw [if_pos hv] at h
    have hs : V5.cursor_original = -1 ∧ V5.vc_cursor_type &&& 0x10 = 0 := by
      rw [g2, g3]
      rcases hsoft with h' | h'
      · rw [g1, h'] at hv; exact absurd hv (by decide)
      · exact h'
    obtain ⟨r, hr, hfr, -⟩ := update_screen_plain env V5 (by rw [f1]; exact hc) hs.1 hs.2
    obtain ⟨-, hend⟩ := update_screen_display env V5 r hr
    rw [hr] at h
    obtain ⟨-, rfl⟩ := Prod.mk.inj (Option.some.inj h)
    refine ⟨?_, ?_, ?_, by rw [hend, g4]⟩
    · rw [hfr]; exact g1
    · rw [hfr]; exact g2
    · rw [hfr]; exact g3
  · rw [if_neg hv] at h
    obtain ⟨-, rfl⟩ := Prod.mk.inj (Option.some.inj h)
    exact ⟨g1, g2, g3, g5⟩

theorem vc_resize_apply_extra (env : Env) (vc : vc_data)
    (old_rows old_row_size new_cols new_rows new_row_size ss ns : Nat) (e : Int) (v : vc_data)
    (hc : 1 ≤ new_cols)
    (hsoft : vc.is_visible = false ∨
      (vc.cursor_original = -1 ∧ vc.vc_cursor_type &&& 0x10 = 0))
    (h : vc_resize_apply env vc old_rows old_row_size new_cols new_rows new_row_size ss ns
      = some (e, v)) :
    v.is_visible = vc.is_visible ∧ v.cursor_original = vc.cursor_original ∧
    v.vc_cursor_type = vc.vc_cursor_type ∧ v.vc_scr_end = v.vc_origin + ss := by
  obtain ⟨V2, fuel, OL, c1, c2, c3, c4, -, hdef⟩ := vc_resize_apply_eq env vc old_rows
    old_row_size new_cols new_rows new_row_size ss ns
  rw [hdef] at h
  split at h
  · exact absurd h (by simp)
  · have := vc_resize_finish_extra env V2 ss ns _ _ e v (by rw [c1]; exact hc)
      (by rw [c2, c3, c4]; exact hsoft) h
    rw [c2, c3, c4] at this
    exact this

/-- A successful `vc_resize` in full: the facts of the copy together with the
fields that a following resize depends on. -/
theorem vc_resize_spec (env : Env) (vc : vc_data) (cols lines c2 r2 ns : Nat)
    (hsr : vc.vc_size_row = 2 * vc.vc_cols)
    (hend : vc.vc_scr_end = vc.vc_origin + vc.vc_size_row * vc.vc_rows)
    (hc : 1 ≤ vc.vc_cols) (hcm : vc.vc_cols ≤ VC_RESIZE_MAXCOL)
    (hrm : vc.vc_rows ≤ VC_RESIZE_MAXROW)
    (hcols : cols ≤ VC_RESIZE_MAXCOL) (hlines : lines ≤ VC_RESIZE_MAXROW)
    (hc2 : c2 = if cols ≠ 0 then cols else vc.vc_cols)
    (hr2 : r2 = if lines ≠ 0 then lines else vc.vc_rows)
    (hne : ¬ (c2 = vc.vc_cols ∧ r2 = vc.vc_rows))
    (hk : env.kmalloc (2 * c2 * r2) = some ns)
    (hdisj : ns + 2 * c2 * r2 ≤ vc.vc_origin ∨ vc.vc_scr_end ≤ ns)
    (hdrv : (resize_screen env vc c2 r2).1 = 0)
    (hsoft : vc.is_visible = false ∨
      (vc.cursor_original = -1 ∧ vc.vc_cursor_type &&& 0x10 = 0)) :
    ∃ vc', vc_resize env vc cols lines = some (0, vc') ∧
      vc'.vc_cols = c2 ∧ vc'.vc_rows = r2 ∧ vc'.vc_size_row = 2 * c2 ∧
      (vc.is_visible = false ∨ env.sw.con_set_origin = none → vc'.vc_origin = ns) ∧
      vc'.is_visible = vc.is_visible ∧ vc'.cursor_original = vc.cursor_original ∧
      vc'.vc_cursor_type = vc.vc_cursor_type ∧
      vc'.vc_scr_end = vc'.vc_origin + 2 * c2 * r2 ∧
      (∀ i j, i < r2 → j < c2 → scr_readw vc'.mem (ns + 2 * c2 * i + 2 * j) =
        if i < min vc.vc_rows r2 ∧ j < min vc.vc_cols c2
        then cell vc (i + (vc.vc_rows - r2)) j
        else vc'.vc_video_erase_char % 65536) := by
  have b1 : c2 ≤ 32767 := by
    rw [hc2]; unfold VC_RESIZE_MAXCOL at hcm hcols; split_ifs <;> omega
  have b2 : r2 ≤ 32767 := by
    rw [hr2]; unfold VC_RESIZE_MAXROW at hrm hlines; split_ifs <;> omega
  have b3 : 1 ≤ c2 := by rw [hc2]; split_ifs <;> omega
  have hs1 : (c2 <<< 1) % 4294967296 = 2 * c2 := by
    rw [Nat.shiftLeft_eq, Nat.pow_one]; omega
  have b4 : 2 * c2 * r2 ≤ 65534 * 32767 := Nat.mul_le_mul (by omega) b2
  have hs2 : (2 * c2 * r2) % 4294967296 = 2 * c2 * r2 := Nat.mod_eq_of_lt (by omega)
  have b5 : vc.vc_rows * vc.vc_size_row ≤ 32767 * 65534 :=
    Nat.mul_le_mul hrm (by unfold VC_RESIZE_MAXCOL at hcm; omega)
  have hfr := resize_screen_frame env vc c2 r2
  have hdef : vc_resize env vc cols lines =
      vc_resize_apply env (resize_screen env vc c2 r2).2 vc.vc_rows vc.vc_size_row c2 r2
        (2 * c2) (2 * c2 * r2) ns := by
    rw [vc_resize_in_range env vc cols lines hcols hlines, ← hc2, ← hr2, hs1, hs2, if_neg hne, hk]
    simp only []
    rw [if_neg (fun h => h hdrv)]
  rw [hdef]
  generalize (resize_screen env vc c2 r2).2 = R at hfr ⊢
  generalize R.trace = T at hfr
  subst hfr
  obtain ⟨vc', h0, q1, q2, q3, -, -, -, -, -, q9, q10⟩ :=
    vc_resize_apply_spec env { vc with trace := T } c2 r2 ns hsr hend hc
      (by show vc.vc_rows * vc.vc_size_row < _; omega) b3 hdisj hsoft
  obtain ⟨x1, x2, x3, x4⟩ := vc_resize_apply_extra env { vc with trace := T } vc.vc_rows
    vc.vc_size_row c2 r2 (2 * c2) (2 * c2 * r2) ns 0 vc' b3 hsoft h0
  exact ⟨vc', h0, q1, q2, q3, q9, x1, x2, x3, x4, q10⟩

/-- C12 (amended): `vc_resize` to `c2 x r2` followed by `vc_resize` back to the
original `c x r`, all dimensions in `[1, 32767]`, on a console with two bytes
per cell whose screen ends `r` rows behind its origin, which is not visible or
has no software cursor and a driver without `con_set_origin`, with a driver
that accepts every geometry.  The allocator of the second call is `k2`, the
allocator as it is at that time: it may hand out for the same size another
buffer than the allocator of the first call did, so that `c2 x r2` may have the
area of `c x r`.  When the size changes, both allocations succeed, the first
buffer lies apart from the screen in use and the second apart from the first.
Both calls return 0, the console has its original dimensions, and with
`s = |r - r2|` every cell `(i, j)` with `i + s < r` and `j < min c c2` holds the
original value of the cell `(i + s, j)`: the surviving content has moved up by
`s` rows, and it is in its original position when `r2 = r`.  When the size does
not change, no buffer is allocated and the console is as before. -/
theorem vc_resize_round_trip (env : Env) (k2 : Nat → Option Nat) (vc : vc_data) (c2 r2 : Nat)
    (hsr : vc.vc_size_row = 2 * vc.vc_cols)
    (hend : vc.vc_scr_end = vc.vc_origin + vc.vc_size_row * vc.vc_rows)
    (hc : 1 ≤ vc.vc_cols) (hr : 1 ≤ vc.vc_rows)
    (hcm : vc.vc_cols ≤ VC_RESIZE_MAXCOL) (hrm : vc.vc_rows ≤ VC_RESIZE_MAXROW)
    (hc2 : 1 ≤ c2) (hr2 : 1 ≤ r2)
    (hc2m : c2 ≤ VC_RESIZE_MAXCOL) (hr2m : r2 ≤ VC_RESIZE_MAXROW)
    (halloc : (c2 = vc.vc_cols ∧ r2 = vc.vc_rows) ∨
      ∃ ns1 ns2, env.kmalloc (2 * c2 * r2) = some ns1 ∧
        k2 (2 * vc.vc_cols * vc.vc_rows) = some ns2 ∧
        (ns1 + 2 * c2 * r2 ≤ vc.vc_origin ∨ vc.vc_scr_end ≤ ns1) ∧
        (ns2 + 2 * vc.vc_cols * vc.vc_rows ≤ ns1 ∨ ns1 + 2 * c2 * r2 ≤ ns2))
    (hdrv : ∀ (v : vc_data) (w h : Nat), (resize_screen env v w h).1 = 0)
    (hvis : vc.is_visible = false ∨
      (env.sw.con_set_origin = none ∧ vc.cursor_original = -1 ∧
        vc.vc_cursor_type &&& 0x10 = 0)) :
    ∃ vc1 vc2, vc_resize env vc c2 r2 = some (0, vc1) ∧
      vc_resize { env with kmalloc := k2 } vc1 vc.vc_cols vc.vc_rows = some (0, vc2) ∧
      vc2.vc_cols = vc.vc_cols ∧ vc2.vc_rows = vc.vc_rows ∧
      (∀ i j, i + ((vc.vc_rows - r2) + (r2 - vc.vc_rows)) < vc.vc_rows →
        j < min vc.vc_cols c2 →
        cell vc2 i j = cell vc (i + ((vc.vc_rows - r2) + (r2 - vc.vc_rows))) j) ∧
      (r2 = vc.vc_rows → ∀ i j, i < vc.vc_rows → j < min vc.vc_cols c2 →
        cell vc2 i j = cell vc i j) ∧
      (c2 = vc.vc_cols ∧ r2 = vc.vc_rows → vc1 = vc ∧ vc2 = vc) := by
  by_cases hne : ¬ (c2 = vc.vc_cols ∧ r2 = vc.vc_rows)
  swap
  · obtain ⟨e1, e2⟩ := not_not.mp hne
    have s1 := vc_resize_same_size env vc c2 r2 hc2m hr2m (Or.inr e1) (Or.inr e2)
    have s2 := vc_resize_same_size { env with kmalloc := k2 } vc vc.vc_cols vc.vc_rows hcm hrm
      (Or.inr rfl) (Or.inr rfl)
    refine ⟨vc, vc, s1, s2, rfl, rfl, ?_, fun _ _ _ _ _ => rfl, fun _ => ⟨rfl, rfl⟩⟩
    intro i j _ _
    have hidx : i + ((vc.vc_rows - r2) + (r2 - vc.vc_rows)) = i := by omega
    rw [hidx]
  obtain ⟨ns1, ns2, hk1, hk2, hd1, hd2⟩ : ∃ ns1 ns2, env.kmalloc (2 * c2 * r2) = some ns1 ∧
      k2 (2 * vc.vc_cols * vc.vc_rows) = some ns2 ∧
      (ns1 + 2 * c2 * r2 ≤ vc.vc_origin ∨ vc.vc_scr_end ≤ ns1) ∧
      (ns2 + 2 * vc.vc_cols * vc.vc_rows ≤ ns1 ∨ ns1 + 2 * c2 * r2 ≤ ns2) := by
    rcases halloc with h | h
    · exact absurd h hne
    · exact h
  have hsoft : vc.is_visible = false ∨
      (vc.cursor_original = -1 ∧ vc.vc_cursor_type &&& 0x10 = 0) := by
    rcases hvis with h | h
    · exact Or.inl h
    · exact Or.inr h.2
  have hso : vc.is_visible = false ∨ env.sw.con_set_origin = none := by
    rcases hvis with h | h
    · exact Or.inl h
    · exact Or.inr h.1
  obtain ⟨vc1, h1, a1, a2, a3, a4, a5, a6, a7, a8, a9⟩ :=
    vc_resize_spec env vc c2 r2 c2 r2 ns1 hsr hend hc hcm hrm hc2m hr2m
      (by rw [if_pos (by omega)]) (by rw [if_pos (by omega)]) hne hk1 hd1 (hdrv _ _ _) hsoft
  have o1 := a4 hso
  obtain ⟨vc2, h2, b1, b2, b3, b4, b5, b6, b7, b8, b9⟩ :=
    vc_resize_spec { env with kmalloc := k2 } vc1 vc.vc_cols vc.vc_rows vc.vc_cols vc.vc_rows ns2
      (by rw [a3, a1]) (by rw [a8, a3, a2])
      (by rw [a1]; exact hc2) (by rw [a1]; exact hc2m) (by rw [a2]; exact hr2m) hcm hrm
      (by rw [if_pos (by omega)]) (by rw [if_pos (by omega)])
      (by rw [a1, a2]; exact fun h => hne ⟨h.1.symm, h.2.symm⟩) hk2
      (by rw [a8, o1]; exact hd2) (hdrv _ _ _)
      (by rw [a5, a6, a7]; exact hsoft)
  have o2 := b4 (by rw [a5]; exact hso)
  have key : ∀ i j, i + ((vc.vc_rows - r2) + (r2 - vc.vc_rows)) < vc.vc_rows →
      j < min vc.vc_cols c2 →
      cell vc2 i j = cell vc (i + ((vc.vc_rows - r2) + (r2 - vc.vc_rows))) j := by
    intro i j hi hj
    have e1 := b9 i j (by omega) (by omega)
    rw [a2, a1, if_pos ⟨by omega, by omega⟩] at e1
    have e2 := a9 (i + (r2 - vc.vc_rows)) j (by omega) (by omega)
    rw [if_pos ⟨by omega, by omega⟩] at e2
    unfold cell at e1 ⊢
    rw [o2, b3]
    rw [e1, o1, a3, e2]
    have hidx : i + (r2 - vc.vc_rows) + (vc.vc_rows - r2)
        = i + ((vc.vc_rows - r2) + (r2 - vc.vc_rows)) := by omega
    rw [hidx]
    try rfl
  refine ⟨vc1, vc2, h1, h2, b1, b2, key, ?_, fun h => absurd h hne⟩
  intro hrr i j hi hj
  have := key i j (by omega) hj
  rw [this]
  have hidx : i + ((vc.vc_rows - r2) + (r2 - vc.vc_rows)) = i := by omega
  rw [hidx]

/-! ### Cell inversion -/

theorem testBit_of_lt_65536 (a i : Nat) (h : a < 65536) (hi : 16 ≤ i) : a.testBit i = false :=
  Nat.testBit_lt_two_pow (lt_of_lt_of_le h (by
    calc 65536 = 2 ^ 16 := by norm_num
      _ ≤ 2 ^ i := Nat.pow_le_pow_right (by norm_num) hi))

theorem testBit_of_lt_2_24 (m i : Nat) (h : m < 16777216) (hi : 24 ≤ i) : m.testBit i = false :=
  Nat.testBit_lt_two_pow (lt_of_lt_of_le h (by
    calc 16777216 = 2 ^ 24 := by norm_num
      _ ≤ 2 ^ i := Nat.pow_le_pow_right (by norm_num) hi))

theorem invert_mono_lt (a : Nat) (h : a < 65536) : invert_mono a < 65536 := by
  unfold invert_mono
  exact Nat.xor_lt_two_pow (n := 16) h (by norm_num)

theorem invert_color512_lt (a : Nat) : invert_color512 a < 65536 := by
  unfold invert_color512
  have h1 : a &&& 0x11ff < 2 ^ 16 := Nat.and_lt_two_pow a (by norm_num)
  have h2 : (a &&& 0xe000) >>> 4 < 2 ^ 16 := by
    rw [Nat.shiftRight_eq_div_pow]
    have : a &&& 0xe000 < 2 ^ 16 := Nat.and_lt_two_pow a (by norm_num)
    exact lt_of_le_of_lt (Nat.div_le_self _ _) this
  have h3 : (a &&& 0x0e00) <<< 4 < 2 ^ 16 := by
    rw [Nat.shiftLeft_eq]
    have : a &&& 0x0e00 ≤ 0x0e00 := Nat.and_le_right
    omega
  exact Nat.or_lt_two_pow (Nat.or_lt_two_pow h1 h2) h3

theorem invert_color256_lt (a : Nat) : invert_color256 a < 65536 := by
  unfold invert_color256
  have h1 : a &&& 0x88ff < 2 ^ 16 := Nat.and_lt_two_pow a (by norm_num)
  have h2 : (a &&& 0x7000) >>> 4 < 2 ^ 16 := by
    rw [Nat.shiftRight_eq_div_pow]
    have : a &&& 0x7000 < 2 ^ 16 := Nat.and_lt_two_pow a (by norm_num)
    exact lt_of_le_of_lt (Nat.div_le_self _ _) this
  have h3 : (a &&& 0x0700) <<< 4 < 2 ^ 16 := by
    rw [Nat.shiftLeft_eq]
    have : a &&& 0x0700 ≤ 0x0700 := Nat.and_le_right
    omega
  exact Nat.or_lt_two_pow (Nat.or_lt_two_pow h1 h2) h3

theorem invert_mono_twice (a : Nat) : invert_mono (invert_mono a) = a := by
  unfold invert_mono
  rw [Nat.xor_assoc, Nat.xor_self, Nat.xor_zero]

theorem invert_color256_twice (a : Nat) (h : a < 65536) :
    invert_color256 (invert_color256 a) = a := by
  apply Nat.eq_of_testBit_eq
  intro i
  by_cases hi : i < 24
  · have e16 := testBit_of_lt_65536 a 16 h (by decide)
    have e17 := testBit_of_lt_65536 a 17 h (by decide)
    have e18 := testBit_of_lt_65536 a 18 h (by decide)
    have e19 := testBit_of_lt_65536 a 19 h (by decide)
    have e20 := testBit_of_lt_65536 a 20 h (by decide)
    have e21 := testBit_of_lt_65536 a 21 h (by decide)
    have e22 := testBit_of_lt_65536 a 22 h (by decide)
    have e23 := testBit_of_lt_65536 a 23 h (by decide)
    have e24 := testBit_of_lt_65536 a 24 h (by decide)
    have e25 := testBit_of_lt_65536 a 25 h (by decide)
    have e26 := testBit_of_lt_65536 a 26 h (by decide)
    have e27 := testBit_of_lt_65536 a 27 h (by decide)
    have e28 := testBit_of_lt_65536 a 28 h (by decide)
    have e29 := testBit_of_lt_65536 a 29 h (by decide)
    have e30 := testBit_of_lt_65536 a 30 h (by decide)
    have e31 := testBit_of_lt_65536 a 31 h (by decide)
    simp only [Nat.testBit_to_div_mod] at e16 e17 e18 e19 e20 e21 e22 e23
    simp only [Nat.testBit_to_div_mod] at e24 e25 e26 e27 e28 e29 e30 e31
    interval_cases i <;>
      simp only [invert_color256, Nat.testBit_or, Nat.testBit_and, Nat.testBit_shiftRight,
        Nat.testBit_shiftLeft, Nat.reduceAdd, Nat.reduceSub, ge_iff_le, Nat.reduceLeDiff,
        decide_True, decide_False] <;>
      simp only [Nat.testBit_to_div_mod,
        Nat.reducePow, Nat.reduceDiv, Nat.reduceMod, Nat.reduceEqDiff,
        decide_True, decide_False, e16, e17, e18, e19, e20, e21, e22, e23,
        e24, e25, e26, e27, e28, e29, e30, e31,
        Bool.and_true, Bool.and_false, Bool.or_false, Bool.false_or,
        Bool.true_and, Bool.false_and, Bool.or_self, Bool.and_self]
  · have h1 := testBit_of_lt_65536 a i h (by omega)
    have h2 := testBit_of_lt_65536 a (4 + i) h (by omega)
    have h3 := testBit_of_lt_65536 a (4 + (4 + i)) h (by omega)
    have h4 := testBit_of_lt_65536 a (i - 4) h (by omega)
    have h5 := testBit_of_lt_65536 a (4 + i - 4) h (by omega)
    have h6 := testBit_of_lt_65536 a (4 + (i - 4)) h (by omega)
    have h7 := testBit_of_lt_65536 a (i - 4 - 4) h (by omega)
    simp only [invert_color256, Nat.testBit_or, Nat.testBit_and, Nat.testBit_shiftRight,
      Nat.testBit_shiftLeft, h1, h2, h3, h4, h5, h6, h7, Bool.false_and, Bool.and_false,
      Bool.or_false]

theorem invert_color512_twice (a : Nat) (h : a < 65536) :
    invert_color512 (invert_color512 a) = a := by
  apply Nat.eq_of_testBit_eq
  intro i
  by_cases hi : i < 24
  · have e16 := testBit_of_lt_65536 a 16 h (by decide)
    have e17 := testBit_of_lt_65536 a 17 h (by decide)
    have e18 := testBit_of_lt_65536 a 18 h (by decide)
    have e19 := testBit_of_lt_65536 a 19 h (by decide)
    have e20 := testBit_of_lt_65536 a 20 h (by decide)
    have e21 := testBit_of_lt_65536 a 21 h (by decide)
    have e22 := testBit_of_lt_65536 a 22 h (by decide)
    have e23 := testBit_of_lt_65536 a 23 h (by decide)
    have e24 := testBit_of_lt_65536 a 24 h (by decide)
    have e25 := testBit_of_lt_65536 a 25 h (by decide)
    have e26 := testBit_of_lt_65536 a 26 h (by decide)
    have e27 := testBit_of_lt_65536 a 27 h (by decide)
    have e28 := testBit_of_lt_65536 a 28 h (by decide)
    have e29 := testBit_of_lt_65536 a 29 h (by decide)
    have e30 := testBit_of_lt_65536 a 30 h (by decide)
    have e31 := testBit_of_lt_65536 a 31 h (by decide)
    simp only [Nat.testBit_to_div_mod] at e16 e17 e18 e19 e20 e21 e22 e23
    simp only [Nat.testBit_to_div_mod] at e24 e25 e26 e27 e28 e29 e30 e31
    interval_cases i <;>
      simp only [invert_color512, Nat.testBit_or, Nat.testBit_and, Nat.testBit_shiftRight,
        Nat.testBit_shiftLeft, Nat.reduceAdd, Nat.reduceSub, ge_iff_le, Nat.reduceLeDiff,
        decide_True, decide_False] <;>
      simp only [Nat.testBit_to_div_mod,
        Nat.reducePow, Nat.reduceDiv, Nat.reduceMod, Nat.reduceEqDiff,
        decide_True, decide_False, e16, e17, e18, e19, e20, e21, e22, e23,
        e24, e25, e26, e27, e28, e29, e30, e31,
        Bool.and_true, Bool.and_false, Bool.or_false, Bool.false_or,
        Bool.true_and, Bool.false_and, Bool.or_self, Bool.and_self]
  · have h1 := testBit_of_lt_65536 a i h (by omega)
    have h2 := testBit_of_lt_65536 a (4 + i) h (by omega)
    have h3 := testBit_of_lt_65536 a (4 + (4 + i)) h (by omega)
    have h4 := testBit_of_lt_65536 a (i - 4) h (by omega)
    have h5 := testBit_of_lt_65536 a (4 + i - 4) h (by omega)
    have h6 := testBit_of_lt_65536 a (4 + (i - 4)) h (by omega)
    have h7 := testBit_of_lt_65536 a (i - 4 - 4) h (by omega)
    simp only [invert_color512, Nat.testBit_or, Nat.testBit_and, Nat.testBit_shiftRight,
      Nat.testBit_shiftLeft, h1, h2, h3, h4, h5, h6, h7, Bool.false_and, Bool.and_false,
      Bool.or_false]

theorem invert_mono_char (a : Nat) :
    invert_mono a &&& 0x1ff = a &&& 0x1ff ∧ invert_mono a &&& 0xff = a &&& 0xff := by
  constructor <;>
  · apply Nat.eq_of_testBit_eq
    intro i
    by_cases hi : i < 24
    · interval_cases i <;>
        simp only [invert_mono, Nat.testBit_xor, Nat.testBit_and] <;>
        simp only [Nat.testBit_to_div_mod,
          Nat.reducePow, Nat.reduceDiv, Nat.reduceMod, Nat.reduceEqDiff,
          decide_True, decide_False, Bool.and_true, Bool.and_false, Bool.xor_false]
    · simp only [Nat.testBit_and, testBit_of_lt_2_24 _ i (by norm_num : (0x1ff : Nat) < 16777216)
        (by omega), testBit_of_lt_2_24 _ i (by norm_num : (0xff : Nat) < 16777216) (by omega),
        Bool.and_false]

theorem invert_color512_char (a : Nat) : invert_color512 a &&& 0x1ff = a &&& 0x1ff := by
  apply Nat.eq_of_testBit_eq
  intro i
  by_cases hi : i < 24
  · interval_cases i <;>
      simp only [invert_color512, Nat.testBit_or, Nat.testBit_and, Nat.testBit_shiftRight,
        Nat.testBit_shiftLeft, Nat.reduceAdd, Nat.reduceSub, ge_iff_le, Nat.reduceLeDiff,
        decide_True, decide_False] <;>
      simp only [Nat.testBit_to_div_mod,
        Nat.reducePow, Nat.reduceDiv, Nat.reduceMod, Nat.reduceEqDiff,
        decide_True, decide_False,
        Bool.and_true, Bool.and_false, Bool.or_false, Bool.false_or,
        Bool.true_and, Bool.false_and, Bool.or_self, Bool.and_self]
  · simp only [Nat.testBit_and, testBit_of_lt_2_24 _ i (by norm_num : (0x1ff : Nat) < 16777216)
      (by omega), Bool.and_false]

theorem invert_color256_char (a : Nat) : invert_color256 a &&& 0xff = a &&& 0xff := by
  apply Nat.eq_of_testBit_eq
  intro i
  by_cases hi : i < 24
  · interval_cases i <;>
      simp only [invert_color256, Nat.testBit_or, Nat.testBit_and, Nat.testBit_shiftRight,
        Nat.testBit_shiftLeft, Nat.reduceAdd, Nat.reduceSub, ge_iff_le, Nat.reduceLeDiff,
        decide_True, decide_False] <;>
      simp only [Nat.testBit_to_div_mod,
        Nat.reducePow, Nat.reduceDiv, Nat.reduceMod, Nat.reduceEqDiff,
        decide_True, decide_False,
        Bool.and_true, Bool.and_false, Bool.or_false, Bool.false_or,
        Bool.true_and, Bool.false_and, Bool.or_self, Bool.and_self]
  · simp only [Nat.testBit_and, testBit_of_lt_2_24 _ i (by norm_num : (0xff : Nat) < 16777216)
      (by omega), Bool.and_false]

theorem invert_cell_lt (vc : vc_data) (a : Nat) (h : a < 65536) : invert_cell vc a < 65536 := by
  unfold invert_cell
  split_ifs
  · exact invert_mono_lt a h
  · exact invert_color512_lt a
  · exact invert_color256_lt a

theorem invert_cell_twice (vc : vc_data) (a : Nat) (h : a < 65536) :
    invert_cell vc (invert_cell vc a) = a := by
  unfold invert_cell
  split_ifs
  · exact invert_mono_twice a
  · exact invert_color512_twice a h
  · exact invert_color256_twice a h

theorem invert_cell_char (vc : vc_data)
    (hmask : vc.vc_hi_font_mask = 0 ∨ vc.vc_hi_font_mask = 0x100) (a : Nat) :
    char_bits vc (invert_cell vc a) = char_bits vc a := by
  unfold char_bits invert_cell
  rcases hmask with hm | hm
  · rw [hm]
    have e : (0 ||| 0xff : Nat) = 0xff := by decide
    rw [e, if_neg (by decide : ¬ (0 : Nat) = 0x100)]
    split_ifs
    · exact (invert_mono_char a).2
    · exact invert_color256_char a
  · rw [hm]
    have e : (0x100 ||| 0xff : Nat) = 0x1ff := by decide
    rw [e, if_pos rfl]
    split_ifs
    · exact (invert_mono_char a).1
    · exact invert_color512_char a

theorem invert_iterate_lt (vc : vc_data) (k x : Nat) (hx : x < 65536) :
    (fun y => invert_cell vc y % 65536)^[k] x < 65536 := by
  induction k generalizing x with
  | zero => exact hx
  | succ k ih =>
    rw [Function.iterate_succ_apply]
    exact ih _ (Nat.mod_lt _ (by norm_num))

theorem invert_iterate_even (vc : vc_data) (k x : Nat) (hx : x < 65536) :
    (fun y => invert_cell vc y % 65536)^[k + k] x = x := by
  induction k generalizing x with
  | zero => rfl
  | succ k ih =>
    have e : k + 1 + (k + 1) = (k + k) + 1 + 1 := by omega
    rw [e, Function.iterate_succ_apply, Function.iterate_succ_apply]
    have h1 : invert_cell vc x % 65536 = invert_cell vc x :=
      Nat.mod_eq_of_lt (invert_cell_lt vc x hx)
    have h2 : invert_cell vc (invert_cell vc x % 65536) % 65536 = x := by
      rw [h1, invert_cell_twice vc x hx, Nat.mod_eq_of_lt hx]
    rw [h2]
    exact ih x hx

theorem invert_iterate_twice (vc : vc_data) (k x : Nat) (hx : x < 65536) :
    (fun y => invert_cell vc y % 65536)^[k] ((fun y => invert_cell vc y % 65536)^[k] x) = x := by
  rw [← Function.iterate_add_apply]
  exact invert_iterate_even vc k x hx

theorem invert_iterate_char (vc : vc_data)
    (hmask : vc.vc_hi_font_mask = 0 ∨ vc.vc_hi_font_mask = 0x100) (k x : Nat)
    (hx : x < 65536) :
    char_bits vc ((fun y => invert_cell vc y % 65536)^[k] x) = char_bits vc x := by
  induction k generalizing x with
  | zero => rfl
  | succ k ih =>
    rw [Function.iterate_succ_apply, ih _ (Nat.mod_lt _ (by norm_num)),
      Nat.mod_eq_of_lt (invert_cell_lt vc x hx)]
    exact invert_cell_char vc hmask x

theorem scr_readw_lt (mem : Nat → Nat) (a : Nat) : scr_readw mem a < 65536 :=
  Nat.mod_lt _ (by norm_num)

theorem scr_readw_writew_at (mem : Nat → Nat) (v p a : Nat) :
    scr_readw (scr_writew mem v p) a = if a = p then v % 65536 else scr_readw mem a := by
  unfold scr_readw scr_writew
  by_cases h : a = p
  · rw [if_pos h, if_pos h, Nat.mod_mod]
  · rw [if_neg h, if_neg h]

/-- The loop of `invert_screen` applies the cell inversion to every cell a
number of times that depends on the region only, not on the memory. -/
theorem invert_loop_count (vc : vc_data) : ∀ (n q : Nat), ∃ k : Nat → Nat,
    ∀ (mem : Nat → Nat) (a : Nat),
      scr_readw (invert_loop (invert_cell vc) mem q n) a =
        (fun y => invert_cell vc y % 65536)^[k a] (scr_readw mem a) := by
  intro n
  induction n with
  | zero =>
    intro q
    exact ⟨fun _ => 0, fun mem a => rfl⟩
  | succ n ih =>
    intro q
    obtain ⟨k, hk⟩ := ih (q + 2)
    refine ⟨fun a => if a = q then k a + 1 else k a, fun mem a => ?_⟩
    have e : invert_loop (invert_cell vc) mem q (n + 1) =
        invert_loop (invert_cell vc) (scr_writew mem (invert_cell vc (scr_readw mem q)) q)
          (q + 2) n := rfl
    rw [e, hk, scr_readw_writew_at]
    by_cases h : a = q
    · simp only [if_pos h]
      rw [Function.iterate_succ_apply, h]
    · simp only [if_neg h]

/-- The loop of `fbcon_invert_region` applies the cell inversion to every cell
a number of times that depends on the region and on the scrollback pointers
only, not on the memory. -/
theorem fbcon_invert_loop_count (par : fbvt_data) (vc : vc_data) : ∀ (n p : Nat),
    ∃ k : Nat → Nat, ∀ (mem : Nat → Nat) (a : Nat),
      scr_readw (fbcon_invert_loop par vc mem p n) a =
        (fun y => invert_cell vc y % 65536)^[k a] (scr_readw mem a) := by
  intro n
  induction n with
  | zero =>
    intro p
    exact ⟨fun _ => 0, fun mem a => rfl⟩
  | succ n ih =>
    intro p
    obtain ⟨k, hk⟩ := ih
      (if (if p + 2 = par.softback_end then par.softback_buf else p + 2) = par.softback_in
        then vc.vc_origin
        else (if p + 2 = par.softback_end then par.softback_buf else p + 2))
    refine ⟨fun a => if a = p then k a + 1 else k a, fun mem a => ?_⟩
    have e : fbcon_invert_loop par vc mem p (n + 1) =
        fbcon_invert_loop par vc (scr_writew mem (invert_cell vc (scr_readw mem p)) p)
          (if (if p + 2 = par.softback_end then par.softback_buf else p + 2) = par.softback_in
            then vc.vc_origin
            else (if p + 2 = par.softback_end then par.softback_buf else p + 2)) n := by
      have em : (if !vc.vc_can_do_color then scr_writew mem (invert_mono (scr_readw mem p)) p
          else if vc.vc_hi_font_mask = 0x100 then
            scr_writew mem (invert_color512 (scr_readw mem p)) p
          else scr_writew mem (invert_color256 (scr_readw mem p)) p) =
          scr_writew mem (invert_cell vc (scr_readw mem p)) p := by
        unfold invert_cell
        split_ifs <;> rfl
      rw [← em]
      rfl
    rw [e, hk, scr_readw_writew_at]
    by_cases h : a = p
    · simp only [if_pos h]
      rw [Function.iterate_succ_apply, h]
    · simp only [if_neg h]

/-- The memory that the default path of `invert_screen` leaves is the loop of the
cell inversion of the mode. -/
theorem invert_screen_loops (vc : vc_data) (p n : Nat) :
    (if !vc.vc_can_do_color then
        { vc with mem := invert_loop invert_mono vc.mem p n }
      else if vc.vc_hi_font_mask = 0x100 then
        { vc with mem := invert_loop invert_color512 vc.mem p n }
      else { vc with mem := invert_loop invert_color256 vc.mem p n }) =
      { vc with mem := invert_loop (invert_cell vc) vc.mem p n } := by
  by_cases h1 : (!vc.vc_can_do_color) = true
  · have e : invert_cell vc = invert_mono := by
      funext a
      unfold invert_cell
      rw [if_pos h1]
    rw [if_pos h1, e]
  · by_cases h2 : vc.vc_hi_font_mask = 0x100
    · have e : invert_cell vc = invert_color512 := by
        funext a
        unfold invert_cell
        rw [if_neg h1, if_pos h2]
      rw [if_neg h1, if_pos h2, e]
    · have e : invert_cell vc = invert_color256 := by
        funext a
        unfold invert_cell
        rw [if_neg h1, if_neg h2]
      rw [if_neg h1, if_neg h2, e]

theorem invert_screen_default (env : Env) (vc : vc_data) (offset count : Int) (viewed : Bool)
    (hdrv : env.sw.con_invert_region = none) :
    invert_screen env vc offset count viewed =
      if vc.is_visible then
        do_update_region env
          { vc with mem := invert_loop (invert_cell vc) vc.mem (screenpos env vc offset viewed)
                            (u32 (Int.tdiv count 2)) }
          (screenpos env vc offset viewed) (Int.tdiv count 2)
      else
        some { vc with mem := invert_loop (invert_cell vc) vc.mem (screenpos env vc offset viewed)
                                (u32 (Int.tdiv count 2)) } := by
  unfold invert_screen
  rw [hdrv]
  simp only []
  rw [invert_screen_loops]

theorem do_update_region_trace (env : Env) (vc r : vc_data) (start : Nat) (count : Int)
    (h : do_update_region env vc start count = some r) : r = { vc with trace := r.trace } := by
  unfold do_update_region at h
  simp only [] at h
  split at h
  · injection h with h
    rw [← h]
  · cases h

theorem invert_screen_result (env : Env) (vc r : vc_data) (offset count : Int) (viewed : Bool)
    (hdrv : env.sw.con_invert_region = none)
    (h : invert_screen env vc offset count viewed = some r) :
    r = { vc with mem := invert_loop (invert_cell vc) vc.mem (screenpos env vc offset viewed)
                            (u32 (Int.tdiv count 2)),
                  trace := r.trace } := by
  rw [invert_screen_default env vc offset count viewed hdrv] at h
  by_cases hv : vc.is_visible = true
  · rw [if_pos hv] at h
    have e := do_update_region_trace env _ r _ _ h
    rw [e]
  · rw [if_neg hv] at h
    injection h with h
    rw [← h]

theorem invert_screen_returns (env : Env) (vc : vc_data) (offset count : Int) (viewed : Bool)
    (hdrv : env.sw.con_invert_region = none)
    (hvis : vc.is_visible = false ∨ (1 ≤ vc.vc_cols ∧ 0 ≤ count)) :
    ∃ r, invert_screen env vc offset count viewed = some r := by
  rw [invert_screen_default env vc offset count viewed hdrv]
  by_cases hv : vc.is_visible = true
  · rw [if_pos hv]
    rcases hvis with h | ⟨hc, h0⟩
    · rw [h] at hv
      cases hv
    · obtain ⟨tr, htr⟩ := do_update_region_returns env
        { vc with mem := invert_loop (invert_cell vc) vc.mem (screenpos env vc offset viewed)
                            (u32 (Int.tdiv count 2)) }
        (screenpos env vc offset viewed) (Int.tdiv count 2) hc
        (Int.tdiv_nonneg h0 (by norm_num))
      exact ⟨_, htr⟩
  · rw [if_neg hv]
    exact ⟨_, rfl⟩

theorem fbcon_invert_loop_congr (par : fbvt_data) (vc vc' : vc_data)
    (h1 : vc'.vc_can_do_color = vc.vc_can_do_color)
    (h2 : vc'.vc_hi_font_mask = vc.vc_hi_font_mask) (h3 : vc'.vc_origin = vc.vc_origin) :
    ∀ (n : Nat) (mem : Nat → Nat) (p : Nat),
      fbcon_invert_loop par vc' mem p n = fbcon_invert_loop par vc mem p n := by
  intro n
  induction n with
  | zero =>
    intro mem p
    rfl
  | succ n ih =>
    intro mem p
    simp only [fbcon_invert_loop, h1, h2, h3, ih]

/-- C16: `invert_screen` (ruby-2.6, default path without a driver
`con_invert_region`) and `fbcon_invert_region`, on a console whose
`vc_hi_font_mask` is 0 or 0x100 and whose driver, if it has a `con_screen_pos`,
computes the screen position independently of the cell contents.  In every
mode (monochrome, colour with a 256-glyph font, colour with a 512-glyph
font), for every memory, offset and count: after one inversion every cell has
its character bits unchanged; after a second inversion of the same region
every cell reads its original 16-bit value.  `invert_screen` returns both
times when the console is not visible, or has at least one column and the
count is not negative (the redraw terminates). -/
theorem invert_twice_restores (env : Env) (par : fbvt_data) (vc : vc_data)
    (offset count : Int) (viewed : Bool) (p : Nat) (cnt : Int)
    (hdrv : env.sw.con_invert_region = none)
    (hmask : vc.vc_hi_font_mask = 0 ∨ vc.vc_hi_font_mask = 0x100)
    (hpos : ∀ f, env.sw.con_screen_pos = some f →
      ∀ m tr, f { vc with mem := m, trace := tr } offset = f vc offset) :
    (∀ vc1, invert_screen env vc offset count viewed = some vc1 →
      (∀ a, char_bits vc (scr_readw vc1.mem a) = char_bits vc (scr_readw vc.mem a)) ∧
      ∀ vc2, invert_screen env vc1 offset count viewed = some vc2 →
        ∀ a, scr_readw vc2.mem a = scr_readw vc.mem a) ∧
    (vc.is_visible = false ∨ (1 ≤ vc.vc_cols ∧ 0 ≤ count) →
      ∃ vc1 vc2, invert_screen env vc offset count viewed = some vc1 ∧
        invert_screen env vc1 offset count viewed = some vc2) ∧
    (∀ a, char_bits vc (scr_readw (fbcon_invert_region par vc p cnt) a) =
      char_bits vc (scr_readw vc.mem a)) ∧
    (∀ a, scr_readw (fbcon_invert_region par
        { vc with mem := fbcon_invert_region par vc p cnt } p cnt) a = scr_readw vc.mem a) := by
  have hsame : ∀ m tr, screenpos env { vc with mem := m, trace := tr } offset viewed =
      screenpos env vc offset viewed := by
    intro m tr
    unfold screenpos
    by_cases hv : (!viewed) = true
    · rw [if_pos hv, if_pos hv]
    · rw [if_neg hv, if_neg hv]
      cases hf : env.sw.con_screen_pos with
      | none => rfl
      | some f => exact hpos f hf m tr
  refine ⟨?_, ?_, ?_, ?_⟩
  · intro vc1 h1
    have e1 := invert_screen_result env vc vc1 offset count viewed hdrv h1
    obtain ⟨k, hk⟩ := invert_loop_count vc (u32 (Int.tdiv count 2))
      (screenpos env vc offset viewed)
    have m1 : vc1.mem = invert_loop (invert_cell vc) vc.mem (screenpos env vc offset viewed)
        (u32 (Int.tdiv count 2)) := by
      rw [e1]
    refine ⟨?_, ?_⟩
    · intro a
      rw [m1, hk, invert_iterate_char vc hmask _ _ (scr_readw_lt _ _)]
    · intro vc2 h2
      have e2 := invert_screen_result env vc1 vc2 offset count viewed hdrv h2
      have ec : invert_cell vc1 = invert_cell vc := by
        rw [e1]
        rfl
      have ep : screenpos env vc1 offset viewed = screenpos env vc offset viewed := by
        rw [e1]
        exact hsame _ _
      have m2 : vc2.mem = invert_loop (invert_cell vc) vc1.mem (screenpos env vc offset viewed)
          (u32 (Int.tdiv count 2)) := by
        rw [e2, ec, ep]
      intro a
      rw [m2, hk, m1, hk, invert_iterate_twice vc _ _ (scr_readw_lt _ _)]
  · intro hvis
    obtain ⟨vc1, h1⟩ := invert_screen_returns env vc offset count viewed hdrv hvis
    have e1 := invert_screen_result env vc vc1 offset count viewed hdrv h1
    have hvis1 : vc1.is_visible = false ∨ (1 ≤ vc1.vc_cols ∧ 0 ≤ count) := by
      rw [e1]
      exact hvis
    obtain ⟨vc2, h2⟩ := invert_screen_returns env vc1 offset count viewed hdrv hvis1
    exact ⟨vc1, vc2, h1, h2⟩
  · intro a
    obtain ⟨k, hk⟩ := fbcon_invert_loop_count par vc (u32 cnt) p
    unfold fbcon_invert_region
    rw [hk, invert_iterate_char vc hmask _ _ (scr_readw_lt _ _)]
  · intro a
    obtain ⟨k, hk⟩ := fbcon_invert_loop_count par vc (u32 cnt) p
    have e : fbcon_invert_region par { vc with mem := fbcon_invert_region par vc p cnt } p cnt =
        fbcon_invert_loop par vc (fbcon_invert_loop par vc vc.mem p (u32 cnt)) p (u32 cnt) := by
      unfold fbcon_invert_region
      exact fbcon_invert_loop_congr par vc
        { vc with mem := fbcon_invert_loop par vc vc.mem p (u32 cnt) } rfl rfl rfl _ _ _
    rw [e, hk, hk, invert_iterate_twice vc _ _ (scr_readw_lt _ _)]

/-! ### Attribute byte -/

theorem low_nibble_replaced : ∀ a, a < 256 → ∀ x, x < 16 →
    (a &&& 0xf0) ||| x = replace_low_nibble a x := by
  decide!

theorem bit7_toggled : ∀ a, a < 256 → a ^^^ 0x80 = toggle_bit a 7 := by
  decide!

theorem bit3_toggled : ∀ a, a < 256 → a ^^^ 0x08 = toggle_bit a 3 := by
  decide!

theorem reverse_swaps_colours : ∀ a, a < 256 →
    (a &&& 0x88) ||| (((a >>> 4) ||| (a <<< 4)) &&& 0x77) = swap_colours a ∧
    (swap_colours a = swap_nibbles a ↔ a.testBit 3 = a.testBit 7) := by
  decide!

theorem toggle_bit7_lt (a : Nat) (h : a < 256) : toggle_bit a 7 < 256 := by
  rw [← bit7_toggled a h]
  exact Nat.xor_lt_two_pow (n := 8) h (by norm_num)

/-- C14: `build_attr` (ruby-2.6) without a driver `con_build_attr` and with
reverse off, for an intensity in {0, 1, 2}, a colour byte below 256 and
underline and half-bright colours below 16, equals the reference of the
specification: on monochrome hardware `intensity | (underline ? 4 : 0) |
(blink ? 0x80 : 0)`; on colour hardware the current colour byte of the
console with its low nibble replaced by the underline colour (underline set),
otherwise by the half-bright colour (intensity 0), then bit 7 toggled (blink)
and bit 3 toggled (intensity 2), and shifted left by one bit modulo 256 when
`vc_hi_font_mask` is 0x100.  On monochrome hardware reverse adds 8. -/
theorem build_attr_refines_reference (env : Env) (vc : vc_data) (color intensity : Nat)
    (blink underline : Bool)
    (hdrv : env.sw.con_build_attr = none) (hint : intensity ≤ 2)
    (hcol : vc.vc_color < 256) (hul : vc.vc_ulcolor < 16) (hhalf : vc.vc_halfcolor < 16) :
    build_attr env vc color intensity blink underline false =
      build_attr_reference vc intensity blink underline ∧
    (vc.vc_can_do_color = false →
      build_attr env vc color intensity blink underline true =
        build_attr_reference vc intensity blink underline + 8) := by
  obtain ⟨A1, hA1⟩ : ∃ A1, A1 = (if underline then (vc.vc_color &&& 0xf0) ||| vc.vc_ulcolor
      else if intensity = 0 then (vc.vc_color &&& 0xf0) ||| vc.vc_halfcolor
      else vc.vc_color) := ⟨_, rfl⟩
  obtain ⟨A2, hA2⟩ : ∃ A2, A2 = (if blink then A1 ^^^ 0x80 else A1) := ⟨_, rfl⟩
  obtain ⟨A3, hA3⟩ : ∃ A3, A3 = (if intensity = 2 then A2 ^^^ 0x08 else A2) := ⟨_, rfl⟩
  have hmono : ∀ r : Bool, vc.vc_can_do_color = false →
      build_attr env vc color intensity blink underline r =
        intensity ||| (if underline then 4 else 0) ||| (if r then 8 else 0) |||
          (if blink then 0x80 else 0) := by
    intro r hc
    unfold build_attr
    rw [hdrv]
    simp only [hc, Bool.not_false, if_true]
  have hcolour : vc.vc_can_do_color = true →
      build_attr env vc color intensity blink underline false =
        (if vc.vc_hi_font_mask = 0x100 then (A3 <<< 1) % 256 else A3) := by
    intro hc
    unfold build_attr
    rw [hdrv, hA3, hA2, hA1]
    simp only [hc, Bool.not_true, Bool.false_eq_true, if_false]
  have r1 : A1 = (if underline then replace_low_nibble vc.vc_color vc.vc_ulcolor
      else if intensity = 0 then replace_low_nibble vc.vc_color vc.vc_halfcolor
      else vc.vc_color) := by
    rw [hA1, low_nibble_replaced _ hcol _ hul, low_nibble_replaced _ hcol _ hhalf]
  have l1 : A1 < 256 := by
    rw [r1]
    unfold replace_low_nibble
    split_ifs <;> omega
  have r2 : A2 = (if blink then toggle_bit A1 7 else A1) := by
    rw [hA2, bit7_toggled _ l1]
  have l2 : A2 < 256 := by
    rw [r2]
    split_ifs
    · exact toggle_bit7_lt _ l1
    · exact l1
  have r3 : A3 = (if intensity = 2 then toggle_bit A2 3 else A2) := by
    rw [hA3, bit3_toggled _ l2]
  have sh : (A3 <<< 1) % 256 = (2 * A3) % 256 := by
    rw [Nat.shiftLeft_eq, pow_one, Nat.mul_comm]
  constructor
  · cases hc : vc.vc_can_do_color
    · rw [hmono false hc]
      unfold build_attr_reference
      rw [hc, if_pos rfl]
      simp
    · rw [hcolour hc]
      unfold build_attr_reference
      rw [hc, if_neg (show ¬ (true = false) by decide)]
      simp only []
      rw [sh, r3, r2, r1]
  · intro hc
    rw [hmono true hc]
    unfold build_attr_reference
    rw [if_pos hc]
    interval_cases intensity <;> cases blink <;> cases underline <;> rfl

/-- C15 (amended): `build_attr` (ruby-2.6), default colour path with a
256-glyph font, underline and blink off, intensity 1, reverse set, for a
colour byte below 256: the attribute is the colour byte with its 3-bit
foreground colour (bits 0-2) and 3-bit background colour (bits 4-6)
exchanged, while bit 3 and bit 7 stay in place.  It is the colour byte with
its two nibbles exchanged exactly when bit 3 and bit 7 of the colour byte are
equal. -/
theorem build_attr_reverse (env : Env) (vc : vc_data) (color : Nat)
    (hdrv : env.sw.con_build_attr = none) (hcolor : vc.vc_can_do_color = true)
    (hfont : vc.vc_hi_font_mask ≠ 0x100) (hcol : vc.vc_color < 256) :
    build_attr env vc color 1 false false true = swap_colours vc.vc_color ∧
    (build_attr env vc color 1 false false true = swap_nibbles vc.vc_color ↔
      vc.vc_color.testBit 3 = vc.vc_color.testBit 7) := by
  have e : build_attr env vc color 1 false false true =
      (vc.vc_color &&& 0x88) ||| (((vc.vc_color >>> 4) ||| (vc.vc_color <<< 4)) &&& 0x77) := by
    unfold build_attr
    rw [hdrv]
    simp only [hcolor, Bool.not_true, Bool.false_eq_true, if_false, if_true, if_neg hfont,
      OfNat.one_ne_ofNat, OfNat.ofNat_ne_one, one_ne_zero]
  rw [e, (reverse_swaps_colours _ hcol).1]
  exact ⟨rfl, (reverse_swaps_colours _ hcol).2⟩

/-! ### Screen blanking -/

theorem vt_frame_refl (vt : vt_struct) : vt_frame vt vt :=
  ⟨rfl, [], (List.append_nil _).symm⟩

theorem vt_frame_trans {a b c : vt_struct} (h1 : vt_frame a b) (h2 : vt_frame b c) :
    vt_frame a c := by
  obtain ⟨f1, e1, h1⟩ := h1
  obtain ⟨f2, e2, h2⟩ := h2
  refine ⟨?_, e1 ++ e2, by rw [h2, h1, List.append_assoc]⟩
  rw [f2, f1]

theorem vt_frame_emit (vt : vt_struct) (e : Event) : vt_frame vt (vt_emit vt e) :=
  ⟨rfl, [e], rfl⟩

theorem vt_frame_console (vt : vt_struct) (c : vc_data)
    (h : ∃ es, c.trace = vt.fg_console.trace ++ es) :
    vt_frame vt { vt with fg_console := c } :=
  ⟨rfl, h⟩

theorem trace_extends_trans {a b c : List Event} (h1 : ∃ es, b = a ++ es)
    (h2 : ∃ es, c = b ++ es) : ∃ es, c = a ++ es := by
  obtain ⟨e1, h1⟩ := h1
  obtain ⟨e2, h2⟩ := h2
  exact ⟨e1 ++ e2, by rw [h2, h1, List.append_assoc]⟩

theorem powerdown_screen_frame (vt : vt_struct) : vt_frame vt (powerdown_screen vt) := by
  unfold powerdown_screen
  split_ifs
  · exact vt_frame_emit vt _
  · exact vt_frame_emit vt _
  · exact vt_frame_refl vt

theorem do_blank_screen_idle (venv : VtEnv) (vt : vt_struct) (g : Int)
    (h : (vt.fg_console.vt_blanked = true ∧ vt.blank_state ≠ blank_vesa_wait) ∨
      (vt.fg_console.vt_blanked = false ∧ vt.blank_state ≠ blank_normal_wait)) :
    do_blank_screen venv vt g = vt := by
  unfold do_blank_screen
  rcases h with ⟨h1, h2⟩ | ⟨h1, h2⟩
  · rw [if_pos h1, if_neg h2]
  · rw [if_neg (by rw [h1]; decide), if_pos h2]

theorem do_blank_screen_powerdown (venv : VtEnv) (vt : vt_struct) (g : Int)
    (h1 : vt.fg_console.vt_blanked = true) (h2 : vt.blank_state = blank_vesa_wait) :
    do_blank_screen venv vt g = powerdown_screen { vt with blank_state := blank_off } := by
  unfold do_blank_screen
  rw [if_pos h1, if_pos h2]

theorem do_blank_screen_graphics (venv : VtEnv) (vt : vt_struct)
    (h1 : vt.fg_console.vt_blanked = false) (h2 : vt.blank_state = blank_normal_wait)
    (h3 : vt.fg_console.vc_mode ≠ KD_TEXT) :
    do_blank_screen venv vt 0 =
      { vt with blank_state := blank_off,
                fg_console := { vt.fg_console with vt_blanked := true } } := by
  unfold do_blank_screen
  rw [if_neg (by rw [h1]; decide), if_neg (not_not.mpr h2), if_neg (by decide), if_pos h3]

/-- The text-mode branch of `do_blank_screen`: the console is blanked, the
timer deleted and the expiry flag cleared; then the hook may end the call, the
timer may be armed for the second stage, and the VESA mode may be set. -/
theorem do_blank_screen_text (venv : VtEnv) (vt : vt_struct)
    (h1 : vt.fg_console.vt_blanked = false) (h2 : vt.blank_state = blank_normal_wait)
    (h3 : vt.fg_console.vc_mode = KD_TEXT) :
    ∃ vc3 : vc_data, vc3.vt_blanked = true ∧ vc3.vc_mode = vt.fg_console.vc_mode ∧
      vc3.vc_cols = vt.fg_console.vc_cols ∧
      (∃ es, vc3.trace = vt.fg_console.trace ++ es) ∧
      ∃ vt1 vt2 vt3 : vt_struct,
        vt1 = { vt with blank_state := blank_off, timer := none, blank_timer_expired := false,
                        fg_console := vc3 } ∧
        vt2 = (match venv.console_blank_hook with
          | some _ => vt_emit vt1 (Event.console_blank_hook 1)
          | none => vt1) ∧
        vt3 = (if vt2.off_interval ≠ 0 then
            { vt_emit vt2 (Event.mod_timer vt2.off_interval) with
              blank_state := blank_vesa_wait, timer := some vt2.off_interval }
          else vt2) ∧
        (∀ hook, venv.console_blank_hook = some hook → hook 1 ≠ 0 →
          do_blank_screen venv vt 0 = vt2) ∧
        ((∀ hook, venv.console_blank_hook = some hook → hook 1 = 0) →
          do_blank_screen venv vt 0 =
            if vt3.blank_mode ≠ 0 then
              vt_emit vt3 (Event.con_blank ((vt3.blank_mode : Int) + 1) 0)
            else vt3) := by
  obtain ⟨vc1, hvc1⟩ : ∃ vc1, vc1 =
      save_screen venv.env (emit (hide_cursor vt.fg_console) Event.del_timer) := ⟨_, rfl⟩
  obtain ⟨vc2, hvc2⟩ : ∃ vc2, vc2 = { emit vc1 (Event.con_blank 1 0) with vt_blanked := true } :=
    ⟨_, rfl⟩
  obtain ⟨vc3, hvc3⟩ : ∃ vc3, vc3 =
      (if venv.env.sw.con_blank vc1 1 0 ≠ 0 then set_origin venv.env vc2 else vc2) := ⟨_, rfl⟩
  have f1 : cursor_frame vt.fg_console vc1 := by
    rw [hvc1]
    exact cursor_frame_trans (cursor_frame_trans (hide_cursor_cursor _) (cursor_frame_emit _ _))
      (cursor_frame_emit_if _ _ _)
  have t2 : ∃ es, vc2.trace = vc1.trace ++ es := ⟨[Event.con_blank 1 0], by rw [hvc2]; rfl⟩
  have b2 : vc2.vt_blanked = true := by rw [hvc2]
  have m2 : vc2.vc_mode = vc1.vc_mode := by rw [hvc2]; rfl
  have c2 : vc2.vc_cols = vc1.vc_cols := by rw [hvc2]; rfl
  have f3 : display_frame vc2 vc3 := by
    rw [hvc3]
    split_ifs
    · exact set_origin_display _ _
    · exact display_frame_refl _
  have m1 : vc1.vc_mode = vt.fg_console.vc_mode := by rw [f1.1]
  have c1 : vc1.vc_cols = vt.fg_console.vc_cols := by rw [f1.1]
  have b3 : vc3.vt_blanked = true := by rw [f3.1]; exact b2
  have m3 : vc3.vc_mode = vt.fg_console.vc_mode := by rw [f3.1]; exact m2.trans m1
  have c3 : vc3.vc_cols = vt.fg_console.vc_cols := by rw [f3.1]; exact c2.trans c1
  have hd : do_blank_screen venv vt 0 =
      (match venv.console_blank_hook with
      | some hook =>
        if hook 1 ≠ 0 then
          vt_emit { vt with blank_state := blank_off, timer := none,
                            blank_timer_expired := false, fg_console := vc3 }
            (Event.console_blank_hook 1)
        else
          let vt2 := vt_emit { vt with blank_state := blank_off, timer := none,
                                       blank_timer_expired := false, fg_console := vc3 }
            (Event.console_blank_hook 1)
          let vt3 := if vt2.off_interval ≠ 0 then
              { vt_emit vt2 (Event.mod_timer vt2.off_interval) with
                blank_state := blank_vesa_wait, timer := some vt2.off_interval }
            else vt2
          if vt3.blank_mode ≠ 0 then
            vt_emit vt3 (Event.con_blank ((vt3.blank_mode : Int) + 1) 0)
          else vt3
      | none =>
        let vt1 := { vt with blank_state := blank_off, timer := none,
                             blank_timer_expired := false, fg_console := vc3 }
        let vt3 := if vt1.off_interval ≠ 0 then
            { vt_emit vt1 (Event.mod_timer vt1.off_interval) with
              blank_state := blank_vesa_wait, timer := some vt1.off_interval }
          else vt1
        if vt3.blank_mode ≠ 0 then
          vt_emit vt3 (Event.con_blank ((vt3.blank_mode : Int) + 1) 0)
        else vt3) := by
    unfold do_blank_screen
    rw [if_neg (by rw [h1]; decide), if_neg (not_not.mpr h2), if_neg (by decide),
      if_neg (not_not.mpr h3), hvc3, hvc2, hvc1]
    try rfl
  refine ⟨vc3, b3, m3, c3, trace_extends_trans (trace_extends_trans f1.2 t2) f3.2,
    _, _, _, rfl, rfl, rfl, ?_, ?_⟩
  · intro hook hh hv
    rw [hd, hh]
    simp only []
    rw [if_pos hv]
  · intro hv
    rw [hd]
    cases hh : venv.console_blank_hook with
    | none => rfl
    | some hook =>
      simp only []
      rw [if_neg (not_not.mpr (hv hook hh))]

/-- What the text-mode branch of `do_blank_screen` leaves: a blanked console,
the expiry flag cleared, and the timer armed for the second stage
(`blank_vesa_wait`) exactly when `off_interval` is not zero and no
`console_blank_hook` has ended the call. -/
theorem do_blank_screen_text_result (venv : VtEnv) (vt : vt_struct)
    (h1 : vt.fg_console.vt_blanked = false) (h2 : vt.blank_state = blank_normal_wait)
    (h3 : vt.fg_console.vc_mode = KD_TEXT) :
    (do_blank_screen venv vt 0).fg_console.vt_blanked = true ∧
    (do_blank_screen venv vt 0).fg_console.vc_mode = KD_TEXT ∧
    (do_blank_screen venv vt 0).fg_console.vc_cols = vt.fg_console.vc_cols ∧
    (do_blank_screen venv vt 0).ignore_poke = vt.ignore_poke ∧
    (do_blank_screen venv vt 0).blank_timer_expired = false ∧
    (do_blank_screen venv vt 0).blank_state =
      (if venv.console_blank_hook.any (fun hook => decide (hook 1 ≠ 0)) = false ∧
          vt.off_interval ≠ 0 then blank_vesa_wait else blank_off) ∧
    (do_blank_screen venv vt 0).timer =
      (if venv.console_blank_hook.any (fun hook => decide (hook 1 ≠ 0)) = false ∧
          vt.off_interval ≠ 0 then some vt.off_interval else none) ∧
    vt_frame vt (do_blank_screen venv vt 0) := by
  obtain ⟨vc3, b3, m3, c3, t3, vt1, vt2, vt3, e1, e2, e3, hveto, hnoveto⟩ :=
    do_blank_screen_text venv vt h1 h2 h3
  have fr1 : vt_frame vt vt1 := by
    rw [e1]
    exact ⟨rfl, t3⟩
  cases hh : venv.console_blank_hook with
  | none =>
    rw [hh] at e2
    simp only [] at e2
    have hr := hnoveto (fun hook h => by rw [hh] at h; cases h)
    have ha : (none : Option (Int → Int)).any (fun hook => decide (hook 1 ≠ 0)) = false := rfl
    rw [ha]
    by_cases ho : vt.off_interval ≠ 0
    · rw [if_pos ⟨rfl, ho⟩, if_pos ⟨rfl, ho⟩]
      have ho2 : vt2.off_interval ≠ 0 := by rw [e2, e1]; exact ho
      rw [if_pos ho2] at e3
      have fr3 : vt_frame vt vt3 := by
        rw [e3]
        exact vt_frame_trans fr1 (by rw [e2]; exact ⟨rfl, [_], rfl⟩)
      have g3 : vt3.fg_console.vt_blanked = true ∧ vt3.fg_console.vc_mode = KD_TEXT ∧
          vt3.fg_console.vc_cols = vt.fg_console.vc_cols ∧ vt3.ignore_poke = vt.ignore_poke ∧
          vt3.blank_timer_expired = false ∧ vt3.blank_state = blank_vesa_wait ∧
          vt3.timer = some vt.off_interval := by
        rw [e3, e2, e1]
        exact ⟨b3, m3.trans h3, c3, rfl, rfl, rfl, rfl⟩
      rw [hr]
      split_ifs
      · exact ⟨g3.1, g3.2.1, g3.2.2.1, g3.2.2.2.1, g3.2.2.2.2.1, g3.2.2.2.2.2.1,
          g3.2.2.2.2.2.2, vt_frame_trans fr3 (vt_frame_emit _ _)⟩
      · exact ⟨g3.1, g3.2.1, g3.2.2.1, g3.2.2.2.1, g3.2.2.2.2.1, g3.2.2.2.2.2.1,
          g3.2.2.2.2.2.2, fr3⟩
    · rw [if_neg (fun h => ho h.2), if_neg (fun h => ho h.2)]
      have ho2 : ¬ vt2.off_interval ≠ 0 := by rw [e2, e1]; exact ho
      rw [if_neg ho2] at e3
      have fr3 : vt_frame vt vt3 := by
        rw [e3, e2]
        exact fr1
      have g3 : vt3.fg_console.vt_blanked = true ∧ vt3.fg_console.vc_mode = KD_TEXT ∧
          vt3.fg_console.vc_cols = vt.fg_console.vc_cols ∧ vt3.ignore_poke = vt.ignore_poke ∧
          vt3.blank_timer_expired = false ∧ vt3.blank_state = blank_off ∧
          vt3.timer = none := by
        rw [e3, e2, e1]
        exact ⟨b3, m3.trans h3, c3, rfl, rfl, rfl, rfl⟩
      rw [hr]
      split_ifs
      · exact ⟨g3.1, g3.2.1, g3.2.2.1, g3.2.2.2.1, g3.2.2.2.2.1, g3.2.2.2.2.2.1,
          g3.2.2.2.2.2.2, vt_frame_trans fr3 (vt_frame_emit _ _)⟩
      · exact ⟨g3.1, g3.2.1, g3.2.2.1, g3.2.2.2.1, g3.2.2.2.2.1, g3.2.2.2.2.2.1,
          g3.2.2.2.2.2.2, fr3⟩
  | some hook =>
    rw [hh] at e2 hveto hnoveto
    simp only [] at e2
    have fr2 : vt_frame vt vt2 := by
      rw [e2]
      exact vt_frame_trans fr1 (vt_frame_emit _ _)
    have g2 : vt2.fg_console.vt_blanked = true ∧ vt2.fg_console.vc_mode = KD_TEXT ∧
        vt2.fg_console.vc_cols = vt.fg_console.vc_cols ∧ vt2.ignore_poke = vt.ignore_poke ∧
        vt2.blank_timer_expired = false ∧ vt2.blank_state = blank_off ∧
        vt2.timer = none := by
      rw [e2, e1]
      exact ⟨b3, m3.trans h3, c3, rfl, rfl, rfl, rfl⟩
    by_cases hv : hook 1 ≠ 0
    · have ha : (some hook).any (fun hook => decide (hook 1 ≠ 0)) = true := by
        simp only [Option.any_some, decide_eq_true_eq]
        exact hv
      rw [ha, if_neg (fun h => by cases h.1), if_neg (fun h => by cases h.1),
        hveto hook rfl hv]
      exact ⟨g2.1, g2.2.1, g2.2.2.1, g2.2.2.2.1, g2.2.2.2.2.1, g2.2.2.2.2.2.1,
          g2.2.2.2.2.2.2, fr2⟩
    · have hv0 : hook 1 = 0 := not_not.mp hv
      have ha : (some hook).any (fun hook => decide (hook 1 ≠ 0)) = false := by
        simp only [Option.any_some, decide_eq_false_iff_not]
        exact hv
      have hr := hnoveto (fun k hk => by
        injection hk with hk
        rw [← hk]
        exact hv0)
      rw [ha]
      by_cases ho : vt.off_interval ≠ 0
      · rw [if_pos ⟨rfl, ho⟩, if_pos ⟨rfl, ho⟩]
        have ho2 : vt2.off_interval ≠ 0 := by rw [e2, e1]; exact ho
        rw [if_pos ho2] at e3
        have fr3 : vt_frame vt vt3 := by
          rw [e3]
          exact vt_frame_trans fr2 ⟨rfl, [_], rfl⟩
        have g3 : vt3.fg_console.vt_blanked = true ∧ vt3.fg_console.vc_mode = KD_TEXT ∧
            vt3.fg_console.vc_cols = vt.fg_console.vc_cols ∧ vt3.ignore_poke = vt.ignore_poke ∧
            vt3.blank_timer_expired = false ∧ vt3.blank_state = blank_vesa_wait ∧
            vt3.timer = some vt.off_interval := by
          rw [e3, e2, e1]
          exact ⟨b3, m3.trans h3, c3, rfl, rfl, rfl, rfl⟩
        rw [hr]
        split_ifs
        · exact ⟨g3.1, g3.2.1, g3.2.2.1, g3.2.2.2.1, g3.2.2.2.2.1, g3.2.2.2.2.2.1,
            g3.2.2.2.2.2.2, vt_frame_trans fr3 (vt_frame_emit _ _)⟩
        · exact ⟨g3.1, g3.2.1, g3.2.2.1, g3.2.2.2.1, g3.2.2.2.2.1, g3.2.2.2.2.2.1,
            g3.2.2.2.2.2.2, fr3⟩
      · rw [if_neg (fun h => ho h.2), if_neg (fun h => ho h.2)]
        have ho2 : ¬ vt2.off_interval ≠ 0 := by rw [e2, e1]; exact ho
        rw [if_neg ho2] at e3
        have fr3 : vt_frame vt vt3 := by
          rw [e3]
          exact fr2
        have g3 : vt3.fg_console.vt_blanked = true ∧ vt3.fg_console.vc_mode = KD_TEXT ∧
            vt3.fg_console.vc_cols = vt.fg_console.vc_cols ∧ vt3.ignore_poke = vt.ignore_poke ∧
            vt3.blank_timer_expired = false ∧ vt3.blank_state = blank_off ∧
            vt3.timer = none := by
          rw [e3]
          exact g2
        rw [hr]
        split_ifs
        · exact ⟨g3.1, g3.2.1, g3.2.2.1, g3.2.2.2.1, g3.2.2.2.2.1, g3.2.2.2.2.2.1,
            g3.2.2.2.2.2.2, vt_frame_trans fr3 (vt_frame_emit _ _)⟩
        · exact ⟨g3.1, g3.2.1, g3.2.2.1, g3.2.2.2.1, g3.2.2.2.2.1, g3.2.2.2.2.2.1,
            g3.2.2.2.2.2.2, fr3⟩

theorem do_blank_screen_frame (venv : VtEnv) (vt : vt_struct) :
    vt_frame vt (do_blank_screen venv vt 0) ∧
    (do_blank_screen venv vt 0).ignore_poke = vt.ignore_poke := by
  by_cases hb : vt.fg_console.vt_blanked = true
  · by_cases hs : vt.blank_state = blank_vesa_wait
    · rw [do_blank_screen_powerdown venv vt 0 hb hs]
      refine ⟨vt_frame_trans ⟨rfl, [], (List.append_nil _).symm⟩ (powerdown_screen_frame _), ?_⟩
      unfold powerdown_screen
      split_ifs <;> rfl
    · rw [do_blank_screen_idle venv vt 0 (Or.inl ⟨hb, hs⟩)]
      exact ⟨vt_frame_refl vt, rfl⟩
  · have hb0 : vt.fg_console.vt_blanked = false := by
      cases h : vt.fg_console.vt_blanked
      · rfl
      · exact absurd h hb
    by_cases hs : vt.blank_state = blank_normal_wait
    · by_cases hm : vt.fg_console.vc_mode = KD_TEXT
      · have h := do_blank_screen_text_result venv vt hb0 hs hm
        exact ⟨h.2.2.2.2.2.2.2, h.2.2.2.1⟩
      · rw [do_blank_screen_graphics venv vt hb0 hs hm]
        exact ⟨⟨rfl, [], (List.append_nil _).symm⟩, rfl⟩
    · rw [do_blank_screen_idle venv vt 0 (Or.inr ⟨hb0, hs⟩)]
      exact ⟨vt_frame_refl vt, rfl⟩

theorem unblank_vt_idle (venv : VtEnv) (vt : vt_struct)
    (h : vt.fg_console.vt_blanked = false ∨ vt.fg_console.vc_mode ≠ KD_TEXT) :
    unblank_vt venv vt = some { vt with ignore_poke := false } := by
  unfold unblank_vt
  simp only []
  by_cases hb : vt.fg_console.vt_blanked = false
  · rw [if_pos (by rw [hb]; rfl)]
  · rcases h with h | h
    · exact absurd h hb
    · rw [if_neg (by
        cases hbb : vt.fg_console.vt_blanked
        · exact absurd hbb hb
        · decide), if_pos h]

/-- The unblanking branch of `unblank_vt` (blanked console in text mode): the
shape of the result when the call returns, and that it returns when the
console has at least one column. -/
theorem unblank_vt_text (venv : VtEnv) (vt : vt_struct)
    (hb : vt.fg_console.vt_blanked = true) (hm : vt.fg_console.vc_mode = KD_TEXT) :
    (∀ r, unblank_vt venv vt = some r →
      r.fg_console.vt_blanked = false ∧ r.ignore_poke = false ∧
      r.blank_timer_expired = vt.blank_timer_expired ∧
      r.timer = (if vt.blank_interval ≠ 0 then some vt.blank_interval else vt.timer) ∧
      r.blank_state = (if vt.blank_interval ≠ 0 then blank_normal_wait else vt.blank_state) ∧
      r.fg_console.vc_cols = vt.fg_console.vc_cols ∧
      (vt.blank_interval ≠ 0 →
        ∃ es, r.fg_console.trace =
          vt.fg_console.trace ++ Event.mod_timer vt.blank_interval :: es) ∧
      vt_frame vt r) ∧
    (1 ≤ vt.fg_console.vc_cols → ∃ r, unblank_vt venv vt = some r) := by
  obtain ⟨vt1, hvt1⟩ : ∃ vt1, vt1 = (if vt.blank_interval ≠ 0 then
      { vt_emit { vt with ignore_poke := false } (Event.mod_timer vt.blank_interval) with
        timer := some vt.blank_interval, blank_state := blank_normal_wait }
    else { vt with ignore_poke := false }) := ⟨_, rfl⟩
  obtain ⟨vc1, hvc1⟩ : ∃ vc1, vc1 = { vt1.fg_console with vt_blanked := false } := ⟨_, rfl⟩
  obtain ⟨vc2, hvc2⟩ : ∃ vc2, vc2 = emit vc1 (Event.con_blank 0 1) := ⟨_, rfl⟩
  have hd : unblank_vt venv vt =
      (match (if venv.env.sw.con_blank vc1 0 1 ≠ 0 then update_screen venv.env vc2
          else some vc2) with
      | none => none
      | some vc3 =>
        some { vt1 with fg_console := set_cursor (set_palette venv.env
          (emit_if venv.console_blank_hook.isSome vc3 [Event.console_blank_hook 0])) }) := by
    unfold unblank_vt
    simp only []
    rw [if_neg (by rw [hb]; decide), if_neg (not_not.mpr hm), hvc2, hvc1, hvt1]
    try rfl
  have g1 : vt1.ignore_poke = false ∧ vt1.blank_timer_expired = vt.blank_timer_expired ∧
      vt1.timer = (if vt.blank_interval ≠ 0 then some vt.blank_interval else vt.timer) ∧
      vt1.blank_state = (if vt.blank_interval ≠ 0 then blank_normal_wait else vt.blank_state) ∧
      vt1.fg_console.vc_cols = vt.fg_console.vc_cols ∧
      (vt.blank_interval ≠ 0 →
        vt1.fg_console.trace = vt.fg_console.trace ++ [Event.mod_timer vt.blank_interval]) ∧
      vt_frame vt vt1 := by
    rw [hvt1]
    by_cases hi : vt.blank_interval ≠ 0
    · rw [if_pos hi, if_pos hi, if_pos hi]
      exact ⟨rfl, rfl, rfl, rfl, rfl, fun _ => rfl, rfl, [_], rfl⟩
    · rw [if_neg hi, if_neg hi, if_neg hi]
      exact ⟨rfl, rfl, rfl, rfl, rfl, fun h => absurd h hi, rfl, [], (List.append_nil _).symm⟩
  have c2 : vc2.vc_cols = vt.fg_console.vc_cols := by
    rw [hvc2, hvc1]
    exact g1.2.2.2.2.1
  have b2 : vc2.vt_blanked = false := by rw [hvc2, hvc1]; rfl
  have t2 : vc2.trace = vt1.fg_console.trace ++ [Event.con_blank 0 1] := by
    rw [hvc2, hvc1]
    rfl
  have hfin : ∀ vc3, display_frame vc2 vc3 →
      ∀ r, r = { vt1 with fg_console := set_cursor (set_palette venv.env
          (emit_if venv.console_blank_hook.isSome vc3 [Event.console_blank_hook 0])) } →
      r.fg_console.vt_blanked = false ∧ r.ignore_poke = false ∧
      r.blank_timer_expired = vt.blank_timer_expired ∧
      r.timer = (if vt.blank_interval ≠ 0 then some vt.blank_interval else vt.timer) ∧
      r.blank_state = (if vt.blank_interval ≠ 0 then blank_normal_wait else vt.blank_state) ∧
      r.fg_console.vc_cols = vt.fg_console.vc_cols ∧
      (vt.blank_interval ≠ 0 →
        ∃ es, r.fg_console.trace =
          vt.fg_console.trace ++ Event.mod_timer vt.blank_interval :: es) ∧
      vt_frame vt r := by
    intro vc3 f3 r hr
    have f4 : display_frame vc3 (set_cursor (set_palette venv.env
        (emit_if venv.console_blank_hook.isSome vc3 [Event.console_blank_hook 0]))) :=
      cursor_frame_display (cursor_frame_trans (cursor_frame_trans
        (cursor_frame_emit_if _ _ _) (set_palette_cursor _ _)) (set_cursor_cursor _))
    have f5 := display_frame_trans f3 f4
    have tr : ∃ es, r.fg_console.trace = vt1.fg_console.trace ++ Event.con_blank 0 1 :: es := by
      obtain ⟨es, hes⟩ := f5.2
      refine ⟨es, ?_⟩
      rw [hr]
      simp only []
      rw [hes, t2, List.append_assoc]
      rfl
    have tr1 : ∃ es, r.fg_console.trace = vt1.fg_console.trace ++ es := by
      obtain ⟨es, hes⟩ := tr
      exact ⟨_, hes⟩
    refine ⟨?_, ?_, ?_, ?_, ?_, ?_, ?_, ?_⟩
    · rw [hr]
      simp only []
      rw [f5.1]
      exact b2
    · rw [hr]
      exact g1.1
    · rw [hr]
      exact g1.2.1
    · rw [hr]
      exact g1.2.2.1
    · rw [hr]
      exact g1.2.2.2.1
    · rw [hr]
      simp only []
      rw [f5.1]
      exact c2
    · intro hi
      obtain ⟨es, hes⟩ := tr1
      refine ⟨es, ?_⟩
      rw [hes, g1.2.2.2.2.2.1 hi, List.append_assoc]
      rfl
    · refine vt_frame_trans g1.2.2.2.2.2.2 ⟨?_, tr1⟩
      rw [hr]
  constructor
  · intro r h
    rw [hd] at h
    by_cases hcb : venv.env.sw.con_blank vc1 0 1 ≠ 0
    · rw [if_pos hcb] at h
      cases hu : update_screen venv.env vc2 with
      | none =>
        rw [hu] at h
        cases h
      | some vc3 =>
        rw [hu] at h
        injection h with h
        exact hfin vc3 (update_screen_display venv.env vc2 vc3 hu).1 r h.symm
    · rw [if_neg hcb] at h
      injection h with h
      exact hfin vc2 (display_frame_refl vc2) r h.symm
  · intro hc
    rw [hd]
    by_cases hcb : venv.env.sw.con_blank vc1 0 1 ≠ 0
    · rw [if_pos hcb]
      obtain ⟨vc3, hu⟩ := update_screen_returns venv.env vc2 (by rw [c2]; exact hc)
      rw [hu]
      exact ⟨_, rfl⟩
    · rw [if_neg hcb]
      exact ⟨_, rfl⟩

/-- What `poke_blanked_console` leaves when it returns, and that it returns
when the console has at least one column or pokes are ignored. -/
theorem poke_blanked_console_result (venv : VtEnv) (vt : vt_struct) :
    (∀ r, poke_blanked_console venv vt = some r →
      r.blank_timer_expired = false ∧
      (∃ es, r.fg_console.trace = vt.fg_console.trace ++ Event.del_timer :: es) ∧
      (r.timer = none ∨
        (r.timer = some vt.blank_interval ∧ vt.blank_interval ≠ 0 ∧
          ∃ es, r.fg_console.trace = vt.fg_console.trace ++
            Event.del_timer :: Event.mod_timer vt.blank_interval :: es)) ∧
      r.fg_console.vc_cols = vt.fg_console.vc_cols ∧
      vt_frame vt r) ∧
    (vt.ignore_poke = true →
      poke_blanked_console venv vt =
        some { vt_emit vt Event.del_timer with timer := none, blank_timer_expired := false }) ∧
    (1 ≤ vt.fg_console.vc_cols → ∃ r, poke_blanked_console venv vt = some r) := by
  obtain ⟨vt1, hvt1⟩ : ∃ vt1, vt1 =
      { vt_emit vt Event.del_timer with timer := none, blank_timer_expired := false } :=
    ⟨_, rfl⟩
  have hd : poke_blanked_console venv vt =
      (if vt1.ignore_poke = true ∨ vt1.fg_console.vc_mode = KD_GRAPHICS then some vt1
      else if vt1.fg_console.vt_blanked then unblank_vt venv vt1
      else if vt1.blank_interval ≠ 0 then
        some { vt_emit vt1 (Event.mod_timer vt1.blank_interval) with
               timer := some vt1.blank_interval, blank_state := blank_normal_wait }
      else some vt1) := by
    rw [hvt1]
    rfl
  have fr1 : vt_frame vt vt1 := by
    rw [hvt1]
    exact ⟨rfl, [_], rfl⟩
  have t1 : vt1.fg_console.trace = vt.fg_console.trace ++ [Event.del_timer] := by
    rw [hvt1]
    rfl
  have x1 : vt1.blank_timer_expired = false := by rw [hvt1]
  have i1 : vt1.blank_interval = vt.blank_interval := by rw [hvt1]; rfl
  have m1 : vt1.timer = none := by rw [hvt1]
  have c1 : vt1.fg_console.vc_cols = vt.fg_console.vc_cols := by rw [hvt1]; rfl
  have base : vt1.blank_timer_expired = false ∧
      (∃ es, vt1.fg_console.trace = vt.fg_console.trace ++ Event.del_timer :: es) ∧
      (vt1.timer = none ∨
        (vt1.timer = some vt.blank_interval ∧ vt.blank_interval ≠ 0 ∧
          ∃ es, vt1.fg_console.trace = vt.fg_console.trace ++
            Event.del_timer :: Event.mod_timer vt.blank_interval :: es)) ∧
      vt1.fg_console.vc_cols = vt.fg_console.vc_cols ∧
      vt_frame vt vt1 := ⟨x1, ⟨[], t1⟩, Or.inl m1, c1, fr1⟩
  refine ⟨?_, ?_, ?_⟩
  · intro r h
    rw [hd] at h
    by_cases hi : vt1.ignore_poke = true ∨ vt1.fg_console.vc_mode = KD_GRAPHICS
    · rw [if_pos hi] at h
      injection h with h
      rw [← h]
      exact base
    · rw [if_neg hi] at h
      by_cases hb : vt1.fg_console.vt_blanked = true
      · rw [if_pos hb] at h
        by_cases hm : vt1.fg_console.vc_mode = KD_TEXT
        · have u := (unblank_vt_text venv vt1 hb hm).1 r h
          obtain ⟨-, -, ux, ut, -, uc, utr, ufr⟩ := u
          have fr := vt_frame_trans fr1 ufr
          have tr : ∃ es, r.fg_console.trace = vt.fg_console.trace ++ Event.del_timer :: es := by
            obtain ⟨es, hes⟩ := ufr.2
            refine ⟨es, ?_⟩
            rw [hes, t1, List.append_assoc]
            rfl
          refine ⟨ux.trans x1, tr, ?_, uc.trans c1, fr⟩
          by_cases hbi : vt.blank_interval ≠ 0
          · right
            rw [i1, if_pos hbi] at ut
            obtain ⟨es, hes⟩ := utr (by rw [i1]; exact hbi)
            refine ⟨ut, hbi, es, ?_⟩
            rw [hes, t1, i1, List.append_assoc]
            rfl
          · left
            rw [i1, if_neg hbi] at ut
            exact ut.trans m1
        · rw [unblank_vt_idle venv vt1 (Or.inr hm)] at h
          injection h with h
          rw [← h]
          exact ⟨x1, ⟨[], t1⟩, Or.inl m1, c1, vt_frame_trans fr1
            ⟨rfl, [], (List.append_nil _).symm⟩⟩
      · rw [if_neg hb] at h
        by_cases hbi : vt1.blank_interval ≠ 0
        · rw [if_pos hbi] at h
          injection h with h
          rw [← h]
          refine ⟨x1, ⟨[Event.mod_timer vt1.blank_interval], ?_⟩, Or.inr ?_, c1,
            vt_frame_trans fr1 ⟨rfl, [_], rfl⟩⟩
          · show vt1.fg_console.trace ++ [Event.mod_timer vt1.blank_interval] = _
            rw [t1, List.append_assoc]
            rfl
          · refine ⟨by rw [← i1], by rw [← i1]; exact hbi, [], ?_⟩
            show vt1.fg_console.trace ++ [Event.mod_timer vt1.blank_interval] = _
            rw [t1, i1, List.append_assoc]
            rfl
        · rw [if_neg hbi] at h
          injection h with h
          rw [← h]
          exact base
  · intro hi
    rw [hd, if_pos (Or.inl (by rw [hvt1]; exact hi)), hvt1]
  · intro hc
    rw [hd]
    by_cases hi : vt1.ignore_poke = true ∨ vt1.fg_console.vc_mode = KD_GRAPHICS
    · rw [if_pos hi]
      exact ⟨_, rfl⟩
    · rw [if_neg hi]
      by_cases hb : vt1.fg_console.vt_blanked = true
      · rw [if_pos hb]
        by_cases hm : vt1.fg_console.vc_mode = KD_TEXT
        · exact (unblank_vt_text venv vt1 hb hm).2 (by rw [c1]; exact hc)
        · rw [unblank_vt_idle venv vt1 (Or.inr hm)]
          exact ⟨_, rfl⟩
      · rw [if_neg hb]
        split_ifs
        · exact ⟨_, rfl⟩
        · exact ⟨_, rfl⟩

/-- C18 (amended): cancellation of the blank timer (ruby-2.6).  When
`poke_blanked_console` returns, the timer has been deleted first, the expiry
flag `blank_timer_expired` is 0 and the timer is either not pending or freshly
armed for `blank_interval` after the deletion; the call returns when the
console has at least one column.  `unblank_vt` does not cancel: when it
returns, the expiry flag is the one before the call, and the timer is the one
before the call unless a blanked text console is unblanked with a non-zero
`blank_interval`, in which case it is re-armed for `blank_interval`. -/
theorem blank_timer_cancellation (venv : VtEnv) (vt : vt_struct) :
    (∀ r, poke_blanked_console venv vt = some r →
      r.blank_timer_expired = false ∧
      (∃ es, r.fg_console.trace = vt.fg_console.trace ++ Event.del_timer :: es) ∧
      (r.timer = none ∨
        (r.timer = some vt.blank_interval ∧ vt.blank_interval ≠ 0 ∧
          ∃ es, r.fg_console.trace = vt.fg_console.trace ++
            Event.del_timer :: Event.mod_timer vt.blank_interval :: es))) ∧
    (1 ≤ vt.fg_console.vc_cols → ∃ r, poke_blanked_console venv vt = some r) ∧
    (∀ r, unblank_vt venv vt = some r →
      r.blank_timer_expired = vt.blank_timer_expired ∧
      r.timer = (if vt.fg_console.vt_blanked = true ∧ vt.fg_console.vc_mode = KD_TEXT ∧
          vt.blank_interval ≠ 0 then some vt.blank_interval else vt.timer)) ∧
    (1 ≤ vt.fg_console.vc_cols → ∃ r, unblank_vt venv vt = some r) := by
  have hp := poke_blanked_console_result venv vt
  refine ⟨fun r h => ⟨(hp.1 r h).1, (hp.1 r h).2.1, (hp.1 r h).2.2.1⟩, hp.2.2, ?_, ?_⟩
  · intro r h
    by_cases hb : vt.fg_console.vt_blanked = true
    · by_cases hm : vt.fg_console.vc_mode = KD_TEXT
      · have u := (unblank_vt_text venv vt hb hm).1 r h
        refine ⟨u.2.2.1, ?_⟩
        rw [u.2.2.2.1]
        by_cases hi : vt.blank_interval ≠ 0
        · rw [if_pos hi, if_pos ⟨hb, hm, hi⟩]
        · rw [if_neg hi, if_neg (fun hh => hi hh.2.2)]
      · rw [unblank_vt_idle venv vt (Or.inr hm)] at h
        injection h with h
        rw [← h, if_neg (fun hh => hm hh.2.1)]
        exact ⟨rfl, rfl⟩
    · have hb0 : vt.fg_console.vt_blanked = false := by
        cases hbb : vt.fg_console.vt_blanked
        · rfl
        · exact absurd hbb hb
      rw [unblank_vt_idle venv vt (Or.inl hb0)] at h
      injection h with h
      rw [← h, if_neg (fun hh => hb hh.1)]
      exact ⟨rfl, rfl⟩
  · intro hc
    by_cases hb : vt.fg_console.vt_blanked = true
    · by_cases hm : vt.fg_console.vc_mode = KD_TEXT
      · exact (unblank_vt_text venv vt hb hm).2 hc
      · exact ⟨_, unblank_vt_idle venv vt (Or.inr hm)⟩
    · have hb0 : vt.fg_console.vt_blanked = false := by
        cases hbb : vt.fg_console.vt_blanked
        · rfl
        · exact absurd hbb hb
      exact ⟨_, unblank_vt_idle venv vt (Or.inl hb0)⟩

/-- C20 (amended): `do_blank_screen(vt, 0)` (ruby-2.6), the handler of a
blank-timer expiry, on a console in text mode.  From the unblanked state
`blank_normal_wait` the screen is blanked, and the state moves to
`blank_vesa_wait` (with the timer armed for `off_interval`) only when
`off_interval` is not zero and no `console_blank_hook` ends the call with a
non-zero value; otherwise it moves to `blank_off` with no timer pending.
Blanked in `blank_vesa_wait`, the state moves to `blank_off`, the display is
powered down by `powerdown_screen` and the screen stays blanked.  In every
other state the call changes nothing. -/
theorem blank_timer_expiry_steps (venv : VtEnv) (vt : vt_struct)
    (hm : vt.fg_console.vc_mode = KD_TEXT) :
    (vt.fg_console.vt_blanked = false → vt.blank_state = blank_normal_wait →
      (do_blank_screen venv vt 0).fg_console.vt_blanked = true ∧
      (do_blank_screen venv vt 0).blank_state =
        (if venv.console_blank_hook.any (fun hook => decide (hook 1 ≠ 0)) = false ∧
            vt.off_interval ≠ 0 then blank_vesa_wait else blank_off) ∧
      (do_blank_screen venv vt 0).timer =
        (if venv.console_blank_hook.any (fun hook => decide (hook 1 ≠ 0)) = false ∧
            vt.off_interval ≠ 0 then some vt.off_interval else none)) ∧
    (vt.fg_console.vt_blanked = true → vt.blank_state = blank_vesa_wait →
      do_blank_screen venv vt 0 = powerdown_screen { vt with blank_state := blank_off } ∧
      (do_blank_screen venv vt 0).blank_state = blank_off ∧
      (do_blank_screen venv vt 0).fg_console.vt_blanked = true) ∧
    ((vt.fg_console.vt_blanked = true ∧ vt.blank_state ≠ blank_vesa_wait) ∨
        (vt.fg_console.vt_blanked = false ∧ vt.blank_state ≠ blank_normal_wait) →
      do_blank_screen venv vt 0 = vt) := by
  refine ⟨?_, ?_, do_blank_screen_idle venv vt 0⟩
  · intro hb hs
    have h := do_blank_screen_text_result venv vt hb hs hm
    exact ⟨h.1, h.2.2.2.2.2.1, h.2.2.2.2.2.2.1⟩
  · intro hb hs
    have e := do_blank_screen_powerdown venv vt 0 hb hs
    refine ⟨e, ?_, ?_⟩
    · rw [e]
      unfold powerdown_screen
      split_ifs <;> rfl
    · rw [e]
      unfold powerdown_screen
      split_ifs <;> exact hb

/-- C17: `vt_callback` (ruby-2.6) for a VT whose wanted console exists and has
a tty, whose foreground console has at least one column, with a
`change_console` that leaves a console of at least one column and only adds to
the trace.  The call returns, and its result is obtained through four
successive states: `vt1` after the switch, which is performed exactly when the
wanted console differs from the foreground console and `vt_dont_switch` is
off; `vt2` after the poke, run on `vt1` when `do_poke_blanked_console` is set;
`vt3` after the scrollback, run on `vt2` when its delta is not zero; and the
result after `do_blank_screen`, run on `vt3` when its expiry flag is set.  Each
step only adds to the trace of the step before.  On return the poke flag, the
scrollback delta and the expiry flag are all zero. -/
theorem vt_callback_order (venv : VtEnv) (vt : vt_struct) (w : Nat)
    (hw : vt.want_vc = some w) (htty : vt.want_vc_tty = true)
    (hc : 1 ≤ vt.fg_console.vc_cols)
    (hcc : ∀ v : vt_struct, 1 ≤ v.fg_console.vc_cols →
      1 ≤ (venv.change_console v).fg_console.vc_cols)
    (hlog : ∀ v : vt_struct, ∃ es,
      (venv.change_console v).fg_console.trace = v.fg_console.trace ++ es) :
    ∃ vt1 vt2 vt3 r : vt_struct,
      vt1 = (if w ≠ vt.fg_vc ∧ vt.vt_dont_switch = false then
          venv.change_console
            (vt_emit { vt with fg_console := hide_cursor vt.fg_console }
              (Event.change_console w vt.fg_vc))
        else vt) ∧
      (if vt1.do_poke_blanked_console then
          poke_blanked_console venv { vt1 with do_poke_blanked_console := false }
        else some vt1) = some vt2 ∧
      vt3 = (if vt2.scrollback_delta ≠ 0 then
          { vt2 with
            fg_console :=
              emit_if (vt2.fg_console.vc_mode == KD_TEXT)
                (emit vt2.fg_console Event.clear_selection)
                [Event.con_scroll vt2.scrollback_delta]
            scrollback_delta := 0 }
        else vt2) ∧
      r = (if vt3.blank_timer_expired then
          { do_blank_screen venv vt3 0 with blank_timer_expired := false }
        else vt3) ∧
      vt_callback venv vt = some r ∧
      r.do_poke_blanked_console = false ∧ r.scrollback_delta = 0 ∧
      r.blank_timer_expired = false ∧
      (∃ e1 e2 e3 e4,
        vt1.fg_console.trace = vt.fg_console.trace ++ e1 ∧
        vt2.fg_console.trace = vt1.fg_console.trace ++ e2 ∧
        vt3.fg_console.trace = vt2.fg_console.trace ++ e3 ∧
        r.fg_console.trace = vt3.fg_console.trace ++ e4) := by
  obtain ⟨vt1, hvt1⟩ : ∃ vt1, vt1 = (if w ≠ vt.fg_vc ∧ vt.vt_dont_switch = false then
      venv.change_console
        (vt_emit { vt with fg_console := hide_cursor vt.fg_console }
          (Event.change_console w vt.fg_vc))
    else vt) := ⟨_, rfl⟩
  have hd : vt_callback venv vt =
      (match (if vt1.do_poke_blanked_console then
          poke_blanked_console venv { vt1 with do_poke_blanked_console := false }
        else some vt1) with
      | none => none
      | some vt2 =>
        some (if (if vt2.scrollback_delta ≠ 0 then
              { vt2 with
                fg_console :=
                  emit_if (vt2.fg_console.vc_mode == KD_TEXT)
                    (emit vt2.fg_console Event.clear_selection)
                    [Event.con_scroll vt2.scrollback_delta]
                scrollback_delta := 0 }
            else vt2).blank_timer_expired then
            { do_blank_screen venv (if vt2.scrollback_delta ≠ 0 then
                { vt2 with
                  fg_console :=
                    emit_if (vt2.fg_console.vc_mode == KD_TEXT)
                      (emit vt2.fg_console Event.clear_selection)
                      [Event.con_scroll vt2.scrollback_delta]
                  scrollback_delta := 0 }
              else vt2) 0 with blank_timer_expired := false }
          else (if vt2.scrollback_delta ≠ 0 then
              { vt2 with
                fg_console :=
                  emit_if (vt2.fg_console.vc_mode == KD_TEXT)
                    (emit vt2.fg_console Event.clear_selection)
                    [Event.con_scroll vt2.scrollback_delta]
                scrollback_delta := 0 }
            else vt2))) := by
    unfold vt_callback
    split
    · next h =>
      rw [hw] at h
      cases h
    · next w' h =>
      rw [hw] at h
      injection h with h
      subst h
      rw [if_neg (by rw [htty]; decide), hvt1]
      try rfl
  have c1 : 1 ≤ vt1.fg_console.vc_cols := by
    rw [hvt1]
    split_ifs
    · apply hcc
      show 1 ≤ (hide_cursor vt.fg_console).vc_cols
      rw [(hide_cursor_cursor vt.fg_console).1]
      exact hc
    · exact hc
  have t1 : ∃ es, vt1.fg_console.trace = vt.fg_console.trace ++ es := by
    rw [hvt1]
    split_ifs
    · refine trace_extends_trans ?_ (hlog _)
      exact trace_extends_trans (hide_cursor_cursor vt.fg_console).2 ⟨[_], rfl⟩
    · exact ⟨[], (List.append_nil _).symm⟩
  obtain ⟨vt2, h2, p2, t2⟩ : ∃ vt2, (if vt1.do_poke_blanked_console then
        poke_blanked_console venv { vt1 with do_poke_blanked_console := false }
      else some vt1) = some vt2 ∧ vt2.do_poke_blanked_console = false ∧
      ∃ es, vt2.fg_console.trace = vt1.fg_console.trace ++ es := by
    by_cases hp : vt1.do_poke_blanked_console = true
    · rw [if_pos hp]
      have hr := poke_blanked_console_result venv { vt1 with do_poke_blanked_console := false }
      obtain ⟨vt2, h2⟩ := hr.2.2 c1
      have fr := (hr.1 vt2 h2).2.2.2.2
      refine ⟨vt2, h2, ?_, fr.2⟩
      rw [fr.1]
    · rw [if_neg hp]
      refine ⟨vt1, rfl, ?_, [], (List.append_nil _).symm⟩
      cases hpp : vt1.do_poke_blanked_console
      · rfl
      · exact absurd hpp hp
  obtain ⟨vt3, hvt3⟩ : ∃ vt3, vt3 = (if vt2.scrollback_delta ≠ 0 then
      { vt2 with
        fg_console :=
          emit_if (vt2.fg_console.vc_mode == KD_TEXT)
            (emit vt2.fg_console Event.clear_selection)
            [Event.con_scroll vt2.scrollback_delta]
        scrollback_delta := 0 }
    else vt2) := ⟨_, rfl⟩
  have p3 : vt3.do_poke_blanked_console = false := by
    rw [hvt3]
    split_ifs
    · exact p2
    · exact p2
  have s3 : vt3.scrollback_delta = 0 := by
    rw [hvt3]
    by_cases hs : vt2.scrollback_delta ≠ 0
    · rw [if_pos hs]
    · rw [if_neg hs]
      exact not_not.mp hs
  have t3 : ∃ es, vt3.fg_console.trace = vt2.fg_console.trace ++ es := by
    rw [hvt3]
    split_ifs
    · exact (cursor_frame_trans (cursor_frame_emit _ _) (cursor_frame_emit_if _ _ _)).2
    · exact ⟨[], (List.append_nil _).symm⟩
  obtain ⟨r, hr⟩ : ∃ r, r = (if vt3.blank_timer_expired then
      { do_blank_screen venv vt3 0 with blank_timer_expired := false }
    else vt3) := ⟨_, rfl⟩
  have hfr := (do_blank_screen_frame venv vt3).1
  have pr : r.do_poke_blanked_console = false ∧ r.scrollback_delta = 0 ∧
      r.blank_timer_expired = false ∧
      ∃ es, r.fg_console.trace = vt3.fg_console.trace ++ es := by
    rw [hr]
    by_cases hx : vt3.blank_timer_expired = true
    · rw [if_pos hx]
      refine ⟨?_, ?_, rfl, hfr.2⟩
      · show (do_blank_screen venv vt3 0).do_poke_blanked_console = false
        rw [hfr.1]
        exact p3
      · show (do_blank_screen venv vt3 0).scrollback_delta = 0
        rw [hfr.1]
        exact s3
    · rw [if_neg hx]
      refine ⟨p3, s3, ?_, [], (List.append_nil _).symm⟩
      cases hxx : vt3.blank_timer_expired
      · rfl
      · exact absurd hxx hx
  obtain ⟨e1, he1⟩ := t1
  obtain ⟨e2, he2⟩ := t2
  obtain ⟨e3, he3⟩ := t3
  obtain ⟨e4, he4⟩ := pr.2.2.2
  refine ⟨vt1, vt2, vt3, r, hvt1, h2, hvt3, hr, ?_, pr.1, pr.2.1, pr.2.2.1,
    e1, e2, e3, e4, he1, he2, he3, he4⟩
  rw [hd, h2, hr, hvt3]

/-! ### Displayability and glyph resolution -/

theorem ctrl_always_subset : ∀ c, c < 32 →
    (CTRL_ACTION >>> c) &&& 1 = 0 → (CTRL_ALWAYS >>> c) &&& 1 = 0 := by
  decide

/-- The displayability test of `do_con_write` in words. -/
theorem displayable_iff (vc : vc_data) (c tc : Nat) :
    displayable vc c tc = true ↔
      tc ≠ 0 ∧
      (32 ≤ c ∨ (vc.vc_utf = false ∧
        ((if vc.vc_disp_ctrl then CTRL_ALWAYS else CTRL_ACTION) >>> c) &&& 1 = 0)) ∧
      (c ≠ 127 ∨ vc.vc_disp_ctrl = true) ∧ c ≠ 155 := by
  unfold displayable
  simp only [Bool.and_eq_true, Bool.or_eq_true, decide_eq_true_eq, Bool.not_eq_true',
    ge_iff_le, ne_eq, Nat.reduceAdd]
  tauto

theorem write_code_rejected (env : Env) (vc : vc_data) (l : Locals) (c tc : Nat)
    (h : vc.vc_state ≠ 0 ∨ displayable vc c tc = false) :
    write_code env vc l c tc =
      (env.terminal_emulation (FLUSH env vc l).1 (c : Int), (FLUSH env vc l).2) := by
  unfold write_code
  rw [if_neg]
  rintro ⟨h1, h2⟩
  rcases h with h | h
  · exact h h1
  · rw [h2] at h
    cases h

theorem write_code_skipped (env : Env) (vc : vc_data) (l : Locals) (c tc : Nat)
    (hst : vc.vc_state = 0) (hok : displayable vc c tc = true)
    (hfont : conversion_failed (resolve_glyph env c tc) l.charmask = true) :
    write_code env vc l c tc = (vc, l) := by
  simp [write_code, hst, hok, hfont]

/-- The test `tc & ~charmask` on the 32-bit representation is the arithmetic
test of the model, for the two masks of the source. -/
theorem outside_font_range_eq (tc : Int) (charmask : Nat)
    (h1 : -2147483648 ≤ tc) (h2 : tc < 2147483648)
    (hm : charmask = 0xff ∨ charmask = 0x1ff) :
    outside_font_range tc charmask = conversion_failed tc charmask := by
  have hx : u32 tc < 4294967296 := by
    unfold u32
    omega
  have e1 : u32 tc &&& 0xffffffff = u32 tc := by
    have := Nat.and_pow_two_sub_one_eq_mod (u32 tc) 32
    norm_num at this
    rw [this]
    exact Nat.mod_eq_of_lt hx
  have key : ∀ k : Nat, k = 8 ∨ k = 9 →
      ((u32 tc &&& (0xffffffff ^^^ (2 ^ k - 1)) ≠ 0) ↔ (tc < 0 ∨ ((2 ^ k - 1 : Nat) : Int) < tc)) := by
    intro k hk
    have e2 : u32 tc &&& (2 ^ k - 1) = u32 tc % 2 ^ k := Nat.and_pow_two_sub_one_eq_mod _ _
    rw [Nat.and_xor_distrib_left, e1, e2, ne_eq, Nat.xor_eq_zero]
    unfold u32 at hx ⊢
    rcases hk with hk | hk <;> subst hk <;> norm_num <;> omega
  unfold outside_font_range conversion_failed
  rcases hm with hm | hm
  · subst hm
    have := key 8 (Or.inl rfl)
    norm_num at this
    simp only [this, Nat.cast_ofNat]
  · subst hm
    have := key 9 (Or.inr rfl)
    norm_num at this
    simp only [this, Nat.cast_ofNat]

theorem put_glyph_draws (env : Env) (vc : vc_data) (l : Locals) (g : Nat) :
    glyph_writes (put_glyph env vc l g).1.trace = glyph_writes vc.trace + 1 := by
  unfold put_glyph
  obtain ⟨es, he, h0⟩ := (prepare_cell_frame env vc l).2.1
  rw [(store_glyph_facts _ _ g).2.1, he, glyph_writes_append, glyph_writes_append, h0]
  rfl

/-- C21 (amended): the displayability test of `do_con_write` (ruby-2.6) for a
code `c` that reaches the test with the translated code `tc`.  The test
accepts exactly when `tc` is not zero, `c >= 32` or the console is not in UTF-8
mode and bit `c` of the control bitmap (`CTRL_ALWAYS` with display-control mode
on, `CTRL_ACTION` with it off) is clear, `c != 127` or display-control mode is
on, and `c != 155`.  In the normal state a code that passes the test goes to
the glyph resolution: it is drawn (one glyph store) when the resolved index is
within the font, and skipped without any effect when it is not.  A code that
fails the test, a zero translated code included, is handed to
`terminal_emulation` after a flush of the pending run, and so is a code that
reaches the test in a control state.  Every iteration of the loop either
applies this step to some pair of codes, on the console with at most the two
decoder fields changed, or consumes a byte above 0x7f in UTF-8 mode without
reaching the test, changing at most the two decoder fields. -/
theorem displayability_test (env : Env) (vc : vc_data) (l : Locals) (c tc : Nat) :
    (displayable vc c tc = true ↔
      tc ≠ 0 ∧
      (32 ≤ c ∨ (vc.vc_utf = false ∧
        ((if vc.vc_disp_ctrl then CTRL_ALWAYS else CTRL_ACTION) >>> c) &&& 1 = 0)) ∧
      (c ≠ 127 ∨ vc.vc_disp_ctrl = true) ∧ c ≠ 155) ∧
    (vc.vc_state = 0 → displayable vc c tc = true →
      conversion_failed (resolve_glyph env c tc) l.charmask = false →
      write_code env vc l c tc = put_glyph env vc l (resolve_glyph env c tc).toNat ∧
      glyph_writes (write_code env vc l c tc).1.trace = glyph_writes vc.trace + 1) ∧
    (vc.vc_state = 0 → displayable vc c tc = true →
      conversion_failed (resolve_glyph env c tc) l.charmask = true →
      write_code env vc l c tc = (vc, l)) ∧
    (vc.vc_state ≠ 0 ∨ displayable vc c tc = false →
      write_code env vc l c tc =
        (env.terminal_emulation (FLUSH env vc l).1 (c : Int), (FLUSH env vc l).2)) ∧
    (∃ vc1 : vc_data,
      vc1 = { vc with vc_utf_count := vc1.vc_utf_count, vc_utf_char := vc1.vc_utf_char } ∧
      ((∃ c1 tc1, do_con_write_byte env vc l c =
          write_code env vc1 { l with n := l.n + 1 } c1 tc1) ∨
       (vc.vc_utf = true ∧ 0x7f < c ∧
          do_con_write_byte env vc l c = (vc1, { l with n := l.n + 1 })))) := by
  refine ⟨displayable_iff vc c tc, ?_, ?_, ?_, ?_⟩
  · intro hs hok hf
    have e := write_code_glyph env vc l c tc hs hok hf
    refine ⟨e, ?_⟩
    rw [e]
    exact put_glyph_draws env vc l _
  · intro hs hok hf
    exact write_code_skipped env vc l c tc hs hok hf
  · intro h
    exact write_code_rejected env vc l c tc h
  · by_cases hs : vc.vc_state = 0
    · exact ⟨vc, rfl, Or.inl ⟨c, c, do_con_write_byte_normal env vc l c hs⟩⟩
    · by_cases hu : vc.vc_utf = true
      · by_cases hc : c > 0x7f
        · cases hstep : (utf8_step vc.vc_utf_count vc.vc_utf_char c).2.2 with
          | none =>
            refine ⟨{ vc with
                vc_utf_count := (utf8_step vc.vc_utf_count vc.vc_utf_char c).1,
                vc_utf_char := (utf8_step vc.vc_utf_count vc.vc_utf_char c).2.1 }, rfl,
              Or.inr ⟨hu, hc, ?_⟩⟩
            unfold do_con_write_byte
            simp only []
            rw [if_neg hs, if_pos hu, if_pos hc]
            simp only [utf8_byte, hstep]
          | some ch =>
            refine ⟨{ vc with
                vc_utf_count := (utf8_step vc.vc_utf_count vc.vc_utf_char c).1,
                vc_utf_char := (utf8_step vc.vc_utf_count vc.vc_utf_char c).2.1 }, rfl,
              Or.inl ⟨ch, ch, ?_⟩⟩
            unfold do_con_write_byte
            simp only []
            rw [if_neg hs, if_pos hu, if_pos hc]
            simp only [utf8_byte, hstep]
        · refine ⟨{ vc with vc_utf_count := 0 }, rfl, Or.inl ⟨c, c, ?_⟩⟩
          unfold do_con_write_byte
          simp only []
          rw [if_neg hs, if_pos hu, if_neg hc]
      · refine ⟨vc, rfl, Or.inl ⟨c,
          vc.vc_translate (if vc.vc_toggle_meta then c ||| 0x80 else c), ?_⟩⟩
        unfold do_con_write_byte
        simp only []
        rw [if_neg hs, if_neg hu]

/-- C23: glyph resolution in `do_con_write` (ruby-2.6) for a byte `c` with the
code `tc` that passes the displayability test in the normal state.  The glyph
index is the lookup of `tc`; when that is -4 (not found) it is the lookup of
U+FFFD, and the raw byte `c` when that is -4 too; when the first lookup is -3
(bad table) it is the raw byte `c`.  The index is outside the font exactly
when it has a bit outside `charmask` (0xff, or 0x1ff with a 512-glyph font),
that is when it is negative or above the mask; then the character is skipped:
the console, and with it every cell, the cursor and `need_wrap`, and the
pending run are unchanged.  Otherwise the glyph is placed. -/
theorem glyph_resolution (env : Env) (vc : vc_data) (l : Locals) (c tc : Nat)
    (hs : vc.vc_state = 0) (hok : displayable vc c tc = true) :
    (env.conv_uni_to_pc tc ≠ -4 → env.conv_uni_to_pc tc ≠ -3 →
      resolve_glyph env c tc = env.conv_uni_to_pc tc) ∧
    (env.conv_uni_to_pc tc = -4 → env.conv_uni_to_pc 0xfffd ≠ -4 →
      resolve_glyph env c tc = env.conv_uni_to_pc 0xfffd) ∧
    (env.conv_uni_to_pc tc = -4 → env.conv_uni_to_pc 0xfffd = -4 →
      resolve_glyph env c tc = (c : Int)) ∧
    (env.conv_uni_to_pc tc = -3 → resolve_glyph env c tc = (c : Int)) ∧
    (initial_locals vc).charmask = (if vc.vc_hi_font_mask ≠ 0 then 0x1ff else 0xff) ∧
    (-2147483648 ≤ resolve_glyph env c tc → resolve_glyph env c tc < 2147483648 →
      l.charmask = 0xff ∨ l.charmask = 0x1ff →
      outside_font_range (resolve_glyph env c tc) l.charmask =
        conversion_failed (resolve_glyph env c tc) l.charmask) ∧
    (conversion_failed (resolve_glyph env c tc) l.charmask = true →
      write_code env vc l c tc = (vc, l)) ∧
    (conversion_failed (resolve_glyph env c tc) l.charmask = false →
      write_code env vc l c tc = put_glyph env vc l (resolve_glyph env c tc).toNat) := by
  refine ⟨?_, ?_, ?_, ?_, rfl, ?_, ?_, ?_⟩
  · intro h1 h2
    unfold resolve_glyph
    simp only []
    rw [if_neg h1, if_neg h2]
  · intro h1 h2
    unfold resolve_glyph
    simp only []
    rw [if_pos h1, if_neg h2]
  · intro h1 h2
    unfold resolve_glyph
    simp only []
    rw [if_pos h1, if_pos h2]
  · intro h1
    unfold resolve_glyph
    simp only []
    rw [if_neg (by rw [h1]; decide), if_pos h1]
  · intro h1 h2 hm
    exact outside_font_range_eq _ _ h1 h2 hm
  · intro hf
    exact write_code_skipped env vc l c tc hs hok hf
  · intro hf
    exact write_code_glyph env vc l c tc hs hok hf

/-- C30: display-control mode is monotone (ruby-2.6).  `CTRL_ALWAYS` is a
bit-subset of `CTRL_ACTION`; hence, for every byte, code and console state, a
byte that the displayability test of `do_con_write` accepts with
display-control mode off is accepted with it on; and in the normal state such a
byte goes to the glyph resolution with the mode on as well, never to
`terminal_emulation`. -/
theorem disp_ctrl_monotone (env : Env) (vc : vc_data) (l : Locals) (c tc : Nat) :
    CTRL_ALWAYS &&& CTRL_ACTION = CTRL_ALWAYS ∧
    (displayable { vc with vc_disp_ctrl := false } c tc = true →
      displayable { vc with vc_disp_ctrl := true } c tc = true) ∧
    (vc.vc_state = 0 → displayable { vc with vc_disp_ctrl := false } c tc = true →
      write_code env { vc with vc_disp_ctrl := true } l c tc =
        if conversion_failed (resolve_glyph env c tc) l.charmask = true then
          ({ vc with vc_disp_ctrl := true }, l)
        else put_glyph env { vc with vc_disp_ctrl := true } l (resolve_glyph env c tc).toNat) := by
  have mono : displayable { vc with vc_disp_ctrl := false } c tc = true →
      displayable { vc with vc_disp_ctrl := true } c tc = true := by
    intro h
    rw [displayable_iff] at h ⊢
    obtain ⟨h1, h2, -, h4⟩ := h
    refine ⟨h1, ?_, Or.inr rfl, h4⟩
    rcases h2 with h2 | ⟨hu, hb⟩
    · exact Or.inl h2
    · by_cases hc : 32 ≤ c
      · exact Or.inl hc
      · exact Or.inr ⟨hu, ctrl_always_subset c (by omega) hb⟩
  refine ⟨by decide, mono, ?_⟩
  intro hs h
  have hon := mono h
  by_cases hf : conversion_failed (resolve_glyph env c tc) l.charmask = true
  · rw [if_pos hf]
    exact write_code_skipped env _ l c tc hs hon hf
  · rw [if_neg hf]
    exact write_code_glyph env _ l c tc hs hon (by
      cases hcf : conversion_failed (resolve_glyph env c tc) l.charmask
      · rfl
      · exact absurd hcf hf)

/-- C22: `do_con_write` (ruby-2.6) in a control state (`vc_state` 1) with an
environment that records what `terminal_emulation` is handed.  In UTF-8 mode
the two bytes C3 A9 are consumed, but the lead byte C3 is not forwarded and the
byte A9 reaches `terminal_emulation` as the assembled code 0xE9: the UTF-8
assembly runs in the control state.  Outside UTF-8 mode the same two bytes are
forwarded unchanged and in order.  No cell is written in either case. -/
theorem control_state_utf8_is_assembled :
    sample_control_utf_console.vc_state ≠ 0 ∧
    (do_con_write sample_tracing_env sample_control_utf_console [0xc3, 0xa9]).1 = 2 ∧
    (do_con_write sample_tracing_env sample_control_utf_console [0xc3, 0xa9]).2.trace =
      [Event.terminal_emulation 0xe9] ∧
    (do_con_write sample_tracing_env sample_control_utf_console [0xc3]).2.trace = [] ∧
    (do_con_write sample_tracing_env
      { sample_control_utf_console with vc_utf := false } [0xc3, 0xa9]).2.trace =
      [Event.terminal_emulation 0xc3, Event.terminal_emulation 0xa9] := by
  decide

/-! ### The soft cursor -/

/-- C27: the soft cursor of `add_softcursor` / `hide_softcursor` (ruby-2.6).
Starting with no soft cursor outstanding (`cursor_original = -1`) and a cursor
type with bit 0x10 set, `add_softcursor` saves the cell under the cursor and
does not move the cursor; `hide_softcursor` after it restores the cell under
the cursor to its original 16-bit value, leaves every other address as it was
and resets `cursor_original` to -1.  A second `add_softcursor` while one is
outstanding changes nothing, neither the cell nor the saved original; this
holds for every console with a saved original. -/
theorem softcursor_round_trip (vc : vc_data) (h0 : vc.cursor_original = -1)
    (ht : vc.vc_cursor_type &&& 0x10 ≠ 0) :
    (add_softcursor vc).cursor_original = (scr_readw vc.mem vc.vc_pos : Int) ∧
    (add_softcursor vc).vc_pos = vc.vc_pos ∧
    scr_readw (hide_softcursor (add_softcursor vc)).mem vc.vc_pos =
      scr_readw vc.mem vc.vc_pos ∧
    (∀ a, a ≠ vc.vc_pos → (hide_softcursor (add_softcursor vc)).mem a = vc.mem a) ∧
    (hide_softcursor (add_softcursor vc)).cursor_original = -1 ∧
    add_softcursor (add_softcursor vc) = add_softcursor vc ∧
    (∀ v : vc_data, v.cursor_original ≠ -1 → add_softcursor v = v) := by
  have hlt := scr_readw_lt vc.mem vc.vc_pos
  have hkeep : ∀ v : vc_data, v.cursor_original ≠ -1 → add_softcursor v = v := by
    intro v hv
    unfold add_softcursor
    simp only []
    by_cases h1 : v.vc_cursor_type &&& 0x10 = 0
    · rw [if_pos h1]
    · rw [if_neg h1, if_pos hv]
  obtain ⟨A, hA⟩ : ∃ A, A = add_softcursor vc := ⟨_, rfl⟩
  have horig : A.cursor_original = (scr_readw vc.mem vc.vc_pos : Int) := by
    rw [hA]
    unfold add_softcursor
    simp only []
    rw [if_neg ht, if_neg (by rw [h0]; exact fun h => h rfl)]
    rfl
  have hpos : A.vc_pos = vc.vc_pos := by
    rw [hA]
    unfold add_softcursor
    simp only []
    rw [if_neg ht, if_neg (by rw [h0]; exact fun h => h rfl)]
    rfl
  have hmem : ∀ a, a ≠ vc.vc_pos → A.mem a = vc.mem a := by
    intro a ha
    rw [hA]
    unfold add_softcursor
    simp only []
    rw [if_neg ht, if_neg (by rw [h0]; exact fun h => h rfl)]
    simp only [emit_if, scr_writew, if_neg ha]
  have hne : A.cursor_original ≠ -1 := by
    rw [horig]
    omega
  have hval : (A.cursor_original % 65536).toNat = scr_readw vc.mem vc.vc_pos := by
    rw [horig]
    omega
  have hhide : hide_softcursor A =
      { emit_if A.is_visible
          { A with mem := scr_writew A.mem (A.cursor_original % 65536).toNat A.vc_pos }
          [Event.con_putc (A.cursor_original % 65536).toNat A.vc_y A.vc_x] with
        cursor_original := -1 } := by
    unfold hide_softcursor
    rw [if_pos hne]
  rw [← hA]
  refine ⟨horig, hpos, ?_, ?_, ?_, hkeep A hne, hkeep⟩
  · rw [hhide]
    simp only [emit_if]
    rw [hpos, scr_readw_writew, hval, Nat.mod_eq_of_lt hlt]
  · intro a ha
    rw [hhide]
    simp only [emit_if, scr_writew]
    rw [hpos, if_neg ha]
    exact hmem a ha
  · rw [hhide]

/-! ### The older `vc_resize` -/

theorem resize_screen_fields (env : Env) (vc : vc_data) (w h : Nat) :
    (resize_screen env vc w h).2.vc_rows = vc.vc_rows ∧
    (resize_screen env vc w h).2.vc_cols = vc.vc_cols ∧
    (resize_screen env vc w h).2.vc_size_row = vc.vc_size_row ∧
    (resize_screen env vc w h).2.vc_screenbuf_size = vc.vc_screenbuf_size ∧
    (resize_screen env vc w h).2.vc_screenbuf = vc.vc_screenbuf ∧
    (resize_screen env vc w h).2.mem = vc.mem := by
  rw [resize_screen_frame]
  exact ⟨rfl, rfl, rfl, rfl, rfl, rfl⟩

/-- C28: `vc_resize` of the older `vt.c` when the driver refuses the new
geometry.  Whenever the size changes (to `new_cols` x `new_rows`), the
allocation succeeds and `resize_screen` returns a non-zero error, the call
returns that error, and the console it leaves has the NEW rows, columns, row
size and buffer size, while its buffer and cells are the old ones: the
dimensions were assigned before the driver was asked and are not restored.  On
the visible 80x25 sample console with a driver that refuses every geometry, the
request for 100x30 returns -22 and leaves a console of 100 columns and 30 rows,
row size 200 and buffer size 6000, over the old buffer. -/
theorem old_vc_resize_refusal_keeps_new_size :
    (∀ (env : Env) (font : Old.console_font) (vc : vc_data)
      (cols lines newscreen new_cols new_rows : Nat),
      new_cols = (if cols ≠ 0 then cols else vc.vc_cols) →
      new_rows = (if lines ≠ 0 then lines else vc.vc_rows) →
      ¬ (new_cols = vc.vc_cols ∧ new_rows = vc.vc_rows) →
      env.kmalloc ((((new_cols <<< 1) % 4294967296) * new_rows) % 4294967296) =
        some newscreen →
      (resize_screen env
        { vc with vc_rows := new_rows, vc_cols := new_cols,
                  vc_size_row := (new_cols <<< 1) % 4294967296,
                  vc_screenbuf_size :=
                    (((new_cols <<< 1) % 4294967296) * new_rows) % 4294967296 }
        ((new_cols * font.width) % 4294967296)
        ((new_rows * font.height) % 4294967296)).1 ≠ 0 →
      ∃ err v, Old.vc_resize env font vc cols lines = some (err, v) ∧ err ≠ 0 ∧
        v.vc_rows = new_rows ∧ v.vc_cols = new_cols ∧
        v.vc_size_row = (new_cols <<< 1) % 4294967296 ∧
        v.vc_screenbuf_size = (((new_cols <<< 1) % 4294967296) * new_rows) % 4294967296 ∧
        v.vc_screenbuf = vc.vc_screenbuf ∧ v.mem = vc.mem) ∧
    (Old.vc_resize sample_refusing_env { width := 8, height := 16 }
        sample_visible_console 100 30).map
        (fun r => (r.1, r.2.vc_cols, r.2.vc_rows, r.2.vc_size_row, r.2.vc_screenbuf_size,
          r.2.vc_screenbuf)) =
      some (-22, 100, 30, 200, 6000, sample_visible_console.vc_screenbuf) ∧
    (sample_visible_console.vc_cols, sample_visible_console.vc_rows,
      sample_visible_console.vc_size_row, sample_visible_console.vc_screenbuf_size) =
      (80, 25, 160, 4000) := by
  constructor
  · intro env font vc cols lines newscreen new_cols new_rows hc hl hne hk hr
    obtain ⟨V, hV⟩ : ∃ V, V =
        { vc with vc_rows := new_rows, vc_cols := new_cols,
                  vc_size_row := (new_cols <<< 1) % 4294967296,
                  vc_screenbuf_size :=
                    (((new_cols <<< 1) % 4294967296) * new_rows) % 4294967296 } :=
      ⟨_, rfl⟩
    rw [← hV] at hr
    have e : Old.vc_resize env font vc cols lines =
        some ((resize_screen env V ((new_cols * font.width) % 4294967296)
            ((new_rows * font.height) % 4294967296)).1,
          (resize_screen env
            (resize_screen env V ((new_cols * font.width) % 4294967296)
              ((new_rows * font.height) % 4294967296)).2
            ((vc.vc_cols * font.width) % 4294967296)
            ((vc.vc_rows * font.height) % 4294967296)).2) := by
      unfold Old.vc_resize
      simp only []
      rw [← hc, ← hl, if_neg hne, hk]
      simp only []
      rw [← hV, if_pos hr]
    obtain ⟨a1, a2, a3, a4, a5, a6⟩ := resize_screen_fields env
      (resize_screen env V ((new_cols * font.width) % 4294967296)
        ((new_rows * font.height) % 4294967296)).2
      ((vc.vc_cols * font.width) % 4294967296) ((vc.vc_rows * font.height) % 4294967296)
    obtain ⟨b1, b2, b3, b4, b5, b6⟩ := resize_screen_fields env V
      ((new_cols * font.width) % 4294967296) ((new_rows * font.height) % 4294967296)
    refine ⟨_, _, e, hr, ?_, ?_, ?_, ?_, ?_, ?_⟩
    · rw [a1, b1, hV]
    · rw [a2, b2, hV]
    · rw [a3, b3, hV]
    · rw [a4, b4, hV]
    · rw [a5, b5, hV]
    · rw [a6, b6, hV]
  · exact ⟨by decide, by decide⟩

/-! ### UTF-8 assembly in the older `do_con_write` -/

theorem utf8_shift_or (char b : Nat) : (char <<< 6) ||| (b &&& 0x3f) = 64 * char + b % 64 := by
  have h1 : b &&& 0x3f = b % 64 := Nat.and_pow_two_sub_one_eq_mod b 6
  have h2 : b % 64 < 2 ^ 6 := Nat.mod_lt _ (by norm_num)
  rw [h1, Nat.shiftLeft_eq, Nat.mul_comm, ← Nat.mul_add_lt_is_or h2]

theorem utf8_payloads : ∀ c, c < 256 →
    (0xc0 ≤ c ∧ c ≤ 0xdf → c &&& 0x1f = c - 0xc0) ∧
    (0xe0 ≤ c ∧ c ≤ 0xef → c &&& 0x0f = c - 0xe0) ∧
    (0xf0 ≤ c ∧ c ≤ 0xf7 → c &&& 0x07 = c - 0xf0) ∧
    (0xf8 ≤ c ∧ c ≤ 0xfb → c &&& 0x03 = c - 0xf8) ∧
    (0xfc ≤ c ∧ c ≤ 0xfd → c &&& 0x01 = c - 0xfc) := by
  decide!

theorem utf8_lead_lt (c k payload : Nat) (h : utf8_lead c = some (k, payload)) : c < 256 := by
  unfold utf8_lead at h
  split_ifs at h <;> omega

theorem utf8_lead_step (c k payload : Nat) (h : utf8_lead c = some (k, payload)) :
    0x7f < c ∧ 1 ≤ k ∧ k ≤ 5 ∧
    ∀ count char, utf8_step count char c = (k, payload, none) := by
  have hc := utf8_lead_lt c k payload h
  obtain ⟨m1, m2, m3, m4, m5, m6⟩ := utf8_masks c hc
  obtain ⟨p1, p2, p3, p4, p5⟩ := utf8_payloads c hc
  unfold utf8_lead at h
  by_cases c1 : 0xc0 ≤ c ∧ c ≤ 0xdf
  · rw [if_pos c1] at h
    injection h with h
    injection h with hk hp
    subst hk hp
    refine ⟨by omega, by omega, by omega, ?_⟩
    intro count char
    unfold utf8_step
    rw [if_neg (by rw [m1]; omega), if_pos (m2.2 c1), p1 c1]
  · rw [if_neg c1] at h
    by_cases c2 : 0xe0 ≤ c ∧ c ≤ 0xef
    · rw [if_pos c2] at h
      injection h with h
      injection h with hk hp
      subst hk hp
      refine ⟨by omega, by omega, by omega, ?_⟩
      intro count char
      unfold utf8_step
      rw [if_neg (by rw [m1]; omega), if_neg (by rw [m2]; exact c1), if_pos (m3.2 c2), p2 c2]
    · rw [if_neg c2] at h
      by_cases c3 : 0xf0 ≤ c ∧ c ≤ 0xf7
      · rw [if_pos c3] at h
        injection h with h
        injection h with hk hp
        subst hk hp
        refine ⟨by omega, by omega, by omega, ?_⟩
        intro count char
        unfold utf8_step
        rw [if_neg (by rw [m1]; omega), if_neg (by rw [m2]; exact c1),
          if_neg (by rw [m3]; exact c2), if_pos (m4.2 c3), p3 c3]
      · rw [if_neg c3] at h
        by_cases c4 : 0xf8 ≤ c ∧ c ≤ 0xfb
        · rw [if_pos c4] at h
          injection h with h
          injection h with hk hp
          subst hk hp
          refine ⟨by omega, by omega, by omega, ?_⟩
          intro count char
          unfold utf8_step
          rw [if_neg (by rw [m1]; omega), if_neg (by rw [m2]; exact c1),
            if_neg (by rw [m3]; exact c2), if_neg (by rw [m4]; exact c3), if_pos (m5.2 c4),
            p4 c4]
        · rw [if_neg c4] at h
          by_cases c5 : 0xfc ≤ c ∧ c ≤ 0xfd
          · rw [if_pos c5] at h
            injection h with h
            injection h with hk hp
            subst hk hp
            refine ⟨by omega, by omega, by omega, ?_⟩
            intro count char
            unfold utf8_step
            rw [if_neg (by rw [m1]; omega), if_neg (by rw [m2]; exact c1),
              if_neg (by rw [m3]; exact c2), if_neg (by rw [m4]; exact c3),
              if_neg (by rw [m5]; exact c4), if_pos (m6.2 c5), p5 c5]
          · rw [if_neg c5] at h
            exact absurd h (by simp)

theorem utf8_cont_step (count char b : Nat) (hcount : 0 < count) (hb : 0x80 ≤ b ∧ b ≤ 0xbf) :
    utf8_step count char b =
      (count - 1, 64 * char + b % 64,
        if count - 1 = 0 then some (64 * char + b % 64) else none) := by
  have hm := (utf8_masks b (by omega)).1
  unfold utf8_step
  rw [if_pos ⟨hcount, hm.2 hb⟩, utf8_shift_or]
  by_cases h : count - 1 = 0
  · rw [if_pos h, if_pos h]
  · rw [if_neg h, if_neg h]

theorem old_byte_lead (env : Env) (vc : vc_data) (l : Locals) (c k payload : Nat)
    (hutf : vc.vc_utf = true) (h : utf8_lead c = some (k, payload)) :
    Old.do_con_write_byte env vc l c =
      ({ vc with vc_utf_count := k, vc_utf_char := payload }, { l with n := l.n + 1 }) := by
  obtain ⟨h1, -, -, hs⟩ := utf8_lead_step c k payload h
  unfold Old.do_con_write_byte
  simp only []
  rw [if_pos hutf, if_pos h1]
  simp only [utf8_byte, hs]

theorem old_byte_cont (env : Env) (vc : vc_data) (l : Locals) (b : Nat)
    (hutf : vc.vc_utf = true) (hcount : 1 < vc.vc_utf_count) (hb : 0x80 ≤ b ∧ b ≤ 0xbf) :
    Old.do_con_write_byte env vc l b =
      ({ vc with vc_utf_count := vc.vc_utf_count - 1,
                 vc_utf_char := 64 * vc.vc_utf_char + b % 64 }, { l with n := l.n + 1 }) := by
  have hs := utf8_cont_step vc.vc_utf_count vc.vc_utf_char b (by omega) hb
  rw [if_neg (by omega)] at hs
  unfold Old.do_con_write_byte
  simp only []
  rw [if_pos hutf, if_pos (by omega)]
  simp only [utf8_byte, hs]

theorem old_byte_last (env : Env) (vc : vc_data) (l : Locals) (b : Nat)
    (hutf : vc.vc_utf = true) (hcount : vc.vc_utf_count = 1) (hb : 0x80 ≤ b ∧ b ≤ 0xbf) :
    Old.do_con_write_byte env vc l b =
      write_code env
        { vc with vc_utf_count := 0, vc_utf_char := 64 * vc.vc_utf_char + b % 64 }
        { l with n := l.n + 1 } (64 * vc.vc_utf_char + b % 64)
        (64 * vc.vc_utf_char + b % 64) := by
  have hs := utf8_cont_step vc.vc_utf_count vc.vc_utf_char b (by omega) hb
  rw [if_pos (by omega), hcount] at hs
  unfold Old.do_con_write_byte
  simp only []
  rw [if_pos hutf, if_pos (by omega)]
  simp only [utf8_byte, hs, hcount]

/-- The continuation bytes of a sequence that do not complete it only update
the two decoder fields. -/
theorem old_loop_conts (env : Env) : ∀ (conts : List Nat) (vc : vc_data) (l : Locals),
    vc.vc_utf = true → vc.tty_stopped = false → conts.length < vc.vc_utf_count →
    (∀ b ∈ conts, 0x80 ≤ b ∧ b ≤ 0xbf) →
    Old.do_con_write_loop env vc l conts =
      ({ vc with vc_utf_count := vc.vc_utf_count - conts.length,
                 vc_utf_char := utf8_value vc.vc_utf_char conts },
       { l with n := l.n + conts.length }) := by
  intro conts
  induction conts with
  | nil => intro vc l _ _ _ _; rfl
  | cons b rest ih =>
    intro vc l hutf hstop hlen hb
    have hlen2 : rest.length + 1 < vc.vc_utf_count := hlen
    have e := old_byte_cont env vc l b hutf (by omega) (hb b (List.mem_cons_self _ _))
    have step : Old.do_con_write_loop env vc l (b :: rest) =
        Old.do_con_write_loop env (Old.do_con_write_byte env vc l b).1
          (Old.do_con_write_byte env vc l b).2 rest := by
      simp only [Old.do_con_write_loop, hstop, Bool.false_eq_true, if_false]
    rw [step, e]
    refine (ih { vc with vc_utf_count := vc.vc_utf_count - 1,
                         vc_utf_char := 64 * vc.vc_utf_char + b % 64 }
      { l with n := l.n + 1 } hutf hstop (by show rest.length < vc.vc_utf_count - 1; omega)
      (fun x hx => hb x (List.mem_cons_of_mem _ hx))).trans ?_
    have h1 : vc.vc_utf_count - 1 - rest.length = vc.vc_utf_count - (b :: rest).length := by
      simp only [List.length_cons]; omega
    have h2 : l.n + 1 + rest.length = l.n + (b :: rest).length := by
      simp only [List.length_cons]; omega
    show ({ vc with vc_utf_count := vc.vc_utf_count - 1 - rest.length,
                    vc_utf_char := utf8_value (64 * vc.vc_utf_char + b % 64) rest },
          { l with n := l.n + 1 + rest.length }) = _
    rw [h1, h2]
    rfl

theorem utf8_value_append (payload : Nat) (xs : List Nat) (b : Nat) :
    utf8_value payload (xs ++ [b]) = 64 * utf8_value payload xs + b % 64 := by
  simp [utf8_value, List.foldl_append]

/-- C29: UTF-8 assembly in the older `do_con_write`, in UTF-8 mode.  For a lead
byte `c` matching one of the five lead patterns (`k` continuation bytes,
`k` in 1..5, payload bits `payload`) followed by `k` continuation bytes of the
form 10xxxxxx: after the lead byte and any `j < k` of the continuation bytes
no code has been produced, only the bytes are counted and the two decoder
fields are updated, `k - j` bytes being still expected; after the last byte the
loop is at the displayability test with the standard UTF-8 value as the input
code and as the code to look up, and the pending count is 0.  The console may
start in any decoder state: a pending sequence is discarded by the lead
byte. -/
theorem utf8_assembly (env : Env) (vc : vc_data) (l : Locals) (c k payload : Nat)
    (conts : List Nat) (hutf : vc.vc_utf = true) (hstop : vc.tty_stopped = false)
    (hlead : utf8_lead c = some (k, payload)) (hlen : conts.length = k)
    (hcont : ∀ b ∈ conts, 0x80 ≤ b ∧ b ≤ 0xbf) :
    1 ≤ k ∧ k ≤ 5 ∧
    (∀ j, j < k →
      Old.do_con_write_loop env vc l (c :: conts.take j) =
        ({ vc with vc_utf_count := k - j, vc_utf_char := utf8_value payload (conts.take j) },
         { l with n := l.n + 1 + j })) ∧
    Old.do_con_write_loop env vc l (c :: conts) =
      write_code env
        { vc with vc_utf_count := 0, vc_utf_char := utf8_value payload conts }
        { l with n := l.n + 1 + k } (utf8_value payload conts) (utf8_value payload conts) := by
  obtain ⟨-, hk1, hk5, -⟩ := utf8_lead_step c k payload hlead
  have e := old_byte_lead env vc l c k payload hutf hlead
  have step : ∀ rest, Old.do_con_write_loop env vc l (c :: rest) =
      Old.do_con_write_loop env
        { vc with vc_utf_count := k, vc_utf_char := payload } { l with n := l.n + 1 } rest := by
    intro rest
    have s : Old.do_con_write_loop env vc l (c :: rest) =
        Old.do_con_write_loop env (Old.do_con_write_byte env vc l c).1
          (Old.do_con_write_byte env vc l c).2 rest := by
      simp only [Old.do_con_write_loop, hstop, Bool.false_eq_true, if_false]
    rw [s, e]
  have pre : ∀ xs : List Nat, xs.length < k → (∀ b ∈ xs, 0x80 ≤ b ∧ b ≤ 0xbf) →
      Old.do_con_write_loop env vc l (c :: xs) =
        ({ vc with vc_utf_count := k - xs.length, vc_utf_char := utf8_value payload xs },
         { l with n := l.n + 1 + xs.length }) := by
    intro xs hx hb
    rw [step, old_loop_conts env xs { vc with vc_utf_count := k, vc_utf_char := payload }
      { l with n := l.n + 1 } hutf hstop hx hb]
  refine ⟨hk1, hk5, ?_, ?_⟩
  · intro j hj
    have hl : (conts.take j).length = j := by
      rw [List.length_take]; omega
    have := pre (conts.take j) (by omega) (fun b hb => hcont b (List.mem_of_mem_take hb))
    rw [hl] at this
    exact this
  · obtain ⟨xs, b, hxs⟩ : ∃ xs b, conts = xs ++ [b] := by
      rcases List.eq_nil_or_concat conts with h | ⟨xs, b, h⟩
      · rw [h] at hlen; simp at hlen; omega
      · exact ⟨xs, b, by rw [h, List.concat_eq_append]⟩
    have hxl : xs.length + 1 = k := by
      rw [← hlen, hxs, List.length_append]; rfl
    have hbx : ∀ x ∈ xs, 0x80 ≤ x ∧ x ≤ 0xbf := fun x hx =>
      hcont x (by rw [hxs]; exact List.mem_append_left _ hx)
    have hbb : 0x80 ≤ b ∧ b ≤ 0xbf := hcont b (by rw [hxs]; simp)
    have p := pre xs (by omega) hbx
    have split : Old.do_con_write_loop env vc l (c :: conts) =
        Old.do_con_write_loop env (Old.do_con_write_loop env vc l (c :: xs)).1
          (Old.do_con_write_loop env vc l (c :: xs)).2 [b] := by
      rw [hxs, ← List.cons_append, old_loop_append]
    rw [split, p]
    show Old.do_con_write_loop env
      { vc with vc_utf_count := k - xs.length, vc_utf_char := utf8_value payload xs }
      { l with n := l.n + 1 + xs.length } [b] = _
    have one : ∀ (v : vc_data) (l0 : Locals), v.tty_stopped = false →
        Old.do_con_write_loop env v l0 [b] = Old.do_con_write_byte env v l0 b := by
      intro v l0 hv
      simp only [Old.do_con_write_loop, hv, Bool.false_eq_true, if_false]
    rw [one { vc with vc_utf_count := k - xs.length, vc_utf_char := utf8_value payload xs }
        { l with n := l.n + 1 + xs.length } hstop,
      old_byte_last env
        { vc with vc_utf_count := k - xs.length, vc_utf_char := utf8_value payload xs }
        { l with n := l.n + 1 + xs.length } b hutf (by show k - xs.length = 1; omega) hbb]
    rw [hxs, utf8_value_append]
    have hn : l.n + 1 + xs.length + 1 = l.n + 1 + k := by omega
    simp only [hn]

/-! ### The geometry invariant -/

theorem geometry_ok_congr (a b : vc_data) (h1 : b.vc_x = a.vc_x) (h2 : b.vc_y = a.vc_y)
    (h3 : b.vc_cols = a.vc_cols) (h4 : b.vc_rows = a.vc_rows)
    (h5 : b.vc_size_row = a.vc_size_row) (h6 : b.vc_screenbuf_size = a.vc_screenbuf_size)
    (h7 : b.vc_top = a.vc_top) (h8 : b.vc_bottom = a.vc_bottom) (h9 : b.vc_pos = a.vc_pos)
    (h10 : b.vc_origin = a.vc_origin) (hg : geometry_ok a) : geometry_ok b := by
  unfold geometry_ok at hg ⊢
  rw [h1, h2, h3, h4, h5, h6, h7, h8, h9, h10]
  exact hg

theorem gotoxy_geometry (vc : vc_data) (new_x new_y : Int) (hc : 1 ≤ vc.vc_cols)
    (htb : vc.vc_top < vc.vc_bottom) (hb : vc.vc_bottom ≤ vc.vc_rows)
    (hsr : vc.vc_size_row = 2 * vc.vc_cols)
    (hss : vc.vc_screenbuf_size = vc.vc_rows * vc.vc_cols * 2) :
    geometry_ok (gotoxy vc new_x new_y) := by
  have hx : (gotoxy vc new_x new_y).vc_x < vc.vc_cols := by
    unfold gotoxy
    simp only []
    split_ifs <;> omega
  have hy : (gotoxy vc new_x new_y).vc_y < vc.vc_rows := by
    unfold gotoxy
    simp only []
    split_ifs <;> omega
  have hp : (gotoxy vc new_x new_y).vc_pos =
      vc.vc_origin + (gotoxy vc new_x new_y).vc_y * vc.vc_size_row +
        ((gotoxy vc new_x new_y).vc_x <<< 1) := rfl
  have hsh : (gotoxy vc new_x new_y).vc_x <<< 1 = 2 * (gotoxy vc new_x new_y).vc_x := by
    rw [Nat.shiftLeft_eq]; omega
  refine ⟨hx, hy, hsr, hss, htb, hb, ?_⟩
  rw [hp, hsh]
  rfl

theorem vte_cr_geometry (vc : vc_data) (hg : geometry_ok vc) : geometry_ok (vte_cr vc) := by
  obtain ⟨g1, g2, g3, g4, g5, g6, g7⟩ := hg
  have hsh : vc.vc_x <<< 1 = 2 * vc.vc_x := by rw [Nat.shiftLeft_eq]; omega
  refine ⟨?_, g2, g3, g4, g5, g6, ?_⟩
  · show 0 < vc.vc_cols
    omega
  · show vc.vc_pos - (vc.vc_x <<< 1) = vc.vc_origin + vc.vc_y * vc.vc_size_row + 2 * 0
    rw [hsh, g7]
    omega

theorem vte_lf_geometry (env : Env) (vc : vc_data) (hg : geometry_ok vc) :
    geometry_ok (vte_lf env vc) := by
  obtain ⟨g1, g2, g3, g4, g5, g6, g7⟩ := hg
  by_cases h1 : vc.vc_y + 1 = vc.vc_bottom
  · have e : vte_lf env vc =
        { scroll_region_up env vc vc.vc_top vc.vc_bottom 1 with vc_need_wrap := false } := by
      unfold vte_lf
      rw [if_pos h1]
    have f := (scroll_region_up_frame env vc vc.vc_top vc.vc_bottom 1).1
    rw [e]
    refine geometry_ok_congr vc _ ?_ ?_ ?_ ?_ ?_ ?_ ?_ ?_ ?_ ?_ ⟨g1, g2, g3, g4, g5, g6, g7⟩
    all_goals rw [f]
  · by_cases h2 : vc.vc_y + 1 < vc.vc_rows
    · rw [vte_lf_move env vc h1 h2]
      refine ⟨g1, h2, g3, g4, g5, g6, ?_⟩
      show vc.vc_pos + vc.vc_size_row =
        vc.vc_origin + (vc.vc_y + 1) * vc.vc_size_row + 2 * vc.vc_x
      rw [g7, Nat.add_mul]
      omega
    · have e : vte_lf env vc = { vc with vc_need_wrap := false } := by
        unfold vte_lf
        rw [if_neg h1, if_neg h2]
      rw [e]
      exact ⟨g1, g2, g3, g4, g5, g6, g7⟩

theorem insert_char_geometry (vc : vc_data) (nr : Nat) (hg : geometry_ok vc) :
    geometry_ok (insert_char vc nr) :=
  geometry_ok_congr vc _ rfl rfl rfl rfl rfl rfl rfl rfl rfl rfl hg

theorem FLUSH_geometry (env : Env) (vc : vc_data) (l : Locals) (hg : geometry_ok vc) :
    geometry_ok (FLUSH env vc l).1 :=
  geometry_ok_congr vc _ rfl rfl rfl rfl rfl rfl rfl rfl rfl rfl hg

theorem prepare_cell_geometry (env : Env) (vc : vc_data) (l : Locals) (hg : geometry_ok vc) :
    geometry_ok (prepare_cell env vc l).1 := by
  obtain ⟨P, hP⟩ : ∃ P, P = (if vc.vc_need_wrap || vc.vc_irm then FLUSH env vc l else (vc, l)) :=
    ⟨_, rfl⟩
  have gP : geometry_ok P.1 := by
    rw [hP]
    split_ifs
    · exact FLUSH_geometry env vc l hg
    · exact hg
  obtain ⟨W, hW⟩ : ∃ W, W = (if P.1.vc_need_wrap then vte_lf env (vte_cr P.1) else P.1) :=
    ⟨_, rfl⟩
  have gW : geometry_ok W := by
    rw [hW]
    split_ifs
    · exact vte_lf_geometry env _ (vte_cr_geometry _ gP)
    · exact gP
  have e : (prepare_cell env vc l).1 = (if W.vc_irm then insert_char W 1 else W) := by
    rw [hW, hP]
    rfl
  rw [e]
  split_ifs
  · exact insert_char_geometry W 1 gW
  · exact gW

theorem store_glyph_geometry (vc : vc_data) (l : Locals) (g : Nat) (hg : geometry_ok vc) :
    geometry_ok (store_glyph vc l g).1 := by
  obtain ⟨g1, g2, g3, g4, g5, g6, g7⟩ := hg
  by_cases hx : vc.vc_x = vc.vc_cols - 1
  · rw [store_glyph_last vc l g hx]
    exact ⟨g1, g2, g3, g4, g5, g6, g7⟩
  · rw [store_glyph_inner vc l g hx]
    refine ⟨?_, g2, g3, g4, g5, g6, ?_⟩
    · show vc.vc_x + 1 < vc.vc_cols
      omega
    · show vc.vc_pos + 2 = vc.vc_origin + vc.vc_y * vc.vc_size_row + 2 * (vc.vc_x + 1)
      rw [g7]
      omega

theorem put_glyph_geometry (env : Env) (vc : vc_data) (l : Locals) (g : Nat)
    (hg : geometry_ok vc) : geometry_ok (put_glyph env vc l g).1 := by
  unfold put_glyph
  exact store_glyph_geometry _ _ g (prepare_cell_geometry env vc l hg)

/-- The redraw by `update_screen` leaves the cursor offset at the cell of the
cursor, counted from the origin it has set. -/
theorem update_screen_pos (env : Env) (vc r : vc_data) (h : update_screen env vc = some r) :
    r.vc_pos = r.vc_origin + vc.vc_size_row * vc.vc_y + 2 * vc.vc_x := by
  obtain ⟨H, hH⟩ : ∃ H, H = hide_cursor vc := ⟨_, rfl⟩
  have dH : cursor_frame vc H := by rw [hH]; exact hide_cursor_cursor vc
  obtain ⟨P, hP⟩ : ∃ P, P = set_palette env (emit (set_origin env H) Event.con_switch) :=
    ⟨_, rfl⟩
  have dP : display_frame H P := by
    rw [hP]
    exact display_frame_trans (set_origin_display env H)
      (cursor_frame_display (cursor_frame_trans (cursor_frame_emit _ _)
        (set_palette_cursor env _)))
  have sP : P.vc_pos = P.vc_origin + H.vc_size_row * H.vc_y + 2 * H.vc_x := by rw [hP]; rfl
  have dvP := display_frame_trans (cursor_frame_display dH) dP
  have hcol : P.vc_can_do_color = vc.vc_can_do_color := by rw [dvP.1]
  have h1 : H.vc_size_row = vc.vc_size_row := by rw [dH.1]
  have h2 : H.vc_y = vc.vc_y := by rw [dH.1]
  have h3 : H.vc_x = vc.vc_x := by rw [dH.1]
  obtain ⟨V3, hV3⟩ : ∃ V3, V3 = (if vc.vc_can_do_color ≠ P.vc_can_do_color
      then clear_buffer_attributes (update_attr env P) else P) := ⟨_, rfl⟩
  have hdef : update_screen env vc =
      (if env.sw.con_switch (set_origin env H) ≠ 0 ∧ V3.vc_mode ≠ KD_GRAPHICS then
        match do_update_region env V3 V3.vc_origin ((V3.vc_screenbuf_size / 2 : Nat) : Int) with
        | some vc4 => some (set_cursor vc4)
        | none => none
      else some (set_cursor V3)) := by
    rw [hV3, hP, hH]
    rfl
  rw [if_neg (fun hh => hh hcol.symm)] at hV3
  subst hV3
  rw [hdef] at h
  have key : ∀ s : vc_data, cursor_frame V3 s → set_cursor s = r →
      r.vc_pos = r.vc_origin + vc.vc_size_row * vc.vc_y + 2 * vc.vc_x := by
    intro s ds hs
    have dr : cursor_frame s r := by rw [← hs]; exact set_cursor_cursor s
    have d3 := cursor_frame_trans ds dr
    have o1 : r.vc_origin = V3.vc_origin := by rw [d3.1]
    have o2 : r.vc_pos = V3.vc_pos := by rw [d3.1]
    rw [o1, o2, sP, h1, h2, h3]
  by_cases c : env.sw.con_switch (set_origin env H) ≠ 0 ∧ V3.vc_mode ≠ KD_GRAPHICS
  · rw [if_pos c] at h
    cases hu : do_update_region env V3 V3.vc_origin ((V3.vc_screenbuf_size / 2 : Nat) : Int) with
    | none => rw [hu] at h; exact absurd h (by simp)
    | some u =>
      rw [hu] at h
      exact key u (do_update_region_cursor env V3 u _ _ hu) (Option.some.inj h)
  · rw [if_neg c] at h
    exact key V3 (cursor_frame_refl V3) (Option.some.inj h)

theorem vc_resize_finish_geometry (env : Env) (vc2 : vc_data) (ss ns : Nat) (m : Nat → Nat)
    (nl : Nat) (e : Int) (v : vc_data) (hc : 1 ≤ vc2.vc_cols) (hr : 1 ≤ vc2.vc_rows)
    (hsr : vc2.vc_size_row = 2 * vc2.vc_cols) (hss : ss = vc2.vc_rows * vc2.vc_cols * 2)
    (h : vc_resize_finish env vc2 ss ns m nl = some (e, v)) :
    geometry_ok v ∧ v.vc_top = 0 ∧ v.vc_bottom = vc2.vc_rows ∧ v.vc_cols = vc2.vc_cols ∧
    v.vc_rows = vc2.vc_rows := by
  obtain ⟨M, hM⟩ : ∃ M, M = (if ns + ss > nl
      then scr_memsetw m nl vc2.vc_video_erase_char (ns + ss - nl) else m) := ⟨_, rfl⟩
  obtain ⟨V3, hV3⟩ : ∃ V3, V3 = set_origin env
      { vc2 with mem := M, vc_screenbuf := ns, kmalloced := true, vc_screenbuf_size := ss } :=
    ⟨_, rfl⟩
  have a1 : V3.vc_cols = vc2.vc_cols := by rw [hV3]; rfl
  have a2 : V3.vc_rows = vc2.vc_rows := by rw [hV3]; rfl
  have a3 : V3.vc_size_row = vc2.vc_size_row := by rw [hV3]; rfl
  have a4 : V3.vc_screenbuf_size = ss := by rw [hV3]; rfl
  obtain ⟨V4, hV4⟩ : ∃ V4, V4 = { V3 with vc_top := 0, vc_bottom := V3.vc_rows } := ⟨_, rfl⟩
  have b1 : V4.vc_cols = vc2.vc_cols := by rw [hV4]; exact a1
  have b2 : V4.vc_rows = vc2.vc_rows := by rw [hV4]; exact a2
  have b3 : V4.vc_size_row = vc2.vc_size_row := by rw [hV4]; exact a3
  have b4 : V4.vc_screenbuf_size = ss := by rw [hV4]; exact a4
  have b5 : V4.vc_top = 0 := by rw [hV4]
  have b6 : V4.vc_bottom = vc2.vc_rows := by rw [hV4]; exact a2
  obtain ⟨V5, hV5⟩ : ∃ V5, V5 = gotoxy V4 (V4.vc_x : Int) (V4.vc_y : Int) := ⟨_, rfl⟩
  have g5 : geometry_ok V5 := by
    rw [hV5]
    exact gotoxy_geometry V4 _ _ (by rw [b1]; exact hc) (by rw [b5, b6]; omega)
      (by rw [b6, b2]) (by rw [b3, b1]; exact hsr) (by rw [b4, b2, b1]; exact hss)
  have c1 : V5.vc_top = 0 := by rw [hV5]; exact b5
  have c2 : V5.vc_bottom = vc2.vc_rows := by rw [hV5]; exact b6
  have c3 : V5.vc_cols = vc2.vc_cols := by rw [hV5]; exact b1
  have c4 : V5.vc_rows = vc2.vc_rows := by rw [hV5]; exact b2
  have hdef : vc_resize_finish env vc2 ss ns m nl =
      (if V5.is_visible then
        match update_screen env V5 with
        | some vc6 => some ((0 : Int), vc6)
        | none => none
      else some ((0 : Int), V5)) := by
    rw [hV5, hV4, hV3, hM]
    rfl
  rw [hdef] at h
  by_cases hv : V5.is_visible = true
  · rw [if_pos hv] at h
    cases hu : update_screen env V5 with
    | none => rw [hu] at h; exact absurd h (by simp)
    | some r =>
      rw [hu] at h
      obtain ⟨-, rfl⟩ := Prod.mk.inj (Option.some.inj h)
      obtain ⟨hfr, -⟩ := (update_screen_display env V5 r hu).1
      have hpos := update_screen_pos env V5 r hu
      have d1 : r.vc_x = V5.vc_x := by rw [hfr]
      have d2 : r.vc_y = V5.vc_y := by rw [hfr]
      have d3 : r.vc_cols = V5.vc_cols := by rw [hfr]
      have d4 : r.vc_rows = V5.vc_rows := by rw [hfr]
      have d5 : r.vc_size_row = V5.vc_size_row := by rw [hfr]
      have d6 : r.vc_screenbuf_size = V5.vc_screenbuf_size := by rw [hfr]
      have d7 : r.vc_top = V5.vc_top := by rw [hfr]
      have d8 : r.vc_bottom = V5.vc_bottom := by rw [hfr]
      obtain ⟨g1, g2, g3, g4, g5', g6, -⟩ := g5
      refine ⟨⟨?_, ?_, ?_, ?_, ?_, ?_, ?_⟩, by rw [d7, c1], by rw [d8, c2], by rw [d3, c3],
        by rw [d4, c4]⟩
      · rw [d1, d3]; exact g1
      · rw [d2, d4]; exact g2
      · rw [d5, d3]; exact g3
      · rw [d6, d4, d3]; exact g4
      · rw [d7, d8]; exact g5'
      · rw [d8, d4]; exact g6
      · rw [hpos, d2, d5, d1, Nat.mul_comm]
  · rw [if_neg hv] at h
    obtain ⟨-, rfl⟩ := Prod.mk.inj (Option.some.inj h)
    exact ⟨g5, c1, c2, c3, c4⟩

theorem vc_resize_apply_geometry (env : Env) (vc : vc_data)
    (old_rows old_row_size new_cols new_rows new_row_size ss ns : Nat) (e : Int) (v : vc_data)
    (hc : 1 ≤ new_cols) (hr : 1 ≤ new_rows) (hsr : new_row_size = 2 * new_cols)
    (hss : ss = new_rows * new_cols * 2)
    (h : vc_resize_apply env vc old_rows old_row_size new_cols new_rows new_row_size ss ns
      = some (e, v)) :
    geometry_ok v ∧ v.vc_top = 0 ∧ v.vc_bottom = new_rows ∧ v.vc_cols = new_cols ∧
    v.vc_rows = new_rows := by
  obtain ⟨V2, hV2⟩ : ∃ V2, V2 = update_attr env
      { vc with vc_rows := new_rows, vc_cols := new_cols, vc_size_row := new_row_size,
                vc_screenbuf_size := ss } := ⟨_, rfl⟩
  obtain ⟨OL, hOL⟩ : ∃ OL, OL = (if new_rows < old_rows
      then vc.vc_origin + ((old_rows - new_rows) * old_row_size) % 4294967296
      else vc.vc_origin) := ⟨_, rfl⟩
  have a1 : V2.vc_cols = new_cols := by rw [hV2]; rfl
  have a2 : V2.vc_rows = new_rows := by rw [hV2]; rfl
  have a3 : V2.vc_size_row = new_row_size := by rw [hV2]; rfl
  have hdef : vc_resize_apply env vc old_rows old_row_size new_cols new_rows new_row_size ss ns =
      (match resize_copy_loop V2.vc_scr_end old_row_size new_row_size
          (min old_row_size new_row_size) (new_row_size - min old_row_size new_row_size)
          V2.vc_video_erase_char (V2.vc_scr_end - OL) V2.mem OL ns with
        | none => none
        | some r => vc_resize_finish env V2 ss ns r.1 r.2) := by
    rw [hV2, hOL]
    rfl
  rw [hdef] at h
  split at h
  · exact absurd h (by simp)
  · have := vc_resize_finish_geometry env V2 ss ns _ _ e v (by rw [a1]; exact hc)
      (by rw [a2]; exact hr) (by rw [a3, a1]; exact hsr) (by rw [a2, a1]; exact hss) h
    rw [a1, a2] at this
    exact this

/-- C24 (amended): the geometry invariant `geometry_ok` (ruby-2.6): `x < cols`,
`y < rows`, row size `2 * cols`, buffer size `rows * cols * 2`,
`top < bottom <= rows` and `pos = origin + y * row size + 2 * x`.  It is
preserved by `gotoxy` for every pair of arguments, by the glyph placement of
`do_con_write`, and by every `vc_resize` that returns 0 on a console whose
dimensions are within the resize limits (the limits hold again afterwards).
A successful `vc_resize` that changes the size also resets the scroll region to
`top = 0`, `bottom = rows` and gives the console the requested dimensions; a
successful `vc_resize` for the size the console already has returns the
console as it is, scroll region included. -/
theorem geometry_preserved (env : Env) (vc : vc_data) (hg : geometry_ok vc) :
    (∀ new_x new_y : Int, geometry_ok (gotoxy vc new_x new_y)) ∧
    (∀ (l : Locals) (g : Nat), geometry_ok (put_glyph env vc l g).1) ∧
    (∀ (cols lines : Nat) (v : vc_data),
      vc.vc_cols ≤ VC_RESIZE_MAXCOL → vc.vc_rows ≤ VC_RESIZE_MAXROW →
      vc_resize env vc cols lines = some (0, v) →
      geometry_ok v ∧ v.vc_cols ≤ VC_RESIZE_MAXCOL ∧ v.vc_rows ≤ VC_RESIZE_MAXROW ∧
      v.vc_cols = (if cols ≠ 0 then cols else vc.vc_cols) ∧
      v.vc_rows = (if lines ≠ 0 then lines else vc.vc_rows) ∧
      (v.vc_cols = vc.vc_cols ∧ v.vc_rows = vc.vc_rows → v = vc) ∧
      (¬ (v.vc_cols = vc.vc_cols ∧ v.vc_rows = vc.vc_rows) →
        v.vc_top = 0 ∧ v.vc_bottom = v.vc_rows)) := by
  have hg0 := hg
  obtain ⟨g1, g2, g3, g4, g5, g6, g7⟩ := hg
  refine ⟨?_, ?_, ?_⟩
  · intro new_x new_y
    exact gotoxy_geometry vc new_x new_y (by omega) g5 g6 g3 g4
  · intro l g
    exact put_glyph_geometry env vc l g hg0
  · intro cols lines v hcm hrm h
    have hcl : cols ≤ VC_RESIZE_MAXCOL ∧ lines ≤ VC_RESIZE_MAXROW := by
      by_contra hcon
      have hbig : cols > VC_RESIZE_MAXCOL ∨ lines > VC_RESIZE_MAXROW := by omega
      unfold vc_resize at h
      rw [if_pos hbig] at h
      have := (Prod.mk.inj (Option.some.inj h)).1
      exact absurd this (by decide)
    obtain ⟨C, hC⟩ : ∃ C, C = (if cols ≠ 0 then cols else vc.vc_cols) := ⟨_, rfl⟩
    obtain ⟨R, hR⟩ : ∃ R, R = (if lines ≠ 0 then lines else vc.vc_rows) := ⟨_, rfl⟩
    have hCm : C ≤ VC_RESIZE_MAXCOL := by
      rw [hC]; split_ifs
      · exact hcl.1
      · exact hcm
    have hRm : R ≤ VC_RESIZE_MAXROW := by
      rw [hR]; split_ifs
      · exact hcl.2
      · exact hrm
    have hC1 : 1 ≤ C := by
      rw [hC]; split_ifs <;> omega
    have hR1 : 1 ≤ R := by
      rw [hR]; split_ifs <;> omega
    have hlim : VC_RESIZE_MAXCOL = 32767 ∧ VC_RESIZE_MAXROW = 32767 := ⟨rfl, rfl⟩
    have hrs : (C <<< 1) % 4294967296 = 2 * C := by
      rw [Nat.shiftLeft_eq]
      omega
    have hprod : 2 * C * R ≤ 2 * 32767 * 32767 :=
      Nat.mul_le_mul (by omega) (by omega)
    have hssv : ((C <<< 1) % 4294967296 * R) % 4294967296 = R * C * 2 := by
      rw [hrs, Nat.mod_eq_of_lt (by omega)]
      rw [Nat.mul_comm (2 * C) R, Nat.mul_comm 2 C, Nat.mul_assoc]
    rw [vc_resize_in_range env vc cols lines hcl.1 hcl.2, ← hC, ← hR] at h
    rw [← hC, ← hR]
    by_cases hsame : C = vc.vc_cols ∧ R = vc.vc_rows
    · rw [if_pos hsame] at h
      obtain ⟨-, rfl⟩ := Prod.mk.inj (Option.some.inj h)
      exact ⟨hg0, hcm, hrm, hsame.1.symm, hsame.2.symm, fun _ => rfl,
        fun hn => absurd ⟨rfl, rfl⟩ hn⟩
    · rw [if_neg hsame] at h
      cases hk : env.kmalloc (((C <<< 1) % 4294967296 * R) % 4294967296) with
      | none =>
        rw [hk] at h
        have := (Prod.mk.inj (Option.some.inj h)).1
        exact absurd this (by decide)
      | some ns =>
        rw [hk] at h
        simp only [] at h
        by_cases hr : (resize_screen env vc C R).1 ≠ 0
        · rw [if_pos hr] at h
          have := (Prod.mk.inj (Option.some.inj h)).1
          exact absurd this hr
        · rw [if_neg hr] at h
          obtain ⟨k1, k2, k3, k4, k5⟩ := vc_resize_apply_geometry env _ _ _ C R _ _ ns 0 v
            hC1 hR1 hrs hssv h
          refine ⟨k1, by rw [k4]; exact hCm, by rw [k5]; exact hRm, k4, k5, ?_, ?_⟩
          · intro hh
            rw [k4, k5] at hh
            exact absurd hh hsame
          · intro _
            exact ⟨k2, by rw [k3, k5]⟩

/-! ### The runs of `do_update_region` -/

theorem runs_end_append (vc : vc_data) : ∀ (a b : List Event) (pos : Nat)
    (prev : Option (Nat × Nat)),
    runs_end vc pos prev (a ++ b) =
      (match runs_end vc pos prev a with
        | some r => runs_end vc r.1 r.2 b
        | none => none) := by
  intro a
  induction a with
  | nil => intro b pos prev; rfl
  | cons e a ih =>
    intro b pos prev
    cases e with
    | con_putcs src n y x =>
      by_cases h : run_ok vc pos prev src n y x = true
      · simp only [List.cons_append, runs_end, h, if_true]
        exact ih b _ _
      · simp only [List.cons_append, runs_end, h, if_false]
        rfl
    | _ => rfl

theorem runs_end_snoc (vc : vc_data) (pos : Nat) (calls : List Event) (q : Nat)
    (prev : Option (Nat × Nat)) (src n y x : Nat)
    (h : runs_end vc pos none calls = some (q, prev))
    (hok : run_ok vc q prev src n y x = true) :
    runs_end vc pos none (calls ++ [Event.con_putcs src n y x]) =
      some (src + 2 * n, some (y, attr_of vc src)) := by
  rw [runs_end_append, h]
  simp only [runs_end, hok, if_true]

theorem attr_changes_succ (vc : vc_data) (off k : Nat) :
    attr_changes vc off (k + 1) =
      attr_changes vc off k + (if 0 < k ∧ attr_change vc (off + k) = true then 1 else 0) := by
  unfold attr_changes
  rw [List.range_succ, List.countP_append]
  by_cases h : 0 < k ∧ attr_change vc (off + k) = true
  · rw [if_pos h]
    simp [List.countP_cons, h.1, h.2]
  · rw [if_neg h]
    have : (decide (0 < k) && attr_change vc (off + k)) = false := by
      rcases Bool.eq_false_or_eq_true (decide (0 < k) && attr_change vc (off + k)) with e | e
      · rw [Bool.and_eq_true, decide_eq_true_eq] at e
        exact absurd e h
      · exact e
    simp [List.countP_cons, this]

theorem rows_touched_succ (vc : vc_data) (off k : Nat) :
    rows_touched vc off (k + 1) =
      rows_touched vc off k + (if k = 0 ∨ (off + k) % vc.vc_cols = 0 then 1 else 0) := by
  unfold rows_touched
  rw [List.range_succ, List.countP_append]
  by_cases h : k = 0 ∨ (off + k) % vc.vc_cols = 0
  · rw [if_pos h]
    simp [List.countP_cons, h]
  · rw [if_neg h]
    simp [List.countP_cons, h]

theorem run_ok_intro (vc : vc_data) (pos : Nat) (prev : Option (Nat × Nat)) (src n y x : Nat)
    (h1 : src = pos) (h2 : 1 ≤ n) (h3 : x + n ≤ vc.vc_cols)
    (h4 : src = vc.vc_origin + 2 * (vc.vc_cols * y + x))
    (h5 : ∀ k, k < n → attr_of vc (src + 2 * k) = attr_of vc src)
    (h6 : ∀ r, prev = some r → r.1 = y → r.2 ≠ attr_of vc src) :
    run_ok vc pos prev src n y x = true := by
  unfold run_ok
  simp only [Bool.and_eq_true, decide_eq_true_eq, List.all_eq_true, List.mem_range]
  refine ⟨⟨⟨⟨⟨h1, h2⟩, h3⟩, h4⟩, h5⟩, ?_⟩
  cases prev with
  | none => rfl
  | some r =>
    simp only [decide_eq_true_eq]
    exact h6 r rfl

/-- One iteration of the inner loop of `do_update_region` keeps the invariant
of the scan. -/
theorem scan_inv_step (vc : vc_data) (off n yy : Nat) (s : RowScan)
    (hinv : scan_inv vc off n yy s) (c1 : s.xx < vc.vc_cols ∧ s.count ≠ 0) :
    (s.attrib ≠ scr_readw vc.mem s.p &&& 0xff00 →
      scan_inv vc off n yy
        { p := s.p + 2, xx := s.xx + 1, count := s.count - 1, q := s.p, startx := s.xx,
          attrib := scr_readw vc.mem s.p &&& 0xff00,
          calls := if s.p > s.q
            then s.calls ++ [Event.con_putcs s.q ((s.p - s.q) / 2) yy s.startx]
            else s.calls }) ∧
    (¬ (s.attrib ≠ scr_readw vc.mem s.p &&& 0xff00) →
      scan_inv vc off n yy { s with p := s.p + 2, xx := s.xx + 1, count := s.count - 1 }) := by
  obtain ⟨prev, k, i1, i2, i3, i4, i5, i6, i7, i8, i9, i10, i11, i12, i13, i14⟩ := hinv
  have hk : k < n := by
    have := c1.2
    omega
  have hac := attr_changes_succ vc off k
  have hrt := rows_touched_succ vc off k
  constructor
  · intro c2
    have c2' : s.attrib ≠ attr_of vc s.p := c2
    have hlt : s.startx < s.xx := by
      rcases Nat.lt_or_ge s.startx s.xx with h | h
      · exact h
      · exact absurd (i8 (by omega)) c2'
    have hpq : s.p > s.q := by omega
    have hq0 : attr_of vc s.q = s.attrib := by
      have := i7 0 (by omega)
      simpa using this
    have hlen : (s.p - s.q) / 2 = s.xx - s.startx := by omega
    have hok : run_ok vc s.q prev s.q ((s.p - s.q) / 2) yy s.startx = true := by
      apply run_ok_intro
      · rfl
      · omega
      · omega
      · exact i5
      · intro j hj
        rw [hq0]
        exact i7 j (by omega)
      · intro r hr hy
        rw [hq0]
        rcases i2 r hr with h | h
        · omega
        · exact h.2
    have hend : s.q + 2 * ((s.p - s.q) / 2) = s.p := by omega
    have hrun := runs_end_snoc vc _ s.calls s.q prev s.q ((s.p - s.q) / 2) yy s.startx i1 hok
    rw [hend] at hrun
    have hkpos : 0 < k := by omega
    have hA : vc.vc_origin + 2 * (off + k) = s.p := by rw [i6, i9]
    have hB : vc.vc_origin + 2 * (off + k - 1) = s.q + 2 * (s.xx - s.startx - 1) := by omega
    have hchg : attr_change vc (off + k) = true := by
      unfold attr_change
      rw [decide_eq_true_eq, hA, hB, i7 _ (by omega)]
      exact fun h => c2' h.symm
    rw [if_pos ⟨hkpos, hchg⟩] at hac
    rw [if_pos hlt] at i14
    rw [if_pos hpq]
    refine ⟨some (yy, attr_of vc s.q), k + 1, hrun, ?_, ?_, ?_, ?_, ?_, ?_, ?_, ?_, ?_, ?_, ?_,
      ?_, ?_⟩
    · intro r hr
      right
      rw [← Option.some.inj hr]
      exact ⟨rfl, by show attr_of vc s.q ≠ attr_of vc s.p; rw [hq0]; exact c2'⟩
    · show s.xx ≤ s.xx + 1
      omega
    · show s.xx + 1 ≤ vc.vc_cols
      omega
    · exact i6
    · show s.p + 2 = vc.vc_origin + 2 * (vc.vc_cols * yy + (s.xx + 1))
      omega
    · intro j hj
      have hj0 : j = 0 := by
        have : j < s.xx + 1 - s.xx := hj
        omega
      rw [hj0]
      rfl
    · intro h
      have : s.xx + 1 = s.xx := h
      omega
    · show vc.vc_cols * yy + (s.xx + 1) = off + (k + 1)
      omega
    · show s.count - 1 = (n : Int) - ((k + 1 : Nat) : Int)
      push_cast
      omega
    · omega
    · show off ≤ vc.vc_cols * yy + s.xx
      omega
    · intro h
      have : s.xx + 1 = s.xx := h
      omega
    · show (s.calls ++ [Event.con_putcs s.q ((s.p - s.q) / 2) yy s.startx]).length +
        (if s.xx < s.xx + 1 then 1 else 0) ≤ _
      rw [List.length_append, if_pos (by omega), hac]
      simp only [List.length_singleton]
      omega
  · intro c2
    have c2' : s.attrib = attr_of vc s.p := by
      by_contra h
      exact c2 h
    refine ⟨prev, k + 1, i1, i2, ?_, ?_, i5, ?_, ?_, ?_, ?_, ?_, ?_, i12, ?_, ?_⟩
    · show s.startx ≤ s.xx + 1
      omega
    · show s.xx + 1 ≤ vc.vc_cols
      omega
    · show s.p + 2 = vc.vc_origin + 2 * (vc.vc_cols * yy + (s.xx + 1))
      omega
    · intro j hj
      have hj' : j < s.xx + 1 - s.startx := hj
      show attr_of vc (s.q + 2 * j) = s.attrib
      by_cases hjj : j < s.xx - s.startx
      · exact i7 j hjj
      · have : s.q + 2 * j = s.p := by omega
        rw [this]
        exact c2'.symm
    · intro h
      have : s.xx + 1 = s.startx := h
      omega
    · show vc.vc_cols * yy + (s.xx + 1) = off + (k + 1)
      omega
    · show s.count - 1 = (n : Int) - ((k + 1 : Nat) : Int)
      push_cast
      omega
    · omega
    · intro h
      have : s.xx + 1 = s.startx := h
      omega
    · show s.calls.length + (if s.startx < s.xx + 1 then 1 else 0) ≤ _
      rw [if_pos (by omega)]
      by_cases hlt : s.startx < s.xx
      · rw [if_pos hlt] at i14
        omega
      · rw [if_neg hlt] at i14
        have hrow : k = 0 ∨ (off + k) % vc.vc_cols = 0 := by
          rcases i13 (by omega) with h | h
          · exact Or.inl h
          · right
            rw [← i9, h, Nat.add_zero]
            exact Nat.mul_mod_right _ _
        rw [if_pos hrow] at hrt
        omega

/-- The inner loop of `do_update_region` keeps the invariant of the scan and
stops at the end of the row or of the region. -/
theorem update_row_loop_inv (vc : vc_data) (off n yy : Nat) : ∀ (fuel : Nat) (s : RowScan),
    scan_inv vc off n yy s → vc.vc_cols - s.xx ≤ fuel →
    scan_inv vc off n yy (update_row_loop vc yy fuel s) ∧
    ((update_row_loop vc yy fuel s).xx = vc.vc_cols ∨
      (update_row_loop vc yy fuel s).count = 0) := by
  intro fuel
  induction fuel with
  | zero =>
    intro s hinv hf
    obtain ⟨prev, k, i1, i2, i3, i4, rest⟩ := hinv
    exact ⟨⟨prev, k, i1, i2, i3, i4, rest⟩, Or.inl (by show s.xx = vc.vc_cols; omega)⟩
  | succ f ih =>
    intro s hinv hf
    unfold update_row_loop
    by_cases c1 : s.xx < vc.vc_cols ∧ s.count ≠ 0
    · rw [if_pos c1]
      obtain ⟨sA, sB⟩ := scan_inv_step vc off n yy s hinv c1
      by_cases c2 : s.attrib ≠ scr_readw vc.mem s.p &&& 0xff00
      · rw [if_pos c2]
        exact ih _ (sA c2) (by show vc.vc_cols - (s.xx + 1) ≤ f; omega)
      · rw [if_neg c2]
        exact ih _ (sB c2) (by show vc.vc_cols - (s.xx + 1) ≤ f; omega)
    · rw [if_neg c1]
      refine ⟨hinv, ?_⟩
      obtain ⟨prev, k, i1, i2, i3, i4, rest⟩ := hinv
      by_cases hx : s.xx < vc.vc_cols
      · right
        by_contra hc
        exact c1 ⟨hx, hc⟩
      · left
        omega

/-- The outer loop of `do_update_region` without `con_getxy`: started at the
head of a row with the invariant of the scan, the calls it returns are proper
runs up to the end of the region, and they are at most the attribute changes
plus the rows touched. -/
theorem update_region_loop_inv (env : Env) (vc : vc_data) (off n : Nat)
    (hg : env.sw.con_getxy = none) :
    ∀ (fuel p xx yy start : Nat) (count : Int) (calls r : List Event),
    scan_inv vc off n yy
      { p := p, xx := xx, count := count, q := p, startx := xx,
        attrib := scr_readw vc.mem p &&& 0xff00, calls := calls } →
    update_region_loop env vc fuel p xx yy start count calls = some r →
    (∃ prev, runs_end vc (vc.vc_origin + 2 * off) none r =
      some (vc.vc_origin + 2 * off + 2 * n, prev)) ∧
    r.length ≤ attr_changes vc off n + rows_touched vc off n := by
  intro fuel
  induction fuel with
  | zero =>
    intro p xx yy start count calls r _ h
    exact absurd h (by simp [update_region_loop])
  | succ f ih =>
    intro p xx yy start count calls r hinv h
    obtain ⟨S, hS⟩ : ∃ S, S = update_row_loop vc yy (vc.vc_cols - xx)
      { p := p, xx := xx, count := count, q := p, startx := xx,
        attrib := scr_readw vc.mem p &&& 0xff00, calls := calls } := ⟨_, rfl⟩
    obtain ⟨C1, hC1⟩ : ∃ C1, C1 = (if S.p > S.q
        then S.calls ++ [Event.con_putcs S.q ((S.p - S.q) / 2) yy S.startx] else S.calls) :=
      ⟨_, rfl⟩
    have hdef : update_region_loop env vc (f + 1) p xx yy start count calls =
        (if S.count = 0 then some C1
         else update_region_loop env vc f S.p 0 (yy + 1) start S.count C1) := by
      rw [hC1, hS]
      conv_lhs => rw [update_region_loop]
      simp only [hg]
    rw [hdef] at h
    obtain ⟨hS1, hS2⟩ := update_row_loop_inv vc off n yy (vc.vc_cols - xx) _ hinv (le_refl _)
    rw [← hS] at hS1 hS2
    obtain ⟨prev, k, i1, i2, i3, i4, i5, i6, i7, i8, i9, i10, i11, i12, i13, i14⟩ := hS1
    have hC : ∃ prev1, runs_end vc (vc.vc_origin + 2 * off) none C1 = some (S.p, prev1) ∧
        (∀ r, prev1 = some r → r.1 < yy + 1) ∧
        C1.length ≤ attr_changes vc off k + rows_touched vc off k := by
      by_cases hpq : S.p > S.q
      · have hlt : S.startx < S.xx := by omega
        rw [if_pos hpq] at hC1
        rw [if_pos hlt] at i14
        have hq0 : attr_of vc S.q = S.attrib := by
          have := i7 0 (by omega)
          simpa using this
        have hok : run_ok vc S.q prev S.q ((S.p - S.q) / 2) yy S.startx = true := by
          apply run_ok_intro
          · rfl
          · omega
          · omega
          · exact i5
          · intro j hj
            rw [hq0]
            exact i7 j (by omega)
          · intro r hr hy
            rw [hq0]
            rcases i2 r hr with h' | h'
            · omega
            · exact h'.2
        have hend : S.q + 2 * ((S.p - S.q) / 2) = S.p := by omega
        have hrun := runs_end_snoc vc _ S.calls S.q prev S.q ((S.p - S.q) / 2) yy S.startx i1 hok
        rw [hend] at hrun
        refine ⟨_, by rw [hC1]; exact hrun, ?_, ?_⟩
        · intro r hr
          rw [← Option.some.inj hr]
          exact Nat.lt_succ_self yy
        · rw [hC1, List.length_append]
          simp only [List.length_singleton]
          exact i14
      · have hle : ¬ S.startx < S.xx := by omega
        rw [if_neg hpq] at hC1
        rw [if_neg hle] at i14
        have hqp : S.q = S.p := by omega
        refine ⟨prev, by rw [hC1, ← hqp]; exact i1, ?_, by rw [hC1]; exact i14⟩
        intro r hr
        rcases i2 r hr with h' | h'
        · omega
        · omega
    obtain ⟨prev1, r1, r2, r3⟩ := hC
    by_cases hz : S.count = 0
    · rw [if_pos hz] at h
      have hr : r = C1 := (Option.some.inj h).symm
      have hkn : k = n := by omega
      rw [hr]
      refine ⟨⟨prev1, ?_⟩, by rw [← hkn]; exact r3⟩
      rw [r1, i6, i9, hkn, Nat.mul_add, Nat.add_assoc]
    · rw [if_neg hz] at h
      have hx : S.xx = vc.vc_cols := by
        rcases hS2 with h' | h'
        · exact h'
        · exact absurd h' hz
      have hmul : vc.vc_cols * (yy + 1) = vc.vc_cols * yy + vc.vc_cols := Nat.mul_succ _ _
      refine ih S.p 0 (yy + 1) start S.count C1 r ?_ h
      refine ⟨prev1, k, r1, ?_, le_refl _, Nat.zero_le _, ?_, ?_, ?_, fun _ => rfl, ?_, i10,
        i11, ?_, fun _ => Or.inr rfl, ?_⟩
      · intro r' hr'
        exact Or.inl (r2 r' hr')
      · show S.p = vc.vc_origin + 2 * (vc.vc_cols * (yy + 1) + 0)
        omega
      · show S.p = vc.vc_origin + 2 * (vc.vc_cols * (yy + 1) + 0)
        omega
      · intro j hj
        have : j < 0 - 0 := hj
        omega
      · show vc.vc_cols * (yy + 1) + 0 = off + k
        omega
      · show off ≤ vc.vc_cols * (yy + 1) + 0
        omega
      · show C1.length + (if 0 < 0 then 1 else 0) ≤ _
        rw [if_neg (by omega)]
        exact r3

/-- C25: `do_update_region` (ruby-2.6) with a driver without `con_getxy`, on a
console with at least one column, for the region of `n` cells that starts at
the cell with index `off` of the buffer.  The call returns and only appends
`con_putcs` calls to the trace.  Taken in order, the calls partition the `n`
cells (`runs_partition`): each call starts where the one before ended, the
first at the start of the region, covers at least one cell, stays within the
row it is reported at and starts at the column it is reported at, covers cells
of one attribute byte only, differs in its attribute byte from the call before
when both are in the same row, and the last call ends at the end of the
region.  The number of calls is at most the number of attribute changes in the
region plus the number of rows it touches. -/
theorem do_update_region_runs (env : Env) (vc : vc_data) (off n : Nat)
    (hg : env.sw.con_getxy = none) (hc : 1 ≤ vc.vc_cols) :
    ∃ calls, do_update_region env vc (vc.vc_origin + 2 * off) (n : Int) =
        some { vc with trace := vc.trace ++ calls } ∧
      runs_partition vc (vc.vc_origin + 2 * off) n calls = true ∧
      calls.length ≤ attr_changes vc off n + rows_touched vc off n := by
  have hoff : (vc.vc_origin + 2 * off - vc.vc_origin) / 2 = off := by omega
  obtain ⟨r, hr⟩ := update_region_loop_terminates env vc hc ((n : Int).toNat + 2)
    (vc.vc_origin + 2 * off) (off % vc.vc_cols) (off / vc.vc_cols) (vc.vc_origin + 2 * off)
    (n : Int) [] (by omega) (by split_ifs <;> omega)
  have hdef : do_update_region env vc (vc.vc_origin + 2 * off) (n : Int) =
      some { vc with trace := vc.trace ++ r } := by
    unfold do_update_region
    simp only [hg, hoff, hr]
  have hdm : vc.vc_cols * (off / vc.vc_cols) + off % vc.vc_cols = off := Nat.div_add_mod _ _
  have hml : off % vc.vc_cols < vc.vc_cols := Nat.mod_lt _ (by omega)
  have hinv : scan_inv vc off n (off / vc.vc_cols)
      { p := vc.vc_origin + 2 * off, xx := off % vc.vc_cols, count := (n : Int),
        q := vc.vc_origin + 2 * off, startx := off % vc.vc_cols,
        attrib := scr_readw vc.mem (vc.vc_origin + 2 * off) &&& 0xff00, calls := [] } := by
    refine ⟨none, 0, rfl, ?_, le_refl _, ?_, ?_, ?_, ?_, fun _ => rfl, ?_, ?_, Nat.zero_le _,
      ?_, fun _ => Or.inl rfl, ?_⟩
    · intro r' hr'
      cases hr'
    · show off % vc.vc_cols ≤ vc.vc_cols
      omega
    · show vc.vc_origin + 2 * off =
        vc.vc_origin + 2 * (vc.vc_cols * (off / vc.vc_cols) + off % vc.vc_cols)
      rw [hdm]
    · show vc.vc_origin + 2 * off =
        vc.vc_origin + 2 * (vc.vc_cols * (off / vc.vc_cols) + off % vc.vc_cols)
      rw [hdm]
    · intro j hj
      have : j < off % vc.vc_cols - off % vc.vc_cols := hj
      omega
    · show vc.vc_cols * (off / vc.vc_cols) + off % vc.vc_cols = off + 0
      omega
    · show (n : Int) = (n : Int) - ((0 : Nat) : Int)
      simp
    · show off ≤ vc.vc_cols * (off / vc.vc_cols) + off % vc.vc_cols
      omega
    · show ([] : List Event).length + (if off % vc.vc_cols < off % vc.vc_cols then 1 else 0) ≤ _
      rw [if_neg (by omega)]
      exact Nat.zero_le _
  obtain ⟨⟨prev, hp⟩, hlen⟩ := update_region_loop_inv env vc off n hg _ _ _ _ _ _ _ r hinv hr
  refine ⟨r, hdef, ?_, hlen⟩
  unfold runs_partition
  rw [hp]
  simp

/-! ### Scrolling by redraw in the frame-buffer console -/

theorem fbcon_redraw_row_eq : ∀ (k : Nat) (mem : Nat → Nat) (s d : Nat),
    fbcon_redraw_row k mem s d = memcpyw_loop mem d s k := by
  intro k
  induction k with
  | zero => intro mem s d; rfl
  | succ k ih =>
    intro mem s d
    show fbcon_redraw_row k (scr_writew mem (scr_readw mem s) d) (s + 2) (d + 2) =
      memcpyw_loop (scr_writew mem (scr_readw mem s) d) (d + 2) (s + 2) k
    exact ih _ _ _

theorem fbcon_row_cells_eq (vc : vc_data) (hsz : vc.vc_size_row = 2 * vc.vc_cols)
    (hc : 1 ≤ vc.vc_cols) : fbcon_row_cells vc = vc.vc_cols := by
  unfold fbcon_row_cells
  rw [hsz]
  have : (2 * vc.vc_cols + 1) / 2 = vc.vc_cols := by omega
  rw [this]
  exact Nat.max_eq_right hc

/-- The upward redraw is one ascending copy of `n` rows. -/
theorem fbcon_redraw_loop_up (vc : vc_data) (offset : Int) (hoff : 0 < offset) :
    ∀ (n : Nat) (mem : Nat → Nat) (s d a : Nat), d ≤ s →
    fbcon_redraw_loop vc offset n mem (s : Int) (d : Int) a =
      if d ≤ a ∧ a < d + 2 * (fbcon_row_cells vc * n) ∧ (a - d) % 2 = 0
      then mem (s + (a - d)) % 65536 else mem a := by
  intro n
  induction n with
  | zero =>
    intro mem s d a _
    rw [if_neg (by omega)]
    try rfl
  | succ n ih =>
    intro mem s d a hds
    obtain ⟨c, hcdef⟩ : ∃ c, c = fbcon_row_cells vc := ⟨_, rfl⟩
    have hstep : fbcon_redraw_loop vc offset (n + 1) mem (s : Int) (d : Int) =
        fbcon_redraw_loop vc offset n (memcpyw_loop mem d s c)
          ((s + 2 * c : Nat) : Int) ((d + 2 * c : Nat) : Int) := by
      rw [hcdef, ← fbcon_redraw_row_eq]
      show (if offset > 0 then _ else _) = _
      rw [if_pos hoff]
      simp only [Int.toNat_ofNat, Nat.cast_add, Nat.cast_mul, Nat.cast_ofNat]
    rw [hstep, ih _ _ _ a (by omega), ← hcdef]
    have hmul : c * (n + 1) = c * n + c := Nat.mul_succ c n
    have hrow := memcpyw_loop_apply c mem d s
    by_cases h1 : d + 2 * c ≤ a ∧ a < d + 2 * c + 2 * (c * n) ∧ (a - (d + 2 * c)) % 2 = 0
    · rw [if_pos h1, if_pos (by omega), hrow _ hds, if_neg (by omega)]
      have : s + 2 * c + (a - (d + 2 * c)) = s + (a - d) := by omega
      rw [this]
    · rw [if_neg h1, hrow a hds]
      by_cases h2 : d ≤ a ∧ a < d + 2 * c ∧ (a - d) % 2 = 0
      · rw [if_pos h2, if_pos (by omega)]
      · rw [if_neg h2, if_neg (by omega)]

/-- The downward redraw copies `n` rows, the last one first, each `G` bytes up;
`E` is the end of the source rows. -/
theorem fbcon_redraw_loop_down (vc : vc_data) (offset : Int) (hoff : ¬ 0 < offset)
    (hsz : vc.vc_size_row = 2 * fbcon_row_cells vc) (G : Nat)
    (hG : 2 * fbcon_row_cells vc ≤ G) :
    ∀ (n : Nat) (mem : Nat → Nat) (E a : Nat) (s d : Int),
    2 * (fbcon_row_cells vc * n) ≤ E →
    s = (E : Int) - 2 * (fbcon_row_cells vc : Int) →
    d = (E : Int) + (G : Int) - 2 * (fbcon_row_cells vc : Int) →
    fbcon_redraw_loop vc offset n mem s d a =
      if E + G - 2 * (fbcon_row_cells vc * n) ≤ a ∧ a < E + G ∧ (a + E + G) % 2 = 0
      then mem (a - G) % 65536 else mem a := by
  intro n
  induction n with
  | zero =>
    intro mem E a s d _ _ _
    rw [if_neg (by omega)]
    try rfl
  | succ n ih =>
    intro mem E a s d hE hs hd
    obtain ⟨c, hcdef⟩ : ∃ c, c = fbcon_row_cells vc := ⟨_, rfl⟩
    rw [← hcdef] at hE hs hd hG hsz ⊢
    have hmul : c * (n + 1) = c * n + c := Nat.mul_succ c n
    have hsn : s.toNat = E - 2 * c := by omega
    have hdn : d.toNat = E - 2 * c + G := by omega
    have hstep0 : fbcon_redraw_loop vc offset (n + 1) mem s d =
        fbcon_redraw_loop vc offset n
          (fbcon_redraw_row (fbcon_row_cells vc) mem s.toNat d.toNat)
          (s + 2 * (fbcon_row_cells vc : Int) - 2 * (vc.vc_size_row : Int))
          (d + 2 * (fbcon_row_cells vc : Int) - 2 * (vc.vc_size_row : Int)) := by
      show (if offset > 0 then _ else _) = _
      rw [if_neg hoff]
    have hstep : fbcon_redraw_loop vc offset (n + 1) mem s d =
        fbcon_redraw_loop vc offset n (memcpyw_loop mem (E - 2 * c + G) (E - 2 * c) c)
          (s + 2 * (c : Int) - 2 * (vc.vc_size_row : Int))
          (d + 2 * (c : Int) - 2 * (vc.vc_size_row : Int)) := by
      rw [hstep0, fbcon_redraw_row_eq, hsn, hdn, ← hcdef]
    rw [hstep]
    have hih := ih (memcpyw_loop mem (E - 2 * c + G) (E - 2 * c) c) (E - 2 * c) a
      (s + 2 * (c : Int) - 2 * (vc.vc_size_row : Int))
      (d + 2 * (c : Int) - 2 * (vc.vc_size_row : Int))
      (by rw [← hcdef]; omega) (by rw [← hcdef, hsz]; push_cast; omega)
      (by rw [← hcdef, hsz]; push_cast; omega)
    rw [← hcdef] at hih
    rw [hih]
    have hrow := memcpyw_loop_apply_disjoint c mem (E - 2 * c + G) (E - 2 * c)
    by_cases h1 : E - 2 * c + G - 2 * (c * n) ≤ a ∧ a < E - 2 * c + G ∧
        (a + (E - 2 * c) + G) % 2 = 0
    · rw [if_pos h1, if_pos (by omega), hrow _ (Or.inr (by omega)), if_neg (by omega)]
    · rw [if_neg h1, hrow a (Or.inr (by omega))]
      by_cases h2 : E - 2 * c + G ≤ a ∧ a < E - 2 * c + G + 2 * c ∧
          (a - (E - 2 * c + G)) % 2 = 0
      · rw [if_pos h2, if_pos (by omega)]
        have : E - 2 * c + (a - (E - 2 * c + G)) = a - G := by omega
        rw [this]
      · rw [if_neg h2, if_neg (by omega)]

theorem s32_small (x : Nat) (h : x < 2147483648) : s32 x = (x : Int) := by
  unfold s32
  rw [Nat.mod_eq_of_lt (by omega), if_pos h]

theorem s32_u32_neg (x : Nat) (h0 : 0 < x) (h : x < 2147483648) :
    s32 (u32 (-(x : Int))) = -(x : Int) := by
  have e : u32 (-(x : Int)) = 4294967296 - x := by
    unfold u32
    omega
  rw [e]
  unfold s32
  rw [Nat.mod_eq_of_lt (by omega), if_neg (by omega)]
  omega

/-- The upward call of `fbcon_redraw` made by `fbcon_scroll` moves the rows as
the block move of `scroll_region_up` does. -/
theorem fbcon_redraw_up (vc : vc_data) (t b n : Nat)
    (hsz : vc.vc_size_row = 2 * vc.vc_cols) (hc1 : 1 ≤ vc.vc_cols)
    (hcols : vc.vc_cols ≤ 32767) (hb : b ≤ 32767) (hn : 1 ≤ n) (htn : t + n < b) (a : Nat) :
    fbcon_redraw vc (t : Int) ((b : Int) - t - n) (s32 (u32 ((n : Int) * (vc.vc_cols : Int)))) a =
      scr_memmovew vc.mem (vc.vc_origin + vc.vc_size_row * t)
        (vc.vc_origin + vc.vc_size_row * (t + n)) ((b - t - n) * vc.vc_size_row) a := by
  have hR : vc.vc_size_row ≤ 65534 := by omega
  have hcells := fbcon_row_cells_eq vc hsz hc1
  have e1 : u32 ((vc.vc_size_row : Int) * (t : Int)) = vc.vc_size_row * t :=
    u32_mul _ _ hR (by omega)
  have e2 : u32 ((n : Int) * (vc.vc_cols : Int)) = n * vc.vc_cols :=
    u32_mul _ _ (by omega) hcols
  have hnc : n * vc.vc_cols ≤ 32767 * 32767 := Nat.mul_le_mul (by omega) hcols
  have hnc1 : 1 ≤ n * vc.vc_cols := Nat.mul_pos (by omega) (by omega)
  have e3 : s32 (n * vc.vc_cols) = ((n * vc.vc_cols : Nat) : Int) := s32_small _ (by omega)
  have e4 : u32 ((b : Int) - t - n) = b - t - n := by
    have : (b : Int) - t - n = ((b - t - n : Nat) : Int) := by omega
    rw [this]
    exact u32_of_nat _ (by omega)
  have hdef : fbcon_redraw vc (t : Int) ((b : Int) - t - n)
      (s32 (u32 ((n : Int) * (vc.vc_cols : Int)))) =
      fbcon_redraw_loop vc ((n * vc.vc_cols : Nat) : Int) (b - t - n) vc.mem
        ((vc.vc_origin + vc.vc_size_row * t + 2 * (n * vc.vc_cols) : Nat) : Int)
        ((vc.vc_origin + vc.vc_size_row * t : Nat) : Int) := by
    unfold fbcon_redraw
    simp only [e1, e2, e3, e4]
    try congr 1
    try push_cast
    try ring
  rw [hdef, fbcon_redraw_loop_up vc _ (by omega) _ _ _ _ a (by omega), hcells,
    scr_memmovew_apply]
  have m1 : (b - t - n) * vc.vc_size_row / 2 = vc.vc_cols * (b - t - n) := by
    rw [hsz, Nat.mul_comm (b - t - n), Nat.mul_assoc, Nat.mul_div_cancel_left _ (by omega)]
  have m2 : vc.vc_origin + vc.vc_size_row * (t + n) =
      vc.vc_origin + vc.vc_size_row * t + 2 * (n * vc.vc_cols) := by
    rw [hsz]; ring
  rw [m1, m2]

/-- The downward call of `fbcon_redraw` made by `fbcon_scroll` moves the rows as
the block move of `scroll_region_down` does. -/
theorem fbcon_redraw_down (vc : vc_data) (t b n : Nat)
    (hsz : vc.vc_size_row = 2 * vc.vc_cols) (hc1 : 1 ≤ vc.vc_cols)
    (hcols : vc.vc_cols ≤ 32767) (hb : b ≤ 32767) (hn : 1 ≤ n) (htn : t + n < b) (a : Nat) :
    fbcon_redraw vc ((b : Int) - 1) ((b : Int) - t - n)
        (s32 (u32 (-(n : Int) * (vc.vc_cols : Int)))) a =
      scr_memmovew vc.mem (vc.vc_origin + vc.vc_size_row * t + 2 * (vc.vc_cols * n))
        (vc.vc_origin + vc.vc_size_row * t) ((b - t - n) * vc.vc_size_row) a := by
  have hR : vc.vc_size_row ≤ 65534 := by omega
  have hcells := fbcon_row_cells_eq vc hsz hc1
  obtain ⟨c, hc⟩ : ∃ c, c = vc.vc_cols := ⟨_, rfl⟩
  obtain ⟨m, hm⟩ : ∃ m, m = b - t - n := ⟨_, rfl⟩
  have hbm : b = t + n + m := by omega
  have hnc : n * c ≤ 32767 * 32767 := Nat.mul_le_mul (by omega) (by rw [hc]; exact hcols)
  have hnc1 : 1 ≤ n * c := Nat.mul_pos (by omega) (by rw [hc]; omega)
  have hncc : c ≤ n * c := by
    have := Nat.mul_le_mul_right c hn
    omega
  have e1 : u32 ((vc.vc_size_row : Int) * ((b : Int) - 1)) = vc.vc_size_row * (b - 1) := by
    have := u32_mul vc.vc_size_row (b - 1) hR (by omega)
    rw [← this]
    congr 1
    have : ((b - 1 : Nat) : Int) = (b : Int) - 1 := by omega
    rw [this]
  have e2 : s32 (u32 (-(n : Int) * (vc.vc_cols : Int))) = -((n * c : Nat) : Int) := by
    have : -(n : Int) * (vc.vc_cols : Int) = -((n * c : Nat) : Int) := by
      rw [hc]; push_cast; ring
    rw [this]
    exact s32_u32_neg _ (by omega) (by omega)
  have e4 : u32 ((b : Int) - t - n) = m := by
    have : (b : Int) - t - n = ((m : Nat) : Int) := by omega
    rw [this]
    exact u32_of_nat _ (by omega)
  have hdef : fbcon_redraw vc ((b : Int) - 1) ((b : Int) - t - n)
      (s32 (u32 (-(n : Int) * (vc.vc_cols : Int)))) =
      fbcon_redraw_loop vc (-((n * c : Nat) : Int)) m vc.mem
        (((vc.vc_origin + vc.vc_size_row * (b - 1) : Nat) : Int) + 2 * -((n * c : Nat) : Int))
        ((vc.vc_origin + vc.vc_size_row * (b - 1) : Nat) : Int) := by
    unfold fbcon_redraw
    simp only [e1, e2, e4]
  have p1 : c * b = c * t + c * n + c * m := by rw [hbm]; ring
  have p2 : c * (b - 1) + c = c * b := by
    have : b = (b - 1) + 1 := by omega
    rw [this, Nat.mul_succ]
    simp
  have p3 : n * c = c * n := Nat.mul_comm _ _
  have hrow1 : vc.vc_size_row * (b - 1) = 2 * (c * (b - 1)) := by rw [hsz, ← hc]; ring
  have hrowt : vc.vc_size_row * t = 2 * (c * t) := by rw [hsz, ← hc]; ring
  have hms : m * vc.vc_size_row / 2 = c * m := by
    rw [hsz, ← hc, Nat.mul_comm m, Nat.mul_assoc, Nat.mul_div_cancel_left _ (by omega)]
  have hcm : c * m ≤ c * b := Nat.mul_le_mul_left c (by omega)
  rw [hdef, fbcon_redraw_loop_down vc _ (by omega) (by rw [hcells]; exact hsz) (2 * (n * c))
    (by rw [hcells, ← hc]; omega) m vc.mem (vc.vc_origin + 2 * (c * b) - 2 * (c * n)) a _ _
    (by rw [hcells, ← hc]; omega)
    (by rw [hcells, hrow1, ← hc]; push_cast; omega)
    (by rw [hcells, hrow1, ← hc]; push_cast; omega),
    hcells, ← hc, scr_memmovew_apply, ← hm, hms, hrowt]
  by_cases h1 : vc.vc_origin + 2 * (c * t) + 2 * (c * n) ≤ a ∧
      a < vc.vc_origin + 2 * (c * t) + 2 * (c * n) + 2 * (c * m) ∧
      (a - (vc.vc_origin + 2 * (c * t) + 2 * (c * n))) % 2 = 0
  · rw [if_pos h1, if_pos (by omega)]
    have : a - 2 * (n * c) =
        vc.vc_origin + 2 * (c * t) + (a - (vc.vc_origin + 2 * (c * t) + 2 * (c * n))) := by
      omega
    rw [this]
  · rw [if_neg h1, if_neg (by omega)]

/-- The rows noted in the scrollback are stored inside the scrollback buffer:
every address outside it keeps its contents. -/
theorem fbcon_softback_loop_outside (R : Nat) : ∀ (n : Nat) (mem : Nat → Nat) (par : fbcon_par)
    (p N K : Nat), K < N →
    par.softback.softback_in = par.softback.softback_buf + R * K →
    par.softback.softback_end = par.softback.softback_buf + R * N →
    (par.softback.softback_end ≤ p ∨ p + R * n ≤ par.softback.softback_buf) →
    ∀ a, (a < par.softback.softback_buf ∨ par.softback.softback_end ≤ a) →
      (fbcon_softback_loop R n mem par p).1 a = mem a := by
  intro n
  induction n with
  | zero => intro mem par p N K _ _ _ _ a _; rfl
  | succ n ih =>
    intro mem par p N K hK hin hend hdis a ha
    have hmul : R * (n + 1) = R * n + R := Nat.mul_succ R n
    have hK1 : R * (K + 1) = R * K + R := Nat.mul_succ R K
    have hKN : R * (K + 1) ≤ R * N := Nat.mul_le_mul_left R hK
    obtain ⟨in2, hin2⟩ : ∃ x, x = (if par.softback.softback_in + R = par.softback.softback_end
        then par.softback.softback_buf else par.softback.softback_in + R) := ⟨_, rfl⟩
    obtain ⟨top1, htop1⟩ : ∃ x, x = (if in2 = par.softback_top then
        if par.softback_top + R = par.softback.softback_end
        then par.softback.softback_buf else par.softback_top + R
      else par.softback_top) := ⟨_, rfl⟩
    have hstep : fbcon_softback_loop R (n + 1) mem par p =
        fbcon_softback_loop R n (scr_memcpyw mem par.softback.softback_in p R)
          { par with softback := { par.softback with softback_in := in2 }, softback_top := top1 }
          (p + R) := by
      rw [htop1, hin2]
      try rfl
    have hK' : ∃ K', K' < N ∧ in2 = par.softback.softback_buf + R * K' := by
      by_cases hw : par.softback.softback_in + R = par.softback.softback_end
      · rw [if_pos hw] at hin2
        exact ⟨0, by omega, by rw [hin2]; simp⟩
      · rw [if_neg hw] at hin2
        refine ⟨K + 1, ?_, by rw [hin2, hin, hK1]; omega⟩
        rcases Nat.lt_or_ge (K + 1) N with h | h
        · exact h
        · have : K + 1 = N := by omega
          rw [← this] at hend
          exact absurd (by rw [hin, hend, hK1]; omega) hw
    obtain ⟨K', hK'1, hK'2⟩ := hK'
    rw [hstep]
    have := ih (scr_memcpyw mem par.softback.softback_in p R)
      { par with softback := { par.softback with softback_in := in2 }, softback_top := top1 }
      (p + R) N K' hK'1 hK'2 hend
      (by
        show par.softback.softback_end ≤ p + R ∨ p + R + R * n ≤ par.softback.softback_buf
        omega) a ha
    rw [this]
    unfold scr_memcpyw
    rw [memcpyw_loop_apply_disjoint (R / 2) mem _ _ a (by omega), if_neg (by omega)]

theorem fbcon_softback_note_mem (st : fbcon_state) (t n : Nat) (hsb : softback_ok st)
    (hsz : st.vc.vc_size_row = 2 * st.vc.vc_cols) (hcols : st.vc.vc_cols ≤ 32767)
    (hrows : st.vc.vc_rows ≤ 32767) (htn : t + n ≤ st.vc.vc_rows) :
    (fbcon_softback_note st t n).vc =
      { st.vc with mem := (fbcon_softback_note st t n).vc.mem } ∧
    ∀ a, (st.par.softback_top = 0 ∨ st.vc.is_visible = false ∨
        a < st.par.softback.softback_buf ∨ st.par.softback.softback_end ≤ a) →
      st.par.softback_top ≠ 0 →
      (fbcon_softback_note st t n).vc.mem a = st.vc.mem a := by
  by_cases hv : st.vc.is_visible = true
  · have hdef : fbcon_softback_note st t n =
        { vc := { st.vc with mem := (fbcon_softback_loop st.vc.vc_size_row (u32 (n : Int))
            st.vc.mem st.par (st.vc.vc_origin + u32 ((t : Int) * st.vc.vc_size_row))).1 },
          par := { (fbcon_softback_loop st.vc.vc_size_row (u32 (n : Int))
            st.vc.mem st.par (st.vc.vc_origin + u32 ((t : Int) * st.vc.vc_size_row))).2 with
            softback_curr := (fbcon_softback_loop st.vc.vc_size_row (u32 (n : Int))
              st.vc.mem st.par
              (st.vc.vc_origin + u32 ((t : Int) * st.vc.vc_size_row))).2.softback.softback_in } } := by
      unfold fbcon_softback_note
      rw [hv]
      try rfl
    rw [hdef]
    refine ⟨rfl, ?_⟩
    intro a ha htop
    show (fbcon_softback_loop st.vc.vc_size_row (u32 (n : Int))
      st.vc.mem st.par (st.vc.vc_origin + u32 ((t : Int) * st.vc.vc_size_row))).1 a = st.vc.mem a
    have hout : a < st.par.softback.softback_buf ∨ st.par.softback.softback_end ≤ a := by
      rcases ha with h | h | h | h
      · exact absurd h htop
      · rw [hv] at h; exact absurd h (by decide)
      · exact Or.inl h
      · exact Or.inr h
    obtain ⟨N, K, hK, hin, hend, hdis⟩ : ∃ N K : Nat, K < N ∧
        st.par.softback.softback_in = st.par.softback.softback_buf + st.vc.vc_size_row * K ∧
        st.par.softback.softback_end = st.par.softback.softback_buf + st.vc.vc_size_row * N ∧
        (st.par.softback.softback_end ≤ st.vc.vc_origin ∨
          st.vc.vc_origin + st.vc.vc_size_row * st.vc.vc_rows ≤ st.par.softback.softback_buf) := by
      rcases hsb with h | h | h
      · exact absurd h htop
      · rw [hv] at h; exact absurd h (by decide)
      · exact h
    have e1 : u32 ((n : Int)) = n := u32_of_nat n (by omega)
    have e2 : u32 ((t : Int) * st.vc.vc_size_row) = st.vc.vc_size_row * t := by
      have := u32_mul st.vc.vc_size_row t (by omega) (by omega)
      rw [← this]
      congr 1
      ring
    rw [e1, e2]
    have hle : st.vc.vc_size_row * (t + n) ≤ st.vc.vc_size_row * st.vc.vc_rows :=
      Nat.mul_le_mul_left _ htn
    have hadd : st.vc.vc_size_row * (t + n) = st.vc.vc_size_row * t + st.vc.vc_size_row * n :=
      Nat.mul_add _ _ _
    exact fbcon_softback_loop_outside st.vc.vc_size_row n st.vc.mem st.par _ N K hK hin hend
      (by omega) a hout
  · have hv' : st.vc.is_visible = false := by
      cases h : st.vc.is_visible
      · rfl
      · exact absurd h hv
    have hdef : fbcon_softback_note st t n = st := by
      unfold fbcon_softback_note
      rw [hv']
      try rfl
    rw [hdef]
    exact ⟨rfl, fun _ _ _ => rfl⟩

theorem fbcon_cursor_idle (scrolldelta : fbcon_state → Int → fbcon_state) (st : fbcon_state)
    (hlines : st.par.softback_lines = 0) : fbcon_cursor scrolldelta st CM_ERASE = st := by
  unfold fbcon_cursor
  rw [if_neg (by decide), if_neg (by rw [hlines]; exact fun h => h rfl)]

theorem with_mem_congr (v w : vc_data) (M : Nat → Nat) (h : v = { w with mem := v.mem }) :
    { v with mem := M } = { w with mem := M } := by
  rw [h]

theorem fbcon_scroll_up_eq (scrolldelta : fbcon_state → Int → fbcon_state) (st : fbcon_state)
    (t b : Int) (n : Nat) (hblank : st.vc.vt_blanked = false) (hmode : st.vc.vc_mode = KD_TEXT)
    (hlines : st.par.softback_lines = 0) (hn : 1 ≤ n) (hrows : st.vc.vc_rows ≤ 32767)
    (hnr : n ≤ st.vc.vc_rows) (st2 : fbcon_state)
    (hst2 : st2 = if st.par.softback_top ≠ 0 then fbcon_softback_note st t n else st) :
    fbcon_scroll scrolldelta st t b SM_UP n =
      (1, { st2 with vc := { st2.vc with
        mem := scr_memsetw
          (fbcon_redraw st2.vc t (b - t - n) (s32 (u32 ((n : Int) * (st2.vc.vc_cols : Int)))))
          (st2.vc.vc_origin + u32 ((st2.vc.vc_size_row : Int) * (b - n)))
          st2.vc.vc_video_erase_char (u32 ((st2.vc.vc_size_row : Int) * n)) } }) := by
  have hcur := fbcon_cursor_idle scrolldelta st hlines
  have hclamp : (if u32 (n : Int) > st.vc.vc_rows then (st.vc.vc_rows : Int) else (n : Int)) =
      (n : Int) := by
    rw [u32_of_nat n (by omega), if_neg (by omega)]
  unfold fbcon_scroll
  rw [if_neg (by rw [hblank]; simp), if_neg (by rw [hmode]; omega)]
  simp only [hcur, hclamp]
  rw [if_pos trivial, ← hst2]

theorem fbcon_scroll_down_eq (scrolldelta : fbcon_state → Int → fbcon_state) (st : fbcon_state)
    (t b : Int) (n : Nat) (hblank : st.vc.vt_blanked = false) (hmode : st.vc.vc_mode = KD_TEXT)
    (hlines : st.par.softback_lines = 0) (hn : 1 ≤ n) (hrows : st.vc.vc_rows ≤ 32767)
    (hnr : n ≤ st.vc.vc_rows) :
    fbcon_scroll scrolldelta st t b SM_DOWN n =
      (1, { st with vc := { st.vc with
        mem := scr_memsetw
          (fbcon_redraw st.vc (b - 1) (b - t - n) (s32 (u32 (-(n : Int) * (st.vc.vc_cols : Int)))))
          (st.vc.vc_origin + u32 ((st.vc.vc_size_row : Int) * t))
          st.vc.vc_video_erase_char (u32 ((st.vc.vc_size_row : Int) * n)) } }) := by
  have hcur := fbcon_cursor_idle scrolldelta st hlines
  have hclamp : (if u32 (n : Int) > st.vc.vc_rows then (st.vc.vc_rows : Int) else (n : Int)) =
      (n : Int) := by
    rw [u32_of_nat n (by omega), if_neg (by omega)]
  unfold fbcon_scroll
  rw [if_neg (by rw [hblank]; simp), if_neg (by rw [hmode]; omega)]
  simp only [hcur, hclamp]
  rw [if_neg (show ¬ (SM_DOWN = SM_UP) by decide)]
  try rw [if_pos trivial]

/-- The cell buffer after `fbcon_scroll` downwards is the one of the in-buffer
part of `scroll_region_down`. -/
theorem fbcon_scroll_down_mem (scrolldelta : fbcon_state → Int → fbcon_state)
    (st : fbcon_state) (t b n : Nat) (hblank : st.vc.vt_blanked = false)
    (hmode : st.vc.vc_mode = KD_TEXT) (hlines : st.par.softback_lines = 0)
    (hsz : st.vc.vc_size_row = 2 * st.vc.vc_cols) (hc1 : 1 ≤ st.vc.vc_cols)
    (hcols : st.vc.vc_cols ≤ 32767) (hrows : st.vc.vc_rows ≤ 32767) (hb : b ≤ st.vc.vc_rows)
    (hn : 1 ≤ n) (htn : t + n < b) :
    fbcon_scroll scrolldelta st t b SM_DOWN n =
      (1, { st with vc := scroll_region_down_soft st.vc t b n }) := by
  rw [fbcon_scroll_down_eq scrolldelta st t b n hblank hmode hlines hn hrows (by omega),
    scroll_region_down_soft_eq st.vc t b n hsz hcols (by omega) htn]
  have e1 : u32 ((st.vc.vc_size_row : Int) * (t : Int)) = st.vc.vc_size_row * t :=
    u32_mul _ _ (by omega) (by omega)
  have e2 : u32 ((st.vc.vc_size_row : Int) * (n : Int)) = st.vc.vc_size_row * n :=
    u32_mul _ _ (by omega) (by omega)
  have e3 : st.vc.vc_size_row * n = 2 * (st.vc.vc_cols * n) := by rw [hsz]; ring
  have hm : fbcon_redraw st.vc ((b : Int) - 1) ((b : Int) - t - n)
        (s32 (u32 (-(n : Int) * (st.vc.vc_cols : Int)))) =
      scr_memmovew st.vc.mem (st.vc.vc_origin + st.vc.vc_size_row * t + 2 * (st.vc.vc_cols * n))
        (st.vc.vc_origin + st.vc.vc_size_row * t) ((b - t - n) * st.vc.vc_size_row) := by
    funext a
    exact fbcon_redraw_down st.vc t b n hsz hc1 hcols (by omega) hn htn a
  rw [e1, e2, e3, hm]

/-- The cell buffer after `fbcon_scroll` upwards is the one of the in-buffer
part of `scroll_region_up` at every address that the scrollback note has not
written. -/
theorem fbcon_scroll_up_mem (scrolldelta : fbcon_state → Int → fbcon_state)
    (st : fbcon_state) (t b n : Nat) (hblank : st.vc.vt_blanked = false)
    (hmode : st.vc.vc_mode = KD_TEXT) (hlines : st.par.softback_lines = 0)
    (hsb : softback_ok st)
    (hsz : st.vc.vc_size_row = 2 * st.vc.vc_cols) (hc1 : 1 ≤ st.vc.vc_cols)
    (hcols : st.vc.vc_cols ≤ 32767) (hrows : st.vc.vc_rows ≤ 32767) (hb : b ≤ st.vc.vc_rows)
    (hn : 1 ≤ n) (htn : t + n < b) :
    (fbcon_scroll scrolldelta st t b SM_UP n).1 = 1 ∧
    (fbcon_scroll scrolldelta st t b SM_UP n).2.vc =
      { st.vc with mem := (fbcon_scroll scrolldelta st t b SM_UP n).2.vc.mem } ∧
    ∀ a, (st.par.softback_top = 0 ∨ st.vc.is_visible = false ∨
        a < st.par.softback.softback_buf ∨ st.par.softback.softback_end ≤ a) →
      (fbcon_scroll scrolldelta st t b SM_UP n).2.vc.mem a =
        (scroll_region_up_soft st.vc t b n).mem a := by
  obtain ⟨st2, hst2⟩ : ∃ st2, st2 =
      (if st.par.softback_top ≠ 0 then fbcon_softback_note st t n else st) := ⟨_, rfl⟩
  have hnote := fbcon_softback_note_mem st t n hsb hsz hcols hrows (by omega)
  have hfr : st2.vc = { st.vc with mem := st2.vc.mem } := by
    by_cases htop : st.par.softback_top ≠ 0
    · rw [if_pos htop] at hst2
      rw [hst2]
      exact hnote.1
    · rw [if_neg htop] at hst2
      rw [hst2]
  have hmem : ∀ a, (st.par.softback_top = 0 ∨ st.vc.is_visible = false ∨
      a < st.par.softback.softback_buf ∨ st.par.softback.softback_end ≤ a) →
      st2.vc.mem a = st.vc.mem a := by
    intro a ha
    by_cases htop : st.par.softback_top ≠ 0
    · rw [if_pos htop] at hst2
      rw [hst2]
      exact hnote.2 a ha htop
    · rw [if_neg htop] at hst2
      rw [hst2]
  have f1 : st2.vc.vc_size_row = st.vc.vc_size_row := by rw [hfr]
  have f2 : st2.vc.vc_cols = st.vc.vc_cols := by rw [hfr]
  have f3 : st2.vc.vc_origin = st.vc.vc_origin := by rw [hfr]
  have f4 : st2.vc.vc_video_erase_char = st.vc.vc_video_erase_char := by rw [hfr]
  rw [fbcon_scroll_up_eq scrolldelta st t b n hblank hmode hlines hn hrows (by omega) st2 hst2]
  refine ⟨rfl, ?_, ?_⟩
  · exact with_mem_congr st2.vc st.vc _ hfr
  · intro a ha
    show scr_memsetw
        (fbcon_redraw st2.vc t ((b : Int) - t - n) (s32 (u32 ((n : Int) * (st2.vc.vc_cols : Int)))))
        (st2.vc.vc_origin + u32 ((st2.vc.vc_size_row : Int) * ((b : Int) - n)))
        st2.vc.vc_video_erase_char (u32 ((st2.vc.vc_size_row : Int) * n)) a = _
    rw [scroll_region_up_soft_eq st.vc t b n hsz hcols (by omega) htn]
    show _ = scr_memsetw
        (scr_memmovew st.vc.mem (st.vc.vc_origin + st.vc.vc_size_row * t)
          (st.vc.vc_origin + st.vc.vc_size_row * (t + n)) ((b - t - n) * st.vc.vc_size_row))
        (st.vc.vc_origin + st.vc.vc_size_row * t + 2 * ((b - t - n) * st.vc.vc_cols))
        st.vc.vc_video_erase_char (st.vc.vc_size_row * n) a
    have e1 : u32 ((st2.vc.vc_size_row : Int) * ((b : Int) - n)) = st.vc.vc_size_row * (b - n) := by
      have := u32_mul st.vc.vc_size_row (b - n) (by omega) (by omega)
      rw [← this, f1]
      congr 1
      have : ((b - n : Nat) : Int) = (b : Int) - n := by omega
      rw [this]
    have e2 : u32 ((st2.vc.vc_size_row : Int) * (n : Int)) = st.vc.vc_size_row * n := by
      rw [f1]
      exact u32_mul _ _ (by omega) (by omega)
    have e3 : st.vc.vc_origin + st.vc.vc_size_row * (b - n) =
        st.vc.vc_origin + st.vc.vc_size_row * t + 2 * ((b - t - n) * st.vc.vc_cols) := by
      have : b - n = t + (b - t - n) := by omega
      rw [this, hsz]
      ring
    have hred := fbcon_redraw_up st2.vc t b n (by rw [f1, f2]; exact hsz) (by rw [f2]; exact hc1)
      (by rw [f2]; exact hcols) (by omega) hn htn
    rw [f1, f3] at hred
    rw [e1, e2, f3, f4, e3, scr_memsetw_apply, scr_memsetw_apply]
    obtain ⟨c, hc⟩ : ∃ c, c = st.vc.vc_cols := ⟨_, rfl⟩
    obtain ⟨m, hm⟩ : ∃ m, m = b - t - n := ⟨_, rfl⟩
    have hbm : b = t + n + m := by omega
    have q1 : st.vc.vc_size_row * t = 2 * (c * t) := by rw [hsz, ← hc]; ring
    have q2 : st.vc.vc_size_row * (t + n) = 2 * (c * t) + 2 * (c * n) := by rw [hsz, ← hc]; ring
    have q3 : m * st.vc.vc_size_row / 2 = c * m := by
      rw [hsz, ← hc, Nat.mul_comm m, Nat.mul_assoc, Nat.mul_div_cancel_left _ (by omega)]
    have q4 : st.vc.vc_size_row * st.vc.vc_rows = 2 * (c * st.vc.vc_rows) := by
      rw [hsz, ← hc]; ring
    have q5 : c * b = c * t + c * n + c * m := by rw [hbm]; ring
    have q6 : c * b ≤ c * st.vc.vc_rows := Nat.mul_le_mul_left c hb
    by_cases hC : st.vc.vc_origin + st.vc.vc_size_row * t + 2 * ((b - t - n) * st.vc.vc_cols) ≤ a ∧
        a < st.vc.vc_origin + st.vc.vc_size_row * t + 2 * ((b - t - n) * st.vc.vc_cols) +
          2 * (st.vc.vc_size_row * n / 2) ∧
        (a - (st.vc.vc_origin + st.vc.vc_size_row * t + 2 * ((b - t - n) * st.vc.vc_cols))) % 2 = 0
    · rw [if_pos hC, if_pos hC]
    · rw [if_neg hC, if_neg hC, hred a, scr_memmovew_apply, scr_memmovew_apply, ← hm, q3, q1, q2]
      by_cases hD : st.vc.vc_origin + 2 * (c * t) ≤ a ∧
          a < st.vc.vc_origin + 2 * (c * t) + 2 * (c * m) ∧
          (a - (st.vc.vc_origin + 2 * (c * t))) % 2 = 0
      · rw [if_pos hD, if_pos hD]
        rw [hmem]
        rcases hsb with h | h | ⟨N, K, -, -, -, h⟩
        · exact Or.inl h
        · exact Or.inr (Or.inl h)
        · right; right
          rcases h with h | h
          · right; omega
          · left; omega
      · rw [if_neg hD, if_neg hD]
        exact hmem a ha

/-- C26: `fbcon_scroll` in redraw mode (`__SCROLL_YREDRAW`, fbcon.c) on a
console in text mode that is not blanked, whose view is not scrolled back and
whose scrollback buffer, if any, is made of whole rows outside the screen; the
row size is `2 * cols`, columns and rows are at most 32767, and
`count >= 1`, `t + count < b <= rows`.  In both directions the call returns 1
and changes the cells only.  Downwards the console it leaves is the one the
in-buffer part of `scroll_region_down` (ruby-2.6 vt.c) leaves.  Upwards the
memory is the one the in-buffer part of `scroll_region_up` leaves at every
address outside the scrollback buffer, where `fbcon_scroll` has noted the rows
scrolled out, hence at every address of the screen.  In terms of cells: the
`b - t - count` surviving rows are shifted by `count` rows, the `count`
exposed rows hold the erase character, and the rows outside `[t, b)` are
unchanged. -/
theorem fbcon_scroll_redraw_refines (scrolldelta : fbcon_state → Int → fbcon_state)
    (st : fbcon_state) (t b n : Nat) (hblank : st.vc.vt_blanked = false)
    (hmode : st.vc.vc_mode = KD_TEXT) (hlines : st.par.softback_lines = 0)
    (hsb : softback_ok st)
    (hsz : st.vc.vc_size_row = 2 * st.vc.vc_cols) (hc1 : 1 ≤ st.vc.vc_cols)
    (hcols : st.vc.vc_cols ≤ 32767) (hrows : st.vc.vc_rows ≤ 32767) (hb : b ≤ st.vc.vc_rows)
    (hn : 1 ≤ n) (htn : t + n < b) :
    (fbcon_scroll scrolldelta st t b SM_UP n).1 = 1 ∧
    (fbcon_scroll scrolldelta st t b SM_DOWN n).1 = 1 ∧
    (fbcon_scroll scrolldelta st t b SM_UP n).2.vc =
      { st.vc with mem := (fbcon_scroll scrolldelta st t b SM_UP n).2.vc.mem } ∧
    (fbcon_scroll scrolldelta st t b SM_DOWN n).2 =
      { st with vc := scroll_region_down_soft st.vc t b n } ∧
    (∀ a, (st.par.softback_top = 0 ∨ st.vc.is_visible = false ∨
        a < st.par.softback.softback_buf ∨ st.par.softback.softback_end ≤ a) →
      (fbcon_scroll scrolldelta st t b SM_UP n).2.vc.mem a =
        (scroll_region_up_soft st.vc t b n).mem a) ∧
    (∀ a, st.vc.vc_origin ≤ a → a < st.vc.vc_origin + st.vc.vc_size_row * st.vc.vc_rows →
      (fbcon_scroll scrolldelta st t b SM_UP n).2.vc.mem a =
        (scroll_region_up_soft st.vc t b n).mem a) ∧
    (∀ i j, i < b - t - n → j < st.vc.vc_cols →
      cell (fbcon_scroll scrolldelta st t b SM_UP n).2.vc (t + i) j = cell st.vc (t + n + i) j) ∧
    (∀ r j, b - n ≤ r → r < b → j < st.vc.vc_cols →
      cell (fbcon_scroll scrolldelta st t b SM_UP n).2.vc r j =
        st.vc.vc_video_erase_char % 65536) ∧
    (∀ r j, (r < t ∨ b ≤ r) → r < st.vc.vc_rows → j < st.vc.vc_cols →
      cell (fbcon_scroll scrolldelta st t b SM_UP n).2.vc r j = cell st.vc r j) ∧
    (∀ i j, i < b - t - n → j < st.vc.vc_cols →
      cell (fbcon_scroll scrolldelta st t b SM_DOWN n).2.vc (t + n + i) j =
        cell st.vc (t + i) j) ∧
    (∀ r j, t ≤ r → r < t + n → j < st.vc.vc_cols →
      cell (fbcon_scroll scrolldelta st t b SM_DOWN n).2.vc r j =
        st.vc.vc_video_erase_char % 65536) ∧
    (∀ r j, (r < t ∨ b ≤ r) → r < st.vc.vc_rows → j < st.vc.vc_cols →
      cell (fbcon_scroll scrolldelta st t b SM_DOWN n).2.vc r j = cell st.vc r j) := by
  obtain ⟨u1, u2, u3⟩ := fbcon_scroll_up_mem scrolldelta st t b n hblank hmode hlines hsb hsz
    hc1 hcols hrows hb hn htn
  have hd := fbcon_scroll_down_mem scrolldelta st t b n hblank hmode hlines hsz hc1 hcols hrows
    hb hn htn
  obtain ⟨su1, su2, su3⟩ := scroll_region_up_soft_cells st.vc t b n hsz hcols (by omega) htn
  obtain ⟨sd1, sd2, sd3⟩ := scroll_region_down_soft_cells st.vc t b n hsz hcols (by omega) htn
  obtain ⟨c, hc⟩ : ∃ c, c = st.vc.vc_cols := ⟨_, rfl⟩
  have hscreen : ∀ a, st.vc.vc_origin ≤ a →
      a < st.vc.vc_origin + st.vc.vc_size_row * st.vc.vc_rows →
      (st.par.softback_top = 0 ∨ st.vc.is_visible = false ∨
        a < st.par.softback.softback_buf ∨ st.par.softback.softback_end ≤ a) := by
    intro a h1 h2
    rcases hsb with h | h | ⟨N, K, -, -, -, h⟩
    · exact Or.inl h
    · exact Or.inr (Or.inl h)
    · right; right
      rcases h with h | h
      · right; omega
      · left; omega
  have haddr : ∀ r j, r < st.vc.vc_rows → j < st.vc.vc_cols →
      st.vc.vc_origin ≤ st.vc.vc_origin + st.vc.vc_size_row * r + 2 * j ∧
      st.vc.vc_origin + st.vc.vc_size_row * r + 2 * j <
        st.vc.vc_origin + st.vc.vc_size_row * st.vc.vc_rows := by
    intro r j hr hj
    have h1 : c * (r + 1) ≤ c * st.vc.vc_rows := Nat.mul_le_mul_left c (by omega)
    have h2 : c * (r + 1) = c * r + c := Nat.mul_succ c r
    have h3 : st.vc.vc_size_row * r = 2 * (c * r) := by rw [hsz, ← hc]; ring
    have h4 : st.vc.vc_size_row * st.vc.vc_rows = 2 * (c * st.vc.vc_rows) := by
      rw [hsz, ← hc]; ring
    rw [← hc] at hj
    omega
  have hrowout : ∀ r j, (r < t ∨ b ≤ r) → j < st.vc.vc_cols →
      (st.vc.vc_origin + st.vc.vc_size_row * r + 2 * j < st.vc.vc_origin + st.vc.vc_size_row * t ∨
        st.vc.vc_origin + st.vc.vc_size_row * b ≤
          st.vc.vc_origin + st.vc.vc_size_row * r + 2 * j) := by
    intro r j hr hj
    have h3 : st.vc.vc_size_row * r = 2 * (c * r) := by rw [hsz, ← hc]; ring
    have h4 : st.vc.vc_size_row * t = 2 * (c * t) := by rw [hsz, ← hc]; ring
    have h5 : st.vc.vc_size_row * b = 2 * (c * b) := by rw [hsz, ← hc]; ring
    rw [← hc] at hj
    rcases hr with hr | hr
    · left
      have h1 : c * (r + 1) ≤ c * t := Nat.mul_le_mul_left c (by omega)
      have h2 : c * (r + 1) = c * r + c := Nat.mul_succ c r
      omega
    · right
      have h1 : c * b ≤ c * r := Nat.mul_le_mul_left c hr
      omega
  have hcellu : ∀ r j, r < st.vc.vc_rows → j < st.vc.vc_cols →
      cell (fbcon_scroll scrolldelta st t b SM_UP n).2.vc r j =
        cell (scroll_region_up_soft st.vc t b n) r j := by
    intro r j hr hj
    obtain ⟨a1, a2⟩ := haddr r j hr hj
    have o1 : (fbcon_scroll scrolldelta st t b SM_UP n).2.vc.vc_origin = st.vc.vc_origin := by
      rw [u2]
    have o2 : (fbcon_scroll scrolldelta st t b SM_UP n).2.vc.vc_size_row = st.vc.vc_size_row := by
      rw [u2]
    unfold cell scr_readw
    rw [o1, o2, u3 _ (hscreen _ a1 a2)]
    try rfl
  refine ⟨u1, by rw [hd], u2, by rw [hd], u3, fun a h1 h2 => u3 a (hscreen a h1 h2), ?_, ?_, ?_,
    ?_, ?_, ?_⟩
  · intro i j hi hj
    rw [hcellu _ _ (by omega) hj]
    exact su1 i j hi hj
  · intro r j h1 h2 hj
    rw [hcellu _ _ (by omega) hj]
    exact su2 r j h1 h2 hj
  · intro r j hr hrr hj
    rw [hcellu _ _ hrr hj]
    show scr_readw (scroll_region_up_soft st.vc t b n).mem
      (st.vc.vc_origin + st.vc.vc_size_row * r + 2 * j) = _
    unfold scr_readw
    rw [su3 _ (hrowout r j hr hj)]
    try rfl
  · intro i j hi hj
    rw [hd]
    exact sd1 i j hi hj
  · intro r j h1 h2 hj
    rw [hd]
    exact sd2 r j h1 h2 hj
  · intro r j hr hrr hj
    rw [hd]
    show scr_readw (scroll_region_down_soft st.vc t b n).mem
      (st.vc.vc_origin + st.vc.vc_size_row * r + 2 * j) = _
    unfold scr_readw
    rw [sd3 _ (hrowout r j hr hj)]
    try rfl

/-! ### Concrete instances -/

/-- C1 (witness): `gotoxy(-1000, -1000)` on an 80x25 console gives `(0, 0)`,
and `(0, 5)` in origin mode with the scroll region `[5, 20)`. -/
theorem gotoxy_clamp_witness :
    (1 ≤ (sample_console 80 25 sample_mem).vc_cols ∧
      1 ≤ (sample_console 80 25 sample_mem).vc_rows ∧
      (sample_console 80 25 sample_mem).vc_top < (sample_console 80 25 sample_mem).vc_bottom) ∧
    (((gotoxy (sample_console 80 25 sample_mem) (-1000) (-1000)).vc_x : Int) = 0 ∧
      ((gotoxy (sample_console 80 25 sample_mem) (-1000) (-1000)).vc_y : Int) = 0 ∧
      (gotoxy (sample_console 80 25 sample_mem) (-1000) (-1000)).vc_need_wrap = false) ∧
    (((gotoxy sample_origin_console (-1000) (-1000)).vc_x : Int) = 0 ∧
      ((gotoxy sample_origin_console (-1000) (-1000)).vc_y : Int) = 5 ∧
      ((gotoxy sample_origin_console 1000 1000).vc_x : Int) = 79 ∧
      ((gotoxy sample_origin_console 1000 1000).vc_y : Int) = 19) :=
  ⟨⟨by decide, by decide, by decide⟩,
   ⟨(gotoxy_clamp (sample_console 80 25 sample_mem) (-1000) (-1000)
      (by decide) (by decide) (by decide)).1.trans (by decide),
    (gotoxy_clamp (sample_console 80 25 sample_mem) (-1000) (-1000)
      (by decide) (by decide) (by decide)).2.1.trans (by decide),
    (gotoxy_clamp (sample_console 80 25 sample_mem) (-1000) (-1000)
      (by decide) (by decide) (by decide)).2.2.2⟩,
   ⟨(gotoxy_clamp sample_origin_console (-1000) (-1000)
      (by decide) (by decide) (by decide)).1.trans (by decide),
    (gotoxy_clamp sample_origin_console (-1000) (-1000)
      (by decide) (by decide) (by decide)).2.1.trans (by decide),
    (gotoxy_clamp sample_origin_console 1000 1000
      (by decide) (by decide) (by decide)).1.trans (by decide),
    (gotoxy_clamp sample_origin_console 1000 1000
      (by decide) (by decide) (by decide)).2.1.trans (by decide)⟩⟩

/-- C2 (counterexample): on an 80x25 console in the normal state with
auto-wrap switched off, cursor at `(79, 0)` and `need_wrap` clear, writing the
printable character `A` stores the cell 0x0741 at the cursor position and
leaves the cursor in column 79, but `need_wrap` stays clear. -/
theorem write_at_last_column_autowrap_off :
    sample_nowrap_console.vc_state = 0 ∧
    sample_nowrap_console.vc_x = sample_nowrap_console.vc_cols - 1 ∧
    sample_nowrap_console.vc_need_wrap = false ∧
    (do_con_write sample_env sample_nowrap_console [65]).1 = 1 ∧
    (do_con_write sample_env sample_nowrap_console [65]).2.vc_x = 79 ∧
    cell (do_con_write sample_env sample_nowrap_console [65]).2 0 79 = 0x0741 ∧
    (do_con_write sample_env sample_nowrap_console [65]).2.vc_need_wrap = false := by
  decide

/-- C2 (witness): on an 80x25 console with auto-wrap on, cursor at `(79, 0)`,
the character `A` is stored as 0x0741 at the cursor position, the cursor stays
in column 79 and `need_wrap` is set. -/
theorem write_at_last_column_witness :
    (sample_lastcol_console.vc_state = 0 ∧
      displayable sample_lastcol_console 65 65 = true ∧
      conversion_failed (resolve_glyph sample_env 65 65)
        (initial_locals sample_lastcol_console).charmask = false ∧
      sample_lastcol_console.vc_x = sample_lastcol_console.vc_cols - 1 ∧
      sample_lastcol_console.vc_need_wrap = false) ∧
    (do_con_write_byte sample_env sample_lastcol_console
      (initial_locals sample_lastcol_console) 65).1.vc_x = 79 ∧
    (do_con_write_byte sample_env sample_lastcol_console
      (initial_locals sample_lastcol_console) 65).1.vc_need_wrap = true ∧
    scr_readw (do_con_write_byte sample_env sample_lastcol_console
      (initial_locals sample_lastcol_console) 65).1.mem (4096 + 2 * 79) = 0x0741 :=
  ⟨⟨by decide, by decide, by decide, by decide, by decide⟩,
   (write_at_last_column sample_env sample_lastcol_console
      (initial_locals sample_lastcol_console) 65
      (by decide) (by decide) (by decide) (by decide) (by decide)).1,
   (write_at_last_column sample_env sample_lastcol_console
      (initial_locals sample_lastcol_console) 65
      (by decide) (by decide) (by decide) (by decide) (by decide)).2.2.2.1,
   (write_at_last_column sample_env sample_lastcol_console
      (initial_locals sample_lastcol_console) 65
      (by decide) (by decide) (by decide) (by decide) (by decide)).2.2.2.2.trans (by decide)⟩

/-- C3 (witness): on an 80x25 console with the wrap pending at `(79, 0)`, the
character `A` goes to column 0 of row 1 as 0x0741, the cursor ends at
`(1, 1)` with `need_wrap` clear, and the cell at `(79, 0)` keeps its value. -/
theorem write_after_deferred_wrap_witness :
    (sample_wrap_console.vc_need_wrap = true ∧
      sample_wrap_console.vc_x = sample_wrap_console.vc_cols - 1 ∧
      sample_wrap_console.vc_y + 1 < sample_wrap_console.vc_bottom) ∧
    (do_con_write_byte sample_env sample_wrap_console
      (initial_locals sample_wrap_console) 65).1.vc_x = 1 ∧
    (do_con_write_byte sample_env sample_wrap_console
      (initial_locals sample_wrap_console) 65).1.vc_y = 1 ∧
    (do_con_write_byte sample_env sample_wrap_console
      (initial_locals sample_wrap_console) 65).1.vc_need_wrap = false ∧
    cell (do_con_write_byte sample_env sample_wrap_console
      (initial_locals sample_wrap_console) 65).1 1 0 = 0x0741 ∧
    cell (do_con_write_byte sample_env sample_wrap_console
      (initial_locals sample_wrap_console) 65).1 0 79 = cell sample_wrap_console 0 79 :=
  ⟨⟨by decide, by decide, by decide⟩,
   (write_after_deferred_wrap sample_env sample_wrap_console
      (initial_locals sample_wrap_console) 65
      (by decide) (by decide) (by decide) (by decide) (by decide) (by decide) (by decide)
      (by decide) (by decide) (by decide) (by decide)).2.1,
   (write_after_deferred_wrap sample_env sample_wrap_console
      (initial_locals sample_wrap_console) 65
      (by decide) (by decide) (by decide) (by decide) (by decide) (by decide) (by decide)
      (by decide) (by decide) (by decide) (by decide)).2.2.1,
   (write_after_deferred_wrap sample_env sample_wrap_console
      (initial_locals sample_wrap_console) 65
      (by decide) (by decide) (by decide) (by decide) (by decide) (by decide) (by decide)
      (by decide) (by decide) (by decide) (by decide)).2.2.2.1,
   (write_after_deferred_wrap sample_env sample_wrap_console
      (initial_locals sample_wrap_console) 65
      (by decide) (by decide) (by decide) (by decide) (by decide) (by decide) (by decide)
      (by decide) (by decide) (by decide) (by decide)).2.2.2.2.2.1.trans (by decide),
   (write_after_deferred_wrap sample_env sample_wrap_console
      (initial_locals sample_wrap_console) 65
      (by decide) (by decide) (by decide) (by decide) (by decide) (by decide) (by decide)
      (by decide) (by decide) (by decide) (by decide)).2.2.2.2.2.2.2⟩

/-- C4 (witness): `scroll_region_up(vc, 0, 25, 3)` on an 80x25 console that is
not visible moves rows 3-24 to rows 0-21 and fills rows 22-24 with the erase
character. -/
theorem scroll_region_up_software_witness :
    ((sample_console 80 25 sample_mem).vc_size_row = 2 * (sample_console 80 25 sample_mem).vc_cols ∧
      (sample_console 80 25 sample_mem).vc_rows = 25 ∧
      (sample_console 80 25 sample_mem).is_visible = false ∧
      ((3 : Nat) : Int) = min (3 : Int) (((25 : Nat) : Int) - ((0 : Nat) : Int) - 1)) ∧
    (∀ i j, i < 22 → j < 80 →
      cell (scroll_region_up sample_env (sample_console 80 25 sample_mem) 0 25 3) i j
        = cell (sample_console 80 25 sample_mem) (3 + i) j) ∧
    (∀ r j, 22 ≤ r → r < 25 → j < 80 →
      cell (scroll_region_up sample_env (sample_console 80 25 sample_mem) 0 25 3) r j
        = 0x0720) := by
  have h := scroll_region_up_software sample_env (sample_console 80 25 sample_mem) 0 25 3 3
    rfl (by decide) (by decide) (by decide) (by decide) (by decide) (by decide) (by decide)
    (by decide) (Or.inl rfl)
  refine ⟨⟨rfl, rfl, rfl, by decide⟩, fun i j hi hj => ?_, fun r j h1 h2 hj => ?_⟩
  · have e := h.1 i j hi hj
    rw [Nat.zero_add, Nat.zero_add] at e
    exact e
  · exact h.2.1 r j h1 h2 hj

/-- C6 (witness): `scroll_region_up(vc, 0, 25, 3)` followed by
`scroll_region_down(vc, 0, 25, 3)` on an 80x25 console that is not visible
leaves rows 3-24 as they were and rows 0-2 filled with the erase character;
the cell at `(0, 0)`, which held 0x0700, is not restored. -/
theorem scroll_up_then_down_witness :
    ((sample_console 80 25 sample_mem).vc_size_row = 2 * (sample_console 80 25 sample_mem).vc_cols ∧
      (sample_console 80 25 sample_mem).vc_rows = 25 ∧
      (sample_console 80 25 sample_mem).is_visible = false) ∧
    (∀ r j, 3 ≤ r → r < 25 → j < 80 →
      cell (scroll_region_down sample_env
        (scroll_region_up sample_env (sample_console 80 25 sample_mem) 0 25 3) 0 25 3) r j
        = cell (sample_console 80 25 sample_mem) r j) ∧
    (∀ r j, r < 3 → j < 80 →
      cell (scroll_region_down sample_env
        (scroll_region_up sample_env (sample_console 80 25 sample_mem) 0 25 3) 0 25 3) r j
        = 0x0720) ∧
    cell (sample_console 80 25 sample_mem) 0 0 = 0x0700 ∧
    cell (scroll_region_down sample_env
        (scroll_region_up sample_env (sample_console 80 25 sample_mem) 0 25 3) 0 25 3) 0 0
      ≠ cell (sample_console 80 25 sample_mem) 0 0 := by
  have h := scroll_up_then_down sample_env (sample_console 80 25 sample_mem) 0 25 3
    rfl (by decide) (by decide) (by decide) (by decide) (by decide) (Or.inl rfl)
  exact ⟨⟨rfl, rfl, rfl⟩, fun r j h1 h2 hj => h.1 r j h1 h2 hj,
    fun r j h1 hj => h.2.1 r j (Nat.zero_le r) h1 hj, by decide,
    h.2.2.2 0 0 (by decide) (by decide) (by decide) (by decide)⟩

/-- C8 (witness): the truncated sequence E2 82 followed by `A` on an 80x25
console in UTF-8 mode: the two bytes store no glyph, the three bytes store
exactly one, all three bytes are consumed and no continuation byte is
pending. -/
theorem old_utf8_unfinished_then_ascii_witness :
    (sample_utf_console.vc_utf = true ∧ sample_utf_console.vc_state = 0 ∧
      utf8_unfinished 0 [0xE2, 0x82] = true) ∧
    glyph_writes (Old.do_con_write sample_env sample_utf_console [0xE2, 0x82]).2.trace
      = glyph_writes sample_utf_console.trace ∧
    glyph_writes (Old.do_con_write sample_env sample_utf_console ([0xE2, 0x82] ++ [65])).2.trace
      = glyph_writes sample_utf_console.trace + 1 ∧
    (Old.do_con_write sample_env sample_utf_console ([0xE2, 0x82] ++ [65])).1 = 3 ∧
    (Old.do_con_write sample_env sample_utf_console ([0xE2, 0x82] ++ [65])).2.vc_utf_count = 0 := by
  have h := old_utf8_unfinished_then_ascii sample_env sample_utf_console [0xE2, 0x82] 65
    (by decide) (by decide) (by decide) (by decide) (by decide) (by decide) (by decide)
    (by decide)
  exact ⟨⟨by decide, by decide, by decide⟩, h.2.1, h.2.2.2.1, h.2.2.2.2.2.1, h.2.2.2.2.2.2⟩

/-- C9 (witness): writing `Hi` on a visible 80x25 console with the cursor at
the top left corner consumes both bytes, issues one `con_putcs` call and
leaves the cells 0x0748 and 0x0769 at the first two positions. -/
theorem ascii_string_one_putcs_witness :
    (sample_visible_console.is_visible = true ∧ sample_visible_console.vc_x = 0 ∧
      sample_env.sw.con_putcs = true ∧ [72, 105].length < sample_visible_console.vc_cols) ∧
    (do_con_write sample_env sample_visible_console [72, 105]).1 = 2 ∧
    putcs_calls (do_con_write sample_env sample_visible_console [72, 105]).2.trace
      = putcs_calls sample_visible_console.trace + 1 ∧
    scr_readw (do_con_write sample_env sample_visible_console [72, 105]).2.mem (4096 + 2 * 0)
      = 0x0748 ∧
    scr_readw (do_con_write sample_env sample_visible_console [72, 105]).2.mem (4096 + 2 * 1)
      = 0x0769 := by
  have h := ascii_string_one_putcs sample_env sample_visible_console [72, 105]
    (by decide) (by decide) (by decide) (by decide) (by decide) (by decide) (by decide)
    (fun c _ h2 => by
      show (if c < 256 then (c : Int) else -4) = (c : Int)
      rw [if_pos (by omega)])
    (by decide) (by decide) (by decide)
  exact ⟨⟨by decide, by decide, by decide, by decide⟩, h.1, h.2.2.1,
    (h.2.2.2.1 0 72 rfl).trans (by decide), (h.2.2.2.1 1 105 rfl).trans (by decide)⟩

/-- C10 (counterexample): a visible 2x2 console with a software cursor (cursor
type 0x4010, no cell saved), origin at the start of its buffer and cursor at
the top left corner, is resized to 3 columns and 2 rows.  The call returns 0
with the new buffer at 65536, but the new cell at row 0, column 0 is 0x4700
whereas the old cell at row 0, column 0 was 0x0700: the redraw that ends
`vc_resize` has drawn the software cursor into the new buffer. -/
theorem vc_resize_softcursor_cell :
    sample_softcursor_console.vc_origin = sample_softcursor_console.vc_screenbuf ∧
    sample_softcursor_console.vc_cols = 2 ∧ sample_softcursor_console.vc_rows = 2 ∧
    cell sample_softcursor_console 0 0 = 0x0700 ∧
    (vc_resize sample_env sample_softcursor_console 3 2).map
      (fun r => (r.1, r.2.vc_cols, r.2.vc_rows, r.2.vc_screenbuf, r.2.vc_origin,
        cell r.2 0 0)) = some (0, 3, 2, 65536, 65536, 0x4700) := by
  decide!

/-- C10 (witness): a 2x2 console that is not visible is resized to 3 columns
and 2 rows: the call returns 0, the cell at `(1, 1)` of the new buffer is the
old cell at `(1, 1)` and the cell at `(1, 2)` is the erase character. -/
theorem vc_resize_copies_cells_witness :
    ((sample_console 2 2 sample_mem).vc_size_row = 2 * (sample_console 2 2 sample_mem).vc_cols ∧
      sample_env.kmalloc (2 * 3 * 2) = some 65536 ∧
      (sample_console 2 2 sample_mem).is_visible = false) ∧
    ∃ vc', vc_resize sample_env (sample_console 2 2 sample_mem) 3 2 = some (0, vc') ∧
      vc'.vc_cols = 3 ∧ vc'.vc_rows = 2 ∧
      scr_readw vc'.mem (65536 + 2 * 3 * 1 + 2 * 1) = cell (sample_console 2 2 sample_mem) 1 1 ∧
      scr_readw vc'.mem (65536 + 2 * 3 * 1 + 2 * 2) = vc'.vc_video_erase_char % 65536 := by
  obtain ⟨vc', h0, h1, h2, -, -, -, -, -, -, -, hcell⟩ :=
    vc_resize_copies_cells sample_env (sample_console 2 2 sample_mem) 3 2 3 2 65536
      rfl rfl (by decide) (by decide) (by decide) (by decide) (by decide) rfl rfl
      (by decide) rfl (by decide) (by decide) (Or.inl rfl)
  exact ⟨⟨rfl, rfl, rfl⟩, vc', h0, h1, h2,
    (hcell 1 1 (by decide) (by decide)).trans (if_pos (by decide)),
    (hcell 1 2 (by decide) (by decide)).trans (if_neg (by decide))⟩

/-- C12 (counterexample): a console of 1 column and 2 rows that is not visible,
with the cells 0x0700 and 0x0702, is resized to 1x1 and back to 1x2, both
calls returning 0.  The cell at row 0, column 0, which is within both sizes,
then holds 0x0702, the original value of the cell at row 1: the shrinking step
kept the last row, not the first. -/
theorem vc_resize_round_trip_moves_rows :
    cell (sample_console 1 2 sample_mem) 0 0 = 0x0700 ∧
    cell (sample_console 1 2 sample_mem) 1 0 = 0x0702 ∧
    ((vc_resize sample_alloc_env (sample_console 1 2 sample_mem) 1 1).bind
      (fun r1 => (vc_resize sample_alloc_env r1.2 1 2).map
        (fun r2 => (r1.1, r2.1, r2.2.vc_cols, r2.2.vc_rows, cell r2.2 0 0))))
      = some (0, 0, 1, 2, 0x0702) := by
  decide!

/-- C12 (witness): a console of 2 columns and 3 rows that is not visible.
Resized to 2x2 and back to 2x3, both calls return 0 and the cells of rows 0
and 1 hold the original cells of rows 1 and 2.  Resized to 3x2, which has the
same area, and back to 2x3, with an allocator that hands out another buffer of
that size for the second call, both calls return 0 and row 0 holds the
original row 1.  Resized to 2x3, its own size, and back, it is unchanged. -/
theorem vc_resize_round_trip_witness :
    ((sample_console 2 3 sample_mem).vc_size_row = 2 * (sample_console 2 3 sample_mem).vc_cols ∧
      sample_alloc_env.kmalloc (2 * 2 * 2) = some 98304 ∧
      sample_alloc_env.kmalloc (2 * 2 * 3) = some 114688 ∧
      sample_alloc_env.kmalloc (2 * 3 * 2) = some 114688 ∧
      (sample_console 2 3 sample_mem).is_visible = false) ∧
    (∃ vc1 vc2, vc_resize sample_alloc_env (sample_console 2 3 sample_mem) 2 2 = some (0, vc1) ∧
      vc_resize { sample_alloc_env with kmalloc := sample_alloc_env.kmalloc } vc1 2 3 =
        some (0, vc2) ∧
      cell vc2 0 0 = cell (sample_console 2 3 sample_mem) 1 0 ∧
      cell vc2 1 1 = cell (sample_console 2 3 sample_mem) 2 1) ∧
    (∃ vc1 vc2, vc_resize sample_alloc_env (sample_console 2 3 sample_mem) 3 2 = some (0, vc1) ∧
      vc_resize { sample_alloc_env with kmalloc := fun _ => some 200000 } vc1 2 3 =
        some (0, vc2) ∧
      vc2.vc_cols = 2 ∧ vc2.vc_rows = 3 ∧
      cell vc2 0 0 = cell (sample_console 2 3 sample_mem) 1 0 ∧
      cell vc2 1 1 = cell (sample_console 2 3 sample_mem) 2 1) ∧
    (∃ vc1 vc2, vc_resize sample_alloc_env (sample_console 2 3 sample_mem) 2 3 = some (0, vc1) ∧
      vc_resize { sample_alloc_env with kmalloc := fun _ => none } vc1 2 3 = some (0, vc2) ∧
      vc1 = sample_console 2 3 sample_mem ∧ vc2 = sample_console 2 3 sample_mem) := by
  have hdrv : ∀ (v : vc_data) (w h : Nat), (resize_screen sample_alloc_env v w h).1 = 0 := by
    intro v w h
    unfold resize_screen
    split_ifs <;> rfl
  obtain ⟨vc1, vc2, h1, h2, -, -, hcell, -, -⟩ :=
    vc_resize_round_trip sample_alloc_env sample_alloc_env.kmalloc (sample_console 2 3 sample_mem)
      2 2 rfl rfl (by decide) (by decide) (by decide) (by decide) (by decide) (by decide)
      (by decide) (by decide)
      (Or.inr ⟨98304, 114688, rfl, rfl, by decide, by decide⟩) hdrv (Or.inl rfl)
  obtain ⟨wc1, wc2, g1, g2, g3, g4, gcell, -, -⟩ :=
    vc_resize_round_trip sample_alloc_env (fun _ => some 200000) (sample_console 2 3 sample_mem)
      3 2 rfl rfl (by decide) (by decide) (by decide) (by decide) (by decide) (by decide)
      (by decide) (by decide)
      (Or.inr ⟨114688, 200000, rfl, rfl, by decide, by decide⟩) hdrv (Or.inl rfl)
  obtain ⟨uc1, uc2, f1, f2, -, -, -, -, fsame⟩ :=
    vc_resize_round_trip sample_alloc_env (fun _ => none) (sample_console 2 3 sample_mem)
      2 3 rfl rfl (by decide) (by decide) (by decide) (by decide) (by decide) (by decide)
      (by decide) (by decide) (Or.inl ⟨rfl, rfl⟩) hdrv (Or.inl rfl)
  exact ⟨⟨rfl, rfl, rfl, rfl, rfl⟩,
    ⟨vc1, vc2, h1, h2, hcell 0 0 (by decide) (by decide), hcell 1 1 (by decide) (by decide)⟩,
    ⟨wc1, wc2, g1, g2, g3, g4, gcell 0 0 (by decide) (by decide),
      gcell 1 1 (by decide) (by decide)⟩,
    ⟨uc1, uc2, f1, f2, (fsame ⟨rfl, rfl⟩).1, (fsame ⟨rfl, rfl⟩).2⟩⟩

/-- C11 (witness): on the visible 80x25 sample console the driver refuses 40
columns: `vc_resize` returns `-EINVAL` (-22) and the state is the one before
the call, with the two `con_resize` calls (new geometry, then old) added to
the trace. -/
theorem vc_resize_error_keeps_state_witness :
    vc_resize sample_refusing_env sample_visible_console 40 25 =
        some (-22, { sample_visible_console with
          trace := [Event.con_resize 40 25, Event.con_resize 80 25] }) ∧
    vc_resize sample_env sample_visible_console 40000 25 =
        some (-22, sample_visible_console) :=
  ⟨(vc_resize_error_keeps_state sample_refusing_env sample_visible_console 40 25).2.2.2
      (by decide) (by decide) (by decide) ⟨65536, rfl⟩ (by decide),
   (vc_resize_error_keeps_state sample_env sample_visible_console 40000 25).2.1
      (Or.inl (by decide))⟩

/-- C13 (witness): on the visible 80x25 sample console, 32768 rows are
rejected with `-EINVAL` (-22), and both `(0, 0)` and `(80, 0)` return 0 with
the state unchanged. -/
theorem vc_resize_dimension_check_witness :
    vc_resize sample_env sample_visible_console 80 32768 =
        some (-22, sample_visible_console) ∧
    vc_resize sample_env sample_visible_console 0 0 = some (0, sample_visible_console) ∧
    vc_resize sample_env sample_visible_console 80 0 = some (0, sample_visible_console) :=
  ⟨(vc_resize_dimension_check sample_env sample_visible_console 80 32768).1
      (Or.inr (by decide)),
   (vc_resize_dimension_check sample_env sample_visible_console 0 0).2.2.1,
   (vc_resize_dimension_check sample_env sample_visible_console 80 0).2.1
      (by decide) (by decide) (Or.inr rfl) (Or.inl rfl)⟩

/-- C16 (witness): on the 80x25 sample console (colour, 256-glyph font, not
visible) the first inversion of 4 cells from the origin turns the cell 0x0700
at the origin into 0x7000, and the second inversion restores 0x0700. -/
theorem invert_twice_restores_witness :
    (invert_screen sample_env (sample_console 80 25 sample_mem) 0 8 false).map
        (fun v => scr_readw v.mem 4096) = some 0x7000 ∧
    ∃ vc1 vc2,
      invert_screen sample_env (sample_console 80 25 sample_mem) 0 8 false = some vc1 ∧
      invert_screen sample_env vc1 0 8 false = some vc2 ∧
      scr_readw vc2.mem 4096 = 0x0700 := by
  have h := invert_twice_restores sample_env ⟨0, 0, 0⟩ (sample_console 80 25 sample_mem) 0 8
    false 4096 4 rfl (Or.inl rfl) (fun f hf => by cases hf)
  obtain ⟨vc1, vc2, h1, h2⟩ := h.2.1 (Or.inl rfl)
  exact ⟨by decide!, vc1, vc2, h1, h2, ((h.1 vc1 h1).2 vc2 h2 4096).trans (by decide)⟩

/-- C14 (witness): on the 80x25 colour sample console (colour byte 7), bold
and blink without underline give 0x8f, the value of the reference. -/
theorem build_attr_refines_reference_witness :
    build_attr sample_env (sample_console 80 25 sample_mem) 7 2 true false false = 0x8f ∧
    build_attr_reference (sample_console 80 25 sample_mem) 2 true false = 0x8f :=
  ⟨((build_attr_refines_reference sample_env (sample_console 80 25 sample_mem) 7 2 true false
      rfl (by decide) (by decide) (by decide) (by decide)).1).trans (by decide), by decide⟩

/-- C15 (counterexample): with the colour byte 0x0f (bright white on black)
the attribute returned with reverse set is 0x78, while the colour byte with
its nibbles exchanged is 0xf0: bit 3 has stayed in the low nibble. -/
theorem build_attr_reverse_keeps_bright_bit :
    build_attr sample_env { sample_console 80 25 sample_mem with vc_color := 0x0f } 0x0f 1
        false false true = 0x78 ∧
    swap_nibbles 0x0f = 0xf0 := by
  decide

/-- C15 (witness): with the colour byte 0x07 of the sample console, whose bits
3 and 7 are both 0, the attribute returned with reverse set is 0x70, the
colour byte with its nibbles exchanged. -/
theorem build_attr_reverse_witness :
    build_attr sample_env (sample_console 80 25 sample_mem) 7 1 false false true = 0x70 ∧
    swap_nibbles 7 = 0x70 :=
  ⟨((build_attr_reverse sample_env (sample_console 80 25 sample_mem) 7 rfl rfl (by decide)
      (by decide)).1).trans (by decide), by decide⟩

/-- C17 (witness): on the sample VT with a switch to console 1, a poke, a
scrollback delta of 3 and a timer expiry all pending, `vt_callback` returns
with console 1 in the foreground and the three flags zero; the trace shows the
switch, then the poke (timer deleted and armed again), then the scrollback.
The poke has cleared the expiry flag, so the screen is not blanked. -/
theorem vt_callback_order_witness :
    (vt_callback sample_venv sample_busy_vt).map
        (fun r => (r.fg_vc, r.fg_console.vt_blanked, r.fg_console.trace)) =
      some (1, false,
        [Event.con_cursor 2, Event.change_console 1 0, Event.del_timer,
         Event.mod_timer 60000, Event.clear_selection, Event.con_scroll 3]) ∧
    ∃ r, vt_callback sample_venv sample_busy_vt = some r ∧
      r.do_poke_blanked_console = false ∧ r.scrollback_delta = 0 ∧
      r.blank_timer_expired = false := by
  obtain ⟨vt1, vt2, vt3, r, -, -, -, -, h, p, s, x, -⟩ :=
    vt_callback_order sample_venv sample_busy_vt 1 rfl rfl (by decide)
      (fun v hv => by
        show 1 ≤ (match v.want_vc with
          | some w => { v with fg_vc := w }
          | none => v).fg_console.vc_cols
        cases v.want_vc <;> exact hv)
      (fun v => by
        refine ⟨[], ?_⟩
        show (match v.want_vc with
          | some w => { v with fg_vc := w }
          | none => v).fg_console.trace = _
        cases v.want_vc <;> exact (List.append_nil _).symm)
  exact ⟨by decide!, r, h, p, s, x⟩

/-- C18 (counterexample): the sample VT is not blanked, its blank timer is
pending for 60000 ticks and its expiry flag is set.  `unblank_vt` returns with
the expiry flag still set and the same timer still pending, without any timer
operation in the trace. -/
theorem unblank_vt_keeps_expiry_flag :
    sample_expired_vt.blank_timer_expired = true ∧ sample_expired_vt.timer = some 60000 ∧
    (unblank_vt sample_venv sample_expired_vt).map
        (fun r => (r.blank_timer_expired, r.timer, r.fg_console.trace)) =
      some (true, some 60000, []) := by
  decide

/-- C18 (witness): on the same VT `poke_blanked_console` returns with the
expiry flag cleared and the timer deleted and then armed for the blank
interval. -/
theorem blank_timer_cancellation_witness :
    (poke_blanked_console sample_venv sample_expired_vt).map
        (fun r => (r.timer, r.fg_console.trace)) =
      some (some 60000, [Event.del_timer, Event.mod_timer 60000]) ∧
    ∃ r, poke_blanked_console sample_venv sample_expired_vt = some r ∧
      r.blank_timer_expired = false := by
  obtain ⟨r, h⟩ := (blank_timer_cancellation sample_venv sample_expired_vt).2.1 (by decide)
  exact ⟨by decide, r, h, ((blank_timer_cancellation sample_venv sample_expired_vt).1 r h).1⟩

/-- C20 (counterexample): the sample VT has the initial values of
`vt_map_display` (`off_interval` 0) and is unblanked in text mode in the state
`blank_normal_wait`.  The first expiry blanks the screen and leaves the state
`blank_off`, not `blank_vesa_wait`, with no timer pending. -/
theorem first_expiry_goes_to_blank_off :
    sample_vt.fg_console.vt_blanked = false ∧ sample_vt.fg_console.vc_mode = KD_TEXT ∧
    sample_vt.blank_state = blank_normal_wait ∧
    (do_blank_screen sample_venv sample_vt 0).fg_console.vt_blanked = true ∧
    (do_blank_screen sample_venv sample_vt 0).blank_state = blank_off ∧
    (do_blank_screen sample_venv sample_vt 0).timer = none ∧
    blank_off ≠ blank_vesa_wait := by
  decide

/-- C20 (witness): with `off_interval` 300 the first expiry on the sample VT
blanks the screen, moves the state to `blank_vesa_wait` and arms the timer for
300 ticks. -/
theorem blank_timer_expiry_steps_witness :
    (do_blank_screen sample_venv { sample_vt with off_interval := 300 } 0).fg_console.vt_blanked
      = true ∧
    (do_blank_screen sample_venv { sample_vt with off_interval := 300 } 0).blank_state =
      blank_vesa_wait ∧
    (do_blank_screen sample_venv { sample_vt with off_interval := 300 } 0).timer = some 300 :=
  ⟨((blank_timer_expiry_steps sample_venv { sample_vt with off_interval := 300 } rfl).1
      rfl rfl).1,
   (((blank_timer_expiry_steps sample_venv { sample_vt with off_interval := 300 } rfl).1
      rfl rfl).2.1).trans (by decide),
   (((blank_timer_expiry_steps sample_venv { sample_vt with off_interval := 300 } rfl).1
      rfl rfl).2.2).trans (by decide)⟩

/-- C21 (counterexample): the byte 65 on the 80x25 sample console, with a
lookup table that maps every code to the glyph index 300 and a 256-glyph font.
The byte passes the displayability test, yet it is not drawn: the call consumes
it, no glyph is stored, no driver call is made and the cell under the cursor is
as before. -/
theorem displayable_byte_outside_font_not_drawn :
    displayable (sample_console 80 25 sample_mem) 65 65 = true ∧
    (do_con_write sample_wide_table_env (sample_console 80 25 sample_mem) [65]).1 = 1 ∧
    (do_con_write sample_wide_table_env (sample_console 80 25 sample_mem) [65]).2.trace = [] ∧
    (do_con_write sample_wide_table_env (sample_console 80 25 sample_mem) [65]).2.vc_x = 0 ∧
    cell (do_con_write sample_wide_table_env (sample_console 80 25 sample_mem) [65]).2 0 0 =
      cell (sample_console 80 25 sample_mem) 0 0 := by
  decide

/-- C21 (witness): on the 80x25 sample console in the normal state the byte 65
passes the test and is drawn, one glyph store; the byte 27 fails it and goes to
`terminal_emulation`. -/
theorem displayability_test_witness :
    glyph_writes (write_code sample_env (sample_console 80 25 sample_mem)
      (initial_locals (sample_console 80 25 sample_mem)) 65 65).1.trace = 0 + 1 ∧
    write_code sample_tracing_env (sample_console 80 25 sample_mem)
      (initial_locals (sample_console 80 25 sample_mem)) 27 27 =
      (sample_tracing_env.terminal_emulation
        (FLUSH sample_tracing_env (sample_console 80 25 sample_mem)
          (initial_locals (sample_console 80 25 sample_mem))).1 27,
       (FLUSH sample_tracing_env (sample_console 80 25 sample_mem)
          (initial_locals (sample_console 80 25 sample_mem))).2) :=
  ⟨((displayability_test sample_env (sample_console 80 25 sample_mem)
      (initial_locals (sample_console 80 25 sample_mem)) 65 65).2.1
      rfl (by decide) (by decide)).2,
   (displayability_test sample_tracing_env (sample_console 80 25 sample_mem)
      (initial_locals (sample_console 80 25 sample_mem)) 27 27).2.2.2.1
      (Or.inr (by decide))⟩

/-- C23 (witness): on the 80x25 sample console the code 0x20ac is not in the
sample table and neither is U+FFFD, so the raw byte 65 is the glyph index; with
the table that maps every code to 300 the index is outside the 256-glyph font
and the character is skipped. -/
theorem glyph_resolution_witness :
    ((sample_console 80 25 sample_mem).vc_state = 0 ∧
      displayable (sample_console 80 25 sample_mem) 65 0x20ac = true) ∧
    resolve_glyph sample_env 65 0x20ac = 65 ∧
    write_code sample_wide_table_env (sample_console 80 25 sample_mem)
      (initial_locals (sample_console 80 25 sample_mem)) 65 0x20ac =
      (sample_console 80 25 sample_mem, initial_locals (sample_console 80 25 sample_mem)) :=
  ⟨⟨rfl, by decide⟩,
   (glyph_resolution sample_env (sample_console 80 25 sample_mem)
      (initial_locals (sample_console 80 25 sample_mem)) 65 0x20ac rfl (by decide)).2.2.1
      (by decide) (by decide),
   (glyph_resolution sample_wide_table_env (sample_console 80 25 sample_mem)
      (initial_locals (sample_console 80 25 sample_mem)) 65 0x20ac rfl (by decide)).2.2.2.2.2.2.1
      (by decide)⟩

/-- C30 (witness): the byte 27 (ESC) is rejected in both modes, the byte 7 (BEL) is
accepted with display-control mode on only, and the byte 65 in both. -/
theorem disp_ctrl_monotone_witness :
    displayable { sample_console 80 25 sample_mem with vc_disp_ctrl := true } 65 65 = true ∧
    displayable { sample_console 80 25 sample_mem with vc_disp_ctrl := false } 7 7 = false ∧
    displayable { sample_console 80 25 sample_mem with vc_disp_ctrl := true } 7 7 = true ∧
    displayable { sample_console 80 25 sample_mem with vc_disp_ctrl := true } 27 27 = false :=
  ⟨(disp_ctrl_monotone sample_env (sample_console 80 25 sample_mem)
      (initial_locals (sample_console 80 25 sample_mem)) 65 65).2.1 (by decide),
   by decide, by decide, by decide⟩

/-- C27 (witness): on the visible 2x2 sample console with the software cursor
(type 0x4010) the cell under the cursor reads 0x0700 before `add_softcursor`,
0x4700 while the cursor is shown, and 0x0700 again after `hide_softcursor`. -/
theorem softcursor_round_trip_witness :
    (sample_softcursor_console.cursor_original = -1 ∧
      sample_softcursor_console.vc_cursor_type &&& 0x10 ≠ 0) ∧
    scr_readw sample_softcursor_console.mem sample_softcursor_console.vc_pos = 0x0700 ∧
    scr_readw (add_softcursor sample_softcursor_console).mem
      sample_softcursor_console.vc_pos = 0x4700 ∧
    scr_readw (hide_softcursor (add_softcursor sample_softcursor_console)).mem
      sample_softcursor_console.vc_pos =
      scr_readw sample_softcursor_console.mem sample_softcursor_console.vc_pos ∧
    (hide_softcursor (add_softcursor sample_softcursor_console)).cursor_original = -1 :=
  ⟨⟨rfl, by decide⟩, by decide, by decide,
   (softcursor_round_trip sample_softcursor_console rfl (by decide)).2.2.1,
   (softcursor_round_trip sample_softcursor_console rfl (by decide)).2.2.2.2.1⟩

/-- C29 (witness): the three bytes E2 82 AC on the UTF-8 sample console: after
E2 and after E2 82 nothing has been produced and 2, then 1 bytes are expected;
after AC the code handed to the displayability test is 0x20AC. -/
theorem utf8_assembly_witness :
    (sample_utf_console.vc_utf = true ∧ sample_utf_console.tty_stopped = false ∧
      utf8_lead 0xe2 = some (2, 2) ∧ utf8_value 2 [0x82, 0xac] = 0x20ac) ∧
    (Old.do_con_write_loop sample_env sample_utf_console (initial_locals sample_utf_console)
      [0xe2, 0x82]).1.vc_utf_count = 1 ∧
    Old.do_con_write_loop sample_env sample_utf_console (initial_locals sample_utf_console)
      [0xe2, 0x82, 0xac] =
      write_code sample_env
        { sample_utf_console with vc_utf_count := 0, vc_utf_char := utf8_value 2 [0x82, 0xac] }
        { initial_locals sample_utf_console with
          n := (initial_locals sample_utf_console).n + 1 + 2 }
        (utf8_value 2 [0x82, 0xac]) (utf8_value 2 [0x82, 0xac]) :=
  ⟨⟨rfl, rfl, by decide, by decide⟩,
   by decide,
   (utf8_assembly sample_env sample_utf_console (initial_locals sample_utf_console) 0xe2 2 2
      [0x82, 0xac] rfl rfl (by decide) rfl (by decide)).2.2.2⟩

/-- C24 (counterexample): the 80x25 sample console in origin mode with the
scroll region `[5, 20)` satisfies the geometry invariant; `vc_resize` with the
arguments 0, 0 (keep both dimensions) succeeds, returning 0, and the scroll
region is still `[5, 20)`, not `[0, 25)`. -/
theorem vc_resize_same_size_keeps_scroll_region :
    geometry_ok sample_origin_console ∧
    vc_resize sample_env sample_origin_console 0 0 = some (0, sample_origin_console) ∧
    vc_resize sample_env sample_origin_console 80 25 = some (0, sample_origin_console) ∧
    sample_origin_console.vc_top = 5 ∧ sample_origin_console.vc_bottom = 20 ∧
    sample_origin_console.vc_rows = 25 := by
  refine ⟨by decide, ?_, ?_, rfl, rfl, rfl⟩
  · unfold vc_resize
    rw [if_neg (by decide)]
    simp only []
    rw [if_pos (by decide)]
  · unfold vc_resize
    rw [if_neg (by decide)]
    simp only []
    rw [if_pos (by decide)]

/-- C24 (witness): the console of 2 columns and 3 rows satisfies the invariant;
so do the console after `gotoxy` with the arguments -3 and 100, which puts the
cursor at column 0 of the last row, the console after one glyph placement, and
the console that `vc_resize` to 2x2 returns with the value 0, whose scroll
region is `[0, 2)`. -/
theorem geometry_preserved_witness :
    geometry_ok (sample_console 2 3 sample_mem) ∧
    geometry_ok (gotoxy (sample_console 2 3 sample_mem) (-3) 100) ∧
    (gotoxy (sample_console 2 3 sample_mem) (-3) 100).vc_x = 0 ∧
    (gotoxy (sample_console 2 3 sample_mem) (-3) 100).vc_y = 2 ∧
    geometry_ok (put_glyph sample_env (sample_console 2 3 sample_mem)
      (initial_locals (sample_console 2 3 sample_mem)) 65).1 ∧
    ∃ v, vc_resize sample_alloc_env (sample_console 2 3 sample_mem) 2 2 = some (0, v) ∧
      geometry_ok v ∧ v.vc_cols = 2 ∧ v.vc_rows = 2 ∧ v.vc_top = 0 ∧ v.vc_bottom = 2 := by
  have hg : geometry_ok (sample_console 2 3 sample_mem) := by decide
  have hr : (vc_resize sample_alloc_env (sample_console 2 3 sample_mem) 2 2).map Prod.fst =
      some 0 := by decide!
  cases hv : vc_resize sample_alloc_env (sample_console 2 3 sample_mem) 2 2 with
  | none => rw [hv] at hr; exact absurd hr (by simp)
  | some r =>
    rw [hv] at hr
    have h0 : r.1 = 0 := Option.some.inj hr
    have hv2 : vc_resize sample_alloc_env (sample_console 2 3 sample_mem) 2 2 = some (0, r.2) := by
      rw [hv, ← h0]
    obtain ⟨k1, -, -, k4, k5, -, k7⟩ :=
      (geometry_preserved sample_alloc_env (sample_console 2 3 sample_mem) hg).2.2 2 2 r.2
        (by decide) (by decide) hv2
    have hne : ¬ (r.2.vc_cols = (sample_console 2 3 sample_mem).vc_cols ∧
        r.2.vc_rows = (sample_console 2 3 sample_mem).vc_rows) := by
      rw [k5]
      intro hh
      exact absurd hh.2 (by decide)
    obtain ⟨t1, t2⟩ := k7 hne
    exact ⟨hg, (geometry_preserved sample_env (sample_console 2 3 sample_mem) hg).1 (-3) 100,
      by decide, by decide,
      (geometry_preserved sample_env (sample_console 2 3 sample_mem) hg).2.1 _ 65,
      r.2, by rw [← h0], k1, k4, k5, t1, by rw [t2, k5]; try rfl⟩

/-- C25 (witness): the four cells of the 2x2 sample console, all of attribute
0x0700, are handed over in two calls, one per row, each of two cells; the
bound is two rows touched and no attribute change. -/
theorem do_update_region_runs_witness :
    (sample_env.sw.con_getxy = none ∧ 1 ≤ (sample_console 2 2 sample_mem).vc_cols) ∧
    (do_update_region sample_env (sample_console 2 2 sample_mem)
      ((sample_console 2 2 sample_mem).vc_origin + 2 * 0) ((4 : Nat) : Int)).map
      (fun r => r.trace) = some [Event.con_putcs 4096 2 0 0, Event.con_putcs 4100 2 1 0] ∧
    attr_changes (sample_console 2 2 sample_mem) 0 4 = 0 ∧
    rows_touched (sample_console 2 2 sample_mem) 0 4 = 2 ∧
    ∃ calls, do_update_region sample_env (sample_console 2 2 sample_mem)
        ((sample_console 2 2 sample_mem).vc_origin + 2 * 0) ((4 : Nat) : Int) =
        some { sample_console 2 2 sample_mem with
          trace := (sample_console 2 2 sample_mem).trace ++ calls } ∧
      runs_partition (sample_console 2 2 sample_mem)
        ((sample_console 2 2 sample_mem).vc_origin + 2 * 0) 4 calls = true ∧
      calls.length ≤ attr_changes (sample_console 2 2 sample_mem) 0 4 +
        rows_touched (sample_console 2 2 sample_mem) 0 4 :=
  ⟨⟨rfl, by decide⟩, by decide, by decide, by decide,
   do_update_region_runs sample_env (sample_console 2 2 sample_mem) 0 4 rfl (by decide)⟩

/-- C26 (witness): the visible 80x25 sample console with a scrollback of four
rows outside the screen, scrolled by one row over the whole screen.  Both
calls return 1; upwards row 0 holds what row 1 held and the last row holds the
erase character, downwards row 1 holds what row 0 held and row 0 holds the
erase character. -/
theorem fbcon_scroll_redraw_refines_witness :
    (sample_fbcon.vc.vt_blanked = false ∧ sample_fbcon.vc.vc_mode = KD_TEXT ∧
      sample_fbcon.par.softback_lines = 0 ∧ softback_ok sample_fbcon ∧
      sample_fbcon.vc.vc_size_row = 2 * sample_fbcon.vc.vc_cols) ∧
    (fbcon_scroll (fun s _ => s) sample_fbcon ((0 : Nat) : Int) ((25 : Nat) : Int) SM_UP
      ((1 : Nat) : Int)).1 = 1 ∧
    (fbcon_scroll (fun s _ => s) sample_fbcon ((0 : Nat) : Int) ((25 : Nat) : Int) SM_DOWN
      ((1 : Nat) : Int)).1 = 1 ∧
    cell (fbcon_scroll (fun s _ => s) sample_fbcon ((0 : Nat) : Int) ((25 : Nat) : Int) SM_UP
      ((1 : Nat) : Int)).2.vc (0 + 0) 3 = cell sample_fbcon.vc (0 + 1 + 0) 3 ∧
    cell (fbcon_scroll (fun s _ => s) sample_fbcon ((0 : Nat) : Int) ((25 : Nat) : Int) SM_UP
      ((1 : Nat) : Int)).2.vc 24 3 = sample_fbcon.vc.vc_video_erase_char % 65536 ∧
    cell (fbcon_scroll (fun s _ => s) sample_fbcon ((0 : Nat) : Int) ((25 : Nat) : Int) SM_DOWN
      ((1 : Nat) : Int)).2.vc (0 + 1 + 0) 3 = cell sample_fbcon.vc (0 + 0) 3 ∧
    cell (fbcon_scroll (fun s _ => s) sample_fbcon ((0 : Nat) : Int) ((25 : Nat) : Int) SM_DOWN
      ((1 : Nat) : Int)).2.vc 0 3 = sample_fbcon.vc.vc_video_erase_char % 65536 := by
  have hok : softback_ok sample_fbcon :=
    Or.inr (Or.inr ⟨4, 0, by decide, by decide, by decide, Or.inr (by decide)⟩)
  obtain ⟨h1, h2, -, -, -, -, h7, h8, -, h10, h11, -⟩ :=
    fbcon_scroll_redraw_refines (fun s _ => s) sample_fbcon 0 25 1 rfl rfl rfl hok
      (by decide) (by decide) (by decide) (by decide) (by decide) (by decide) (by decide)
  exact ⟨⟨rfl, rfl, rfl, hok, by decide⟩, h1, h2, h7 0 3 (by decide) (by decide),
    h8 24 3 (by decide) (by decide) (by decide), h10 0 3 (by decide) (by decide),
    h11 0 3 (by decide) (by decide) (by decide)⟩

end VT
